import Mathlib

/-!
# Group splitting of ParMmg (`grpsplit_pmmg.c`)

Shallow embedding of `PMMG_howManyGroups`, the four appenders
(`PMMG_xtetraAppend`, `PMMG_xpointAppend`, `PMMG_n2incAppend`,
`PMMG_n2ifcAppend`) and `PMMG_splitGrps`.

Modelling conventions.
* C arrays are total maps `Nat → record`; the capacity fields (`xtmax`,
  `xpmax`, `npmax`, `nemax`, the local `n2inc_max` / `n2ifc_max`) are tracked
  exactly as the source updates them, so a write index can be compared with
  the capacity recorded at that moment.
* Indices and counters are `Nat`; `point[].tmp` and the second communicator
  column are `Int` because the source stores the sentinel `-1` there.
* `assert` is not executed (release build); the debug-only call of
  `PMMG_checkIntComm` is an outcome supplied by the environment.
* Every `PMMG_CALLOC` / `PMMG_REALLOC` / `PMMG_RECALLOC` request is charged to
  the structure named in the macro call (a mesh or the parmesh).  The macros
  are not part of the translated sources: a request succeeds while the
  structure's `grants` counter is positive and consumes one grant.
* Calls into the serial mesh library and into the graph partitioner are
  outcomes supplied by the environment `Env`.
* Fields whose names start with `log` are ghost: they record copy and mint
  events and are never read by the translated code.
-/

set_option linter.unusedTactic false
set_option linter.unreachableTactic false
set_option linter.unnecessarySeqFocus false
set_option linter.unusedVariables false

namespace ParMmg

/-! ## Constants of the serial mesh library -/

/-- Tag bit of a required entity. -/
def MG_REQ : Nat := 4

/-- Tag bit of a boundary entity. -/
def MG_BDY : Nat := 16

/-- Tag bit of an entity that must not be projected on the surface. -/
def MG_NOSURF : Nat := 64

/-- Tag bit of an entity on a parallel interface. -/
def MG_PARBDY : Nat := 8192

/-- The mask `MG_PARBDY + MG_BDY + MG_REQ + MG_NOSURF` or-ed into the tags of a
new interface face. -/
def parbdyMask : Nat := MG_PARBDY + MG_BDY + MG_REQ + MG_NOSURF

/-- Table `_MMG5_idir[4][3]`: local vertices of each face of a tetrahedron. -/
def MMG5_idir (f : Fin 4) (j : Fin 3) : Fin 4 :=
  match f, j with
  | 0, 0 => 1 | 0, 1 => 2 | 0, 2 => 3
  | 1, 0 => 0 | 1, 1 => 3 | 1, 2 => 2
  | 2, 0 => 0 | 2, 1 => 1 | 2, 2 => 3
  | 3, 0 => 0 | 3, 1 => 2 | 3, 2 => 1

/-- Table `_MMG5_iarf[4][3]`: local edges of each face of a tetrahedron. -/
def MMG5_iarf (f : Fin 4) (j : Fin 3) : Fin 6 :=
  match f, j with
  | 0, 0 => 5 | 0, 1 => 4 | 0, 2 => 3
  | 1, 0 => 5 | 1, 1 => 1 | 1, 2 => 2
  | 2, 0 => 4 | 2, 1 => 2 | 2, 2 => 0
  | 3, 0 => 3 | 3, 1 => 0 | 3, 2 => 1

/-! ## Data model -/

/-- Return codes `PMMG_SUCCESS` / `PMMG_FAILURE`. -/
inductive Ret where
  | PMMG_SUCCESS
  | PMMG_FAILURE
deriving DecidableEq, Repr

/-- Vertex record `MMG5_Point`. -/
structure MMG5_Point where
  c : Int × Int × Int := (0, 0, 0)
  n : Int × Int × Int := (0, 0, 0)
  ref : Int := 0
  xp : Nat := 0
  tmp : Int := 0
  flag : Nat := 0
  tag : Nat := 0
deriving DecidableEq, Repr

/-- Element record `MMG5_Tetra`. -/
structure MMG5_Tetra where
  v : Fin 4 → Nat := fun _ => 0
  ref : Int := 0
  base : Int := 0
  mark : Int := 0
  xt : Nat := 0
  flag : Nat := 0
  tag : Nat := 0
  qual : Int := 0

/-- Boundary-element record `MMG5_xTetra`. -/
structure MMG5_xTetra where
  ref : Fin 4 → Int := fun _ => 0
  edg : Fin 6 → Int := fun _ => 0
  ftag : Fin 4 → Nat := fun _ => 0
  tag : Fin 6 → Nat := fun _ => 0
  ori : Nat := 0

/-- Boundary-vertex record `MMG5_xPoint`. -/
structure MMG5_xPoint where
  n1 : Int × Int × Int := (0, 0, 0)
  n2 : Int × Int × Int := (0, 0, 0)
deriving DecidableEq, Repr

/-- Mesh `MMG5_Mesh` (the fields the splitting code touches). -/
structure MMG5_Mesh where
  np : Nat := 0
  npi : Nat := 0
  npnil : Nat := 0
  npmax : Nat := 0
  ne : Nat := 0
  nei : Nat := 0
  nemax : Nat := 0
  xt : Nat := 0
  xtmax : Nat := 0
  xp : Nat := 0
  xpmax : Nat := 0
  memCur : Nat := 0
  info : Nat := 0
  point : Nat → MMG5_Point := fun _ => {}
  tetra : Nat → MMG5_Tetra := fun _ => {}
  xtetra : Nat → MMG5_xTetra := fun _ => {}
  xpoint : Nat → MMG5_xPoint := fun _ => {}
  adja : Nat → Nat := fun _ => 0
  /-- Number of further allocation requests charged to this mesh that succeed. -/
  grants : Nat := 0

/-- Per-vertex field `MMG5_Sol`; `hasM` is `m != NULL`. -/
structure MMG5_Sol where
  np : Nat := 0
  npi : Nat := 0
  npmax : Nat := 0
  size : Nat := 0
  type : Nat := 0
  hasM : Bool := false
  m : Nat → Int := fun _ => 0

/-- Group `PMMG_Grp`.  `node_alloc` and `face_alloc` are the allocated lengths
of the two node (face) index arrays, which the source keeps in local
variables only. -/
structure PMMG_Grp where
  mesh : MMG5_Mesh := {}
  met : MMG5_Sol := {}
  nitem_int_node_comm : Nat := 0
  node2int_node_comm_index1 : Nat → Nat := fun _ => 0
  node2int_node_comm_index2 : Nat → Int := fun _ => 0
  nitem_int_face_comm : Nat := 0
  node2int_face_comm_index1 : Nat → Nat := fun _ => 0
  node2int_face_comm_index2 : Nat → Int := fun _ => 0
  node_alloc : Nat := 0
  face_alloc : Nat := 0

/-- The parmesh `PMMG_ParMesh`; `int_node_comm_nitem` is
`parmesh->int_node_comm->nitem`, the global interface-slot counter. -/
structure PMMG_ParMesh where
  ngrp : Nat := 1
  listgrp : List PMMG_Grp := []
  memCur : Nat := 0
  memGloMax : Nat := 0
  memMax : Nat := 0
  int_node_comm_nitem : Nat := 0
  /-- Number of further allocation requests charged to the parmesh that succeed. -/
  grants : Nat := 0

/-! ## `PMMG_howManyGroups` -/

/-- Needed number of groups (C `int` division truncates towards zero). -/
def PMMG_howManyGroups (nelem target_mesh_size : Int) : Int :=
  let ngrp := Int.tdiv nelem target_mesh_size
  if ngrp = 0 then 1
  else if ngrp * target_mesh_size < nelem then ngrp + 1
  else ngrp

/-! ## Appenders -/

/-- Array store `a[k] = x`. -/
def upd {ι α : Type} [DecidableEq ι] (a : ι → α) (k : ι) (x : α) : ι → α :=
  fun i => if i = k then x else a i

/-- `PMMG_xtetraAppend`: `none` is `PMMG_FAILURE`. -/
def PMMG_xtetraAppend (mTo mFrom : MMG5_Mesh) (location : Nat) : Option MMG5_Mesh :=
  let grown : Option MMG5_Mesh :=
    if mTo.xt + 1 ≥ mTo.xtmax then
      if mTo.grants = 0 then none
      else some { mTo with grants := mTo.grants - 1, xtmax := 2 * mTo.xtmax }
    else some mTo
  grown.map fun t =>
    { t with
      xt := t.xt + 1
      xtetra := upd t.xtetra (t.xt + 1) (mFrom.xtetra (mFrom.tetra location).xt) }

/-- `PMMG_xpointAppend`: `none` is `PMMG_FAILURE`. -/
def PMMG_xpointAppend (mTo mFrom : MMG5_Mesh) (tetrahedron : Nat) (point : Fin 4) :
    Option MMG5_Mesh :=
  let grown : Option MMG5_Mesh :=
    if mTo.xp + 1 ≥ mTo.xpmax + 1 then
      if mTo.grants = 0 then none
      else some { mTo with grants := mTo.grants - 1, xpmax := 2 * mTo.xpmax }
    else some mTo
  grown.map fun t =>
    { t with
      xp := t.xp + 1
      xpoint := upd t.xpoint (t.xp + 1)
        (mFrom.xpoint (mFrom.point ((mFrom.tetra tetrahedron).v point)).xp) }

/-- `PMMG_n2incAppend` on the parmesh allocation budget, the group and the
capacity variable `*max`; `none` is `PMMG_FAILURE`.  Growth issues two
`PMMG_RECALLOC` requests. -/
def PMMG_n2incAppend (grants : Nat) (grp : PMMG_Grp) (max : Nat) (idx1 : Nat) (idx2 : Int) :
    Option (Nat × PMMG_Grp × Nat) :=
  let grown : Option (Nat × PMMG_Grp × Nat) :=
    if grp.nitem_int_node_comm + 1 ≥ max then
      if grants < 2 then none
      else some (grants - 2, { grp with node_alloc := 2 * max }, max * 2)
    else some (grants, grp, max)
  grown.map fun r =>
    (r.1,
     { r.2.1 with
       node2int_node_comm_index1 :=
         upd r.2.1.node2int_node_comm_index1 r.2.1.nitem_int_node_comm idx1
       node2int_node_comm_index2 :=
         upd r.2.1.node2int_node_comm_index2 r.2.1.nitem_int_node_comm idx2
       nitem_int_node_comm := r.2.1.nitem_int_node_comm + 1 },
     r.2.2)

/-- `PMMG_n2ifcAppend` on the parmesh allocation budget, the group and the
capacity variable `*max`; `none` is `PMMG_FAILURE`. -/
def PMMG_n2ifcAppend (grants : Nat) (grp : PMMG_Grp) (max : Nat) (idx1 : Nat) (idx2 : Int) :
    Option (Nat × PMMG_Grp × Nat) :=
  let grown : Option (Nat × PMMG_Grp × Nat) :=
    if grp.nitem_int_face_comm + 1 ≥ max then
      if grants < 2 then none
      else some (grants - 2, { grp with face_alloc := 2 * max }, max * 2)
    else some (grants, grp, max)
  grown.map fun r =>
    (r.1,
     { r.2.1 with
       node2int_face_comm_index1 :=
         upd r.2.1.node2int_face_comm_index1 r.2.1.nitem_int_face_comm idx1
       node2int_face_comm_index2 :=
         upd r.2.1.node2int_face_comm_index2 r.2.1.nitem_int_face_comm idx2
       nitem_int_face_comm := r.2.1.nitem_int_face_comm + 1 },
     r.2.2)

/-! ## `PMMG_splitGrps`: state of the traversal -/

/-- The variables of `PMMG_splitGrps` that the traversal of one sub-group
reads and writes: the source mesh `meshOld` (whose scratch fields `tmp` and
`flag` are written), the group under construction `grpCur`, the capacity
variables, the two counters, the global slot counter
`parmesh->int_node_comm->nitem`, the parmesh allocation budget, and the ghost
event logs. -/
structure Work where
  meshOld : MMG5_Mesh := {}
  grpCur : PMMG_Grp := {}
  n2inc_max : Nat := 0
  n2ifc_max : Nat := 0
  tetPerGrp : Nat := 0
  poiPerGrp : Nat := 0
  int_node_comm_nitem : Nat := 0
  grants : Nat := 0
  /-- Ghost: `(tet, tetPerGrp)` for every `memcpy` of a source element. -/
  logTet : List (Nat × Nat) := []
  /-- Ghost: `(source vertex, poiPerGrp)` for every `memcpy` of a source vertex. -/
  logPt : List (Nat × Nat) := []
  /-- Ghost: `(source vertex, slot)` for every freshly minted slot. -/
  logMint : List (Nat × Int) := []

/-- What is fixed during the traversal of one sub-group: the partition array
`part`, the sub-group id `grpId` and the source field `grpOld->met`. -/
structure Ctx where
  part : List Nat
  grpId : Nat
  metOld : MMG5_Sol

/-- Read `part[i]`. -/
def Ctx.partAt (c : Ctx) (i : Nat) : Nat := c.part.getD i 0

/-- Sequential composition of fallible steps: the first `goto fail_sgrp`
(an `error` carrying the state reached) ends the run. -/
def andThen (x : Except Work Work) (f : Work → Except Work Work) : Except Work Work :=
  match x with
  | .error e => .error e
  | .ok w => f w

/-- Run the loop body `f` for the successive values of the loop variable. -/
def forEach {α : Type} (f : α → Work → Except Work Work) : List α → Work → Except Work Work
  | [], w => .ok w
  | a :: as, w => andThen (f a w) (forEach f as)

/-- The record `*tetraCur`, that is `meshCur->tetra[tetPerGrp]`. -/
def Work.tetraCur (w : Work) : MMG5_Tetra := w.grpCur.mesh.tetra w.tetPerGrp

/-- Store into `meshCur`. -/
def Work.setMeshCur (w : Work) (m : MMG5_Mesh) : Work :=
  { w with grpCur := { w.grpCur with mesh := m } }

/-- Store into `*tetraCur`. -/
def Work.setTetraCur (w : Work) (t : MMG5_Tetra) : Work :=
  w.setMeshCur { w.grpCur.mesh with tetra := upd w.grpCur.mesh.tetra w.tetPerGrp t }

/-- The call `PMMG_n2incAppend( parmesh, grpCur, &n2inc_max, idx1, idx2 )`
followed by `goto fail_sgrp` when it fails. -/
def Work.n2incAppend (w : Work) (idx1 : Nat) (idx2 : Int) : Except Work Work :=
  match PMMG_n2incAppend w.grants w.grpCur w.n2inc_max idx1 idx2 with
  | none => .error w
  | some r => .ok { w with grants := r.1, grpCur := r.2.1, n2inc_max := r.2.2 }

/-- The call `PMMG_n2ifcAppend( parmesh, grpCur, &n2ifc_max, idx1, idx2 )`
followed by `goto fail_sgrp` when it fails. -/
def Work.n2ifcAppend (w : Work) (idx1 : Nat) (idx2 : Int) : Except Work Work :=
  match PMMG_n2ifcAppend w.grants w.grpCur w.n2ifc_max idx1 idx2 with
  | none => .error w
  | some r => .ok { w with grants := r.1, grpCur := r.2.1, n2ifc_max := r.2.2 }

/-- The call `PMMG_xtetraAppend( meshCur, meshOld, tet )` (with
`goto fail_sgrp` when it fails) followed by `tetraCur->xt = meshCur->xt`. -/
def Work.xtetraAppend (w : Work) (tet : Nat) : Except Work Work :=
  match PMMG_xtetraAppend w.grpCur.mesh w.meshOld tet with
  | none => .error w
  | some m =>
    let w1 := w.setMeshCur m
    .ok (w1.setTetraCur { w1.tetraCur with xt := w1.grpCur.mesh.xt })

/-- The call `PMMG_xpointAppend( meshCur, meshOld, tet, poi )` (with
`goto fail_sgrp` when it fails) followed by
`meshCur->point[poiPerGrp].xp = meshCur->xp`. -/
def Work.xpointAppend (w : Work) (tet : Nat) (poi : Fin 4) : Except Work Work :=
  match PMMG_xpointAppend w.grpCur.mesh w.meshOld tet poi with
  | none => .error w
  | some m =>
    let w1 := w.setMeshCur m
    .ok (w1.setMeshCur { w1.grpCur.mesh with
      point := upd w1.grpCur.mesh.point w1.poiPerGrp
        { w1.grpCur.mesh.point w1.poiPerGrp with xp := w1.grpCur.mesh.xp } })

/-- Lines 366-375: count the element, remember its local id in
`meshOld->tetra[tet].flag` and copy it. -/
def copyTetraRec (tet : Nat) (w : Work) : Work :=
  let w1 : Work := { w with tetPerGrp := w.tetPerGrp + 1 }
  let w2 : Work := { w1 with
    meshOld := { w1.meshOld with
      tetra := upd w1.meshOld.tetra tet { w1.meshOld.tetra tet with flag := w1.tetPerGrp } } }
  let w3 : Work :=
    (w2.setTetraCur { w2.meshOld.tetra tet with base := 0, mark := 0, flag := 0 })
  { w3 with logTet := w3.logTet ++ [(tet, w3.tetPerGrp)] }

/-- Lines 366-384: copy the element, and its boundary record if it has one. -/
def copyTetra (tet : Nat) (w : Work) : Except Work Work :=
  let w4 := copyTetraRec tet w
  if w4.tetraCur.xt ≠ 0 then w4.xtetraAppend tet else .ok w4

/-- The `memcpy` of one field value of `size` components from position
`src` of `mOld` to position `dst` of `m`. -/
def copySol (m mOld : Nat → Int) (size dst src : Nat) : Nat → Int :=
  fun i => if dst * size ≤ i ∧ i < dst * size + size then mOld (src * size + (i - dst * size))
           else m i

/-- Lines 394-411: first time the vertex is seen in this sub-group: copy the
vertex and its field value, update the vertex reference of the element and
remember the local id in `meshOld->point[].flag`. -/
def addPointRec (c : Ctx) (tet : Nat) (poi : Fin 4) (w : Work) : Work :=
  let ip := (w.meshOld.tetra tet).v poi
  let w1 : Work := { w with poiPerGrp := w.poiPerGrp + 1 }
  let w2 : Work := w1.setMeshCur { w1.grpCur.mesh with
    point := upd w1.grpCur.mesh.point w1.poiPerGrp (w1.meshOld.point ip) }
  let w3 : Work :=
    if w2.grpCur.met.hasM then
      { w2 with grpCur := { w2.grpCur with met := { w2.grpCur.met with
          m := copySol w2.grpCur.met.m c.metOld.m w2.grpCur.met.size w2.poiPerGrp ip } } }
    else w2
  let w4 : Work := w3.setTetraCur { w3.tetraCur with v := upd w3.tetraCur.v poi w3.poiPerGrp }
  { w4 with
    meshOld := { w4.meshOld with
      point := upd w4.meshOld.point ip { w4.meshOld.point ip with flag := w4.poiPerGrp } }
    logPt := w4.logPt ++ [(ip, w4.poiPerGrp)] }

/-- Lines 413-422: enter the new vertex in the node communicator when it
carries a slot. -/
def addPointComm (w : Work) : Except Work Work :=
  if (w.grpCur.mesh.point w.poiPerGrp).tmp ≠ -1 then
    w.n2incAppend w.poiPerGrp (w.grpCur.mesh.point w.poiPerGrp).tmp
  else .ok w

/-- Lines 423-430: copy the boundary record of the new vertex when it has
one. -/
def addPointXp (tet : Nat) (poi : Fin 4) (w : Work) : Except Work Work :=
  if (w.grpCur.mesh.point w.poiPerGrp).xp ≠ 0 then w.xpointAppend tet poi else .ok w

/-- Lines 391-437, one iteration of the loop over the four vertices. -/
def addPoint (c : Ctx) (tet : Nat) (poi : Fin 4) (w : Work) : Except Work Work :=
  let ip := (w.meshOld.tetra tet).v poi
  if (w.meshOld.point ip).flag = 0 then
    andThen (addPointComm (addPointRec c tet poi w)) (addPointXp tet poi)
  else
    .ok (w.setTetraCur { w.tetraCur with v := upd w.tetraCur.v poi (w.meshOld.point ip).flag })

/-- Position of `adja[fac]` of the element with id `k` in an adjacency table. -/
def adjaIdx (k : Nat) (fac : Fin 4) : Nat := 4 * (k - 1) + 1 + fac.val

/-- Lines 480-485, one iteration: or the mask into an edge tag of the record
`*pxt` and into the tag of a vertex of the face. -/
def tagFaceItem (fac : Fin 4) (j : Fin 3) (w : Work) : Except Work Work :=
  let m := w.grpCur.mesh
  let xt := w.tetraCur.xt
  let pxt := m.xtetra xt
  let m1 : MMG5_Mesh := { m with
    xtetra := upd m.xtetra xt { pxt with
      tag := upd pxt.tag (MMG5_iarf fac j) (pxt.tag (MMG5_iarf fac j) ||| parbdyMask) } }
  let ip := w.tetraCur.v (MMG5_idir fac j)
  .ok (w.setMeshCur { m1 with
    point := upd m1.point ip { m1.point ip with tag := (m1.point ip).tag ||| parbdyMask } })

/-- Lines 459-468: clear the adjacency code of a new interface face and make
sure the element has a boundary record. -/
def newFaceXt (tet : Nat) (fac : Fin 4) (w : Work) : Except Work Work :=
  let w1 := w.setMeshCur { w.grpCur.mesh with
    adja := upd w.grpCur.mesh.adja (adjaIdx w.tetPerGrp fac) 0 }
  if (w1.grpCur.mesh.tetra w1.tetPerGrp).xt = 0 then w1.xtetraAppend tet else .ok w1

/-- Lines 469-471: reference and tag of the new interface face. -/
def newFaceTag (fac : Fin 4) (w : Work) : Work :=
  let xt := w.tetraCur.xt
  let pxt := w.grpCur.mesh.xtetra xt
  w.setMeshCur { w.grpCur.mesh with
    xtetra := upd w.grpCur.mesh.xtetra xt { pxt with
      ref := upd pxt.ref fac 0
      ftag := upd pxt.ftag fac (pxt.ftag fac ||| parbdyMask) } }

/-- Lines 456-485: the neighbour lies in another sub-group. -/
def newFace (tet : Nat) (fac : Fin 4) (w : Work) : Except Work Work :=
  andThen (newFaceXt tet fac w) fun w2 =>
    let w3 := newFaceTag fac w2
    andThen (w3.n2ifcAppend (4 * (tet - 1) + fac.val) (w3.grpCur.nitem_int_face_comm : Int))
      (forEach (tagFaceItem fac) [0, 1, 2])

/-- Lines 490-499: the neighbour lies in this sub-group and was already
processed: write both adjacency codes. -/
def linkAdja (fac : Fin 4) (adjidx vindex : Nat) (w : Work) : Work :=
  let nb := (w.meshOld.tetra adjidx).flag
  let a1 := upd w.grpCur.mesh.adja (adjaIdx w.tetPerGrp fac) (4 * nb + vindex)
  let a2 := upd a1 (4 * (nb - 1) + 1 + vindex) (4 * w.tetPerGrp + fac.val)
  w.setMeshCur { w.grpCur.mesh with adja := a2 }

/-- Lines 448-500, one iteration of the loop over the four faces. -/
def updateAdja (c : Ctx) (tet : Nat) (fac : Fin 4) (w : Work) : Except Work Work :=
  let code := w.grpCur.mesh.adja (adjaIdx w.tetPerGrp fac)
  if code = 0 then .ok w
  else
    let adjidx := code / 4
    let vindex := code % 4
    if c.partAt (adjidx - 1) ≠ c.grpId then newFace tet fac w
    else if adjidx < tet then .ok (linkAdja fac adjidx vindex w)
    else .ok w

/-- Lines 517-522: record the freshly minted slot on the source vertex and on
its copy, and advance the global counter. -/
def mintRec (tet : Nat) (fac : Fin 4) (poi : Fin 3) (slot : Int) (w : Work) : Work :=
  let ip := w.tetraCur.v (MMG5_idir fac poi)
  let src := (w.meshOld.tetra tet).v (MMG5_idir fac poi)
  let w2 : Work := { w with
    meshOld := { w.meshOld with
      point := upd w.meshOld.point src { w.meshOld.point src with tmp := slot } } }
  let w3 : Work := w2.setMeshCur { w2.grpCur.mesh with
    point := upd w2.grpCur.mesh.point ip { w2.grpCur.mesh.point ip with tmp := slot } }
  { w3 with
    int_node_comm_nitem := w3.int_node_comm_nitem + 1
    logMint := w3.logMint ++ [(src, slot)] }

/-- Lines 506-524, one iteration: mint a slot for a vertex of a new interface
face when its copy carries none. -/
def mintPoint (tet : Nat) (fac : Fin 4) (poi : Fin 3) (w : Work) : Except Work Work :=
  let ip := w.tetraCur.v (MMG5_idir fac poi)
  if (w.grpCur.mesh.point ip).tmp = -1 then
    let slot : Int := (w.int_node_comm_nitem : Int) + 1
    andThen (w.n2incAppend ip slot) fun w1 => .ok (mintRec tet fac poi slot w1)
  else .ok w

/-- Lines 502-526, one iteration of the second loop over the four faces. -/
def mintFace (c : Ctx) (tet : Nat) (fac : Fin 4) (w : Work) : Except Work Work :=
  let adjidx := w.meshOld.adja (adjaIdx tet fac) / 4
  if adjidx ≠ 0 ∧ c.grpId ≠ c.partAt (adjidx - 1) then
    forEach (mintPoint tet fac) [0, 1, 2] w
  else .ok w

/-- Lines 440-445: copy the four adjacency codes of the element. -/
def copyAdja (tet : Nat) (w : Work) : Work :=
  w.setMeshCur { w.grpCur.mesh with
    adja := fun i =>
      if adjaIdx w.tetPerGrp 0 ≤ i ∧ i < adjaIdx w.tetPerGrp 0 + 4 then
        w.meshOld.adja (adjaIdx tet 0 + (i - adjaIdx w.tetPerGrp 0))
      else w.grpCur.mesh.adja i }

/-- Line 360: `meshOld->tetra[tet].flag = 0`. -/
def resetFlag (tet : Nat) (w : Work) : Work :=
  { w with
    meshOld := { w.meshOld with
      tetra := upd w.meshOld.tetra tet { w.meshOld.tetra tet with flag := 0 } } }

/-- Lines 356-527, the body of the loop over the source elements. -/
def tetStep (c : Ctx) (tet : Nat) (w : Work) : Except Work Work :=
  let w0 := resetFlag tet w
  if c.grpId ≠ c.partAt (tet - 1) then .ok w0
  else
    andThen (copyTetra tet w0) fun w1 =>
    andThen (forEach (addPoint c tet) [0, 1, 2, 3] w1) fun w2 =>
    andThen (forEach (updateAdja c tet) [0, 1, 2, 3] (copyAdja tet w2)) fun w3 =>
    forEach (mintFace c tet) [0, 1, 2, 3] w3

/-! ## `PMMG_splitGrps`: environment -/

/-- The calls into the serial mesh library that can fail while a sub-group is
set up (lines 254-288). -/
inductive ExtCall where
  | Set_inputMeshName
  | Set_inputSolName
  | Set_outputMeshName
  | Set_outputSolName
  | Set_meshSize
  | Set_solSize
deriving DecidableEq, Repr

/-- Outcomes of the external collaborators during one call of
`PMMG_splitGrps`.
* `partition`: result of `PMMG_partition_metis` (`none` when it fails,
  otherwise the array `part`).
* `extOk g call`: whether the library call `call` succeeds for sub-group `g`.
* `npmaxOf`, `nemaxOf`: the capacities `MMG3D_Set_meshSize` chooses for the
  requested numbers of vertices and elements.
* `meshGrants g`: allocation budget of the mesh of sub-group `g`.
* `shell`: edge shell used by `_MMG5_settag`: for the call
  `_MMG5_settag(mesh,start,ia,tag,edg)`, `shell mesh start ia tag edg k e` is
  `some r` when edge `e` of boundary record `k` belongs to the shell of the
  edge and gets the reference `r`, and `none` when the record is left alone.
* `checkIntCommFails`: outcome of the debug-only `PMMG_checkIntComm`.
* `memMaxAfter`: ceiling installed by `PMMG_PMesh_SetMemMax`. -/
structure Env where
  partition : Option (List Nat) := none
  extOk : Nat → ExtCall → Bool := fun _ _ => true
  npmaxOf : Nat → Nat := fun n => n
  nemaxOf : Nat → Nat := fun n => n
  meshGrants : Nat → Nat := fun _ => 0
  shell : MMG5_Mesh → Nat → Fin 6 → Nat → Int → Nat → Fin 6 → Option Int :=
    fun _ _ _ _ _ _ _ => none
  checkIntCommFails : Bool := false
  memMaxAfter : Nat := 0

/-- Effect of `_MMG5_settag(mesh,start,ia,tag,edg)`: the tag is or-ed into the
edge tags of the records of the shell, which also receive the edge
reference. -/
def MMG5_settag (env : Env) (mesh : MMG5_Mesh) (start : Nat) (ia : Fin 6) (tag : Nat)
    (edg : Int) : MMG5_Mesh :=
  { mesh with
    xtetra := fun k =>
      { mesh.xtetra k with
        tag := fun e =>
          match env.shell mesh start ia tag edg k e with
          | none => (mesh.xtetra k).tag e
          | some _ => (mesh.xtetra k).tag e ||| tag
        edg := fun e =>
          match env.shell mesh start ia tag edg k e with
          | none => (mesh.xtetra k).edg e
          | some r => r } }

/-- Lines 568-573, one iteration of the loop over the six edges. -/
def settagEdge (env : Env) (tet : Nat) (mesh : MMG5_Mesh) (ie : Fin 6) : MMG5_Mesh :=
  let pxt := mesh.xtetra (mesh.tetra tet).xt
  if pxt.tag ie &&& MG_PARBDY = 0 then mesh
  else MMG5_settag env mesh tet ie (pxt.tag ie) (pxt.edg ie)

/-- Lines 560-574, one iteration of the loop over the elements of the
sub-mesh (`MG_EOK(pt)` is `pt->v[0] > 0`). -/
def settagTetra (env : Env) (mesh : MMG5_Mesh) (tet : Nat) : MMG5_Mesh :=
  if ¬ (0 < (mesh.tetra tet).v 0) then mesh
  else if (mesh.tetra tet).xt = 0 then mesh
  else List.foldl (settagEdge env tet) mesh [0, 1, 2, 3, 4, 5]

/-- Lines 347-355: the state at the start of the traversal of one sub-group;
`count` is `countPerGrp[grpId]`. -/
def passStart (count : Nat) (w : Work) : Work :=
  { w with
    n2inc_max := count / 3
    meshOld := { w.meshOld with
      point := fun poi =>
        if 1 ≤ poi ∧ poi < w.meshOld.np + 1 then { w.meshOld.point poi with flag := 0 }
        else w.meshOld.point poi }
    tetPerGrp := 0
    poiPerGrp := 0
    logTet := []
    logPt := [] }

/-- Lines 537-545: set the vertex counts of the sub-mesh and chain its free
vertex slots. -/
def chainFree (w : Work) : MMG5_Mesh :=
  let m := w.grpCur.mesh
  { m with
    np := w.poiPerGrp
    npi := w.poiPerGrp
    npnil := w.poiPerGrp + 1
    point := fun poi =>
      if w.poiPerGrp + 1 ≤ poi ∧ poi < m.npmax - 1 then
        { m.point poi with n := (0, 0, 0), tmp := (poi : Int) + 1 }
      else m.point poi }

/-- Lines 528-574, once the two `PMMG_RECALLOC` requests that trim the node
communicator are granted: set the vertex counts, chain the free vertex slots,
set the counts of the field and report the parallel edge tags. -/
def passEnd (env : Env) (c : Ctx) (w : Work) : Work :=
  let m1 := chainFree w
  let met1 : MMG5_Sol :=
    if c.metOld.hasM then { w.grpCur.met with np := w.poiPerGrp, npi := w.poiPerGrp }
    else w.grpCur.met
  let m2 := List.foldl (settagTetra env) m1 (List.range' 1 m1.ne)
  { w with
    grants := w.grants - 2
    grpCur := { w.grpCur with
      node_alloc := w.grpCur.nitem_int_node_comm, mesh := m2, met := met1 } }

/-- Lines 340-575 for one value of `grpId`; `count` is `countPerGrp[grpId]`.
An `error` is a `goto fail_sgrp` with `ret_val = PMMG_FAILURE`. -/
def splitGrp (env : Env) (c : Ctx) (count : Nat) (w : Work) : Except Work Work :=
  andThen (forEach (tetStep c) (List.range' 1 w.meshOld.ne) (passStart count w)) fun w2 =>
    if w2.grants < 2 then .error w2 else .ok (passEnd env c w2)

/-! ## The clean-up at the label `fail_sgrp` -/

/-- Which buffers of a new sub-group are allocated: `mesh` is
`grpsNew[g].mesh != NULL`, the other fields say that the pointer of that
name (of the group, or of its mesh for `adja`, `xpoint`, `xtetra`) is not
`NULL`. -/
structure GrpAlloc where
  mesh : Bool := false
  node2int_node_comm_index1 : Bool := false
  node2int_node_comm_index2 : Bool := false
  node2int_face_comm_index1 : Bool := false
  node2int_face_comm_index2 : Bool := false
  adja : Bool := false
  xpoint : Bool := false
  xtetra : Bool := false
deriving DecidableEq, Repr

/-- Apply `f` to the entry `i` of a list. -/
def modifyAt {α : Type} (f : α → α) : Nat → List α → List α
  | _, [] => []
  | 0, a :: l => f a :: l
  | i + 1, a :: l => a :: modifyAt f i l

/-- Lines 609-621: the four `PMMG_DEL_MEM` on the communicator arrays of
`*grpCur`. -/
def delComm (g : GrpAlloc) : GrpAlloc :=
  { g with
    node2int_node_comm_index2 := false
    node2int_node_comm_index1 := false
    node2int_face_comm_index1 := false
    node2int_face_comm_index2 := false }

/-- Lines 623-629: the three `PMMG_DEL_MEM` on the tables of `*meshCur`. -/
def delMesh (g : GrpAlloc) : GrpAlloc :=
  { g with adja := false, xpoint := false, xtetra := false }

/-- Lines 605-631, one iteration of the loop over `grpId`; `cur` is the index
of the group `grpCur` points to when the failure occurs.  `none` stands for
the dereference of a null `meshCur`. -/
def failSgrpStep (cur : Nat) (st : Option (List GrpAlloc)) (grpId : Nat) :
    Option (List GrpAlloc) :=
  st.bind fun l =>
    let l1 := modifyAt delComm cur l
    if (l1.getD grpId {}).mesh = false then none
    else some (modifyAt delMesh grpId l1)

/-- Lines 604-631: the loop at the label `fail_sgrp`. -/
def failSgrp (ngrp cur : Nat) (l : List GrpAlloc) : Option (List GrpAlloc) :=
  List.foldl (failSgrpStep cur) (some l) (List.range ngrp)

/-- A sub-group as lines 242-329 leave it when every request succeeds. -/
def allocGrp : GrpAlloc :=
  { mesh := true, node2int_node_comm_index1 := true, node2int_node_comm_index2 := true,
    node2int_face_comm_index1 := true, node2int_face_comm_index2 := true,
    adja := true, xpoint := true, xtetra := true }

/-- Lines 242-329 for one value of `grpId`, when every call succeeds: the
empty sub-group.  The mesh comes from `MMG3D_Init_mesh` and
`MMG3D_Set_meshSize` (followed by `np = npi = 0`), the field from
`MMG3D_Set_solSize`; the three tables of the mesh consume three grants of
the mesh. -/
def newGrpRec (env : Env) (grpOld : PMMG_Grp) (count grpId : Nat) : PMMG_Grp :=
  let metType : Nat :=
    if grpOld.met.size = 1 then 1 else if grpOld.met.size = 6 then 3 else 0
  { mesh :=
      { np := 0, npi := 0, ne := count, nei := count,
        npmax := env.npmaxOf (count / 6), nemax := env.nemaxOf count,
        info := grpOld.mesh.info, xtmax := count / 3, xpmax := env.npmaxOf (count / 6),
        grants := env.meshGrants grpId - 3 }
    met :=
      if grpOld.met.hasM then
        { np := 1, npi := 1, npmax := env.npmaxOf (count / 6), type := metType,
          size := if metType = 1 then 1 else if metType = 3 then 6 else 3, hasM := true }
      else {}
    node_alloc := count / 3
    face_alloc := count / 3 }

/-- Lines 242-329 for one value of `grpId`: set up the empty sub-group.
`grants` is the parmesh allocation budget.  An `error (r, a)` is a
`goto fail_sgrp` taken while `ret_val` is `r`, the buffers `a` of the
sub-group being allocated: the mesh always is (`MMG3D_Init_mesh`, line 248),
the tables `xtetra`, `xpoint`, `adja` and the four communicator arrays are
requested in this order (lines 295-327). -/
def newGrp (env : Env) (grpOld : PMMG_Grp) (count grpId grants : Nat) :
    Except (Ret × GrpAlloc) (PMMG_Grp × Nat) :=
  if ¬ env.extOk grpId .Set_inputMeshName then .error (.PMMG_FAILURE, { mesh := true })
  else if ¬ env.extOk grpId .Set_inputSolName then .error (.PMMG_FAILURE, { mesh := true })
  else if ¬ env.extOk grpId .Set_outputMeshName then .error (.PMMG_FAILURE, { mesh := true })
  else if ¬ env.extOk grpId .Set_outputSolName then .error (.PMMG_FAILURE, { mesh := true })
  else if ¬ env.extOk grpId .Set_meshSize then .error (.PMMG_SUCCESS, { mesh := true })
  else if grpOld.met.hasM ∧ ¬ env.extOk grpId .Set_solSize then
    .error (.PMMG_SUCCESS, { mesh := true })
  -- xtetra, xpoint, adja: three requests charged to the new mesh
  else if env.meshGrants grpId < 3 then
    .error (.PMMG_FAILURE,
      { mesh := true, xtetra := decide (1 ≤ env.meshGrants grpId),
        xpoint := decide (2 ≤ env.meshGrants grpId) })
  -- the four communicator arrays: four requests charged to the parmesh
  else if grants < 4 then
    .error (.PMMG_FAILURE,
      { mesh := true, xtetra := true, xpoint := true, adja := true,
        node2int_node_comm_index1 := decide (1 ≤ grants),
        node2int_node_comm_index2 := decide (2 ≤ grants),
        node2int_face_comm_index1 := decide (3 ≤ grants) })
  else .ok (newGrpRec env grpOld count grpId, grants - 4)

/-- Lines 242-329: set up the sub-groups `grpId, grpId+1, ...` whose element
counts are listed.  An `error (r, as)` is a `goto fail_sgrp` taken while
`ret_val` is `r`; `as` lists the buffers of the sub-groups from `grpId` to
the one whose set-up fails. -/
def newGrps (env : Env) (grpOld : PMMG_Grp) :
    List Nat → Nat → Nat → Except (Ret × List GrpAlloc) (List PMMG_Grp × Nat)
  | [], _, grants => .ok ([], grants)
  | count :: rest, grpId, grants =>
    match newGrp env grpOld count grpId grants with
    | .error r => .error (r.1, [r.2])
    | .ok (g, grants1) =>
      match newGrps env grpOld rest (grpId + 1) grants1 with
      | .error r => .error (r.1, allocGrp :: r.2)
      | .ok (gs, grants2) => .ok (g :: gs, grants2)

/-- Lines 233-234: `++countPerGrp[ part[ tet ] ]` for `tet = 0 .. ne-1`. -/
def countPerGrp (part : List Nat) (ne : Nat) : Nat → Nat :=
  List.foldl (fun cnt tet => upd cnt (part.getD tet 0) (cnt (part.getD tet 0) + 1))
    (fun _ => 0) (List.range ne)

/-- Lines 335-338: reset `point[].tmp` to `-1` and store the slots of the
pre-existing node communicator. -/
def initTmp (grpOld : PMMG_Grp) : MMG5_Mesh :=
  let m := grpOld.mesh
  let m1 : MMG5_Mesh := { m with
    point := fun poi =>
      if 1 ≤ poi ∧ poi < m.np + 1 then { m.point poi with tmp := -1 } else m.point poi }
  List.foldl
    (fun (mm : MMG5_Mesh) i =>
      { mm with
        point := upd mm.point (grpOld.node2int_node_comm_index1 i)
          { mm.point (grpOld.node2int_node_comm_index1 i) with
            tmp := grpOld.node2int_node_comm_index2 i } })
    m1 (List.range grpOld.nitem_int_node_comm)

/-- Ghost record of the traversal of one sub-group. -/
structure GrpLog where
  logTet : List (Nat × Nat) := []
  logPt : List (Nat × Nat) := []
deriving DecidableEq

/-- Lines 340-575: the loop over `grpId`, on the sub-groups still to build.
Returns the built groups with their ghost logs and the final shared state. -/
def splitLoop (env : Env) (part : List Nat) (metOld : MMG5_Sol) (cnt : Nat → Nat) :
    List PMMG_Grp → Nat → Work → Except Work (List (PMMG_Grp × GrpLog) × Work)
  | [], _, w => .ok ([], w)
  | g :: rest, grpId, w =>
    match splitGrp env { part := part, grpId := grpId, metOld := metOld } (cnt grpId)
        { w with grpCur := g } with
    | .error e => .error e
    | .ok w1 =>
      match splitLoop env part metOld cnt rest (grpId + 1) w1 with
      | .error e => .error e
      | .ok (gs, w2) => .ok ((w1.grpCur, { logTet := w1.logTet, logPt := w1.logPt }) :: gs, w2)

/-- The index of the sub-group `grpCur` points to when the loop over `grpId`
(lines 340-575) is left: the sub-group whose traversal fails, or the last
one. -/
def splitLoopCur (env : Env) (part : List Nat) (metOld : MMG5_Sol) (cnt : Nat → Nat) :
    List PMMG_Grp → Nat → Work → Nat
  | [], grpId, _ => grpId - 1
  | g :: rest, grpId, w =>
    match splitGrp env { part := part, grpId := grpId, metOld := metOld } (cnt grpId)
        { w with grpCur := g } with
    | .error _ => grpId
    | .ok w1 => splitLoopCur env part metOld cnt rest (grpId + 1) w1

/-- Lines 331-338: the state at the start of the loop over `grpId`.  The
capacity variables hold the values left by the set-up of the last sub-group;
`grants` is what is left of the parmesh allocation budget. -/
def startWork (parmesh : PMMG_ParMesh) (grpOld : PMMG_Grp) (cnt : Nat → Nat)
    (ngrp grants : Nat) : Work :=
  { meshOld := initTmp grpOld
    n2inc_max := ((List.range ngrp).map cnt).getLastD 0 / 3
    n2ifc_max := ((List.range ngrp).map cnt).getLastD 0 / 3
    int_node_comm_nitem := parmesh.int_node_comm_nitem
    grants := grants }

/-- What `PMMG_splitGrps` returns and leaves behind: the return value, the
parmesh, and the ghost logs (whether the new list was installed, one `GrpLog` per
installed sub-group, and the list of minted slots). -/
structure SplitResult where
  ret : Ret
  parmesh : PMMG_ParMesh
  /-- Ghost: line 594 was reached, the new group list is installed. -/
  logInstalled : Bool := false
  logGrp : List GrpLog := []
  logMint : List (Nat × Int) := []
  /-- Ghost: the loop at `fail_sgrp` (lines 604-631) was entered and read
  `meshCur->adja` through the null mesh of a sub-group that was not set up.
  The call does not return then; `ret` and `parmesh` are `ret_val` and the
  parmesh at that point. -/
  nullDeref : Bool := false

/-- The body of `PMMG_splitGrps`, with `grpOld` standing for
`parmesh->listgrp` (the single group of the parmesh). -/
def splitGrpsOn (env : Env) (parmesh : PMMG_ParMesh) (grpOld : PMMG_Grp)
    (target_mesh_size : Int) : SplitResult :=
  let meshOld := grpOld.mesh
  let ngrp := PMMG_howManyGroups meshOld.ne target_mesh_size
  if ngrp = 1 then { ret := .PMMG_SUCCESS, parmesh := parmesh }
  else if parmesh.memCur + 2 * meshOld.memCur > parmesh.memGloMax then
    { ret := .PMMG_FAILURE, parmesh := parmesh }
  -- metis buffer
  else if parmesh.grants = 0 then { ret := .PMMG_FAILURE, parmesh := parmesh }
  else
    let pm1 := { parmesh with grants := parmesh.grants - 1 }
    match env.partition with
    | none => { ret := .PMMG_FAILURE, parmesh := pm1 }
    | some part =>
      -- counter buffer
      if pm1.grants = 0 then { ret := .PMMG_FAILURE, parmesh := pm1 }
      else
        let pm2 := { pm1 with grants := pm1.grants - 1 }
        let cnt := countPerGrp part meshOld.ne
        -- subgroup list
        if pm2.grants = 0 then { ret := .PMMG_FAILURE, parmesh := pm2 }
        else
          let pm3 := { pm2 with grants := pm2.grants - 1 }
          match newGrps env grpOld ((List.range ngrp.toNat).map cnt) 0 pm3.grants with
          | .error r =>
            -- `goto fail_sgrp` from the set-up of the sub-group `r.2.length - 1`: the
            -- sub-groups after it are as `PMMG_CALLOC` (line 240) left them
            { ret := r.1, parmesh := pm3
              nullDeref := (failSgrp ngrp.toNat (r.2.length - 1)
                (r.2 ++ List.replicate (ngrp.toNat - r.2.length) {})).isNone }
          | .ok (grps, grants) =>
            let w0 := startWork parmesh grpOld cnt ngrp.toNat grants
            let leave (w : Work) : PMMG_ParMesh :=
              { pm3 with
                listgrp := { grpOld with mesh := w.meshOld } :: parmesh.listgrp.tail
                int_node_comm_nitem := w.int_node_comm_nitem
                grants := w.grants }
            -- `goto fail_sgrp` once every sub-group is set up
            let deref : Bool :=
              (failSgrp ngrp.toNat (splitLoopCur env part grpOld.met cnt grps 0 w0)
                (grps.map fun _ => allocGrp)).isNone
            match splitLoop env part grpOld.met cnt grps 0 w0 with
            | .error e =>
              { ret := .PMMG_FAILURE, parmesh := leave e, logMint := e.logMint,
                nullDeref := deref }
            | .ok (built, w) =>
              if env.checkIntCommFails then
                { ret := .PMMG_FAILURE, parmesh := leave w, logMint := w.logMint,
                  nullDeref := deref }
              else
                { ret := .PMMG_SUCCESS
                  parmesh :=
                    { pm3 with
                      listgrp := built.map Prod.fst
                      ngrp := ngrp.toNat
                      memMax := env.memMaxAfter
                      int_node_comm_nitem := w.int_node_comm_nitem
                      grants := w.grants }
                  logInstalled := true
                  logGrp := built.map Prod.snd
                  logMint := w.logMint }

/-- The function `PMMG_splitGrps`. -/
def PMMG_splitGrps (env : Env) (parmesh : PMMG_ParMesh) (target_mesh_size : Int) :
    SplitResult :=
  splitGrpsOn env parmesh (parmesh.listgrp.headD {}) target_mesh_size

/-! ## Sample inputs -/

/-- The four vertex references `a, b, c, d` of an element. -/
def mkV (a b c d : Nat) : Fin 4 → Nat
  | 0 => a
  | 1 => b
  | 2 => c
  | 3 => d

/-- Two tetrahedra `(1,2,3,4)` and `(5,2,4,3)` glued along their faces 0. -/
def mesh2 : MMG5_Mesh :=
  { np := 5, ne := 2
    tetra := fun t => if t = 1 then { v := mkV 1 2 3 4 } else if t = 2 then { v := mkV 5 2 4 3 }
      else {}
    adja := fun i => if i = 1 then 8 else if i = 5 then 4 else 0 }

/-- A parmesh holding `mesh2` as its single group. -/
def pm2 : PMMG_ParMesh := { listgrp := [{ mesh := mesh2 }], memGloMax := 100, grants := 100 }

/-- Every external call succeeds and the two elements go to different
sub-groups. -/
def env2 : Env := { partition := some [0, 1], meshGrants := fun _ => 100 }

/-- A chain of three tetrahedra `(1,2,3,4)`, `(2,5,4,3)`, `(6,5,3,4)`: face 0
of element 1 is face 1 of element 2, and face 0 of element 2 is face 0 of
element 3. -/
def mesh3 : MMG5_Mesh :=
  { np := 6, ne := 3
    tetra := fun t => if t = 1 then { v := mkV 1 2 3 4 } else if t = 2 then { v := mkV 2 5 4 3 }
      else if t = 3 then { v := mkV 6 5 3 4 } else {}
    adja := fun i => if i = 1 then 9 else if i = 5 then 12 else if i = 6 then 4
      else if i = 9 then 8 else 0 }

/-- A parmesh holding `mesh3` as its single group. -/
def pm3 : PMMG_ParMesh := { listgrp := [{ mesh := mesh3 }], memGloMax := 100, grants := 100 }

/-- Every external call succeeds; the middle element of the chain goes to
sub-group 1, the two others to sub-group 0. -/
def env3 : Env := { partition := some [0, 1, 0], meshGrants := fun _ => 100 }

/-- Twelve tetrahedra without a common face; element `t` has the vertices
`4(t-1)+1 .. 4t`. -/
def mesh12 : MMG5_Mesh :=
  { np := 48, ne := 12, tetra := fun t => { v := fun i => 4 * (t - 1) + 1 + i.val } }

/-- The twelve tetrahedra, but with the sixth glued to the fifth: face 0 of
element 5 (vertices 18, 19, 20) is face 0 of element 6. -/
def mesh12s : MMG5_Mesh :=
  { mesh12 with
    tetra := fun t => if t = 6 then { v := mkV 21 18 20 19 } else mesh12.tetra t
    adja := fun i => if i = 17 then 24 else if i = 21 then 20 else 0 }

/-- A parmesh holding `mesh12s` as its single group. -/
def pm12s : PMMG_ParMesh :=
  { listgrp := [{ mesh := mesh12s }], memGloMax := 100, grants := 100 }

/-- A parmesh holding `mesh12` as its single group. -/
def pm12 : PMMG_ParMesh := { listgrp := [{ mesh := mesh12 }], memGloMax := 100, grants := 100 }

/-- The assignment of the twelve elements to three sub-groups. -/
def part12 : List Nat := [0, 0, 0, 0, 0, 1, 1, 1, 1, 1, 2, 2]

/-- Every external call succeeds and the partitioner returns `part12`. -/
def env12 : Env := { partition := some part12, meshGrants := fun _ => 100 }

/-- The part of the source mesh that the traversal only reads. -/
structure OldStatic (w w' : Work) : Prop where
  adja : w'.meshOld.adja = w.meshOld.adja
  ne : w'.meshOld.ne = w.meshOld.ne
  np : w'.meshOld.np = w.meshOld.np
  tv : ∀ t, (w'.meshOld.tetra t).v = (w.meshOld.tetra t).v
  txt : ∀ t, (w'.meshOld.tetra t).xt = (w.meshOld.tetra t).xt
  xtetra : w'.meshOld.xtetra = w.meshOld.xtetra
  xpoint : w'.meshOld.xpoint = w.meshOld.xpoint
  pxp : ∀ v, (w'.meshOld.point v).xp = (w.meshOld.point v).xp
  ptag : ∀ v, (w'.meshOld.point v).tag = (w.meshOld.point v).tag
  pc : ∀ v, (w'.meshOld.point v).c = (w.meshOld.point v).c
  pref : ∀ v, (w'.meshOld.point v).ref = (w.meshOld.point v).ref

/-- The element bookkeeping: log, counter and the `flag` scratch of the source
elements. -/
structure SameTet (w w' : Work) : Prop where
  log : w'.logTet = w.logTet
  cnt : w'.tetPerGrp = w.tetPerGrp
  flag : ∀ t, (w'.meshOld.tetra t).flag = (w.meshOld.tetra t).flag

/-- The vertex bookkeeping: log, counter and the `flag` scratch of the source
vertices. -/
structure SamePt (w w' : Work) : Prop where
  log : w'.logPt = w.logPt
  cnt : w'.poiPerGrp = w.poiPerGrp
  flag : ∀ v, (w'.meshOld.point v).flag = (w.meshOld.point v).flag

/-- The slot bookkeeping: mint log, global counter and the `tmp` scratch of
the source vertices. -/
structure SameSlot (w w' : Work) : Prop where
  log : w'.logMint = w.logMint
  cnt : w'.int_node_comm_nitem = w.int_node_comm_nitem
  tmp : ∀ v, (w'.meshOld.point v).tmp = (w.meshOld.point v).tmp

/-- The face communicator of the group under construction. -/
structure SameFace (w w' : Work) : Prop where
  nitem : w'.grpCur.nitem_int_face_comm = w.grpCur.nitem_int_face_comm
  idx1 : w'.grpCur.node2int_face_comm_index1 = w.grpCur.node2int_face_comm_index1
  idx2 : w'.grpCur.node2int_face_comm_index2 = w.grpCur.node2int_face_comm_index2

/-- The node communicator of the group under construction. -/
structure SameNode (w w' : Work) : Prop where
  nitem : w'.grpCur.nitem_int_node_comm = w.grpCur.nitem_int_node_comm
  idx1 : w'.grpCur.node2int_node_comm_index1 = w.grpCur.node2int_node_comm_index1
  idx2 : w'.grpCur.node2int_node_comm_index2 = w.grpCur.node2int_node_comm_index2

/-- The boundary-element table of the mesh under construction. -/
structure SameXt (w w' : Work) : Prop where
  xt : w'.grpCur.mesh.xt = w.grpCur.mesh.xt
  xtetra : w'.grpCur.mesh.xtetra = w.grpCur.mesh.xtetra

/-- The declared sizes of the mesh under construction. -/
structure SameSize (w w' : Work) : Prop where
  ne : w'.grpCur.mesh.ne = w.grpCur.mesh.ne
  npmax : w'.grpCur.mesh.npmax = w.grpCur.mesh.npmax
  nemax : w'.grpCur.mesh.nemax = w.grpCur.mesh.nemax

/-- Which parts of the state a step is known to leave alone: `os` the
read-only part of the source mesh, `st`, `sp`, `ss` the element, vertex and
slot bookkeeping, `sf`, `sn` the face and node communicators, `sx` the
boundary-element table, `sz` the declared sizes, `ca`, `ct`, `cp` the
adjacency, element and vertex tables of the mesh under construction. -/
structure Keep where
  os : Bool
  st : Bool
  sp : Bool
  ss : Bool
  sf : Bool
  sn : Bool
  sx : Bool
  sz : Bool
  ca : Bool
  ct : Bool
  cp : Bool
deriving DecidableEq

/-- `k1` keeps no more than `k2`. -/
def Keep.le (k1 k2 : Keep) : Prop :=
  (k1.os = true → k2.os = true) ∧ (k1.st = true → k2.st = true) ∧
  (k1.sp = true → k2.sp = true) ∧ (k1.ss = true → k2.ss = true) ∧
  (k1.sf = true → k2.sf = true) ∧ (k1.sn = true → k2.sn = true) ∧
  (k1.sx = true → k2.sx = true) ∧ (k1.sz = true → k2.sz = true) ∧
  (k1.ca = true → k2.ca = true) ∧ (k1.ct = true → k2.ct = true) ∧
  (k1.cp = true → k2.cp = true)

instance (k1 k2 : Keep) : Decidable (Keep.le k1 k2) := by
  unfold Keep.le; infer_instance

/-- The step from `w` to `w'` leaves the parts selected by `k` unchanged. -/
structure Frame (k : Keep) (w w' : Work) : Prop where
  os : k.os = true → OldStatic w w'
  st : k.st = true → SameTet w w'
  sp : k.sp = true → SamePt w w'
  ss : k.ss = true → SameSlot w w'
  sf : k.sf = true → SameFace w w'
  sn : k.sn = true → SameNode w w'
  sx : k.sx = true → SameXt w w'
  sz : k.sz = true → SameSize w w'
  ca : k.ca = true → w'.grpCur.mesh.adja = w.grpCur.mesh.adja
  ct : k.ct = true → w'.grpCur.mesh.tetra = w.grpCur.mesh.tetra
  cp : k.cp = true → w'.grpCur.mesh.point = w.grpCur.mesh.point

/-- The single group `parmesh->listgrp` of the parmesh. -/
def grpOldOf (parmesh : PMMG_ParMesh) : PMMG_Grp := parmesh.listgrp.headD {}

/-- The number of sub-groups computed by `PMMG_splitGrps`. -/
def ngrpOf (parmesh : PMMG_ParMesh) (target_mesh_size : Int) : Nat :=
  (PMMG_howManyGroups (grpOldOf parmesh).mesh.ne target_mesh_size).toNat

/-- What `_MMG5_settag` may change in a mesh: edge tags of boundary records
only grow (bitwise), everything but edge tags and edge references stays. -/
structure SettagRel (m m' : MMG5_Mesh) : Prop where
  np : m'.np = m.np
  npi : m'.npi = m.npi
  npnil : m'.npnil = m.npnil
  npmax : m'.npmax = m.npmax
  ne : m'.ne = m.ne
  nemax : m'.nemax = m.nemax
  xt : m'.xt = m.xt
  xp : m'.xp = m.xp
  xtmax : m'.xtmax = m.xtmax
  xpmax : m'.xpmax = m.xpmax
  point : m'.point = m.point
  tetra : m'.tetra = m.tetra
  xpoint : m'.xpoint = m.xpoint
  adja : m'.adja = m.adja
  ftag : ∀ k, (m'.xtetra k).ftag = (m.xtetra k).ftag
  ref : ∀ k, (m'.xtetra k).ref = (m.xtetra k).ref
  tag : ∀ k e b, (m.xtetra k).tag e &&& b = b → (m'.xtetra k).tag e &&& b = b

/-- Invariant of the loop over the source elements, on the elements `pre`
already visited. -/
structure TetInv (c : Ctx) (pre : List Nat) (w : Work) : Prop where
  keys : w.logTet.map Prod.fst = pre.filter (fun t => decide (c.partAt (t - 1) = c.grpId))
  vals : w.logTet.map Prod.snd = List.range' 1 w.tetPerGrp
  flag : ∀ p ∈ w.logTet, (w.meshOld.tetra p.1).flag = p.2

/-- A sub-group as `newGrp` leaves it: declared element count, empty tables
and empty communicators. -/
structure FreshGrp (count : Nat) (g : PMMG_Grp) : Prop where
  ne : g.mesh.ne = count
  np : g.mesh.np = 0
  xt : g.mesh.xt = 0
  xp : g.mesh.xp = 0
  xtmax : g.mesh.xtmax = count / 3
  xpmax : g.mesh.xpmax = g.mesh.npmax
  nnode : g.nitem_int_node_comm = 0
  nface : g.nitem_int_face_comm = 0
  node_alloc : g.node_alloc = count / 3
  face_alloc : g.face_alloc = count / 3

/-- Lines 335-338 only write `point[].tmp`. -/
structure TmpOnly (m m' : MMG5_Mesh) : Prop where
  adja : m'.adja = m.adja
  ne : m'.ne = m.ne
  np : m'.np = m.np
  tetra : m'.tetra = m.tetra
  xtetra : m'.xtetra = m.xtetra
  xpoint : m'.xpoint = m.xpoint
  pflag : ∀ v, (m'.point v).flag = (m.point v).flag
  pxp : ∀ v, (m'.point v).xp = (m.point v).xp
  ptag : ∀ v, (m'.point v).tag = (m.point v).tag
  pc : ∀ v, (m'.point v).c = (m.point v).c
  pref : ∀ v, (m'.point v).ref = (m.point v).ref

/-- The distinct entries of a list, each kept at its first occurrence. -/
def firstSeen (l : List Nat) : List Nat :=
  l.foldl (fun acc x => if x ∈ acc then acc else acc ++ [x]) []

/-- The source elements assigned to sub-group `g`, by increasing id. -/
def tetsOf (part : List Nat) (ne g : Nat) : List Nat :=
  (List.range' 1 ne).filter (fun t => decide (part.getD (t - 1) 0 = g))

/-- The four vertex references of a source element, positions 0 to 3. -/
def vertsOf (m : MMG5_Mesh) (t : Nat) : List Nat :=
  [(m.tetra t).v 0, (m.tetra t).v 1, (m.tetra t).v 2, (m.tetra t).v 3]

/-- The vertex references met when the elements of sub-group `g` are traversed
by increasing source id, each element by positions 0 to 3. -/
def vertexSeq (m : MMG5_Mesh) (part : List Nat) (g : Nat) : List Nat :=
  (tetsOf part m.ne g).flatMap (vertsOf m)

/-- Every vertex reference of every element `1 .. ne` lies in `1 .. np`. -/
def WfVerts (m : MMG5_Mesh) : Prop :=
  ∀ t, 1 ≤ t → t ≤ m.ne → ∀ i, 1 ≤ (m.tetra t).v i ∧ (m.tetra t).v i ≤ m.np

/-- Which fields of the vertex and element records of the mesh under
construction a step is known to leave alone: `ptmp`, `ptag` the `tmp` and
`tag` of every vertex, `tv`, `txt` the vertex references and the boundary
record index of every element. -/
structure Keep2 where
  ptmp : Bool
  ptag : Bool
  tv : Bool
  txt : Bool
deriving DecidableEq

/-- `k1` keeps no more than `k2`. -/
def Keep2.le (k1 k2 : Keep2) : Prop :=
  (k1.ptmp = true → k2.ptmp = true) ∧ (k1.ptag = true → k2.ptag = true) ∧
  (k1.tv = true → k2.tv = true) ∧ (k1.txt = true → k2.txt = true)

instance (k1 k2 : Keep2) : Decidable (Keep2.le k1 k2) := by
  unfold Keep2.le; infer_instance

/-- The step from `w` to `w'` leaves the record fields selected by `k`
unchanged. -/
structure Frame2 (k : Keep2) (w w' : Work) : Prop where
  ptmp : k.ptmp = true → ∀ i, (w'.grpCur.mesh.point i).tmp = (w.grpCur.mesh.point i).tmp
  ptag : k.ptag = true → ∀ i, (w'.grpCur.mesh.point i).tag = (w.grpCur.mesh.point i).tag
  tv : k.tv = true → ∀ i, (w'.grpCur.mesh.tetra i).v = (w.grpCur.mesh.tetra i).v
  txt : k.txt = true → ∀ i, (w'.grpCur.mesh.tetra i).xt = (w.grpCur.mesh.tetra i).xt

/-- The id given to the source vertex at position `poi` of `tet`: a fresh one
when the vertex is met for the first time, the remembered one otherwise. -/
def addPointId (tet : Nat) (poi : Fin 4) (w : Work) : Nat :=
  if (w.meshOld.point ((w.meshOld.tetra tet).v poi)).flag = 0 then w.poiPerGrp + 1
  else (w.meshOld.point ((w.meshOld.tetra tet).v poi)).flag

/-- Invariant of the traversal on the vertex references `seen` met so far:
the log lists the distinct source vertices in first-seen order with the ids
`1, 2, ...`, and `point[].flag` remembers exactly these ids. -/
structure PtInv (np : Nat) (seen : List Nat) (w : Work) : Prop where
  keys : w.logPt.map Prod.fst = firstSeen seen
  vals : w.logPt.map Prod.snd = List.range' 1 w.poiPerGrp
  flag : ∀ p ∈ w.logPt, (w.meshOld.point p.1).flag = p.2
  zero : ∀ v, 1 ≤ v → v ≤ np → v ∉ w.logPt.map Prod.fst → (w.meshOld.point v).flag = 0

/-- The vertex references met while the elements of `l` that belong to the
sub-group are traversed. -/
def seqOf (c : Ctx) (m : MMG5_Mesh) (l : List Nat) : List Nat :=
  (l.filter (fun t => decide (c.partAt (t - 1) = c.grpId))).flatMap (vertsOf m)

/-- The read-only part of the source mesh of the state `w` is that of `m0`. -/
structure SrcOf (m0 : MMG5_Mesh) (w : Work) : Prop where
  adja : w.meshOld.adja = m0.adja
  ne : w.meshOld.ne = m0.ne
  np : w.meshOld.np = m0.np
  tv : ∀ t, (w.meshOld.tetra t).v = (m0.tetra t).v
  txt : ∀ t, (w.meshOld.tetra t).xt = (m0.tetra t).xt
  xtetra : w.meshOld.xtetra = m0.xtetra
  xpoint : w.meshOld.xpoint = m0.xpoint
  pxp : ∀ v, (w.meshOld.point v).xp = (m0.point v).xp
  ptag : ∀ v, (w.meshOld.point v).tag = (m0.point v).tag
  pc : ∀ v, (w.meshOld.point v).c = (m0.point v).c
  pref : ∀ v, (w.meshOld.point v).ref = (m0.point v).ref

/-- Face `f` of source element `t` is an interface face of sub-group `g`: its
adjacency code is non-zero and names an element assigned to another
sub-group. -/
def crossFace (m : MMG5_Mesh) (part : List Nat) (g t : Nat) (f : Fin 4) : Bool :=
  decide (m.adja (adjaIdx t f) ≠ 0 ∧ part.getD (m.adja (adjaIdx t f) / 4 - 1) 0 ≠ g)

/-- The codes `4*(t-1)+f` of the interface faces of source element `t`. -/
def faceKeysOf (m : MMG5_Mesh) (part : List Nat) (g t : Nat) : List Nat :=
  (([0, 1, 2, 3] : List (Fin 4)).filter (crossFace m part g t)).map
    (fun f => 4 * (t - 1) + f.val)

/-- The codes `4*(t-1)+f` of the interface faces of sub-group `g`, elements by
increasing source id and faces by increasing index. -/
def faceKeys (m : MMG5_Mesh) (part : List Nat) (g : Nat) : List Nat :=
  (tetsOf part m.ne g).flatMap (faceKeysOf m part g)

/-- Every non-zero adjacency code of the elements `1 .. ne` names an element
`1 .. ne`. -/
def ValidAdja (m : MMG5_Mesh) : Prop :=
  ∀ t, 1 ≤ t → t ≤ m.ne → ∀ f : Fin 4, m.adja (adjaIdx t f) ≠ 0 →
    1 ≤ m.adja (adjaIdx t f) / 4 ∧ m.adja (adjaIdx t f) / 4 ≤ m.ne

/-- The local ids remembered for the elements of the sub-group visited before
`tet` lie in `1 .. tetPerGrp - 1`. -/
def FlagInv (c : Ctx) (tet : Nat) (w : Work) : Prop :=
  ∀ B, 1 ≤ B → B < tet → c.partAt (B - 1) = c.grpId →
    1 ≤ (w.meshOld.tetra B).flag ∧ (w.meshOld.tetra B).flag < w.tetPerGrp

/-- Invariant of the loop over the faces of the current element `tet`, on the
faces `done` already handled: the codes of the other faces are still the
copied source codes, and the face communicator has received one entry per
interface face handled, with its own position as slot. -/
structure FaceLoopInv (c : Ctx) (m0 : MMG5_Mesh) (tet : Nat) (keys0 : List Nat)
    (done : List (Fin 4)) (w : Work) : Prop where
  pending : ∀ f, f ∉ done →
    w.grpCur.mesh.adja (adjaIdx w.tetPerGrp f) = m0.adja (adjaIdx tet f)
  keys : (List.range w.grpCur.nitem_int_face_comm).map w.grpCur.node2int_face_comm_index1 =
    keys0 ++ (done.filter (crossFace m0 c.part c.grpId tet)).map (fun f => 4 * (tet - 1) + f.val)
  slots : ∀ i, i < w.grpCur.nitem_int_face_comm →
    w.grpCur.node2int_face_comm_index2 i = (i : Int)

/-- The face communicator of the group under construction lists `keys`, each
entry with its own position as slot. -/
structure FaceInv (keys : List Nat) (w : Work) : Prop where
  keys : (List.range w.grpCur.nitem_int_face_comm).map w.grpCur.node2int_face_comm_index1 = keys
  slots : ∀ i, i < w.grpCur.nitem_int_face_comm →
    w.grpCur.node2int_face_comm_index2 i = (i : Int)

/-- Every external call succeeds except `MMG3D_Set_meshSize`; the two elements
go to different sub-groups. -/
def envNoSize : Env :=
  { partition := some [0, 1], meshGrants := fun _ => 100
    extOk := fun _ call => decide (call ≠ ExtCall.Set_meshSize) }

/-- The partitioner fails. -/
def envNoPart : Env := { meshGrants := fun _ => 100 }

/-- The two glued tetrahedra under a memory ceiling that the crude check
rejects. -/
def pm2tight : PMMG_ParMesh := { pm2 with memCur := 1, memGloMax := 0 }

/-- Every external call succeeds except `MMG3D_Set_meshSize` for the last of
the two sub-groups; the two elements go to different sub-groups. -/
def envNoSizeLast : Env :=
  { partition := some [0, 1], meshGrants := fun _ => 100
    extOk := fun g call => decide (¬ (g = 1 ∧ call = ExtCall.Set_meshSize)) }

/-- The state in which a fallible step ends: the result, or the state
reached at the `goto fail_sgrp`. -/
def reached : Except Work Work → Work
  | .ok w => w
  | .error e => e

/-- The mesh `m'` is `m` up to the scratch fields `point[].tmp`,
`point[].flag` and `tetra[].flag`. -/
structure ScratchOnly (m m' : MMG5_Mesh) : Prop where
  hdr : { m' with point := m.point, tetra := m.tetra } = m
  point : ∀ v, { m'.point v with tmp := (m.point v).tmp, flag := (m.point v).flag } = m.point v
  tetra : ∀ t, { m'.tetra t with flag := (m.tetra t).flag } = m.tetra t

/-- From `w` to `w'` the source mesh changes in its scratch fields only, and
the global slot counter advances by one for each slot minted in between. -/
structure Grow (w w' : Work) : Prop where
  scratch : ScratchOnly w.meshOld w'.meshOld
  mint : ∃ l, w'.logMint = w.logMint ++ l ∧
    w'.int_node_comm_nitem = w.int_node_comm_nitem + l.length

/-- The state in which the loop over the sub-groups ends. -/
def reachedLoop : Except Work (List (PMMG_Grp × GrpLog) × Work) → Work
  | .ok r => r.2
  | .error e => e

/-- The two glued tetrahedra with an allocation budget of 15 requests: enough
to set up the two sub-groups and to mint one slot, not enough to enter a
second one in the node communicator. -/
def pm2short : PMMG_ParMesh := { pm2 with grants := 15 }

/-- Invariant of the whole run on the slots `point[].tmp` of the source
vertices, `t0 v` being the slot of `v` when the loop over the sub-groups
starts: a slot that is set is never replaced, every slot that is set is the
initial one or a minted one, and every minted slot was minted for a vertex
without a slot and is the slot the vertex holds. -/
structure MintInv (t0 : Nat → Int) (w : Work) : Prop where
  stable : ∀ v, t0 v ≠ -1 → (w.meshOld.point v).tmp = t0 v
  covered : ∀ v, (w.meshOld.point v).tmp ≠ -1 →
    t0 v = (w.meshOld.point v).tmp ∨ (v, (w.meshOld.point v).tmp) ∈ w.logMint
  minted : ∀ q ∈ w.logMint, t0 q.1 = -1 ∧ (w.meshOld.point q.1).tmp = q.2 ∧ q.2 ≠ -1
  nodup : (w.logMint.map Prod.fst).Nodup

/-- The copy of a source vertex in the sub-mesh under construction carries
the slot of the source vertex. -/
def Sync (w : Work) : Prop :=
  ∀ q ∈ w.logPt, (w.grpCur.mesh.point q.2).tmp = (w.meshOld.point q.1).tmp

/-- Invariant on the node communicator of the group under construction:
every entry names a copied vertex and carries its slot, no vertex is entered
twice, and every copied vertex that carries a slot is entered. -/
structure NodeInv (w : Work) : Prop where
  entry : ∀ i, i < w.grpCur.nitem_int_node_comm →
    1 ≤ w.grpCur.node2int_node_comm_index1 i ∧
    w.grpCur.node2int_node_comm_index1 i ≤ w.poiPerGrp ∧
    (w.grpCur.mesh.point (w.grpCur.node2int_node_comm_index1 i)).tmp =
      w.grpCur.node2int_node_comm_index2 i ∧
    w.grpCur.node2int_node_comm_index2 i ≠ -1
  inj : ∀ i j, i < w.grpCur.nitem_int_node_comm → j < w.grpCur.nitem_int_node_comm →
    w.grpCur.node2int_node_comm_index1 i = w.grpCur.node2int_node_comm_index1 j → i = j
  full : ∀ p, 1 ≤ p → p ≤ w.poiPerGrp → (w.grpCur.mesh.point p).tmp ≠ -1 →
    ∃ i, i < w.grpCur.nitem_int_node_comm ∧ w.grpCur.node2int_node_comm_index1 i = p

/-- What is known while the faces of the copy of element `tet` are visited:
the vertex bookkeeping, the slot invariants, and the vertex references of the
copy. -/
structure SlotPack (np : Nat) (seen : List Nat) (t0 : Nat → Int) (tet : Nat) (w : Work) :
    Prop where
  pt : PtInv np seen w
  sync : Sync w
  mint : MintInv t0 w
  node : NodeInv w
  tv : ∀ j : Fin 4, ((w.meshOld.tetra tet).v j, w.tetraCur.v j) ∈ w.logPt

/-- Invariant of the loop over the source elements on the slots. -/
structure PassInv (np : Nat) (t0 : Nat → Int) (seen : List Nat) (w : Work) : Prop where
  pt : PtInv np seen w
  sync : Sync w
  mint : MintInv t0 w
  node : NodeInv w

/-- The slot of a source vertex when the loop over the sub-groups starts:
the one stored from the node communicator of the source group, or `-1`. -/
def slot0 (grpOld : PMMG_Grp) (v : Nat) : Int := ((initTmp grpOld).point v).tmp

/-- What the node communicator of a finished sub-group satisfies, in terms of
its vertex log and of the slots minted so far: every entry names the copy of
a source vertex and carries the initial slot of that vertex or the slot
minted for it, no copy is entered twice, and the copy of every vertex that
had a slot initially is entered. -/
structure NodePost (t0 : Nat → Int) (grp : PMMG_Grp) (log : GrpLog) (mint : List (Nat × Int)) :
    Prop where
  entry : ∀ i, i < grp.nitem_int_node_comm →
    ∃ v, (v, grp.node2int_node_comm_index1 i) ∈ log.logPt ∧
      grp.node2int_node_comm_index2 i ≠ -1 ∧
      (t0 v = grp.node2int_node_comm_index2 i ∨ (v, grp.node2int_node_comm_index2 i) ∈ mint)
  inj : ∀ i j, i < grp.nitem_int_node_comm → j < grp.nitem_int_node_comm →
    grp.node2int_node_comm_index1 i = grp.node2int_node_comm_index1 j → i = j
  full : ∀ q ∈ log.logPt, t0 q.1 ≠ -1 →
    ∃ i, i < grp.nitem_int_node_comm ∧ grp.node2int_node_comm_index1 i = q.2

/-- The two glued tetrahedra in a source group whose node communicator lists
vertex 2 with slot 0, the global slot counter being 1. -/
def pm2c : PMMG_ParMesh :=
  { listgrp := [{ mesh := mesh2, nitem_int_node_comm := 1
                  node2int_node_comm_index1 := fun _ => 2
                  node2int_node_comm_index2 := fun _ => 0 }]
    int_node_comm_nitem := 1, memGloMax := 100, grants := 100 }

/-- No source element has a neighbour assigned to another sub-group: every
non-zero adjacency code links two elements with the same assignment. -/
def NoCross (m : MMG5_Mesh) (part : List Nat) : Prop :=
  ∀ t, 1 ≤ t → t ≤ m.ne → ∀ f : Fin 4, m.adja (adjaIdx t f) ≠ 0 →
    part.getD (m.adja (adjaIdx t f) / 4 - 1) 0 = part.getD (t - 1) 0

/-- Invariant on the boundary-element table of the mesh under construction
when no interface face is created: the records are the copies of the records
of the copied source elements, each bound to the copy of its element. -/
structure XtCopy (w : Work) : Prop where
  bound : ∀ q ∈ w.logTet,
    ((w.meshOld.tetra q.1).xt = 0 → (w.grpCur.mesh.tetra q.2).xt = 0) ∧
    ((w.meshOld.tetra q.1).xt ≠ 0 → 1 ≤ (w.grpCur.mesh.tetra q.2).xt ∧
      (w.grpCur.mesh.tetra q.2).xt ≤ w.grpCur.mesh.xt ∧
      w.grpCur.mesh.xtetra (w.grpCur.mesh.tetra q.2).xt =
        w.meshOld.xtetra (w.meshOld.tetra q.1).xt)
  onto : ∀ k, 1 ≤ k → k ≤ w.grpCur.mesh.xt →
    ∃ q ∈ w.logTet, (w.grpCur.mesh.tetra q.2).xt = k
  count : w.grpCur.mesh.xt =
    (w.logTet.filter (fun q => decide ((w.meshOld.tetra q.1).xt ≠ 0))).length

/-- What the traversal of one source element leaves alone when it creates no
interface face: the face communicator, the slots, and the boundary-element
table up to the copy of the record of the element. -/
structure Quiet (w w' : Work) : Prop where
  sf : SameFace w w'
  ss : SameSlot w w'

/-- The record `b` is the record `a` up to what `_MMG5_settag` may do: same
face references, face tags and orientation, and edge tags that contain those
of `a`. -/
structure XtRel (a b : MMG5_xTetra) : Prop where
  ref : b.ref = a.ref
  ftag : b.ftag = a.ftag
  ori : b.ori = a.ori
  tag : ∀ e bits, a.tag e &&& bits = bits → b.tag e &&& bits = bits

/-- No boundary record of a source element carries `MG_PARBDY` on an edge. -/
def NoParbdy (m : MMG5_Mesh) : Prop :=
  ∀ t, 1 ≤ t → t ≤ m.ne → (m.tetra t).xt ≠ 0 →
    ∀ e, (m.xtetra (m.tetra t).xt).tag e &&& MG_PARBDY = 0

/-- The boundary-element table of a finished sub-mesh `M` when no interface
face was created, `log` being the element log of the sub-group: there are as
many records as copied elements that had one, the copy of an element without
a record has none, the copy of an element with a record is bound to a record
that is the source record up to the reported edge tags, and every record is
bound to a copy. -/
structure XtPost (m0 M : MMG5_Mesh) (log : List (Nat × Nat)) : Prop where
  count : M.xt = (log.filter (fun q => decide ((m0.tetra q.1).xt ≠ 0))).length
  bound : ∀ q ∈ log,
    ((m0.tetra q.1).xt = 0 → (M.tetra q.2).xt = 0) ∧
    ((m0.tetra q.1).xt ≠ 0 → 1 ≤ (M.tetra q.2).xt ∧ (M.tetra q.2).xt ≤ M.xt ∧
      XtRel (m0.xtetra (m0.tetra q.1).xt) (M.xtetra (M.tetra q.2).xt))
  onto : ∀ k, 1 ≤ k → k ≤ M.xt → ∃ q ∈ log, (M.tetra q.2).xt = k ∧ (m0.tetra q.1).xt ≠ 0
  exact : M.ne = log.length → NoParbdy m0 → ∀ q ∈ log, (m0.tetra q.1).xt ≠ 0 →
    M.xtetra (M.tetra q.2).xt = m0.xtetra (m0.tetra q.1).xt

/-- Three tetrahedra: `(1,2,3,4)` and `(5,2,4,3)` glued along their faces 0,
and `(6,7,8,9)` apart.  The first two have a boundary record.  Face 3 of the
first lies on a parallel interface, so that its three edges (0, 1, 3) and the
face carry the interface tags; the second has face 2 on the boundary, and its
record does not carry `MG_PARBDY` on edge 4, which is the edge `(2,3)` it
shares with the first. -/
def mesh3x : MMG5_Mesh :=
  { np := 9, ne := 3
    tetra := fun t =>
      if t = 1 then { v := mkV 1 2 3 4, xt := 1 }
      else if t = 2 then { v := mkV 5 2 4 3, xt := 2 }
      else if t = 3 then { v := mkV 6 7 8 9 } else {}
    xtetra := fun k =>
      if k = 1 then
        { ftag := fun f => if f = 3 then parbdyMask else 0
          tag := fun e => if e = 0 ∨ e = 1 ∨ e = 3 then parbdyMask else 0 }
      else if k = 2 then { ftag := fun f => if f = 2 then MG_BDY else 0 }
      else {}
    adja := fun i => if i = 1 then 8 else if i = 5 then 4 else 0 }

/-- A parmesh holding `mesh3x` as its single group. -/
def pm3x : PMMG_ParMesh := { listgrp := [{ mesh := mesh3x }], memGloMax := 100, grants := 100 }

/-- Every external call succeeds; the two glued elements go to sub-group 0
and the third to sub-group 1.  The shell of an edge is the one of the glued
pair: edge 3 of element 1 and edge 4 of element 2 are the same edge, every
other edge belongs to its own element only (in sub-mesh 0 the record of
element `k` is record `k`). -/
def env3x : Env :=
  { partition := some [0, 0, 1], meshGrants := fun _ => 100
    shell := fun _ start ia _ edg k e =>
      if (start = 1 ∧ ia = 3 ∨ start = 2 ∧ ia = 4) ∧ (k = 1 ∧ e = 3 ∨ k = 2 ∧ e = 4) then
        some edg
      else if k = start ∧ e = ia then some edg
      else none }

/-- The tag `x` contains every bit of the mask
`MG_PARBDY + MG_BDY + MG_REQ + MG_NOSURF`. -/
def HasMask (x : Nat) : Prop := x &&& parbdyMask = parbdyMask

/-- From `w` to `w'` the tables of the mesh under construction only grow and
the tags already set stay set: the boundary records in use keep their mask
bits, the vertices in use keep theirs, and the elements `1 .. lim` keep their
vertex references and their boundary record once they have one. -/
structure TagMono (lim : Nat) (w w' : Work) : Prop where
  xt : w.grpCur.mesh.xt ≤ w'.grpCur.mesh.xt
  poi : w.poiPerGrp ≤ w'.poiPerGrp
  ftag : ∀ k, k ≤ w.grpCur.mesh.xt → ∀ f, HasMask ((w.grpCur.mesh.xtetra k).ftag f) →
    HasMask ((w'.grpCur.mesh.xtetra k).ftag f)
  tag : ∀ k, k ≤ w.grpCur.mesh.xt → ∀ e, HasMask ((w.grpCur.mesh.xtetra k).tag e) →
    HasMask ((w'.grpCur.mesh.xtetra k).tag e)
  ptag : ∀ p, p ≤ w.poiPerGrp → HasMask (w.grpCur.mesh.point p).tag →
    HasMask (w'.grpCur.mesh.point p).tag
  tet : ∀ k, 1 ≤ k → k ≤ lim → (w'.grpCur.mesh.tetra k).v = (w.grpCur.mesh.tetra k).v ∧
    ((w.grpCur.mesh.tetra k).xt ≠ 0 →
      (w'.grpCur.mesh.tetra k).xt = (w.grpCur.mesh.tetra k).xt)

/-- Face `fac` of element `k` of the mesh under construction is tagged as an
interface face: the element has a boundary record whose tag of the face and
tags of the three edges of the face contain the mask, and so do the tags of
the three vertices of the face. -/
structure FaceTagged (m : MMG5_Mesh) (k : Nat) (fac : Fin 4) : Prop where
  xt_pos : (m.tetra k).xt ≠ 0
  ftag : HasMask ((m.xtetra (m.tetra k).xt).ftag fac)
  tag : ∀ j : Fin 3, HasMask ((m.xtetra (m.tetra k).xt).tag (MMG5_iarf fac j))
  ptag : ∀ j : Fin 3, HasMask (m.point ((m.tetra k).v (MMG5_idir fac j))).tag

/-- The tagged face with the bounds that keep it tagged: the record of the
element and the three vertices are in use. -/
structure TaggedIn (w : Work) (k : Nat) (fac : Fin 4) : Prop where
  tagged : FaceTagged w.grpCur.mesh k fac
  xt_le : (w.grpCur.mesh.tetra k).xt ≤ w.grpCur.mesh.xt
  v_le : ∀ j : Fin 3, (w.grpCur.mesh.tetra k).v (MMG5_idir fac j) ≤ w.poiPerGrp

/-- The element under construction refers to a boundary record in use and
to vertices in use. -/
structure CurIn (w : Work) : Prop where
  xt_le : w.tetraCur.xt ≤ w.grpCur.mesh.xt
  v_le : ∀ i, w.tetraCur.v i ≤ w.poiPerGrp

/-- A step that only writes tags: the counters, the element table and the
number of boundary records stay, the tags already set stay set. -/
structure TagStep (u u' : Work) : Prop where
  cnt : u'.tetPerGrp = u.tetPerGrp
  poi : u'.poiPerGrp = u.poiPerGrp
  tetra : u'.grpCur.mesh.tetra = u.grpCur.mesh.tetra
  xt : u'.grpCur.mesh.xt = u.grpCur.mesh.xt
  mono : ∀ lim, TagMono lim u u'

/-- Every interface face of the elements copied so far is tagged. -/
def AllTagged (c : Ctx) (m0 : MMG5_Mesh) (w : Work) : Prop :=
  ∀ q ∈ w.logTet, ∀ f, crossFace m0 c.part c.grpId q.1 f = true → TaggedIn w q.2 f

/-- The local face index `code % 4` of an adjacency code. -/
def nbFace (code : Nat) : Fin 4 := ⟨code % 4, Nat.mod_lt _ (by decide)⟩

/-- Symmetric adjacency: when face `fa` of element `A` has the code
`4*B+fb`, then `B` is another element and face `fb` of `B` has the code
`4*A+fa`. -/
def SymAdja (m : MMG5_Mesh) : Prop :=
  ∀ A, 1 ≤ A → A ≤ m.ne → ∀ fa : Fin 4, m.adja (adjaIdx A fa) ≠ 0 →
    m.adja (adjaIdx A fa) / 4 ≠ A ∧
    m.adja (adjaIdx (m.adja (adjaIdx A fa) / 4) (nbFace (m.adja (adjaIdx A fa)))) =
      4 * A + fa.val

/-- Face `f` of source element `X` has been handled when the traversal is at
element `tet` and has handled the faces `done` of it. -/
def DoneAt (tet : Nat) (done : List (Fin 4)) (X : Nat) (f : Fin 4) : Prop :=
  (1 ≤ X ∧ X < tet) ∨ (X = tet ∧ f ∈ done)

/-- The state of the rebuilt adjacency code of face `fa` of the copy of the
source element `A`: `0` when the source face has no neighbour or a neighbour
in another sub-group; the code of the copy of the neighbour once both faces
have been handled; the source code until then. -/
structure AdjOk (c : Ctx) (m0 : MMG5_Mesh) (Done : Nat → Fin 4 → Prop) (u : Work) (A : Nat)
    (fa : Fin 4) : Prop where
  zero : m0.adja (adjaIdx A fa) = 0 ∨
      c.partAt (m0.adja (adjaIdx A fa) / 4 - 1) ≠ c.grpId →
    u.grpCur.mesh.adja (adjaIdx (u.meshOld.tetra A).flag fa) = 0
  link : m0.adja (adjaIdx A fa) ≠ 0 →
    c.partAt (m0.adja (adjaIdx A fa) / 4 - 1) = c.grpId →
    Done (m0.adja (adjaIdx A fa) / 4) (nbFace (m0.adja (adjaIdx A fa))) →
    u.grpCur.mesh.adja (adjaIdx (u.meshOld.tetra A).flag fa) =
      4 * (u.meshOld.tetra (m0.adja (adjaIdx A fa) / 4)).flag + m0.adja (adjaIdx A fa) % 4
  stale : m0.adja (adjaIdx A fa) ≠ 0 →
    c.partAt (m0.adja (adjaIdx A fa) / 4 - 1) = c.grpId →
    ¬ Done (m0.adja (adjaIdx A fa) / 4) (nbFace (m0.adja (adjaIdx A fa))) →
    u.grpCur.mesh.adja (adjaIdx (u.meshOld.tetra A).flag fa) = m0.adja (adjaIdx A fa)

/-- The codes of the faces of the elements of the sub-group handled so far
are in their state. -/
def AdjAll (c : Ctx) (m0 : MMG5_Mesh) (tet : Nat) (done : List (Fin 4)) (u : Work) : Prop :=
  ∀ A fa, DoneAt tet done A fa → c.partAt (A - 1) = c.grpId →
    AdjOk c m0 (DoneAt tet done) u A fa

/-- Every external call succeeds; the first element of the chain goes to
sub-group 1, the two others to sub-group 0. -/
def env3s : Env := { partition := some [1, 0, 0], meshGrants := fun _ => 100 }

/-- A source mesh with one element bound to boundary record 2 and to a first
vertex bound to boundary-vertex record 3. -/
def meshSrc : MMG5_Mesh :=
  { ne := 1, np := 4, xt := 2, xp := 3
    tetra := fun t => if t = 1 then { v := mkV 1 2 3 4, xt := 2 } else {}
    point := fun p => if p = 1 then { xp := 3 } else {}
    xtetra := fun k => if k = 2 then { ftag := fun _ => 16, ori := 15 } else {}
    xpoint := fun k => if k = 3 then { n1 := (1, 0, 0) } else {} }

/-- A destination mesh with one record in each boundary table and room for
more. -/
def meshDst : MMG5_Mesh :=
  { xt := 1, xtmax := 4, xp := 1, xpmax := 4
    xtetra := fun k => if k = 1 then { ori := 7 } else {}
    xpoint := fun k => if k = 1 then { n1 := (0, 0, 1) } else {} }

/-- Every external call succeeds, the partitioner returns `part12`, and
`MMG3D_Set_meshSize` gives every sub-mesh a vertex capacity of eight more
than the requested number of vertices. -/
def env12cap : Env :=
  { partition := some part12, meshGrants := fun _ => 100, npmaxOf := fun n => n + 8 }

/-- The twelve tetrahedra, with the fourth glued to the first (face 0 of
element 1, vertices 2, 3, 4, is face 0 of element 4) and the fifth glued to
the second (face 0 of element 2, vertices 6, 7, 8, is face 0 of element 5). -/
def mesh12t : MMG5_Mesh :=
  { mesh12 with
    tetra := fun t => if t = 4 then { v := mkV 13 2 4 3 } else if t = 5 then { v := mkV 17 6 8 7 }
      else mesh12.tetra t
    adja := fun i => if i = 1 then 16 else if i = 13 then 4 else if i = 5 then 20
      else if i = 17 then 8 else 0 }

/-- A parmesh holding `mesh12t` as its single group. -/
def pm12t : PMMG_ParMesh :=
  { listgrp := [{ mesh := mesh12t }], memGloMax := 100, grants := 100 }

/-- Every external call succeeds; the first three elements go to sub-group 0,
the nine others to sub-group 1. -/
def env12t : Env :=
  { partition := some [0, 0, 0, 1, 1, 1, 1, 1, 1, 1, 1, 1], meshGrants := fun _ => 100 }

/-- The three entry points of the clean-up. -/
inductive FailLabel where
  | fail_sgrp
  | fail_counters
  | fail_part
deriving DecidableEq, Repr

/-- Lines 632-638: the numbers of `PMMG_DEL_MEM` calls on `countPerGrp` and on
`part` when the clean-up is entered at the given label and falls through to
the `return`. -/
def delCalls : FailLabel → Nat × Nat
  | .fail_sgrp => (1 + 1, 1)
  | .fail_counters => (1, 1)
  | .fail_part => (0, 1)

/-- The loop of `PMMG_count_digits`, with the number of iterations bounded by
`fuel`. -/
def countDigitsLoop : Nat → Int → Nat → Nat
  | 0, _, count => count
  | fuel + 1, n, count =>
    if n ≠ 0 then countDigitsLoop fuel (Int.tdiv n 10) (count + 1) else count

/-- `PMMG_count_digits`: the loop runs at most `|n|` times. -/
def PMMG_count_digits (n : Int) : Nat := countDigitsLoop n.natAbs n 0

/-- The string `s` starts with the string `p`. -/
def beginsWith : List Char → List Char → Bool
  | [], _ => true
  | _ :: _, [] => false
  | a :: p, b :: s => a == b && beginsWith p s

/-- C `strstr`: offset of the first occurrence of `needle` in `hay` (`none`
is the null pointer). -/
def strstr : List Char → List Char → Option Nat
  | [], needle => if needle.isEmpty then some 0 else none
  | c :: rest, needle =>
    if beginsWith needle (c :: rest) then some 0 else (strstr rest needle).map (· + 1)

/-- What `sprintf` prints for `%d` and a non-negative value. -/
def decimal (r : Nat) : List Char := Nat.toDigits 10 r

/-- `PMMG_insert_rankIndex`: the string left in `*endname`, for the rank
`myrank` and the name `initname` (strings are lists of characters without
the terminator). -/
def PMMG_insert_rankIndex (myrank : Nat) (initname ASCIIext binext : List Char) : List Char :=
  let endname := initname
  match strstr endname binext with
  | some i => endname.take i ++ [ '.' ] ++ decimal myrank ++ binext
  | none =>
    match strstr endname ASCIIext with
    | some i => endname.take i ++ [ '.' ] ++ decimal myrank ++ ASCIIext
    | none => endname ++ [ '.' ] ++ decimal myrank

/-- Number of characters `MMG5_SAFE_CALLOC` allocates for `*endname`. -/
def endnameSize (nprocs : Int) (initname : List Char) : Nat :=
  initname.length + PMMG_count_digits nprocs + 7

/-- The node-interface communicator of a group as the list of its pairs
`(index1[i], index2[i])`, `i < nitem_int_node_comm`. -/
def nodeTable (g : PMMG_Grp) : List (Nat × Int) :=
  (List.range g.nitem_int_node_comm).map
    (fun i => (g.node2int_node_comm_index1 i, g.node2int_node_comm_index2 i))

/-- The pairs passed to `PMMG_n2incAppend` by the loop `forEach f l`, when
`calls a w` lists the pairs passed by the body `f a` started in `w`. -/
def forEachCalls {α : Type} (f : α → Work → Except Work Work)
    (calls : α → Work → List (Nat × Int)) : List α → Work → List (Nat × Int)
  | [], _ => []
  | a :: as, w =>
    calls a w ++
      match f a w with
      | .ok w1 => forEachCalls f calls as w1
      | .error _ => []

/-- The call of `PMMG_n2incAppend` at lines 415-422 (the vertex is seen for
the first time and carries a slot). -/
def addPointCalls (c : Ctx) (tet : Nat) (poi : Fin 4) (w : Work) : List (Nat × Int) :=
  let ip := (w.meshOld.tetra tet).v poi
  if (w.meshOld.point ip).flag = 0 then
    let w1 := addPointRec c tet poi w
    if (w1.grpCur.mesh.point w1.poiPerGrp).tmp ≠ -1 then
      [(w1.poiPerGrp, (w1.grpCur.mesh.point w1.poiPerGrp).tmp)]
    else []
  else []

/-- The call of `PMMG_n2incAppend` at lines 507-515 (a vertex of a new
interface face has no slot yet). -/
def mintPointCalls (tet : Nat) (fac : Fin 4) (poi : Fin 3) (w : Work) : List (Nat × Int) :=
  let ip := w.tetraCur.v (MMG5_idir fac poi)
  if (w.grpCur.mesh.point ip).tmp = -1 then [(ip, (w.int_node_comm_nitem : Int) + 1)] else []

/-- The calls of one iteration of the second loop over the faces
(lines 502-526). -/
def mintFaceCalls (c : Ctx) (tet : Nat) (fac : Fin 4) (w : Work) : List (Nat × Int) :=
  let adjidx := w.meshOld.adja (adjaIdx tet fac) / 4
  if adjidx ≠ 0 ∧ c.grpId ≠ c.partAt (adjidx - 1) then
    forEachCalls (mintPoint tet fac) (mintPointCalls tet fac) [0, 1, 2] w
  else []

/-- The calls of one iteration of the loop over the source elements
(lines 356-527): those of the loop over the vertices, then those of the
second loop over the faces. -/
def tetStepCalls (c : Ctx) (tet : Nat) (w : Work) : List (Nat × Int) :=
  let w0 := resetFlag tet w
  if c.grpId ≠ c.partAt (tet - 1) then []
  else
    match copyTetra tet w0 with
    | .error _ => []
    | .ok w1 =>
      forEachCalls (addPoint c tet) (addPointCalls c tet) [0, 1, 2, 3] w1 ++
        match forEach (addPoint c tet) [0, 1, 2, 3] w1 with
        | .error _ => []
        | .ok w2 =>
          match forEach (updateAdja c tet) [0, 1, 2, 3] (copyAdja tet w2) with
          | .error _ => []
          | .ok w3 => forEachCalls (mintFace c tet) (mintFaceCalls c tet) [0, 1, 2, 3] w3

/-- The calls of the traversal of one sub-group (lines 340-527). -/
def splitGrpCalls (c : Ctx) (count : Nat) (w : Work) : List (Nat × Int) :=
  forEachCalls (tetStep c) (tetStepCalls c) (List.range' 1 w.meshOld.ne) (passStart count w)

/-- The calls of the loop over `grpId`, one list per sub-group. -/
def splitLoopCalls (env : Env) (part : List Nat) (metOld : MMG5_Sol) (cnt : Nat → Nat) :
    List PMMG_Grp → Nat → Work → List (List (Nat × Int))
  | [], _, _ => []
  | g :: rest, grpId, w =>
    splitGrpCalls { part := part, grpId := grpId, metOld := metOld } (cnt grpId)
        { w with grpCur := g } ::
      match splitGrp env { part := part, grpId := grpId, metOld := metOld } (cnt grpId)
          { w with grpCur := g } with
      | .error _ => []
      | .ok w1 => splitLoopCalls env part metOld cnt rest (grpId + 1) w1

/-- The pairs passed to `PMMG_n2incAppend` by `PMMG_splitGrps`, one list per
sub-group, in call order. -/
def n2incCalls (env : Env) (parmesh : PMMG_ParMesh) (target_mesh_size : Int) :
    List (List (Nat × Int)) :=
  let grpOld := parmesh.listgrp.headD {}
  let ngrp := (PMMG_howManyGroups grpOld.mesh.ne target_mesh_size).toNat
  match env.partition with
  | none => []
  | some part =>
    let cnt := countPerGrp part grpOld.mesh.ne
    match newGrps env grpOld ((List.range ngrp).map cnt) 0 (parmesh.grants - 1 - 1 - 1) with
    | .error _ => []
    | .ok (grps, grants) =>
      splitLoopCalls env part grpOld.met cnt grps 0 (startWork parmesh grpOld cnt ngrp grants)

/-- From `w` to `w'` every vertex of the mesh under construction keeps its
coordinates and its reference. -/
structure PtGeo (w w' : Work) : Prop where
  c : ∀ k, (w'.grpCur.mesh.point k).c = (w.grpCur.mesh.point k).c
  ref : ∀ k, (w'.grpCur.mesh.point k).ref = (w.grpCur.mesh.point k).ref

/-- Every vertex copied so far has the coordinates and the reference of its
source vertex. -/
def GeoInv (m0 : MMG5_Mesh) (w : Work) : Prop :=
  ∀ p ∈ w.logPt, (w.grpCur.mesh.point p.2).c = (m0.point p.1).c ∧
    (w.grpCur.mesh.point p.2).ref = (m0.point p.1).ref

/-- Every vertex reference of every element copied so far is the local id
under which the source vertex at the same position was copied. -/
def VRefInv (m0 : MMG5_Mesh) (w : Work) : Prop :=
  ∀ q ∈ w.logTet, ∀ i, ((m0.tetra q.1).v i, (w.grpCur.mesh.tetra q.2).v i) ∈ w.logPt

/-- The chain of three tetrahedra with coordinates `(p, 2p, 0)` and reference
`10 + p` on vertex `p`. -/
def mesh3c : MMG5_Mesh :=
  { mesh3 with point := fun p => { c := ((p : Int), 2 * (p : Int), 0), ref := 10 + (p : Int) } }

/-- A parmesh holding `mesh3c` as its single group. -/
def pm3c : PMMG_ParMesh := { listgrp := [{ mesh := mesh3c }], memGloMax := 100, grants := 100 }

/-- The step from `w` to `w'` leaves the field of the group under
construction alone. -/
def MetSame (w w' : Work) : Prop := w'.grpCur.met = w.grpCur.met

/-- Every vertex copied so far has the value of its source vertex in the
field of the group under construction. -/
def FieldInv (mo : Nat → Int) (w : Work) : Prop :=
  ∀ p ∈ w.logPt, ∀ k, k < w.grpCur.met.size →
    w.grpCur.met.m (p.2 * w.grpCur.met.size + k) = mo (p.1 * w.grpCur.met.size + k)

/-- The local ids given so far do not exceed the vertex counter. -/
def LogBound (w : Work) : Prop := ∀ p ∈ w.logPt, p.2 ≤ w.poiPerGrp

/-- The chain of three tetrahedra with a tensor field (size 6) whose
component `i` has the value `i`. -/
def met3 : MMG5_Sol := { hasM := true, size := 6, np := 6, npi := 6, m := fun i => (i : Int) }

/-- A parmesh holding `mesh3` with the field `met3` as its single group. -/
def pm3m : PMMG_ParMesh :=
  { listgrp := [{ mesh := mesh3, met := met3 }], memGloMax := 100, grants := 100 }

/-- The boundary-element records `1 .. xt` of the mesh under construction
and the elements `1 .. tetPerGrp`: the `xt` field of an element names a
record in use, every record in use is named by an element, and by one
only. -/
structure XtBind (w : Work) : Prop where
  le : ∀ k, 1 ≤ k → k ≤ w.tetPerGrp → (w.grpCur.mesh.tetra k).xt ≤ w.grpCur.mesh.xt
  onto : ∀ x, 1 ≤ x → x ≤ w.grpCur.mesh.xt →
    ∃ k, 1 ≤ k ∧ k ≤ w.tetPerGrp ∧ (w.grpCur.mesh.tetra k).xt = x
  inj : ∀ k k1, 1 ≤ k → k ≤ w.tetPerGrp → 1 ≤ k1 → k1 ≤ w.tetPerGrp →
    (w.grpCur.mesh.tetra k).xt ≠ 0 →
    (w.grpCur.mesh.tetra k).xt = (w.grpCur.mesh.tetra k1).xt → k = k1

/-- From `w` to `w'` the number of boundary-vertex records of the mesh under
construction and the `xp` field of each of its vertices are unchanged. -/
structure PtXp (w w' : Work) : Prop where
  cnt : w'.poiPerGrp = w.poiPerGrp
  xp : w'.grpCur.mesh.xp = w.grpCur.mesh.xp
  pxp : ∀ k, (w'.grpCur.mesh.point k).xp = (w.grpCur.mesh.point k).xp

/-- The boundary-vertex records `1 .. xp` of the mesh under construction and
the vertices `1 .. poiPerGrp`: the `xp` field of a vertex names a record in
use, every record in use is named by a vertex, and by one only. -/
structure XpBind (w : Work) : Prop where
  le : ∀ k, 1 ≤ k → k ≤ w.poiPerGrp → (w.grpCur.mesh.point k).xp ≤ w.grpCur.mesh.xp
  onto : ∀ x, 1 ≤ x → x ≤ w.grpCur.mesh.xp →
    ∃ k, 1 ≤ k ∧ k ≤ w.poiPerGrp ∧ (w.grpCur.mesh.point k).xp = x
  inj : ∀ k k1, 1 ≤ k → k ≤ w.poiPerGrp → 1 ≤ k1 → k1 ≤ w.poiPerGrp →
    (w.grpCur.mesh.point k).xp ≠ 0 →
    (w.grpCur.mesh.point k).xp = (w.grpCur.mesh.point k1).xp → k = k1

/-- The chain of three tetrahedra with boundary records in the source: the
element 3 has the boundary-element record 1, the vertices 1 and 6 have the
boundary-vertex records 1 and 2. -/
def mesh3b : MMG5_Mesh :=
  { mesh3 with
    xt := 1, xtmax := 1, xp := 2, xpmax := 2
    tetra := fun t => if t = 3 then { mesh3.tetra 3 with xt := 1 } else mesh3.tetra t
    point := fun p => if p = 1 then { xp := 1 } else if p = 6 then { xp := 2 } else {} }

/-- A parmesh holding `mesh3b` as its single group. -/
def pm3b : PMMG_ParMesh := { listgrp := [{ mesh := mesh3b }], memGloMax := 100, grants := 100 }

/-- Face `f` of the record `b` has the reference and the tag of face `f` of
the record `a`. -/
def FaceSame (a b : MMG5_xTetra) (f : Fin 4) : Prop := b.ftag f = a.ftag f ∧ b.ref f = a.ref f

/-- Every record of every copy made so far comes from the source record of
the element or from an interface face of the element, and holds on each face
that is not an interface face the reference and the tag of the source
record. -/
def FaceKeep (c : Ctx) (m0 : MMG5_Mesh) (w : Work) : Prop :=
  ∀ q ∈ w.logTet, (w.grpCur.mesh.tetra q.2).xt ≠ 0 →
    ((m0.tetra q.1).xt ≠ 0 ∨ ∃ f, crossFace m0 c.part c.grpId q.1 f = true) ∧
    ∀ f, crossFace m0 c.part c.grpId q.1 f = false →
      FaceSame (m0.xtetra (m0.tetra q.1).xt)
        (w.grpCur.mesh.xtetra (w.grpCur.mesh.tetra q.2).xt) f

/-- The state `w` inside the traversal of the source element `tet`, `u`
being the state before it: the elements and the records of `u` are as in
`u`, and the record of the element under construction, if any, is a new one
that holds on each face that is not an interface face the reference and the
tag of the source record. -/
structure Mid (c : Ctx) (m0 : MMG5_Mesh) (tet : Nat) (u w : Work) : Prop where
  cnt : w.tetPerGrp = u.tetPerGrp + 1
  xt : u.grpCur.mesh.xt ≤ w.grpCur.mesh.xt
  old_tet : ∀ k, k ≤ u.tetPerGrp → w.grpCur.mesh.tetra k = u.grpCur.mesh.tetra k
  old_rec : ∀ x, x ≤ u.grpCur.mesh.xt →
    (w.grpCur.mesh.xtetra x).ftag = (u.grpCur.mesh.xtetra x).ftag ∧
    (w.grpCur.mesh.xtetra x).ref = (u.grpCur.mesh.xtetra x).ref
  cur : w.tetraCur.xt ≠ 0 → u.grpCur.mesh.xt < w.tetraCur.xt ∧
    ((m0.tetra tet).xt ≠ 0 ∨ ∃ f, crossFace m0 c.part c.grpId tet f = true) ∧
    ∀ f, crossFace m0 c.part c.grpId tet f = false →
      FaceSame (m0.xtetra (m0.tetra tet).xt) (w.grpCur.mesh.xtetra w.tetraCur.xt) f

/-- The chain of three tetrahedra in which the element 3 has a boundary
record with the face tags `16, 17, 18, 19` and the face references
`7, 7, 7, 7`; its faces 1, 2, 3 have no neighbour. -/
def mesh3f : MMG5_Mesh :=
  { mesh3 with
    xt := 1, xtmax := 1
    tetra := fun t => if t = 3 then { mesh3.tetra 3 with xt := 1 } else mesh3.tetra t
    xtetra := fun x => if x = 1 then { ftag := fun f => 16 + f.val, ref := fun _ => 7 } else {} }

/-- A parmesh holding `mesh3f` as its single group. -/
def pm3f : PMMG_ParMesh := { listgrp := [{ mesh := mesh3f }], memGloMax := 100, grants := 100 }

/-! ## Proof bookkeeping and theorems -/

@[simp] theorem upd_same {ι α : Type} [DecidableEq ι] (a : ι → α) (k : ι) (x : α) :
    upd a k x k = x := by simp [upd]

@[simp] theorem upd_ne {ι α : Type} [DecidableEq ι] (a : ι → α) {i k : ι} (x : α) (h : i ≠ k) :
    upd a k x i = a i := by simp [upd, h]

theorem upd_apply {ι α : Type} [DecidableEq ι] (a : ι → α) (i k : ι) (x : α) :
    upd a k x i = if i = k then x else a i := rfl

theorem andThen_ok_iff (x : Except Work Work) (f : Work → Except Work Work) (w' : Work) :
    andThen x f = .ok w' ↔ ∃ w1, x = .ok w1 ∧ f w1 = .ok w' := by
  cases x with
  | error e => simp [andThen]
  | ok w => simp [andThen]

@[simp] theorem forEach_nil {α : Type} (f : α → Work → Except Work Work) (w : Work) :
    forEach f [] w = .ok w := rfl

theorem forEach_cons_ok {α : Type} (f : α → Work → Except Work Work) (a : α) (l : List α)
    (w w' : Work) :
    forEach f (a :: l) w = .ok w' ↔ ∃ w1, f a w = .ok w1 ∧ forEach f l w1 = .ok w' := by
  simp [forEach, andThen_ok_iff]

theorem forEach_append_ok {α : Type} (f : α → Work → Except Work Work) (l1 l2 : List α)
    (w w' : Work) :
    forEach f (l1 ++ l2) w = .ok w' ↔ ∃ w1, forEach f l1 w = .ok w1 ∧ forEach f l2 w1 = .ok w' := by
  induction l1 generalizing w with
  | nil => simp
  | cons a l ih =>
    simp only [List.cons_append, forEach_cons_ok, ih]
    constructor
    · rintro ⟨w1, h1, w2, h2, h3⟩; exact ⟨w2, ⟨w1, h1, h2⟩, h3⟩
    · rintro ⟨w2, ⟨w1, h1, h2⟩, h3⟩; exact ⟨w1, h1, w2, h2, h3⟩

/-- Invariant rule for `forEach`, indexed by the processed prefix. -/
theorem forEach_prefix_inv {α : Type} (f : α → Work → Except Work Work)
    (I : List α → Work → Prop) (l : List α)
    (hstep : ∀ (pre : List α) (a : α) (w w' : Work), (∃ post, l = pre ++ a :: post) → I pre w →
      f a w = .ok w' → I (pre ++ [a]) w')
    (w w' : Work) (h : forEach f l w = .ok w') (h0 : I [] w) : I l w' := by
  suffices H : ∀ (done todo : List α) (w : Work), l = done ++ todo → I done w →
      forEach f todo w = .ok w' → I l w' from H [] l w rfl h0 h
  intro done todo
  induction todo generalizing done with
  | nil => intro w hl hI hf; simp at hf hl; subst hf; subst hl; exact hI
  | cons a todo ih =>
    intro w hl hI hf
    rw [forEach_cons_ok] at hf
    obtain ⟨w1, h1, h2⟩ := hf
    exact ih (done ++ [a]) w1 (by simp [hl]) (hstep done a w w1 ⟨todo, hl⟩ hI h1) h2

/-- Invariant rule for `forEach`. -/
theorem forEach_inv {α : Type} (f : α → Work → Except Work Work) (I : Work → Prop) (l : List α)
    (hstep : ∀ (a : α) (w w' : Work), a ∈ l → I w → f a w = .ok w' → I w')
    (w w' : Work) (h : forEach f l w = .ok w') (h0 : I w) : I w' := by
  induction l generalizing w with
  | nil => simp at h; subst h; exact h0
  | cons a l ih =>
    rw [forEach_cons_ok] at h
    obtain ⟨w1, h1, h2⟩ := h
    exact ih (fun b u u' hb => hstep b u u' (List.mem_cons_of_mem _ hb)) w1 h2
      (hstep a w w1 (List.mem_cons_self _ _) h0 h1)

/-- Relational rule for `forEach`. -/
theorem forEach_rel {α : Type} (f : α → Work → Except Work Work) (R : Work → Work → Prop)
    (hrefl : ∀ w, R w w) (htrans : ∀ a b c, R a b → R b c → R a c) (l : List α)
    (hstep : ∀ (a : α) (w w' : Work), a ∈ l → f a w = .ok w' → R w w')
    (w w' : Work) (h : forEach f l w = .ok w') : R w w' :=
  forEach_inv f (fun u => R w u) l (fun a u u' ha hu hf => htrans _ _ _ hu (hstep a u u' ha hf))
    w w' h (hrefl w)

theorem xtetraAppend_some {mTo mFrom : MMG5_Mesh} {loc : Nat} {m : MMG5_Mesh}
    (h : PMMG_xtetraAppend mTo mFrom loc = some m) :
    m.xt = mTo.xt + 1 ∧
    m.xtetra = upd mTo.xtetra (mTo.xt + 1) (mFrom.xtetra (mFrom.tetra loc).xt) ∧
    m.point = mTo.point ∧ m.tetra = mTo.tetra ∧ m.adja = mTo.adja ∧ m.xpoint = mTo.xpoint ∧
    m.xp = mTo.xp ∧ m.np = mTo.np ∧ m.ne = mTo.ne ∧ m.npmax = mTo.npmax ∧
    m.nemax = mTo.nemax ∧ m.xpmax = mTo.xpmax ∧ m.npi = mTo.npi ∧ m.npnil = mTo.npnil ∧
    m.info = mTo.info := by
  unfold PMMG_xtetraAppend at h
  simp only [ge_iff_le] at h
  split_ifs at h with h1 h2
  · simp at h
  · simp at h; subst h; simp
  · simp at h; subst h; simp

theorem xpointAppend_some {mTo mFrom : MMG5_Mesh} {tet : Nat} {poi : Fin 4} {m : MMG5_Mesh}
    (h : PMMG_xpointAppend mTo mFrom tet poi = some m) :
    m.xp = mTo.xp + 1 ∧
    m.xpoint = upd mTo.xpoint (mTo.xp + 1)
      (mFrom.xpoint (mFrom.point ((mFrom.tetra tet).v poi)).xp) ∧
    m.point = mTo.point ∧ m.tetra = mTo.tetra ∧ m.adja = mTo.adja ∧ m.xtetra = mTo.xtetra ∧
    m.xt = mTo.xt ∧ m.np = mTo.np ∧ m.ne = mTo.ne ∧ m.npmax = mTo.npmax ∧
    m.nemax = mTo.nemax ∧ m.xtmax = mTo.xtmax ∧ m.npi = mTo.npi ∧ m.npnil = mTo.npnil ∧
    m.info = mTo.info := by
  unfold PMMG_xpointAppend at h
  simp only [ge_iff_le] at h
  split_ifs at h with h1 h2
  · simp at h
  · simp at h; subst h; simp
  · simp at h; subst h; simp

theorem n2incAppend_some {gr : Nat} {grp : PMMG_Grp} {mx i1 : Nat} {i2 : Int}
    {r : Nat × PMMG_Grp × Nat} (h : PMMG_n2incAppend gr grp mx i1 i2 = some r) :
    r.2.1.mesh = grp.mesh ∧ r.2.1.met = grp.met ∧
    r.2.1.nitem_int_node_comm = grp.nitem_int_node_comm + 1 ∧
    r.2.1.node2int_node_comm_index1 =
      upd grp.node2int_node_comm_index1 grp.nitem_int_node_comm i1 ∧
    r.2.1.node2int_node_comm_index2 =
      upd grp.node2int_node_comm_index2 grp.nitem_int_node_comm i2 ∧
    r.2.1.nitem_int_face_comm = grp.nitem_int_face_comm ∧
    r.2.1.node2int_face_comm_index1 = grp.node2int_face_comm_index1 ∧
    r.2.1.node2int_face_comm_index2 = grp.node2int_face_comm_index2 ∧
    r.2.1.face_alloc = grp.face_alloc := by
  unfold PMMG_n2incAppend at h
  simp only [ge_iff_le] at h
  split_ifs at h with h1 h2
  · simp at h
  · simp at h; subst h; simp
  · simp at h; subst h; simp

theorem n2ifcAppend_some {gr : Nat} {grp : PMMG_Grp} {mx i1 : Nat} {i2 : Int}
    {r : Nat × PMMG_Grp × Nat} (h : PMMG_n2ifcAppend gr grp mx i1 i2 = some r) :
    r.2.1.mesh = grp.mesh ∧ r.2.1.met = grp.met ∧
    r.2.1.nitem_int_face_comm = grp.nitem_int_face_comm + 1 ∧
    r.2.1.node2int_face_comm_index1 =
      upd grp.node2int_face_comm_index1 grp.nitem_int_face_comm i1 ∧
    r.2.1.node2int_face_comm_index2 =
      upd grp.node2int_face_comm_index2 grp.nitem_int_face_comm i2 ∧
    r.2.1.nitem_int_node_comm = grp.nitem_int_node_comm ∧
    r.2.1.node2int_node_comm_index1 = grp.node2int_node_comm_index1 ∧
    r.2.1.node2int_node_comm_index2 = grp.node2int_node_comm_index2 ∧
    r.2.1.node_alloc = grp.node_alloc := by
  unfold PMMG_n2ifcAppend at h
  simp only [ge_iff_le] at h
  split_ifs at h with h1 h2
  · simp at h
  · simp at h; subst h; simp
  · simp at h; subst h; simp

theorem OldStatic.os_refl (w : Work) : OldStatic w w :=
  ⟨rfl, rfl, rfl, fun _ => rfl, fun _ => rfl, rfl, rfl, fun _ => rfl, fun _ => rfl,
    fun _ => rfl, fun _ => rfl⟩

theorem OldStatic.os_trans {a b c : Work} (h1 : OldStatic a b) (h2 : OldStatic b c) :
    OldStatic a c :=
  ⟨h2.adja.trans h1.adja, h2.ne.trans h1.ne, h2.np.trans h1.np,
    fun t => (h2.tv t).trans (h1.tv t), fun t => (h2.txt t).trans (h1.txt t),
    h2.xtetra.trans h1.xtetra, h2.xpoint.trans h1.xpoint,
    fun v => (h2.pxp v).trans (h1.pxp v), fun v => (h2.ptag v).trans (h1.ptag v),
    fun v => (h2.pc v).trans (h1.pc v), fun v => (h2.pref v).trans (h1.pref v)⟩

theorem SameTet.st_refl (w : Work) : SameTet w w := ⟨rfl, rfl, fun _ => rfl⟩

theorem SameTet.st_trans {a b c : Work} (h1 : SameTet a b) (h2 : SameTet b c) : SameTet a c :=
  ⟨h2.log.trans h1.log, h2.cnt.trans h1.cnt, fun t => (h2.flag t).trans (h1.flag t)⟩

theorem SamePt.sp_refl (w : Work) : SamePt w w := ⟨rfl, rfl, fun _ => rfl⟩

theorem SamePt.sp_trans {a b c : Work} (h1 : SamePt a b) (h2 : SamePt b c) : SamePt a c :=
  ⟨h2.log.trans h1.log, h2.cnt.trans h1.cnt, fun t => (h2.flag t).trans (h1.flag t)⟩

theorem SameSlot.ss_refl (w : Work) : SameSlot w w := ⟨rfl, rfl, fun _ => rfl⟩

theorem SameSlot.ss_trans {a b c : Work} (h1 : SameSlot a b) (h2 : SameSlot b c) : SameSlot a c :=
  ⟨h2.log.trans h1.log, h2.cnt.trans h1.cnt, fun t => (h2.tmp t).trans (h1.tmp t)⟩

theorem SameFace.sf_refl (w : Work) : SameFace w w := ⟨rfl, rfl, rfl⟩

theorem SameFace.sf_trans {a b c : Work} (h1 : SameFace a b) (h2 : SameFace b c) : SameFace a c :=
  ⟨h2.nitem.trans h1.nitem, h2.idx1.trans h1.idx1, h2.idx2.trans h1.idx2⟩

theorem SameNode.sn_refl (w : Work) : SameNode w w := ⟨rfl, rfl, rfl⟩

theorem SameNode.sn_trans {a b c : Work} (h1 : SameNode a b) (h2 : SameNode b c) : SameNode a c :=
  ⟨h2.nitem.trans h1.nitem, h2.idx1.trans h1.idx1, h2.idx2.trans h1.idx2⟩

theorem SameXt.sx_refl (w : Work) : SameXt w w := ⟨rfl, rfl⟩

theorem SameXt.sx_trans {a b c : Work} (h1 : SameXt a b) (h2 : SameXt b c) : SameXt a c :=
  ⟨h2.xt.trans h1.xt, h2.xtetra.trans h1.xtetra⟩

theorem SameSize.sz_refl (w : Work) : SameSize w w := ⟨rfl, rfl, rfl⟩

theorem SameSize.sz_trans {a b c : Work} (h1 : SameSize a b) (h2 : SameSize b c) : SameSize a c :=
  ⟨h2.ne.trans h1.ne, h2.npmax.trans h1.npmax, h2.nemax.trans h1.nemax⟩

theorem Frame.fr_refl (k : Keep) (w : Work) : Frame k w w :=
  ⟨fun _ => .os_refl w, fun _ => .st_refl w, fun _ => .sp_refl w, fun _ => .ss_refl w,
    fun _ => .sf_refl w, fun _ => .sn_refl w, fun _ => .sx_refl w, fun _ => .sz_refl w,
    fun _ => rfl, fun _ => rfl,
    fun _ => rfl⟩

theorem Frame.fr_trans {k : Keep} {a b c : Work} (h1 : Frame k a b) (h2 : Frame k b c) :
    Frame k a c :=
  ⟨fun h => (h1.os h).os_trans (h2.os h), fun h => (h1.st h).st_trans (h2.st h),
    fun h => (h1.sp h).sp_trans (h2.sp h), fun h => (h1.ss h).ss_trans (h2.ss h),
    fun h => (h1.sf h).sf_trans (h2.sf h), fun h => (h1.sn h).sn_trans (h2.sn h),
    fun h => (h1.sx h).sx_trans (h2.sx h), fun h => (h1.sz h).sz_trans (h2.sz h),
    fun h => (h2.ca h).trans (h1.ca h), fun h => (h2.ct h).trans (h1.ct h),
    fun h => (h2.cp h).trans (h1.cp h)⟩

theorem Frame.fr_weaken {k k' : Keep} {a b : Work} (h : Frame k a b) (hle : Keep.le k' k) :
    Frame k' a b := by
  obtain ⟨l1, l2, l3, l4, l5, l6, l7, l8, l9, l10, l11⟩ := hle
  exact ⟨fun e => h.os (l1 e), fun e => h.st (l2 e), fun e => h.sp (l3 e),
    fun e => h.ss (l4 e), fun e => h.sf (l5 e), fun e => h.sn (l6 e), fun e => h.sx (l7 e),
    fun e => h.sz (l8 e), fun e => h.ca (l9 e), fun e => h.ct (l10 e), fun e => h.cp (l11 e)⟩

theorem forEach_frame {α : Type} (k : Keep) (f : α → Work → Except Work Work) (l : List α)
    (hstep : ∀ (a : α) (w w' : Work), f a w = .ok w' → Frame k w w')
    {w w' : Work} (h : forEach f l w = .ok w') : Frame k w w' :=
  forEach_rel f (Frame k) (Frame.fr_refl k) (fun _ _ _ => Frame.fr_trans) l
    (fun a u u' _ hf => hstep a u u' hf) w w' h

theorem n2incAppend_frame {w w' : Work} {i1 : Nat} {i2 : Int}
    (h : w.n2incAppend i1 i2 = .ok w') :
    Frame ⟨true, true, true, true, true, false, true, true, true, true, true⟩ w w' := by
  unfold Work.n2incAppend at h
  split at h
  · simp at h
  · rename_i r hr
    obtain ⟨a1, a2, a3, a4, a5, a6, a7, a8, a9⟩ := n2incAppend_some hr
    simp only [Except.ok.injEq] at h
    subst h
    constructor <;> intro hk <;> first
      | exact absurd hk (by decide)
      | (constructor <;> intros <;> simp [a1, a6, a7, a8])
      | simp [a1]

theorem n2ifcAppend_frame {w w' : Work} {i1 : Nat} {i2 : Int}
    (h : w.n2ifcAppend i1 i2 = .ok w') :
    Frame ⟨true, true, true, true, false, true, true, true, true, true, true⟩ w w' := by
  unfold Work.n2ifcAppend at h
  split at h
  · simp at h
  · rename_i r hr
    obtain ⟨a1, a2, a3, a4, a5, a6, a7, a8, a9⟩ := n2ifcAppend_some hr
    simp only [Except.ok.injEq] at h
    subst h
    constructor <;> intro hk <;> first
      | exact absurd hk (by decide)
      | (constructor <;> intros <;> simp [a1, a6, a7, a8])
      | simp [a1]

theorem xtetraAppend_frame {w w' : Work} {tet : Nat} (h : w.xtetraAppend tet = .ok w') :
    Frame ⟨true, true, true, true, true, true, false, true, true, false, true⟩ w w' := by
  unfold Work.xtetraAppend at h
  split at h
  · simp at h
  · rename_i m hm
    obtain ⟨e1, e2, e3, e4, e5, e6, e7, e8, e9, e10, e11, e12, e13, e14, e15⟩ :=
      xtetraAppend_some hm
    simp only [Except.ok.injEq] at h
    subst h
    constructor <;> intro hk <;> first
      | exact absurd hk (by decide)
      | (constructor <;> intros <;>
          simp [Work.setTetraCur, Work.setMeshCur, e3, e5, e9, e10, e11])
      | simp [Work.setTetraCur, Work.setMeshCur, e3, e5]

theorem xpointAppend_frame {w w' : Work} {tet : Nat} {poi : Fin 4}
    (h : w.xpointAppend tet poi = .ok w') :
    Frame ⟨true, true, true, true, true, true, true, true, true, true, false⟩ w w' := by
  unfold Work.xpointAppend at h
  split at h
  · simp at h
  · rename_i m hm
    obtain ⟨e1, e2, e3, e4, e5, e6, e7, e8, e9, e10, e11, e12, e13, e14, e15⟩ :=
      xpointAppend_some hm
    simp only [Except.ok.injEq] at h
    subst h
    constructor <;> intro hk <;> first
      | exact absurd hk (by decide)
      | (constructor <;> intros <;>
          simp [Work.setTetraCur, Work.setMeshCur, e4, e5, e6, e7, e9, e10, e11])
      | simp [Work.setTetraCur, Work.setMeshCur, e4, e5]

theorem copyTetraRec_frame (tet : Nat) (w : Work) :
    Frame ⟨true, false, true, true, true, true, true, true, true, false, true⟩ w
      (copyTetraRec tet w) := by
  constructor <;> intro hk <;> first
    | exact absurd hk (by decide)
    | (constructor <;> intros <;>
        simp [copyTetraRec, Work.setTetraCur, Work.setMeshCur, upd_apply] <;>
        split_ifs with ht <;> simp [ht])
    | (constructor <;> intros <;> simp [copyTetraRec, Work.setTetraCur, Work.setMeshCur])
    | simp [copyTetraRec, Work.setTetraCur, Work.setMeshCur]

theorem addPointRec_frame (c : Ctx) (tet : Nat) (poi : Fin 4) (w : Work) :
    Frame ⟨true, true, false, true, true, true, true, true, true, false, false⟩ w
      (addPointRec c tet poi w) := by
  constructor <;> intro hk <;> first
    | exact absurd hk (by decide)
    | (constructor <;> intros <;>
        simp [addPointRec, Work.setTetraCur, Work.setMeshCur, upd_apply] <;>
        split_ifs <;> simp_all)
    | (simp [addPointRec, Work.setTetraCur, Work.setMeshCur] <;> split_ifs <;> simp)

theorem tagFaceItem_frame {fac : Fin 4} {j : Fin 3} {w w' : Work}
    (h : tagFaceItem fac j w = .ok w') :
    Frame ⟨true, true, true, true, true, true, false, true, true, true, false⟩ w w' := by
  unfold tagFaceItem at h
  simp only [Except.ok.injEq] at h
  subst h
  constructor <;> intro hk <;> first
    | exact absurd hk (by decide)
    | (constructor <;> intros <;> simp [Work.setTetraCur, Work.setMeshCur])
    | simp [Work.setTetraCur, Work.setMeshCur]

theorem newFaceXt_frame {tet : Nat} {fac : Fin 4} {w w' : Work}
    (h : newFaceXt tet fac w = .ok w') :
    Frame ⟨true, true, true, true, true, true, false, true, false, false, true⟩ w w' := by
  unfold newFaceXt at h
  have h0 : Frame ⟨true, true, true, true, true, true, false, true, false, false, true⟩ w
      (w.setMeshCur { w.grpCur.mesh with
        adja := upd w.grpCur.mesh.adja (adjaIdx w.tetPerGrp fac) 0 }) := by
    constructor <;> intro hk <;> first
      | exact absurd hk (by decide)
      | (constructor <;> intros <;> simp [Work.setTetraCur, Work.setMeshCur])
      | simp [Work.setTetraCur, Work.setMeshCur]
  simp only at h
  split_ifs at h with h1
  · exact h0.fr_trans ((xtetraAppend_frame h).fr_weaken (by decide))
  · simp only [Except.ok.injEq] at h
    subst h
    exact h0

theorem newFaceTag_frame (fac : Fin 4) (w : Work) :
    Frame ⟨true, true, true, true, true, true, false, true, true, true, true⟩ w
      (newFaceTag fac w) := by
  constructor <;> intro hk <;> first
    | exact absurd hk (by decide)
    | (constructor <;> intros <;> simp [newFaceTag, Work.setTetraCur, Work.setMeshCur])
    | simp [newFaceTag, Work.setTetraCur, Work.setMeshCur]

theorem newFace_frame {tet : Nat} {fac : Fin 4} {w w' : Work} (h : newFace tet fac w = .ok w') :
    Frame ⟨true, true, true, true, false, true, false, true, false, false, false⟩ w w' := by
  unfold newFace at h
  simp only [andThen_ok_iff] at h
  obtain ⟨w2, h2, w4, h4, h5⟩ := h
  exact (((newFaceXt_frame h2).fr_weaken (by decide)).fr_trans
    (((newFaceTag_frame fac w2).fr_weaken (by decide)).fr_trans
      ((n2ifcAppend_frame h4).fr_weaken (by decide)))).fr_trans
    (forEach_frame _ _ _ (fun a u u' hu => (tagFaceItem_frame hu).fr_weaken (by decide)) h5)

theorem linkAdja_frame (fac : Fin 4) (adjidx vindex : Nat) (w : Work) :
    Frame ⟨true, true, true, true, true, true, true, true, false, true, true⟩ w
      (linkAdja fac adjidx vindex w) := by
  constructor <;> intro hk <;> first
    | exact absurd hk (by decide)
    | (constructor <;> intros <;> simp [linkAdja, Work.setTetraCur, Work.setMeshCur])
    | simp [linkAdja, Work.setTetraCur, Work.setMeshCur]

theorem updateAdja_frame {c : Ctx} {tet : Nat} {fac : Fin 4} {w w' : Work}
    (h : updateAdja c tet fac w = .ok w') :
    Frame ⟨true, true, true, true, false, true, false, true, false, false, false⟩ w w' := by
  unfold updateAdja at h
  simp only at h
  split_ifs at h with h1 h2 h3
  · simp only [Except.ok.injEq] at h; subst h; exact Frame.fr_refl _ _
  · exact newFace_frame h
  · simp only [Except.ok.injEq] at h; subst h
    exact (linkAdja_frame _ _ _ _).fr_weaken (by decide)
  · simp only [Except.ok.injEq] at h; subst h; exact Frame.fr_refl _ _

theorem mintRec_frame (tet : Nat) (fac : Fin 4) (poi : Fin 3) (slot : Int) (w : Work) :
    Frame ⟨true, true, true, false, true, true, true, true, true, true, false⟩ w
      (mintRec tet fac poi slot w) := by
  constructor <;> intro hk <;> first
    | exact absurd hk (by decide)
    | (constructor <;> intros <;>
        simp [mintRec, Work.setTetraCur, Work.setMeshCur, upd_apply] <;>
        split_ifs with ht <;> simp [ht])
    | (constructor <;> intros <;> simp [mintRec, Work.setTetraCur, Work.setMeshCur])
    | simp [mintRec, Work.setTetraCur, Work.setMeshCur]

theorem mintPoint_frame {tet : Nat} {fac : Fin 4} {poi : Fin 3} {w w' : Work}
    (h : mintPoint tet fac poi w = .ok w') :
    Frame ⟨true, true, true, false, true, false, true, true, true, true, false⟩ w w' := by
  unfold mintPoint at h
  simp only at h
  split_ifs at h with h1
  · rw [andThen_ok_iff] at h
    obtain ⟨w1, h2, h3⟩ := h
    simp only [Except.ok.injEq] at h3
    subst h3
    exact ((n2incAppend_frame h2).fr_weaken (by decide)).fr_trans
      ((mintRec_frame _ _ _ _ _).fr_weaken (by decide))
  · simp only [Except.ok.injEq] at h; subst h; exact Frame.fr_refl _ _

theorem mintFace_frame {c : Ctx} {tet : Nat} {fac : Fin 4} {w w' : Work}
    (h : mintFace c tet fac w = .ok w') :
    Frame ⟨true, true, true, false, true, false, true, true, true, true, false⟩ w w' := by
  unfold mintFace at h
  simp only at h
  split_ifs at h with h1
  · exact forEach_frame _ _ _ (fun a u u' hu => mintPoint_frame hu) h
  · simp only [Except.ok.injEq] at h; subst h; exact Frame.fr_refl _ _

theorem copyAdja_frame (tet : Nat) (w : Work) :
    Frame ⟨true, true, true, true, true, true, true, true, false, true, true⟩ w
      (copyAdja tet w) := by
  constructor <;> intro hk <;> first
    | exact absurd hk (by decide)
    | (constructor <;> intros <;> simp [copyAdja, Work.setTetraCur, Work.setMeshCur])
    | simp [copyAdja, Work.setTetraCur, Work.setMeshCur]

theorem copyTetra_frame {tet : Nat} {w w' : Work} (h : copyTetra tet w = .ok w') :
    Frame ⟨true, false, true, true, true, true, false, true, true, false, true⟩ w w' := by
  unfold copyTetra at h
  simp only at h
  split_ifs at h with h1
  · exact ((copyTetraRec_frame tet w).fr_weaken (by decide)).fr_trans
      ((xtetraAppend_frame h).fr_weaken (by decide))
  · simp only [Except.ok.injEq] at h; subst h
    exact (copyTetraRec_frame tet w).fr_weaken (by decide)

theorem addPointComm_frame {w w' : Work} (h : addPointComm w = .ok w') :
    Frame ⟨true, true, true, true, true, false, true, true, true, true, true⟩ w w' := by
  unfold addPointComm at h
  split_ifs at h with h1
  · exact n2incAppend_frame h
  · simp only [Except.ok.injEq] at h; subst h; exact Frame.fr_refl _ _

theorem addPointXp_frame {tet : Nat} {poi : Fin 4} {w w' : Work}
    (h : addPointXp tet poi w = .ok w') :
    Frame ⟨true, true, true, true, true, true, true, true, true, true, false⟩ w w' := by
  unfold addPointXp at h
  split_ifs at h with h1
  · exact xpointAppend_frame h
  · simp only [Except.ok.injEq] at h; subst h; exact Frame.fr_refl _ _

theorem addPoint_frame {c : Ctx} {tet : Nat} {poi : Fin 4} {w w' : Work}
    (h : addPoint c tet poi w = .ok w') :
    Frame ⟨true, true, false, true, true, false, true, true, true, false, false⟩ w w' := by
  unfold addPoint at h
  simp only at h
  split_ifs at h with h1
  · rw [andThen_ok_iff] at h
    obtain ⟨w1, h2, h3⟩ := h
    exact (((addPointRec_frame c tet poi w).fr_weaken (by decide)).fr_trans
      ((addPointComm_frame h2).fr_weaken (by decide))).fr_trans
      ((addPointXp_frame h3).fr_weaken (by decide))
  · simp only [Except.ok.injEq] at h; subst h
    constructor <;> intro hk <;> first
      | exact absurd hk (by decide)
      | (constructor <;> intros <;> simp [Work.setTetraCur, Work.setMeshCur])
      | simp [Work.setTetraCur, Work.setMeshCur]

theorem resetFlag_frame (tet : Nat) (w : Work) :
    Frame ⟨true, false, true, true, true, true, true, true, true, true, true⟩ w
      (resetFlag tet w) := by
  constructor <;> intro hk <;> first
    | exact absurd hk (by decide)
    | (constructor <;> intros <;> simp [resetFlag, upd_apply] <;> split_ifs with ht <;> simp [ht])
    | (constructor <;> intros <;> simp [resetFlag])
    | simp [resetFlag]

/-- How `tetStep` decomposes when it succeeds. -/
theorem tetStep_ok {c : Ctx} {tet : Nat} {w w' : Work} (h : tetStep c tet w = .ok w') :
    (c.grpId ≠ c.partAt (tet - 1) ∧ w' = resetFlag tet w) ∨
    (c.grpId = c.partAt (tet - 1) ∧ ∃ w1 w2 w3,
      copyTetra tet (resetFlag tet w) = .ok w1 ∧
      forEach (addPoint c tet) [0, 1, 2, 3] w1 = .ok w2 ∧
      forEach (updateAdja c tet) [0, 1, 2, 3] (copyAdja tet w2) = .ok w3 ∧
      forEach (mintFace c tet) [0, 1, 2, 3] w3 = .ok w') := by
  unfold tetStep at h
  simp only at h
  split_ifs at h with h1
  · left; simp only [Except.ok.injEq] at h; exact ⟨h1, h.symm⟩
  · right
    simp only [andThen_ok_iff] at h
    obtain ⟨w1, h2, w2, h3, w3, h4, h5⟩ := h
    exact ⟨not_not.mp h1, w1, w2, w3, h2, h3, h4, h5⟩

theorem tetStep_frame {c : Ctx} {tet : Nat} {w w' : Work} (h : tetStep c tet w = .ok w') :
    Frame ⟨true, false, false, false, false, false, false, true, false, false, false⟩ w w' := by
  rcases tetStep_ok h with ⟨_, rfl⟩ | ⟨_, w1, w2, w3, h1, h2, h3, h4⟩
  · exact (resetFlag_frame tet w).fr_weaken (by decide)
  · exact ((((resetFlag_frame tet w).fr_weaken (by decide)).fr_trans
      ((copyTetra_frame h1).fr_weaken (by decide))).fr_trans
      ((forEach_frame _ _ _ (fun a u u' hu => (addPoint_frame hu).fr_weaken (by decide)) h2).fr_trans
        (((copyAdja_frame tet w2).fr_weaken (by decide)).fr_trans
          (forEach_frame _ _ _ (fun a u u' hu => (updateAdja_frame hu).fr_weaken (by decide))
            h3)))).fr_trans
      (forEach_frame _ _ _ (fun a u u' hu => (mintFace_frame hu).fr_weaken (by decide)) h4)

theorem splitGrpsOn_installed {env : Env} {pm : PMMG_ParMesh} {grpOld : PMMG_Grp} {t : Int}
    (h : (splitGrpsOn env pm grpOld t).logInstalled = true) :
    ∃ part grps grants built w,
      env.partition = some part ∧
      newGrps env grpOld
        ((List.range (PMMG_howManyGroups grpOld.mesh.ne t).toNat).map
          (countPerGrp part grpOld.mesh.ne)) 0
        (pm.grants - 1 - 1 - 1) = .ok (grps, grants) ∧
      splitLoop env part grpOld.met (countPerGrp part grpOld.mesh.ne) grps 0
        (startWork pm grpOld (countPerGrp part grpOld.mesh.ne)
          (PMMG_howManyGroups grpOld.mesh.ne t).toNat grants) = .ok (built, w) ∧
      (splitGrpsOn env pm grpOld t).ret = .PMMG_SUCCESS ∧
      (splitGrpsOn env pm grpOld t).parmesh.listgrp = built.map Prod.fst ∧
      (splitGrpsOn env pm grpOld t).parmesh.ngrp = (PMMG_howManyGroups grpOld.mesh.ne t).toNat ∧
      (splitGrpsOn env pm grpOld t).parmesh.int_node_comm_nitem = w.int_node_comm_nitem ∧
      (splitGrpsOn env pm grpOld t).logGrp = built.map Prod.snd ∧
      (splitGrpsOn env pm grpOld t).logMint = w.logMint := by
  by_cases h1 : PMMG_howManyGroups grpOld.mesh.ne t = 1
  · simp only [splitGrpsOn, h1, if_true] at h; simp at h
  by_cases h2 : pm.memCur + 2 * grpOld.mesh.memCur > pm.memGloMax
  · simp only [splitGrpsOn, h1, h2, if_true, if_false] at h; simp at h
  by_cases h3 : pm.grants = 0
  · simp only [splitGrpsOn, h1, h2, h3, if_true, if_false] at h; simp at h
  cases hp : env.partition with
  | none => simp only [splitGrpsOn, h1, h2, h3, hp, if_true, if_false] at h; simp at h
  | some part =>
    by_cases h4 : pm.grants - 1 = 0
    · simp only [splitGrpsOn, h1, h2, h3, hp, h4, if_true, if_false] at h; simp at h
    by_cases h5 : pm.grants - 1 - 1 = 0
    · simp only [splitGrpsOn, h1, h2, h3, hp, h4, h5, if_true, if_false] at h; simp at h
    cases hg : newGrps env grpOld
        ((List.range (PMMG_howManyGroups grpOld.mesh.ne t).toNat).map
          (countPerGrp part grpOld.mesh.ne)) 0 (pm.grants - 1 - 1 - 1) with
    | error r =>
      simp only [splitGrpsOn, h1, h2, h3, hp, h4, h5, hg, if_true, if_false] at h; simp at h
    | ok res =>
      obtain ⟨grps, grants⟩ := res
      cases hl : splitLoop env part grpOld.met (countPerGrp part grpOld.mesh.ne) grps 0
          (startWork pm grpOld (countPerGrp part grpOld.mesh.ne)
            (PMMG_howManyGroups grpOld.mesh.ne t).toNat grants) with
      | error e =>
        simp only [splitGrpsOn, h1, h2, h3, hp, h4, h5, hg, hl, if_true, if_false] at h
        simp at h
      | ok res2 =>
        obtain ⟨built, w⟩ := res2
        by_cases h6 : env.checkIntCommFails = true
        · simp only [splitGrpsOn, h1, h2, h3, hp, h4, h5, hg, hl, h6, if_true, if_false] at h
          simp at h
        · refine ⟨part, grps, grants, built, w, rfl, hg, hl, ?_⟩
          simp only [splitGrpsOn, h1, h2, h3, hp, h4, h5, hg, hl, h6, if_true, if_false]
          simp

theorem splitGrps_installed {env : Env} {pm : PMMG_ParMesh} {t : Int}
    (h : (PMMG_splitGrps env pm t).logInstalled = true) :
    ∃ part grps grants built w,
      env.partition = some part ∧
      newGrps env (grpOldOf pm)
        ((List.range (ngrpOf pm t)).map (countPerGrp part (grpOldOf pm).mesh.ne)) 0
        (pm.grants - 1 - 1 - 1) = .ok (grps, grants) ∧
      splitLoop env part (grpOldOf pm).met (countPerGrp part (grpOldOf pm).mesh.ne) grps 0
        (startWork pm (grpOldOf pm) (countPerGrp part (grpOldOf pm).mesh.ne) (ngrpOf pm t)
          grants) = .ok (built, w) ∧
      (PMMG_splitGrps env pm t).ret = .PMMG_SUCCESS ∧
      (PMMG_splitGrps env pm t).parmesh.listgrp = built.map Prod.fst ∧
      (PMMG_splitGrps env pm t).parmesh.ngrp = ngrpOf pm t ∧
      (PMMG_splitGrps env pm t).parmesh.int_node_comm_nitem = w.int_node_comm_nitem ∧
      (PMMG_splitGrps env pm t).logGrp = built.map Prod.snd ∧
      (PMMG_splitGrps env pm t).logMint = w.logMint :=
  splitGrpsOn_installed h

theorem and_or_of_and {x y b : Nat} (h : x &&& b = b) : (x ||| y) &&& b = b := by
  apply Nat.eq_of_testBit_eq
  intro i
  have := congrArg (fun n => n.testBit i) h
  simp only [Nat.testBit_and, Nat.testBit_or] at this ⊢
  cases hb : b.testBit i <;> simp_all

theorem or_and_self (x b : Nat) : (x ||| b) &&& b = b := by
  apply Nat.eq_of_testBit_eq
  intro i
  simp only [Nat.testBit_and, Nat.testBit_or]
  cases hb : b.testBit i <;> simp

theorem SettagRel.sr_refl (m : MMG5_Mesh) : SettagRel m m :=
  ⟨rfl, rfl, rfl, rfl, rfl, rfl, rfl, rfl, rfl, rfl, rfl, rfl, rfl, rfl, fun _ => rfl,
    fun _ => rfl, fun _ _ _ h => h⟩

theorem SettagRel.sr_trans {a b c : MMG5_Mesh} (h1 : SettagRel a b) (h2 : SettagRel b c) :
    SettagRel a c :=
  ⟨h2.np.trans h1.np, h2.npi.trans h1.npi, h2.npnil.trans h1.npnil, h2.npmax.trans h1.npmax,
    h2.ne.trans h1.ne, h2.nemax.trans h1.nemax, h2.xt.trans h1.xt, h2.xp.trans h1.xp,
    h2.xtmax.trans h1.xtmax, h2.xpmax.trans h1.xpmax, h2.point.trans h1.point,
    h2.tetra.trans h1.tetra, h2.xpoint.trans h1.xpoint, h2.adja.trans h1.adja,
    fun k => (h2.ftag k).trans (h1.ftag k), fun k => (h2.ref k).trans (h1.ref k),
    fun k e b h => h2.tag k e b (h1.tag k e b h)⟩

theorem MMG5_settag_rel (env : Env) (m : MMG5_Mesh) (start : Nat) (ia : Fin 6) (tag : Nat)
    (edg : Int) : SettagRel m (MMG5_settag env m start ia tag edg) := by
  refine ⟨rfl, rfl, rfl, rfl, rfl, rfl, rfl, rfl, rfl, rfl, rfl, rfl, rfl, rfl, fun _ => rfl,
    fun _ => rfl, ?_⟩
  intro k e b h
  simp only [MMG5_settag]
  split
  · exact h
  · exact and_or_of_and h

theorem settagEdge_rel (env : Env) (tet : Nat) (m : MMG5_Mesh) (ie : Fin 6) :
    SettagRel m (settagEdge env tet m ie) := by
  unfold settagEdge
  simp only
  split_ifs
  · exact SettagRel.sr_refl m
  · exact MMG5_settag_rel _ _ _ _ _ _

theorem foldl_settagRel {α : Type} (f : MMG5_Mesh → α → MMG5_Mesh)
    (hf : ∀ m a, SettagRel m (f m a)) (l : List α) (m : MMG5_Mesh) :
    SettagRel m (List.foldl f m l) := by
  induction l generalizing m with
  | nil => exact SettagRel.sr_refl m
  | cons a l ih => exact (hf m a).sr_trans (ih (f m a))

theorem settagTetra_rel (env : Env) (m : MMG5_Mesh) (tet : Nat) :
    SettagRel m (settagTetra env m tet) := by
  unfold settagTetra
  split_ifs <;> first
    | exact SettagRel.sr_refl m
    | exact foldl_settagRel _ (settagEdge_rel env tet) _ _

theorem splitGrp_ok {env : Env} {c : Ctx} {count : Nat} {w w' : Work}
    (h : splitGrp env c count w = .ok w') :
    ∃ w2, forEach (tetStep c) (List.range' 1 w.meshOld.ne) (passStart count w) = .ok w2 ∧
      w' = passEnd env c w2 := by
  unfold splitGrp at h
  rw [andThen_ok_iff] at h
  obtain ⟨w2, h1, h2⟩ := h
  split_ifs at h2
  simp only [Except.ok.injEq] at h2
  exact ⟨w2, h1, h2.symm⟩

/-- The mesh of the group after `passEnd` is the mesh with its free slots
chained, up to the reconciliation pass. -/
theorem passEnd_mesh (env : Env) (c : Ctx) (w : Work) :
    SettagRel (chainFree w) (passEnd env c w).grpCur.mesh := by
  unfold passEnd
  exact foldl_settagRel _ (settagTetra_rel env) _ _

theorem passEnd_frame (env : Env) (c : Ctx) (w : Work) :
    Frame ⟨true, true, true, true, true, true, false, true, true, true, false⟩ w
      (passEnd env c w) := by
  have hm := passEnd_mesh env c w
  have e1 : (passEnd env c w).grpCur.mesh.ne = w.grpCur.mesh.ne := hm.ne
  have e2 : (passEnd env c w).grpCur.mesh.npmax = w.grpCur.mesh.npmax := hm.npmax
  have e3 : (passEnd env c w).grpCur.mesh.nemax = w.grpCur.mesh.nemax := hm.nemax
  have e4 : (passEnd env c w).grpCur.mesh.adja = w.grpCur.mesh.adja := hm.adja
  have e5 : (passEnd env c w).grpCur.mesh.tetra = w.grpCur.mesh.tetra := hm.tetra
  constructor <;> intro hk <;> first
    | exact absurd hk (by decide)
    | exact ⟨e1, e2, e3⟩
    | exact e4
    | exact e5
    | (constructor <;> intros <;> simp [passEnd])

theorem passStart_frame (count : Nat) (w : Work) :
    OldStatic w (passStart count w) ∧ SameSlot w (passStart count w) ∧
    (passStart count w).grpCur = w.grpCur := by
  refine ⟨?_, ?_, rfl⟩
  · constructor <;> intros <;> simp [passStart] <;> split_ifs <;> simp
  · constructor <;> intros <;> simp [passStart] <;> split_ifs <;> simp

theorem splitLoop_keep (env : Env) (part : List Nat) (metOld : MMG5_Sol) (cnt : Nat → Nat)
    (Q : Work → Prop) (Pre : Nat → PMMG_Grp → Prop) (P : Work → Prop)
    (hpass : ∀ grpId g w w1, Pre grpId g → Q w →
      splitGrp env ⟨part, grpId, metOld⟩ (cnt grpId) { w with grpCur := g } = .ok w1 → Q w1)
    (hkeep : ∀ grpId g' w w1, Q w → P w →
      splitGrp env ⟨part, grpId, metOld⟩ (cnt grpId) { w with grpCur := g' } = .ok w1 → P w1)
    (grps : List PMMG_Grp) (g0 : Nat) (w : Work) (built : List (PMMG_Grp × GrpLog)) (w' : Work)
    (hpre : ∀ (i : Nat) g, grps[i]? = some g → Pre (g0 + i) g)
    (h : splitLoop env part metOld cnt grps g0 w = .ok (built, w')) (hQ : Q w) (hP : P w) :
    P w' := by
  induction grps generalizing g0 w built with
  | nil =>
    simp only [splitLoop, Except.ok.injEq, Prod.mk.injEq] at h
    rw [← h.2]; exact hP
  | cons a rest ih =>
    simp only [splitLoop] at h
    split at h
    · simp at h
    · rename_i u1 hu1
      split at h
      · simp at h
      · rename_i gs2 u2 hu2
        simp only [Except.ok.injEq, Prod.mk.injEq] at h
        obtain ⟨_, rfl⟩ := h
        have hpa : Pre g0 a := by simpa using hpre 0 a (by simp)
        refine ih (g0 + 1) u1 gs2 ?_ hu2 (hpass g0 a w u1 hpa hQ hu1) (hkeep g0 a w u1 hQ hP hu1)
        intro i g hg
        have := hpre (i + 1) g (by simpa using hg)
        rwa [show g0 + (i + 1) = g0 + 1 + i by omega] at this

theorem splitLoop_spec (env : Env) (part : List Nat) (metOld : MMG5_Sol) (cnt : Nat → Nat)
    (Q : Work → Prop) (Pre : Nat → PMMG_Grp → Prop)
    (Post : Nat → PMMG_Grp × GrpLog → Work → Prop)
    (hpass : ∀ grpId g w w1, Pre grpId g → Q w →
      splitGrp env ⟨part, grpId, metOld⟩ (cnt grpId) { w with grpCur := g } = .ok w1 →
      Q w1 ∧ Post grpId (w1.grpCur, ⟨w1.logTet, w1.logPt⟩) w1)
    (hkeep : ∀ i b grpId g' w w1, Q w → Post i b w →
      splitGrp env ⟨part, grpId, metOld⟩ (cnt grpId) { w with grpCur := g' } = .ok w1 →
      Post i b w1)
    (grps : List PMMG_Grp) (g0 : Nat) (w : Work) (built : List (PMMG_Grp × GrpLog)) (w' : Work)
    (hpre : ∀ (i : Nat) g, grps[i]? = some g → Pre (g0 + i) g)
    (h : splitLoop env part metOld cnt grps g0 w = .ok (built, w')) (hQ : Q w) :
    built.length = grps.length ∧ Q w' ∧
    ∀ (i : Nat) b, built[i]? = some b → Post (g0 + i) b w' := by
  induction grps generalizing g0 w built with
  | nil =>
    simp only [splitLoop, Except.ok.injEq, Prod.mk.injEq] at h
    obtain ⟨rfl, rfl⟩ := h
    exact ⟨rfl, hQ, fun i b hb => by simp at hb⟩
  | cons g rest ih =>
    simp only [splitLoop] at h
    split at h
    · simp at h
    · rename_i w1 h1
      split at h
      · simp at h
      · rename_i gs w2 h2
        simp only [Except.ok.injEq, Prod.mk.injEq] at h
        obtain ⟨rfl, rfl⟩ := h
        have hpg : Pre g0 g := by simpa using hpre 0 g (by simp)
        have hprest : ∀ (i : Nat) g', rest[i]? = some g' → Pre (g0 + 1 + i) g' := by
          intro i g' hg
          have := hpre (i + 1) g' (by simpa using hg)
          rwa [show g0 + (i + 1) = g0 + 1 + i by omega] at this
        obtain ⟨hQ1, hP1⟩ := hpass g0 g w w1 hpg hQ h1
        obtain ⟨hlen, hQ2, hall⟩ := ih (g0 + 1) w1 gs hprest h2 hQ1
        refine ⟨by simp [hlen], hQ2, ?_⟩
        intro i b hb
        cases i with
        | zero =>
          simp only [List.getElem?_cons_zero, Option.some.injEq] at hb
          subst hb
          exact splitLoop_keep env part metOld cnt Q Pre _
            (fun grpId g u u1 hp hq hu => (hpass grpId g u u1 hp hq hu).1)
            (fun grpId g' u u1 hq hp hu => hkeep _ _ grpId g' u u1 hq hp hu)
            rest (g0 + 1) w1 gs w2 hprest h2 hQ1 hP1
        | succ j =>
          simp only [List.getElem?_cons_succ] at hb
          have := hall j b hb
          rwa [show g0 + (j + 1) = g0 + 1 + j by omega]

theorem copyTetra_tet {tet : Nat} {w w' : Work} (h : copyTetra tet w = .ok w') :
    w'.logTet = w.logTet ++ [(tet, w.tetPerGrp + 1)] ∧ w'.tetPerGrp = w.tetPerGrp + 1 ∧
    ∀ t, (w'.meshOld.tetra t).flag =
      if t = tet then w.tetPerGrp + 1 else (w.meshOld.tetra t).flag := by
  have h0 : (copyTetraRec tet w).logTet = w.logTet ++ [(tet, w.tetPerGrp + 1)] ∧
      (copyTetraRec tet w).tetPerGrp = w.tetPerGrp + 1 ∧
      ∀ t, ((copyTetraRec tet w).meshOld.tetra t).flag =
        if t = tet then w.tetPerGrp + 1 else (w.meshOld.tetra t).flag := by
    refine ⟨by simp [copyTetraRec, Work.setTetraCur, Work.setMeshCur],
      by simp [copyTetraRec, Work.setTetraCur, Work.setMeshCur], ?_⟩
    intro t
    simp only [copyTetraRec, Work.setTetraCur, Work.setMeshCur, upd_apply]
    split_ifs <;> rfl
  unfold copyTetra at h
  simp only at h
  split_ifs at h with h1
  · have hf := (xtetraAppend_frame h).st rfl
    refine ⟨hf.log.trans h0.1, hf.cnt.trans h0.2.1, fun t => (hf.flag t).trans (h0.2.2 t)⟩
  · simp only [Except.ok.injEq] at h; subst h; exact h0

theorem tetStep_tet {c : Ctx} {tet : Nat} {w w' : Work} (h : tetStep c tet w = .ok w') :
    (c.grpId ≠ c.partAt (tet - 1) ∧ w'.logTet = w.logTet ∧ w'.tetPerGrp = w.tetPerGrp ∧
      ∀ t, (w'.meshOld.tetra t).flag = if t = tet then 0 else (w.meshOld.tetra t).flag) ∨
    (c.grpId = c.partAt (tet - 1) ∧ w'.logTet = w.logTet ++ [(tet, w.tetPerGrp + 1)] ∧
      w'.tetPerGrp = w.tetPerGrp + 1 ∧
      ∀ t, (w'.meshOld.tetra t).flag =
        if t = tet then w.tetPerGrp + 1 else (w.meshOld.tetra t).flag) := by
  have hr : ∀ t, ((resetFlag tet w).meshOld.tetra t).flag =
      if t = tet then 0 else (w.meshOld.tetra t).flag := by
    intro t; simp only [resetFlag, upd_apply]; split_ifs <;> rfl
  rcases tetStep_ok h with ⟨hne, rfl⟩ | ⟨heq, w1, w2, w3, h1, h2, h3, h4⟩
  · exact Or.inl ⟨hne, rfl, rfl, hr⟩
  · right
    obtain ⟨a1, a2, a3⟩ := copyTetra_tet h1
    have f2 := (forEach_frame _ _ _ (fun a u u' hu => addPoint_frame hu) h2).st rfl
    have f3 := ((copyAdja_frame tet w2).st rfl).st_trans
      ((forEach_frame _ _ _ (fun a u u' hu => updateAdja_frame hu) h3).st rfl)
    have f4 := (forEach_frame _ _ _ (fun a u u' hu => mintFace_frame hu) h4).st rfl
    have f := (f2.st_trans f3).st_trans f4
    refine ⟨heq, f.log.trans a1, f.cnt.trans a2, fun t => ?_⟩
    rw [f.flag t, a3 t]
    split_ifs with ht
    · rfl
    · rw [hr t, if_neg ht]

theorem tetStep_TetInv {c : Ctx} {pre : List Nat} {tet : Nat} {w w' : Work}
    (hnew : tet ∉ pre) (hI : TetInv c pre w) (h : tetStep c tet w = .ok w') :
    TetInv c (pre ++ [tet]) w' := by
  have hmem : ∀ p ∈ w.logTet, p.1 ≠ tet := by
    intro p hp heq
    have : p.1 ∈ w.logTet.map Prod.fst := List.mem_map_of_mem _ hp
    rw [hI.keys] at this
    exact hnew (heq ▸ (List.mem_filter.mp this).1)
  rcases tetStep_tet h with ⟨hne, a1, a2, a3⟩ | ⟨heq, a1, a2, a3⟩
  · refine ⟨?_, ?_, ?_⟩
    · rw [a1, hI.keys, List.filter_append]
      simp [List.filter_cons, Ne.symm hne]
    · rw [a1, a2, hI.vals]
    · intro p hp
      rw [a1] at hp
      rw [a3, if_neg (hmem p hp)]
      exact hI.flag p hp
  · refine ⟨?_, ?_, ?_⟩
    · rw [a1, List.map_append, hI.keys, List.filter_append]
      simp [List.filter_cons, heq.symm]
    · rw [a1, a2, List.map_append, hI.vals]
      simp [List.range'_concat, Nat.add_comm]
    · intro p hp
      rw [a1, List.mem_append] at hp
      rw [a3]
      rcases hp with hp | hp
      · rw [if_neg (hmem p hp)]; exact hI.flag p hp
      · simp only [List.mem_singleton] at hp
        subst hp
        simp

theorem tetLoop_TetInv {c : Ctx} {n : Nat} {w w' : Work}
    (h : forEach (tetStep c) (List.range' 1 n) w = .ok w')
    (h0 : w.logTet = []) (h1 : w.tetPerGrp = 0) : TetInv c (List.range' 1 n) w' := by
  refine forEach_prefix_inv (tetStep c) (TetInv c) (List.range' 1 n) ?_ w w' h ?_
  · intro pre a u u' hsplit hI hu
    obtain ⟨post, hpost⟩ := hsplit
    have hnd : (pre ++ a :: post).Nodup := hpost ▸ List.nodup_range' 1 n
    have : a ∉ pre := by
      intro ha
      have := List.nodup_append.mp hnd
      exact this.2.2 ha (List.mem_cons_self _ _)
    exact tetStep_TetInv this hI hu
  · exact ⟨by simp [h0], by simp [h0, h1], by simp [h0]⟩

theorem newGrp_fresh {env : Env} {grpOld : PMMG_Grp} {count grpId grants : Nat}
    {g : PMMG_Grp} {grants' : Nat}
    (h : newGrp env grpOld count grpId grants = .ok (g, grants')) : FreshGrp count g := by
  unfold newGrp at h
  split_ifs at h
  simp only [Except.ok.injEq, Prod.mk.injEq] at h
  obtain ⟨rfl, _⟩ := h
  constructor <;> rfl

theorem newGrps_fresh {env : Env} {grpOld : PMMG_Grp} {counts : List Nat} {grpId grants : Nat}
    {grps : List PMMG_Grp} {grants' : Nat}
    (h : newGrps env grpOld counts grpId grants = .ok (grps, grants')) :
    grps.length = counts.length ∧
    ∀ (i : Nat) g count, counts[i]? = some count → grps[i]? = some g → FreshGrp count g := by
  induction counts generalizing grpId grants grps grants' with
  | nil =>
    simp only [newGrps, Except.ok.injEq, Prod.mk.injEq] at h
    obtain ⟨rfl, _⟩ := h
    exact ⟨rfl, fun i g count hc => by simp at hc⟩
  | cons count rest ih =>
    simp only [newGrps] at h
    split at h
    · simp at h
    · rename_i g1 gr1 h1
      split at h
      · simp at h
      · rename_i gs gr2 h2
        simp only [Except.ok.injEq, Prod.mk.injEq] at h
        obtain ⟨rfl, _⟩ := h
        obtain ⟨hlen, hall⟩ := ih h2
        refine ⟨by simp [hlen], ?_⟩
        intro i g cnt hc hg
        cases i with
        | zero =>
          simp only [List.getElem?_cons_zero, Option.some.injEq] at hc hg
          subst hc; subst hg
          exact newGrp_fresh h1
        | succ j =>
          simp only [List.getElem?_cons_succ] at hc hg
          exact hall j g cnt hc hg

theorem tetLoop_frame {c : Ctx} {l : List Nat} {w w' : Work}
    (h : forEach (tetStep c) l w = .ok w') :
    Frame ⟨true, false, false, false, false, false, false, true, false, false, false⟩ w w' :=
  forEach_frame _ _ _ (fun _ _ _ hu => tetStep_frame hu) h

theorem splitGrp_frame {env : Env} {c : Ctx} {count : Nat} {w w' : Work}
    (h : splitGrp env c count w = .ok w') : OldStatic w w' ∧ SameSize w w' := by
  obtain ⟨w2, h1, rfl⟩ := splitGrp_ok h
  have f1 := tetLoop_frame h1
  have f2 := passEnd_frame env c w2
  obtain ⟨s1, _, s3⟩ := passStart_frame count w
  refine ⟨s1.os_trans ((f1.os rfl).os_trans (f2.os rfl)), ?_⟩
  have := (f1.sz rfl).sz_trans (f2.sz rfl)
  exact ⟨this.ne.trans (by rw [s3]), this.npmax.trans (by rw [s3]),
    this.nemax.trans (by rw [s3])⟩

theorem foldl_count (pa : Nat → Nat) (g : Nat) (l : List Nat) (f : Nat → Nat) :
    List.foldl (fun cnt tet => upd cnt (pa tet) (cnt (pa tet) + 1)) f l g =
      f g + (l.filter (fun t => decide (pa t = g))).length := by
  induction l generalizing f with
  | nil => simp
  | cons a l ih =>
    rw [List.foldl_cons, ih, List.filter_cons]
    by_cases ha : pa a = g
    · rw [if_pos (by simpa using ha), List.length_cons, ← ha, upd_same]; omega
    · rw [if_neg (by simpa using ha), upd_ne _ _ (fun e => ha e.symm)]

theorem countPerGrp_eq (part : List Nat) (ne g : Nat) :
    countPerGrp part ne g =
      ((List.range ne).filter (fun t => decide (part.getD t 0 = g))).length := by
  unfold countPerGrp
  rw [foldl_count (fun t => part.getD t 0) g (List.range ne) (fun _ => 0)]
  omega

theorem filter_range'_shift (p : Nat → Bool) (n : Nat) :
    (List.range' 1 n).filter (fun t => p (t - 1)) =
      ((List.range n).filter p).map (· + 1) := by
  have : List.range' 1 n = (List.range n).map (· + 1) := by
    rw [List.range'_eq_map_range]
    apply List.map_congr_left
    intro a _
    omega
  rw [this, List.filter_map]
  congr 1

theorem filter_range_getD_count (part : List Nat) (g : Nat) :
    ((List.range part.length).filter (fun t => decide (part.getD t 0 = g))).length =
      part.count g := by
  induction part with
  | nil => rfl
  | cons a l ih =>
    rw [List.length_cons, List.range_succ_eq_map, List.filter_cons, List.filter_map,
      List.count_cons, ← ih]
    have h1 : ((fun t => decide ((a :: l).getD t 0 = g)) ∘ Nat.succ) =
        (fun t => decide (l.getD t 0 = g)) := by
      funext t
      simp only [Function.comp, List.getD_cons_succ]
    rw [h1, List.getD_cons_zero]
    by_cases ha : a = g
    · simp [ha]
    · simp [ha]

theorem sum_count_range (part : List Nat) (k : Nat) (h : ∀ x ∈ part, x < k) :
    ((List.range k).map (fun g => part.count g)).sum = part.length := by
  induction part with
  | nil => simp
  | cons a l ih =>
    have hl : ∀ x ∈ l, x < k := fun x hx => h x (List.mem_cons_of_mem _ hx)
    have ha : a < k := h a (List.mem_cons_self _ _)
    have e : ∀ g, (a :: l).count g = l.count g + (if g = a then 1 else 0) := by
      intro g
      rw [List.count_cons]
      by_cases hg : g = a
      · simp [hg]
      · have : ¬ a = g := fun e => hg e.symm
        simp [hg, this]
    simp only [e]
    rw [List.sum_map_add, ih hl, List.length_cons]
    congr 1
    clear e ih h hl
    induction k with
    | zero => omega
    | succ k ih =>
      rw [List.range_succ, List.map_append, List.sum_append]
      by_cases hk : a < k
      · have : ¬ k = a := by omega
        simp [ih hk, this]
      · have hka : k = a := by omega
        have hz : ((List.range k).map (fun g => if g = a then 1 else 0)).sum = 0 := by
          apply List.sum_eq_zero
          intro x hx
          simp only [List.mem_map, List.mem_range] at hx
          obtain ⟨y, hy, rfl⟩ := hx
          have : ¬ y = a := by omega
          simp [this]
        rw [hz]; simp [hka]

theorem initTmp_tmpOnly (grpOld : PMMG_Grp) : TmpOnly grpOld.mesh (initTmp grpOld) := by
  unfold initTmp
  simp only
  generalize hm1 : ({ grpOld.mesh with
    point := fun poi =>
      if 1 ≤ poi ∧ poi < grpOld.mesh.np + 1 then { grpOld.mesh.point poi with tmp := -1 }
      else grpOld.mesh.point poi } : MMG5_Mesh) = m1
  have h1 : TmpOnly grpOld.mesh m1 := by
    subst hm1
    constructor <;> intros <;> simp <;> split_ifs <;> rfl
  clear hm1
  generalize List.range grpOld.nitem_int_node_comm = l
  induction l generalizing m1 with
  | nil => exact h1
  | cons a l ih =>
    rw [List.foldl_cons]
    apply ih
    constructor <;> intros <;> simp [h1.adja, h1.ne, h1.np, h1.tetra, h1.xtetra, h1.xpoint,
      upd_apply] <;> split_ifs with hv <;>
      simp [hv, h1.pflag, h1.pxp, h1.ptag, h1.pc, h1.pref]

theorem splitGrps_post {env : Env} {pm : PMMG_ParMesh} {t : Int} {part : List Nat}
    (hs : (PMMG_splitGrps env pm t).logInstalled = true) (hp : env.partition = some part)
    (Q : Work → Prop) (Post : Nat → PMMG_Grp × GrpLog → Work → Prop)
    (hQ0 : ∀ grants, Q (startWork pm (grpOldOf pm) (countPerGrp part (grpOldOf pm).mesh.ne)
      (ngrpOf pm t) grants))
    (hpass : ∀ grpId g w w1, FreshGrp (countPerGrp part (grpOldOf pm).mesh.ne grpId) g → Q w →
      splitGrp env ⟨part, grpId, (grpOldOf pm).met⟩
        (countPerGrp part (grpOldOf pm).mesh.ne grpId) { w with grpCur := g } = .ok w1 →
      Q w1 ∧ Post grpId (w1.grpCur, ⟨w1.logTet, w1.logPt⟩) w1)
    (hkeep : ∀ i b grpId g' w w1, Q w → Post i b w →
      splitGrp env ⟨part, grpId, (grpOldOf pm).met⟩
        (countPerGrp part (grpOldOf pm).mesh.ne grpId) { w with grpCur := g' } = .ok w1 →
      Post i b w1) :
    ∃ wf, Q wf ∧ (PMMG_splitGrps env pm t).logMint = wf.logMint ∧
      (PMMG_splitGrps env pm t).parmesh.int_node_comm_nitem = wf.int_node_comm_nitem ∧
      (PMMG_splitGrps env pm t).parmesh.listgrp.length = ngrpOf pm t ∧
      (PMMG_splitGrps env pm t).logGrp.length = ngrpOf pm t ∧
      ∀ (g : Nat) grp log, (PMMG_splitGrps env pm t).parmesh.listgrp[g]? = some grp →
        (PMMG_splitGrps env pm t).logGrp[g]? = some log → Post g (grp, log) wf := by
  obtain ⟨part', grps, grants, built, w, e1, e2, e3, e4, e5, e6, e7, e8, e9⟩ :=
    splitGrps_installed hs
  rw [hp] at e1
  simp only [Option.some.injEq] at e1
  subst e1
  obtain ⟨hlen, hfresh⟩ := newGrps_fresh e2
  simp only [List.length_map, List.length_range] at hlen
  obtain ⟨hblen, hQf, hall⟩ := splitLoop_spec env part (grpOldOf pm).met
    (countPerGrp part (grpOldOf pm).mesh.ne) Q
    (fun grpId g => FreshGrp (countPerGrp part (grpOldOf pm).mesh.ne grpId) g) Post
    (fun grpId g u u1 hf hq hu => hpass grpId g u u1 hf hq hu)
    hkeep grps 0 _ built w
    (fun i g hg => by
      rw [Nat.zero_add]
      have hi : i < grps.length := (List.getElem?_eq_some_iff.mp hg).1
      apply hfresh i g _ _ hg
      rw [List.getElem?_map, List.getElem?_range (by omega)]
      rfl)
    e3 (hQ0 grants)
  refine ⟨w, hQf, e9, e7, by rw [e5, List.length_map, hblen, hlen],
    by rw [e8, List.length_map, hblen, hlen], ?_⟩
  intro g grp log hg hl
  rw [e5, List.getElem?_map] at hg
  rw [e8, List.getElem?_map] at hl
  cases hb : built[g]? with
  | none => simp [hb] at hg
  | some b =>
    simp only [hb, Option.map_some', Option.some.injEq] at hg hl
    have := hall g b hb
    rw [Nat.zero_add] at this
    have hb' : b = (grp, log) := by rw [← hg, ← hl]
    rw [← hb']
    exact this

theorem splitGrp_tets {env : Env} {c : Ctx} {count : Nat} {w w' : Work}
    (h : splitGrp env c count w = .ok w') :
    TetInv c (List.range' 1 w.meshOld.ne) w' := by
  obtain ⟨w2, h1, rfl⟩ := splitGrp_ok h
  have hI := tetLoop_TetInv h1 rfl rfl
  have f := (passEnd_frame env c w2).st rfl
  exact ⟨by rw [f.log]; exact hI.keys, by rw [f.log, f.cnt]; exact hI.vals,
    fun p hp => by rw [f.flag]; exact hI.flag p (f.log ▸ hp)⟩

theorem startWork_ne (pm : PMMG_ParMesh) (grpOld : PMMG_Grp) (cnt : Nat → Nat) (k grants : Nat) :
    (startWork pm grpOld cnt k grants).meshOld.ne = grpOld.mesh.ne :=
  (initTmp_tmpOnly grpOld).ne

/-- C1: in a run that installs the sub-groups, with an assignment array of
the length of the source element table and values below the number of
sub-groups, the number of elements copied into sub-mesh `g` and the declared
element count of sub-mesh `g` both equal the number of source elements
assigned to `g`, and the declared counts sum to the source element count. -/
theorem C1_element_counts (env : Env) (pm : PMMG_ParMesh) (t : Int) (part : List Nat)
    (hs : (PMMG_splitGrps env pm t).logInstalled = true)
    (hp : env.partition = some part)
    (hlen : part.length = (grpOldOf pm).mesh.ne)
    (hrange : ∀ x ∈ part, x < ngrpOf pm t) :
    (PMMG_splitGrps env pm t).parmesh.listgrp.length = ngrpOf pm t ∧
    (PMMG_splitGrps env pm t).logGrp.length = ngrpOf pm t ∧
    (∀ (g : Nat) grp log, (PMMG_splitGrps env pm t).parmesh.listgrp[g]? = some grp →
      (PMMG_splitGrps env pm t).logGrp[g]? = some log →
      log.logTet.length = part.count g ∧ grp.mesh.ne = part.count g) ∧
    ((PMMG_splitGrps env pm t).parmesh.listgrp.map (fun grp => grp.mesh.ne)).sum =
      (grpOldOf pm).mesh.ne := by
  obtain ⟨wf, -, -, -, h1, h2, h3⟩ := splitGrps_post hs hp
    (fun w => w.meshOld.ne = (grpOldOf pm).mesh.ne)
    (fun g b _ => b.2.logTet.length = part.count g ∧ b.1.mesh.ne = part.count g)
    (fun grants => startWork_ne _ _ _ _ _)
    (fun grpId g w w1 hf hq hu => by
      obtain ⟨fo, fs⟩ := splitGrp_frame hu
      have hI := splitGrp_tets hu
      refine ⟨fo.ne.trans hq, ?_, ?_⟩
      · have := congrArg List.length hI.keys
        rw [List.length_map] at this
        simp only at this ⊢
        rw [this, hq, ← hlen]
        have e := filter_range'_shift (fun t => decide (part.getD t 0 = grpId)) part.length
        simp only [Ctx.partAt]
        rw [e, List.length_map, filter_range_getD_count]
      · simp only
        rw [fs.ne]
        simp only
        rw [hf.ne, countPerGrp_eq, ← hlen, filter_range_getD_count])
    (fun i b grpId g' w w1 _ hpost _ => hpost)
  refine ⟨h1, h2, h3, ?_⟩
  have hmap : (PMMG_splitGrps env pm t).parmesh.listgrp.map (fun grp => grp.mesh.ne) =
      (List.range (ngrpOf pm t)).map (fun g => part.count g) := by
    apply List.ext_getElem?
    intro i
    rw [List.getElem?_map, List.getElem?_map]
    by_cases hi : i < ngrpOf pm t
    · obtain ⟨grp, hg⟩ : ∃ grp, (PMMG_splitGrps env pm t).parmesh.listgrp[i]? = some grp :=
        ⟨_, List.getElem?_eq_getElem (by omega)⟩
      obtain ⟨log, hl⟩ : ∃ log, (PMMG_splitGrps env pm t).logGrp[i]? = some log :=
        ⟨_, List.getElem?_eq_getElem (by omega)⟩
      rw [hg, List.getElem?_range hi]
      simp only [Option.map_some', Option.some.injEq]
      exact (h3 i _ _ hg hl).2
    · rw [List.getElem?_eq_none (by omega), List.getElem?_eq_none (by simp; omega)]
      rfl
  rw [hmap, sum_count_range part _ hrange, hlen]

set_option maxRecDepth 100000 in
/-- Witness of C1: twelve elements, target size 5, assignment
`[0,0,0,0,0,1,1,1,1,1,2,2]`: three sub-groups of sizes 5, 5 and 2. -/
theorem C1_element_counts_witness :
    (PMMG_splitGrps env12 pm12 5).logInstalled = true ∧
    part12.length = (grpOldOf pm12).mesh.ne ∧ (∀ x ∈ part12, x < ngrpOf pm12 5) ∧
    (PMMG_splitGrps env12 pm12 5).parmesh.listgrp.map (fun grp => grp.mesh.ne) = [5, 5, 2] ∧
    (PMMG_splitGrps env12 pm12 5).logGrp.map (fun log => log.logTet.length) = [5, 5, 2] ∧
    ((PMMG_splitGrps env12 pm12 5).parmesh.listgrp.length = ngrpOf pm12 5 ∧
    (PMMG_splitGrps env12 pm12 5).logGrp.length = ngrpOf pm12 5 ∧
    (∀ (g : Nat) grp log, (PMMG_splitGrps env12 pm12 5).parmesh.listgrp[g]? = some grp →
      (PMMG_splitGrps env12 pm12 5).logGrp[g]? = some log →
      log.logTet.length = part12.count g ∧ grp.mesh.ne = part12.count g) ∧
    ((PMMG_splitGrps env12 pm12 5).parmesh.listgrp.map (fun grp => grp.mesh.ne)).sum =
      (grpOldOf pm12).mesh.ne) :=
  ⟨by decide, by decide, by decide, by decide, by decide,
    C1_element_counts env12 pm12 5 part12 (by decide) rfl (by decide) (by decide)⟩

theorem firstSeen_nil : firstSeen [] = [] := rfl

theorem firstSeen_concat (l : List Nat) (x : Nat) :
    firstSeen (l ++ [x]) = if x ∈ firstSeen l then firstSeen l else firstSeen l ++ [x] := by
  unfold firstSeen
  rw [List.foldl_append]
  rfl

theorem mem_firstSeen (l : List Nat) : ∀ x, x ∈ firstSeen l ↔ x ∈ l := by
  induction l using List.reverseRecOn with
  | nil => intro x; simp [firstSeen_nil]
  | append_singleton l a ih =>
    intro x
    rw [firstSeen_concat]
    split_ifs with h
    · rw [ih, List.mem_append, List.mem_singleton]
      constructor
      · exact Or.inl
      · rintro (h1 | rfl)
        · exact h1
        · exact (ih x).mp h
    · rw [List.mem_append, List.mem_append, ih]

theorem nodup_firstSeen (l : List Nat) : (firstSeen l).Nodup := by
  induction l using List.reverseRecOn with
  | nil => simp [firstSeen_nil]
  | append_singleton l a ih =>
    rw [firstSeen_concat]
    split_ifs with h
    · exact ih
    · rw [List.nodup_append]
      refine ⟨ih, List.nodup_singleton a, ?_⟩
      intro x hx hx'
      rw [List.mem_singleton] at hx'
      exact h (hx' ▸ hx)

theorem firstSeen_append_of_subset (l l' : List Nat) (h : ∀ x ∈ l', x ∈ l) :
    firstSeen (l ++ l') = firstSeen l := by
  induction l' using List.reverseRecOn with
  | nil => simp
  | append_singleton l' a ih =>
    have h' : ∀ x ∈ l', x ∈ l := fun x hx => h x (List.mem_append_left _ hx)
    rw [← List.append_assoc, firstSeen_concat, ih h', if_pos]
    rw [mem_firstSeen]
    exact h a (by simp)

/-- First-seen order and first occurrence: of two listed entries, the one
that stands earlier in `firstSeen l` is the one whose first occurrence in `l`
comes earlier. -/
theorem indexOf_firstSeen (l : List Nat) :
    ∀ a b, a ∈ l → b ∈ l →
      ((firstSeen l).indexOf a < (firstSeen l).indexOf b ↔ l.indexOf a < l.indexOf b) := by
  induction l using List.reverseRecOn with
  | nil => intro a b ha; simp at ha
  | append_singleton l x ih =>
    intro a b ha hb
    rw [firstSeen_concat]
    by_cases hx : x ∈ l
    · rw [if_pos ((mem_firstSeen l x).mpr hx)]
      have ha' : a ∈ l := by
        rcases List.mem_append.mp ha with h | h
        · exact h
        · rw [List.mem_singleton] at h; exact h ▸ hx
      have hb' : b ∈ l := by
        rcases List.mem_append.mp hb with h | h
        · exact h
        · rw [List.mem_singleton] at h; exact h ▸ hx
      rw [List.indexOf_append_of_mem ha', List.indexOf_append_of_mem hb']
      exact ih a b ha' hb'
    · have hxf : x ∉ firstSeen l := fun h => hx ((mem_firstSeen l x).mp h)
      rw [if_neg hxf]
      by_cases ha' : a ∈ l
      · have haf := (mem_firstSeen l a).mpr ha'
        rw [List.indexOf_append_of_mem ha', List.indexOf_append_of_mem haf]
        by_cases hb' : b ∈ l
        · have hbf := (mem_firstSeen l b).mpr hb'
          rw [List.indexOf_append_of_mem hb', List.indexOf_append_of_mem hbf]
          exact ih a b ha' hb'
        · have hbx : b = x := by
            rcases List.mem_append.mp hb with h | h
            · exact absurd h hb'
            · exact List.mem_singleton.mp h
          subst hbx
          rw [List.indexOf_append_of_not_mem hx, List.indexOf_append_of_not_mem hxf]
          have h1 := List.indexOf_lt_length.mpr ha'
          have h2 := List.indexOf_lt_length.mpr haf
          simp only [List.indexOf_cons_self, Nat.add_zero]
          omega
      · have hax : a = x := by
          rcases List.mem_append.mp ha with h | h
          · exact absurd h ha'
          · exact List.mem_singleton.mp h
        subst hax
        by_cases hb' : b ∈ l
        · have hbf := (mem_firstSeen l b).mpr hb'
          rw [List.indexOf_append_of_not_mem hx, List.indexOf_append_of_not_mem hxf]
          simp only [List.indexOf_cons_self, Nat.add_zero]
          rw [List.indexOf_append_of_mem hb', List.indexOf_append_of_mem hbf]
          have h1 := List.indexOf_lt_length.mpr hb'
          have h2 := List.indexOf_lt_length.mpr hbf
          omega
        · have hbx : b = a := by
            rcases List.mem_append.mp hb with h | h
            · exact absurd h hb'
            · exact List.mem_singleton.mp h
          subst hbx
          exact ⟨fun h => absurd h (lt_irrefl _), fun h => absurd h (lt_irrefl _)⟩

theorem Frame2.f2_refl (k : Keep2) (w : Work) : Frame2 k w w :=
  ⟨fun _ _ => rfl, fun _ _ => rfl, fun _ _ => rfl, fun _ _ => rfl⟩

theorem Frame2.f2_trans {k : Keep2} {a b c : Work} (h1 : Frame2 k a b) (h2 : Frame2 k b c) :
    Frame2 k a c :=
  ⟨fun h i => (h2.ptmp h i).trans (h1.ptmp h i), fun h i => (h2.ptag h i).trans (h1.ptag h i),
    fun h i => (h2.tv h i).trans (h1.tv h i), fun h i => (h2.txt h i).trans (h1.txt h i)⟩

theorem Frame2.f2_weaken {k k' : Keep2} {a b : Work} (h : Frame2 k a b) (hle : Keep2.le k' k) :
    Frame2 k' a b := by
  obtain ⟨l1, l2, l3, l4⟩ := hle
  exact ⟨fun e => h.ptmp (l1 e), fun e => h.ptag (l2 e), fun e => h.tv (l3 e),
    fun e => h.txt (l4 e)⟩

theorem Frame2.of_frame {w w' : Work} {k : Keep} (h : Frame k w w') (k2 : Keep2)
    (hp : (k2.ptmp = true ∨ k2.ptag = true) → k.cp = true)
    (ht : (k2.tv = true ∨ k2.txt = true) → k.ct = true) : Frame2 k2 w w' :=
  ⟨fun e i => by rw [h.cp (hp (Or.inl e))], fun e i => by rw [h.cp (hp (Or.inr e))],
    fun e i => by rw [h.ct (ht (Or.inl e))], fun e i => by rw [h.ct (ht (Or.inr e))]⟩

theorem forEach_frame2 {α : Type} (k : Keep2) (f : α → Work → Except Work Work) (l : List α)
    (hstep : ∀ (a : α) (w w' : Work), f a w = .ok w' → Frame2 k w w')
    {w w' : Work} (h : forEach f l w = .ok w') : Frame2 k w w' :=
  forEach_rel f (Frame2 k) (Frame2.f2_refl k) (fun _ _ _ => Frame2.f2_trans) l
    (fun a u u' _ hf => hstep a u u' hf) w w' h

theorem n2incAppend_frame2 {w w' : Work} {i1 : Nat} {i2 : Int}
    (h : w.n2incAppend i1 i2 = .ok w') : Frame2 ⟨true, true, true, true⟩ w w' :=
  Frame2.of_frame (n2incAppend_frame h) _ (fun _ => rfl) (fun _ => rfl)

theorem n2ifcAppend_frame2 {w w' : Work} {i1 : Nat} {i2 : Int}
    (h : w.n2ifcAppend i1 i2 = .ok w') : Frame2 ⟨true, true, true, true⟩ w w' :=
  Frame2.of_frame (n2ifcAppend_frame h) _ (fun _ => rfl) (fun _ => rfl)

theorem xtetraAppend_frame2 {w w' : Work} {tet : Nat} (h : w.xtetraAppend tet = .ok w') :
    Frame2 ⟨true, true, true, false⟩ w w' := by
  have hp := (xtetraAppend_frame h).cp rfl
  unfold Work.xtetraAppend at h
  split at h
  · simp at h
  · rename_i m hm
    obtain ⟨e1, e2, e3, e4, e5, e6, e7, e8, e9, e10, e11, e12, e13, e14, e15⟩ :=
      xtetraAppend_some hm
    simp only [Except.ok.injEq] at h
    subst h
    refine ⟨fun _ i => by rw [hp], fun _ i => by rw [hp], fun _ i => ?_,
      fun hk => absurd hk (by decide)⟩
    simp only [Work.setTetraCur, Work.setMeshCur, Work.tetraCur, e4, upd_apply]
    split_ifs with hi
    · rw [hi]
    · rfl

theorem xpointAppend_frame2 {w w' : Work} {tet : Nat} {poi : Fin 4}
    (h : w.xpointAppend tet poi = .ok w') : Frame2 ⟨true, true, true, true⟩ w w' := by
  have ht := (xpointAppend_frame h).ct rfl
  unfold Work.xpointAppend at h
  split at h
  · simp at h
  · rename_i m hm
    obtain ⟨e1, e2, e3, e4, e5, e6, e7, e8, e9, e10, e11, e12, e13, e14, e15⟩ :=
      xpointAppend_some hm
    simp only [Except.ok.injEq] at h
    subst h
    refine ⟨fun _ i => ?_, fun _ i => ?_, fun _ i => by rw [ht], fun _ i => by rw [ht]⟩
    · simp only [Work.setMeshCur, e3, upd_apply]
      split_ifs with hi
      · rw [hi]
      · rfl
    · simp only [Work.setMeshCur, e3, upd_apply]
      split_ifs with hi
      · rw [hi]
      · rfl

theorem copyTetraRec_frame2 (tet : Nat) (w : Work) :
    Frame2 ⟨true, true, false, false⟩ w (copyTetraRec tet w) :=
  Frame2.of_frame (copyTetraRec_frame tet w) _ (fun _ => rfl)
    (fun h => by rcases h with h | h <;> exact absurd h (by decide))

theorem copyTetra_frame2 {tet : Nat} {w w' : Work} (h : copyTetra tet w = .ok w') :
    Frame2 ⟨true, true, false, false⟩ w w' :=
  Frame2.of_frame (copyTetra_frame h) _ (fun _ => rfl)
    (fun h => by rcases h with h | h <;> exact absurd h (by decide))

theorem tagFaceItem_frame2 {fac : Fin 4} {j : Fin 3} {w w' : Work}
    (h : tagFaceItem fac j w = .ok w') : Frame2 ⟨true, false, true, true⟩ w w' := by
  have ht := (tagFaceItem_frame h).ct rfl
  unfold tagFaceItem at h
  simp only [Except.ok.injEq] at h
  subst h
  refine ⟨fun _ i => ?_, fun hk => absurd hk (by decide), fun _ i => by rw [ht],
    fun _ i => by rw [ht]⟩
  simp only [Work.setMeshCur, upd_apply]
  split_ifs with hi
  · rw [hi]
  · rfl

theorem newFaceXt_frame2 {tet : Nat} {fac : Fin 4} {w w' : Work}
    (h : newFaceXt tet fac w = .ok w') : Frame2 ⟨true, true, true, false⟩ w w' := by
  unfold newFaceXt at h
  simp only at h
  split_ifs at h with h1
  · have := xtetraAppend_frame2 h
    exact ⟨fun e i => this.ptmp e i, fun e i => this.ptag e i, fun e i => this.tv e i,
      fun hk => absurd hk (by decide)⟩
  · simp only [Except.ok.injEq] at h
    subst h
    exact ⟨fun _ _ => rfl, fun _ _ => rfl, fun _ _ => rfl, fun hk => absurd hk (by decide)⟩

theorem newFaceTag_frame2 (fac : Fin 4) (w : Work) :
    Frame2 ⟨true, true, true, true⟩ w (newFaceTag fac w) :=
  Frame2.of_frame (newFaceTag_frame fac w) _ (fun _ => rfl) (fun _ => rfl)

theorem newFace_frame2 {tet : Nat} {fac : Fin 4} {w w' : Work}
    (h : newFace tet fac w = .ok w') : Frame2 ⟨true, false, true, false⟩ w w' := by
  unfold newFace at h
  simp only [andThen_ok_iff] at h
  obtain ⟨w2, h2, w4, h4, h5⟩ := h
  exact (((newFaceXt_frame2 h2).f2_weaken (by decide)).f2_trans
    (((newFaceTag_frame2 fac w2).f2_weaken (by decide)).f2_trans
      ((n2ifcAppend_frame2 h4).f2_weaken (by decide)))).f2_trans
    (forEach_frame2 _ _ _ (fun a u u' hu => (tagFaceItem_frame2 hu).f2_weaken (by decide)) h5)

theorem updateAdja_frame2 {c : Ctx} {tet : Nat} {fac : Fin 4} {w w' : Work}
    (h : updateAdja c tet fac w = .ok w') : Frame2 ⟨true, false, true, false⟩ w w' := by
  unfold updateAdja at h
  simp only at h
  split_ifs at h with h1 h2 h3
  · simp only [Except.ok.injEq] at h; subst h; exact Frame2.f2_refl _ _
  · exact newFace_frame2 h
  · simp only [Except.ok.injEq] at h; subst h
    exact Frame2.of_frame (linkAdja_frame _ _ _ _) _ (fun _ => rfl) (fun _ => rfl)
  · simp only [Except.ok.injEq] at h; subst h; exact Frame2.f2_refl _ _

theorem mintRec_frame2 (tet : Nat) (fac : Fin 4) (poi : Fin 3) (slot : Int) (w : Work) :
    Frame2 ⟨false, true, true, true⟩ w (mintRec tet fac poi slot w) := by
  have ht := (mintRec_frame tet fac poi slot w).ct rfl
  refine ⟨fun hk => absurd hk (by decide), fun _ i => ?_, fun _ i => by rw [ht],
    fun _ i => by rw [ht]⟩
  simp only [mintRec, Work.setMeshCur, upd_apply]
  split_ifs with hi
  · rw [hi]
  · rfl

theorem mintPoint_frame2 {tet : Nat} {fac : Fin 4} {poi : Fin 3} {w w' : Work}
    (h : mintPoint tet fac poi w = .ok w') : Frame2 ⟨false, true, true, true⟩ w w' := by
  unfold mintPoint at h
  simp only at h
  split_ifs at h with h1
  · rw [andThen_ok_iff] at h
    obtain ⟨w1, h2, h3⟩ := h
    simp only [Except.ok.injEq] at h3
    subst h3
    exact ((n2incAppend_frame2 h2).f2_weaken (by decide)).f2_trans (mintRec_frame2 _ _ _ _ _)
  · simp only [Except.ok.injEq] at h; subst h; exact Frame2.f2_refl _ _

theorem mintFace_frame2 {c : Ctx} {tet : Nat} {fac : Fin 4} {w w' : Work}
    (h : mintFace c tet fac w = .ok w') : Frame2 ⟨false, true, true, true⟩ w w' := by
  unfold mintFace at h
  simp only at h
  split_ifs at h with h1
  · exact forEach_frame2 _ _ _ (fun a u u' hu => mintPoint_frame2 hu) h
  · simp only [Except.ok.injEq] at h; subst h; exact Frame2.f2_refl _ _

theorem copyAdja_frame2 (tet : Nat) (w : Work) :
    Frame2 ⟨true, true, true, true⟩ w (copyAdja tet w) :=
  Frame2.of_frame (copyAdja_frame tet w) _ (fun _ => rfl) (fun _ => rfl)

theorem resetFlag_frame2 (tet : Nat) (w : Work) :
    Frame2 ⟨true, true, true, true⟩ w (resetFlag tet w) :=
  Frame2.of_frame (resetFlag_frame tet w) _ (fun _ => rfl) (fun _ => rfl)

theorem xpointAppend_point {w w' : Work} {tet : Nat} {poi : Fin 4}
    (h : w.xpointAppend tet poi = .ok w') :
    ∀ k, k ≠ w.poiPerGrp → w'.grpCur.mesh.point k = w.grpCur.mesh.point k := by
  unfold Work.xpointAppend at h
  split at h
  · simp at h
  · rename_i m hm
    obtain ⟨e1, e2, e3, e4, e5, e6, e7, e8, e9, e10, e11, e12, e13, e14, e15⟩ :=
      xpointAppend_some hm
    simp only [Except.ok.injEq] at h
    subst h
    intro k hk
    simp only [Work.setMeshCur, e3, upd_apply, if_neg hk]

theorem addPointComm_ok {w w' : Work} (h : addPointComm w = .ok w') :
    Frame ⟨true, true, true, true, true, false, true, true, true, true, true⟩ w w' ∧
    ((w.grpCur.mesh.point w.poiPerGrp).tmp = -1 ∧ SameNode w w' ∨
     (w.grpCur.mesh.point w.poiPerGrp).tmp ≠ -1 ∧
      w'.grpCur.nitem_int_node_comm = w.grpCur.nitem_int_node_comm + 1 ∧
      w'.grpCur.node2int_node_comm_index1 =
        upd w.grpCur.node2int_node_comm_index1 w.grpCur.nitem_int_node_comm w.poiPerGrp ∧
      w'.grpCur.node2int_node_comm_index2 =
        upd w.grpCur.node2int_node_comm_index2 w.grpCur.nitem_int_node_comm
          (w.grpCur.mesh.point w.poiPerGrp).tmp) := by
  refine ⟨addPointComm_frame h, ?_⟩
  unfold addPointComm at h
  split_ifs at h with h1
  · right
    refine ⟨h1, ?_⟩
    unfold Work.n2incAppend at h
    split at h
    · simp at h
    · rename_i r hr
      obtain ⟨a1, a2, a3, a4, a5, a6, a7, a8, a9⟩ := n2incAppend_some hr
      simp only [Except.ok.injEq] at h
      subst h
      exact ⟨a3, a4, a5⟩
  · left
    simp only [Except.ok.injEq] at h
    subst h
    exact ⟨not_not.mp h1, SameNode.sn_refl _⟩

theorem addPointRec_fields (c : Ctx) (tet : Nat) (poi : Fin 4) (w : Work) :
    (addPointRec c tet poi w).poiPerGrp = w.poiPerGrp + 1 ∧
    (addPointRec c tet poi w).logPt =
      w.logPt ++ [((w.meshOld.tetra tet).v poi, w.poiPerGrp + 1)] ∧
    (addPointRec c tet poi w).meshOld.point =
      upd w.meshOld.point ((w.meshOld.tetra tet).v poi)
        { w.meshOld.point ((w.meshOld.tetra tet).v poi) with flag := w.poiPerGrp + 1 } ∧
    (addPointRec c tet poi w).grpCur.mesh.point =
      upd w.grpCur.mesh.point (w.poiPerGrp + 1)
        (w.meshOld.point ((w.meshOld.tetra tet).v poi)) ∧
    (addPointRec c tet poi w).grpCur.mesh.tetra =
      upd w.grpCur.mesh.tetra w.tetPerGrp
        { w.tetraCur with v := upd w.tetraCur.v poi (w.poiPerGrp + 1) } := by
  refine ⟨?_, ?_, ?_, ?_, ?_⟩ <;>
    simp only [addPointRec, Work.setTetraCur, Work.setMeshCur, Work.tetraCur] <;>
    split_ifs <;> rfl

/-- What `addPoint` does when it succeeds. -/
theorem addPoint_ok {c : Ctx} {tet : Nat} {poi : Fin 4} {w w' : Work}
    (h : addPoint c tet poi w = .ok w') :
    w'.grpCur.mesh.tetra = upd w.grpCur.mesh.tetra w.tetPerGrp
      { w.tetraCur with v := upd w.tetraCur.v poi (addPointId tet poi w) } ∧
    (((w.meshOld.point ((w.meshOld.tetra tet).v poi)).flag ≠ 0 ∧ SamePt w w' ∧
        SameNode w w' ∧ w'.grpCur.mesh.point = w.grpCur.mesh.point) ∨
     ((w.meshOld.point ((w.meshOld.tetra tet).v poi)).flag = 0 ∧
        w'.logPt = w.logPt ++ [((w.meshOld.tetra tet).v poi, w.poiPerGrp + 1)] ∧
        w'.poiPerGrp = w.poiPerGrp + 1 ∧
        (∀ v, (w'.meshOld.point v).flag =
          if v = (w.meshOld.tetra tet).v poi then w.poiPerGrp + 1
          else (w.meshOld.point v).flag) ∧
        (∀ k, k ≠ w.poiPerGrp + 1 → w'.grpCur.mesh.point k = w.grpCur.mesh.point k) ∧
        (w'.grpCur.mesh.point (w.poiPerGrp + 1)).tmp =
          (w.meshOld.point ((w.meshOld.tetra tet).v poi)).tmp ∧
        (w'.grpCur.mesh.point (w.poiPerGrp + 1)).tag =
          (w.meshOld.point ((w.meshOld.tetra tet).v poi)).tag ∧
        (((w.meshOld.point ((w.meshOld.tetra tet).v poi)).tmp = -1 ∧ SameNode w w') ∨
         ((w.meshOld.point ((w.meshOld.tetra tet).v poi)).tmp ≠ -1 ∧
          w'.grpCur.nitem_int_node_comm = w.grpCur.nitem_int_node_comm + 1 ∧
          w'.grpCur.node2int_node_comm_index1 =
            upd w.grpCur.node2int_node_comm_index1 w.grpCur.nitem_int_node_comm
              (w.poiPerGrp + 1) ∧
          w'.grpCur.node2int_node_comm_index2 =
            upd w.grpCur.node2int_node_comm_index2 w.grpCur.nitem_int_node_comm
              (w.meshOld.point ((w.meshOld.tetra tet).v poi)).tmp)))) := by
  unfold addPoint at h
  simp only at h
  unfold addPointId
  split_ifs at h with h1
  · rw [andThen_ok_iff] at h
    obtain ⟨w1, h2, h3⟩ := h
    obtain ⟨f2, hc⟩ := addPointComm_ok h2
    have f3 := addPointXp_frame h3
    have g3 : Frame2 ⟨true, true, true, true⟩ w1 w' := by
      unfold addPointXp at h3
      split_ifs at h3
      · exact xpointAppend_frame2 h3
      · simp only [Except.ok.injEq] at h3; subst h3; exact Frame2.f2_refl _ _
    have p3 : ∀ k, k ≠ w1.poiPerGrp → w'.grpCur.mesh.point k = w1.grpCur.mesh.point k := by
      unfold addPointXp at h3
      split_ifs at h3
      · exact xpointAppend_point h3
      · simp only [Except.ok.injEq] at h3; subst h3; intro k _; rfl
    obtain ⟨r1, r2, r3, r4, r5⟩ := addPointRec_fields c tet poi w
    have q1 : w1.poiPerGrp = w.poiPerGrp + 1 := by
      rw [(f2.sp rfl).cnt, r1]
    have q2 : w1.grpCur.mesh.point = (addPointRec c tet poi w).grpCur.mesh.point := f2.cp rfl
    have q3 := r4
    have q4 := r1
    have q5 : (addPointRec c tet poi w).grpCur.nitem_int_node_comm =
        w.grpCur.nitem_int_node_comm ∧
        (addPointRec c tet poi w).grpCur.node2int_node_comm_index1 =
          w.grpCur.node2int_node_comm_index1 ∧
        (addPointRec c tet poi w).grpCur.node2int_node_comm_index2 =
          w.grpCur.node2int_node_comm_index2 := by
      have := (addPointRec_frame c tet poi w).sn rfl
      exact ⟨this.nitem, this.idx1, this.idx2⟩
    rw [q4, q3, upd_same] at hc
    rw [q5.1, q5.2.1, q5.2.2] at hc
    refine ⟨?_, Or.inr ⟨h1, ?_, ?_, ?_, ?_, ?_, ?_, ?_⟩⟩
    · rw [f3.ct rfl, f2.ct rfl, r5, if_pos h1]
    · rw [(f3.sp rfl).log, (f2.sp rfl).log, r2]
    · rw [(f3.sp rfl).cnt, q1]
    · intro v
      rw [(f3.sp rfl).flag, (f2.sp rfl).flag, r3]
      simp only [upd_apply]
      split_ifs <;> rfl
    · intro k hk
      rw [p3 k (by rw [q1]; exact hk), q2, q3, upd_ne _ _ hk]
    · rw [g3.ptmp rfl, q2, q3, upd_same]
    · rw [g3.ptag rfl, q2, q3, upd_same]
    · have sn3 := f3.sn rfl
      rcases hc with ⟨hc1, hc2⟩ | ⟨hc1, hc2, hc3, hc4⟩
      · left
        refine ⟨hc1, ?_⟩
        have := SameNode.sn_trans ((addPointRec_frame c tet poi w).sn rfl) hc2
        exact this.sn_trans sn3
      · right
        exact ⟨hc1, sn3.nitem.trans hc2, sn3.idx1.trans hc3, sn3.idx2.trans hc4⟩
  · simp only [Except.ok.injEq] at h
    subst h
    refine ⟨?_, Or.inl ⟨h1, ?_, ?_, ?_⟩⟩
    · simp only [Work.setTetraCur, Work.setMeshCur, Work.tetraCur, if_neg h1]
    · exact ⟨rfl, rfl, fun _ => rfl⟩
    · exact ⟨rfl, rfl, rfl⟩
    · rfl

theorem PtInv.of_samePt {np : Nat} {seen : List Nat} {w w' : Work} (hI : PtInv np seen w)
    (h : SamePt w w') : PtInv np seen w' :=
  ⟨by rw [h.log]; exact hI.keys, by rw [h.log, h.cnt]; exact hI.vals,
    fun p hp => by rw [h.flag]; exact hI.flag p (h.log ▸ hp),
    fun v h1 h2 h3 => by rw [h.flag]; exact hI.zero v h1 h2 (h.log ▸ h3)⟩

theorem PtInv.snd_pos {np : Nat} {seen : List Nat} {w : Work} (hI : PtInv np seen w)
    {p : Nat × Nat} (hp : p ∈ w.logPt) : 1 ≤ p.2 ∧ p.2 ≤ w.poiPerGrp := by
  have : p.2 ∈ w.logPt.map Prod.snd := List.mem_map_of_mem _ hp
  rw [hI.vals, List.mem_range'_1] at this
  omega

theorem addPoint_PtInv {c : Ctx} {tet : Nat} {poi : Fin 4} {np : Nat} {seen : List Nat}
    {w w' : Work} (hI : PtInv np seen w)
    (hwf : 1 ≤ (w.meshOld.tetra tet).v poi ∧ (w.meshOld.tetra tet).v poi ≤ np)
    (h : addPoint c tet poi w = .ok w') :
    PtInv np (seen ++ [(w.meshOld.tetra tet).v poi]) w' := by
  obtain ⟨-, hcase⟩ := addPoint_ok h
  rcases hcase with ⟨hf, hsp, -, -⟩ | ⟨hf, hlog, hcnt, hflag, -⟩
  · -- already seen
    have hmem : (w.meshOld.tetra tet).v poi ∈ w.logPt.map Prod.fst := by
      by_contra hne
      exact hf (hI.zero _ hwf.1 hwf.2 hne)
    have hI' := hI.of_samePt hsp
    refine ⟨?_, hI'.vals, hI'.flag, hI'.zero⟩
    rw [hI'.keys, firstSeen_concat, if_pos]
    rw [← hI.keys]; exact hmem
  · -- first time
    have hnot : (w.meshOld.tetra tet).v poi ∉ w.logPt.map Prod.fst := by
      intro hmem
      obtain ⟨p, hp, hp1⟩ := List.mem_map.mp hmem
      have h1 := hI.flag p hp
      have h2 := (hI.snd_pos hp).1
      rw [hp1, hf] at h1
      omega
    refine ⟨?_, ?_, ?_, ?_⟩
    · rw [hlog, List.map_append, hI.keys, firstSeen_concat, if_neg]
      · rfl
      · rw [← hI.keys]; exact hnot
    · rw [hlog, hcnt, List.map_append, hI.vals]
      simp [List.range'_concat, Nat.add_comm]
    · intro p hp
      rw [hlog, List.mem_append, List.mem_singleton] at hp
      rw [hflag]
      rcases hp with hp | rfl
      · have : p.1 ≠ (w.meshOld.tetra tet).v poi := by
          intro e
          exact hnot (e ▸ List.mem_map_of_mem _ hp)
        rw [if_neg this]
        exact hI.flag p hp
      · simp
    · intro v h1 h2 h3
      rw [hlog, List.map_append, List.mem_append] at h3
      push_neg at h3
      have hv : v ≠ (w.meshOld.tetra tet).v poi := by
        intro e; exact h3.2 (by simp [e])
      rw [hflag, if_neg hv]
      exact hI.zero v h1 h2 h3.1

theorem addPointLoop_PtInv {c : Ctx} {tet : Nat} {np : Nat} {seen : List Nat}
    {w w' : Work} (hI : PtInv np seen w)
    (hwf : ∀ i, 1 ≤ (w.meshOld.tetra tet).v i ∧ (w.meshOld.tetra tet).v i ≤ np)
    (h : forEach (addPoint c tet) [0, 1, 2, 3] w = .ok w') :
    PtInv np (seen ++ vertsOf w.meshOld tet) w' := by
  simp only [forEach_cons_ok, forEach_nil, Except.ok.injEq] at h
  obtain ⟨w1, h1, w2, h2, w3, h3, w4, h4, rfl⟩ := h
  have s1 := (addPoint_frame h1).os rfl
  have s2 := s1.os_trans ((addPoint_frame h2).os rfl)
  have s3 := s2.os_trans ((addPoint_frame h3).os rfl)
  have i1 := addPoint_PtInv hI (hwf 0) h1
  have i2 := addPoint_PtInv i1 (by rw [s1.tv]; exact hwf 1) h2
  have i3 := addPoint_PtInv i2 (by rw [s2.tv]; exact hwf 2) h3
  have i4 := addPoint_PtInv i3 (by rw [s3.tv]; exact hwf 3) h4
  rw [s1.tv, s2.tv, s3.tv] at i4
  simpa [vertsOf, List.append_assoc] using i4

theorem tetStep_PtInv {c : Ctx} {tet : Nat} {np : Nat} {seen : List Nat} {w w' : Work}
    (hI : PtInv np seen w)
    (hwf : ∀ i, 1 ≤ (w.meshOld.tetra tet).v i ∧ (w.meshOld.tetra tet).v i ≤ np)
    (h : tetStep c tet w = .ok w') :
    PtInv np (seen ++ if c.partAt (tet - 1) = c.grpId then vertsOf w.meshOld tet else []) w' := by
  rcases tetStep_ok h with ⟨hne, rfl⟩ | ⟨heq, w1, w2, w3, h1, h2, h3, h4⟩
  · rw [if_neg (fun e => hne e.symm), List.append_nil]
    exact hI.of_samePt ((resetFlag_frame tet w).sp rfl)
  · rw [if_pos heq.symm]
    have f0 := resetFlag_frame tet w
    have f1 := copyTetra_frame h1
    have s01 := (f0.os rfl).os_trans (f1.os rfl)
    have i1 : PtInv np seen w1 := hI.of_samePt ((f0.sp rfl).sp_trans (f1.sp rfl))
    have i2 := addPointLoop_PtInv i1 (fun i => by rw [s01.tv]; exact hwf i) h2
    have e : vertsOf w1.meshOld tet = vertsOf w.meshOld tet := by
      simp only [vertsOf, s01.tv]
    rw [e] at i2
    have f3 := ((copyAdja_frame tet w2).sp rfl).sp_trans
      ((forEach_frame _ _ _ (fun a u u' hu => updateAdja_frame hu) h3).sp rfl)
    have f4 := (forEach_frame _ _ _ (fun a u u' hu => mintFace_frame hu) h4).sp rfl
    exact i2.of_samePt (f3.sp_trans f4)

theorem seqOf_concat (c : Ctx) (m : MMG5_Mesh) (l : List Nat) (t : Nat) :
    seqOf c m (l ++ [t]) =
      seqOf c m l ++ if c.partAt (t - 1) = c.grpId then vertsOf m t else [] := by
  unfold seqOf
  rw [List.filter_append, List.flatMap_append]
  by_cases h : c.partAt (t - 1) = c.grpId
  · simp [List.filter_cons, h]
  · simp [List.filter_cons, h]

theorem tetLoop_PtInv {c : Ctx} {n : Nat} {w w' : Work}
    (hwf : ∀ t, 1 ≤ t → t ≤ n → ∀ i, 1 ≤ (w.meshOld.tetra t).v i ∧
      (w.meshOld.tetra t).v i ≤ w.meshOld.np)
    (h : forEach (tetStep c) (List.range' 1 n) w = .ok w')
    (h0 : PtInv w.meshOld.np [] w) :
    PtInv w.meshOld.np (seqOf c w.meshOld (List.range' 1 n)) w' := by
  have key := forEach_prefix_inv (tetStep c)
    (fun pre u => PtInv w.meshOld.np (seqOf c w.meshOld pre) u ∧ OldStatic w u)
    (List.range' 1 n) ?_ w w' h ⟨h0, OldStatic.os_refl w⟩
  · exact key.1
  · intro pre a u u' hsplit hI hu
    obtain ⟨post, hpost⟩ := hsplit
    have ha : a ∈ List.range' 1 n := by rw [hpost]; simp
    rw [List.mem_range'_1] at ha
    have hs := hI.2.os_trans ((tetStep_frame hu).os rfl)
    refine ⟨?_, hs⟩
    rw [seqOf_concat]
    have := tetStep_PtInv hI.1 (fun i => by rw [hI.2.tv]; exact hwf a ha.1 (by omega) i) hu
    have e : vertsOf u.meshOld a = vertsOf w.meshOld a := by simp only [vertsOf, hI.2.tv]
    rw [e] at this
    exact this

theorem SrcOf.of_oldStatic {m0 : MMG5_Mesh} {w w' : Work} (h : SrcOf m0 w)
    (hs : OldStatic w w') : SrcOf m0 w' :=
  ⟨hs.adja.trans h.adja, hs.ne.trans h.ne, hs.np.trans h.np,
    fun t => (hs.tv t).trans (h.tv t), fun t => (hs.txt t).trans (h.txt t),
    hs.xtetra.trans h.xtetra, hs.xpoint.trans h.xpoint,
    fun v => (hs.pxp v).trans (h.pxp v), fun v => (hs.ptag v).trans (h.ptag v),
    fun v => (hs.pc v).trans (h.pc v), fun v => (hs.pref v).trans (h.pref v)⟩

theorem SrcOf.setGrp {m0 : MMG5_Mesh} {w : Work} (h : SrcOf m0 w) (g : PMMG_Grp) :
    SrcOf m0 { w with grpCur := g } :=
  ⟨h.adja, h.ne, h.np, h.tv, h.txt, h.xtetra, h.xpoint, h.pxp, h.ptag, h.pc, h.pref⟩

theorem startWork_srcOf (pm : PMMG_ParMesh) (grpOld : PMMG_Grp) (cnt : Nat → Nat)
    (k grants : Nat) : SrcOf grpOld.mesh (startWork pm grpOld cnt k grants) := by
  have h := initTmp_tmpOnly grpOld
  exact ⟨h.adja, h.ne, h.np, fun t => by rw [show (startWork pm grpOld cnt k grants).meshOld =
    initTmp grpOld from rfl, h.tetra], fun t => by rw [show
    (startWork pm grpOld cnt k grants).meshOld = initTmp grpOld from rfl, h.tetra],
    h.xtetra, h.xpoint, h.pxp, h.ptag, h.pc, h.pref⟩

theorem splitGrp_srcOf {env : Env} {c : Ctx} {count : Nat} {m0 : MMG5_Mesh} {w w' : Work}
    (hs : SrcOf m0 w) (h : splitGrp env c count w = .ok w') : SrcOf m0 w' :=
  hs.of_oldStatic (splitGrp_frame h).1

theorem passStart_PtInv (count : Nat) (w : Work) :
    PtInv w.meshOld.np [] (passStart count w) := by
  refine ⟨rfl, rfl, fun p hp => by simp [passStart] at hp, ?_⟩
  intro v h1 h2 _
  simp only [passStart]
  rw [if_pos ⟨h1, by omega⟩]

theorem seqOf_eq_vertexSeq (part : List Nat) (g : Nat) (met : MMG5_Sol) (m : MMG5_Mesh) :
    seqOf ⟨part, g, met⟩ m (List.range' 1 m.ne) = vertexSeq m part g := rfl

theorem vertsOf_congr {m m' : MMG5_Mesh} (h : ∀ t, (m'.tetra t).v = (m.tetra t).v) :
    vertsOf m' = vertsOf m := by
  funext t
  simp only [vertsOf, h]

theorem splitGrp_pts {env : Env} {part : List Nat} {g : Nat} {met : MMG5_Sol} {count : Nat}
    {m0 : MMG5_Mesh} {w w' : Work} (hsrc : SrcOf m0 w) (hwf : WfVerts m0)
    (h : splitGrp env ⟨part, g, met⟩ count w = .ok w') :
    PtInv m0.np (vertexSeq m0 part g) w' ∧ w'.grpCur.mesh.np = w'.poiPerGrp := by
  obtain ⟨w2, h1, rfl⟩ := splitGrp_ok h
  obtain ⟨s1, -, -⟩ := passStart_frame count w
  have hsrc1 := hsrc.of_oldStatic s1
  have h0 := passStart_PtInv count w
  rw [← s1.np] at h0
  have hI := tetLoop_PtInv (c := ⟨part, g, met⟩) (n := w.meshOld.ne) (fun t ht1 ht2 i => by
    rw [hsrc1.tv, hsrc1.np]
    exact hwf t ht1 (by rw [← hsrc.ne]; exact ht2) i) h1 h0
  rw [hsrc1.np] at hI
  have e : seqOf ⟨part, g, met⟩ (passStart count w).meshOld (List.range' 1 w.meshOld.ne) =
      vertexSeq m0 part g := by
    rw [← seqOf_eq_vertexSeq part g met m0, hsrc.ne]
    unfold seqOf
    rw [vertsOf_congr hsrc1.tv]
  rw [e] at hI
  have f := passEnd_frame env ⟨part, g, met⟩ w2
  refine ⟨hI.of_samePt (f.sp rfl), ?_⟩
  rw [(passEnd_mesh env ⟨part, g, met⟩ w2).np, (f.sp rfl).cnt]
  rfl

theorem numbered_snd {K : List Nat} (hK : K.Nodup) :
    ∀ (L : List (Nat × Nat)) (s n : Nat), L.map Prod.fst = K → L.map Prod.snd = List.range' s n →
      ∀ p ∈ L, p.2 = s + K.indexOf p.1 := by
  induction K with
  | nil =>
    intro L s n h1 _ p hp
    rw [List.map_eq_nil_iff] at h1
    rw [h1] at hp
    simp at hp
  | cons a K ih =>
    intro L s n h1 h2 p hp
    cases L with
    | nil => simp at h1
    | cons q L =>
      cases n with
      | zero => simp at h2
      | succ n =>
        simp only [List.map_cons, List.cons.injEq, List.range'_succ] at h1 h2
        rw [List.nodup_cons] at hK
        rcases List.mem_cons.mp hp with rfl | hp'
        · rw [h1.1, List.indexOf_cons_self, h2.1]; rfl
        · have := ih hK.2 L (s + 1) n h1.2 h2.2 p hp'
          have hpK : p.1 ∈ K := h1.2 ▸ List.mem_map_of_mem _ hp'
          have hne : p.1 ≠ a := fun e => hK.1 (e ▸ hpK)
          rw [List.indexOf_cons_ne _ (Ne.symm hne), this]
          omega

/-- The vertex log and the vertex count of every installed sub-group. -/
theorem splitGrps_pts {env : Env} {pm : PMMG_ParMesh} {t : Int} {part : List Nat}
    (hs : (PMMG_splitGrps env pm t).logInstalled = true) (hp : env.partition = some part)
    (hwf : WfVerts (grpOldOf pm).mesh) :
    ∀ (g : Nat) grp log, (PMMG_splitGrps env pm t).parmesh.listgrp[g]? = some grp →
      (PMMG_splitGrps env pm t).logGrp[g]? = some log →
      log.logPt.map Prod.fst = firstSeen (vertexSeq (grpOldOf pm).mesh part g) ∧
      log.logPt.map Prod.snd = List.range' 1 grp.mesh.np := by
  obtain ⟨wf, -, -, -, -, -, h3⟩ := splitGrps_post hs hp
    (fun w => SrcOf (grpOldOf pm).mesh w)
    (fun g b _ => b.2.logPt.map Prod.fst = firstSeen (vertexSeq (grpOldOf pm).mesh part g) ∧
      b.2.logPt.map Prod.snd = List.range' 1 b.1.mesh.np)
    (fun grants => startWork_srcOf _ _ _ _ _)
    (fun grpId g w w1 _ hq hu => by
      obtain ⟨hI, hnp⟩ := splitGrp_pts (hq.setGrp g) hwf hu
      exact ⟨splitGrp_srcOf (hq.setGrp g) hu, hI.keys, by rw [hnp]; exact hI.vals⟩)
    (fun i b grpId g' w w1 _ hpost _ => hpost)
  exact h3

/-- C9: in every installed sub-group the logged map from the source vertices
referenced by the elements of the sub-group to local ids is a bijection onto
`1 .. np` (`np` the vertex count of the sub-mesh, which is the number of
distinct source vertices referenced), and ids increase in first-seen order:
of two vertices the one met first in the traversal (elements by increasing
source id, positions 0 to 3) has the smaller id. -/
theorem C9_vertex_numbering (env : Env) (pm : PMMG_ParMesh) (t : Int) (part : List Nat)
    (hs : (PMMG_splitGrps env pm t).logInstalled = true) (hp : env.partition = some part)
    (hwf : WfVerts (grpOldOf pm).mesh) :
    ∀ (g : Nat) grp log, (PMMG_splitGrps env pm t).parmesh.listgrp[g]? = some grp →
      (PMMG_splitGrps env pm t).logGrp[g]? = some log →
      log.logPt.map Prod.fst = firstSeen (vertexSeq (grpOldOf pm).mesh part g) ∧
      log.logPt.map Prod.snd = List.range' 1 grp.mesh.np ∧
      grp.mesh.np = (vertexSeq (grpOldOf pm).mesh part g).toFinset.card ∧
      (∀ v, v ∈ vertexSeq (grpOldOf pm).mesh part g ↔ ∃ p, (v, p) ∈ log.logPt) ∧
      (∀ p, (1 ≤ p ∧ p ≤ grp.mesh.np) ↔ ∃ v, (v, p) ∈ log.logPt) ∧
      (∀ a pa b pb, (a, pa) ∈ log.logPt → (b, pb) ∈ log.logPt → (a = b ↔ pa = pb)) ∧
      (∀ a pa b pb, (a, pa) ∈ log.logPt → (b, pb) ∈ log.logPt →
        (pa < pb ↔ (vertexSeq (grpOldOf pm).mesh part g).indexOf a <
          (vertexSeq (grpOldOf pm).mesh part g).indexOf b)) := by
  intro g grp log hg hl
  obtain ⟨hk, hv⟩ := splitGrps_pts hs hp hwf g grp log hg hl
  have hnd := nodup_firstSeen (vertexSeq (grpOldOf pm).mesh part g)
  have hnum := numbered_snd hnd log.logPt 1 grp.mesh.np hk hv
  have hmemK : ∀ {a pa}, (a, pa) ∈ log.logPt → a ∈ vertexSeq (grpOldOf pm).mesh part g := by
    intro a pa h
    rw [← mem_firstSeen, ← hk]
    exact List.mem_map_of_mem Prod.fst h
  have hlen : (firstSeen (vertexSeq (grpOldOf pm).mesh part g)).length = grp.mesh.np := by
    have h1 := congrArg List.length hk
    have h2 := congrArg List.length hv
    rw [List.length_map] at h1 h2
    rw [← h1, h2, List.length_range']
  refine ⟨hk, hv, ?_, ?_, ?_, ?_, ?_⟩
  · rw [← hlen, ← List.toFinset_card_of_nodup hnd]
    congr 1
    ext x
    simp only [List.mem_toFinset, mem_firstSeen]
  · intro v
    rw [← mem_firstSeen, ← hk, List.mem_map]
    constructor
    · rintro ⟨p, hp1, rfl⟩; exact ⟨p.2, hp1⟩
    · rintro ⟨p, hp1⟩; exact ⟨(v, p), hp1, rfl⟩
  · intro p
    have : p ∈ log.logPt.map Prod.snd ↔ (1 ≤ p ∧ p ≤ grp.mesh.np) := by
      rw [hv, List.mem_range'_1]; omega
    rw [← this, List.mem_map]
    constructor
    · rintro ⟨q, hq1, rfl⟩; exact ⟨q.1, hq1⟩
    · rintro ⟨v, hv1⟩; exact ⟨(v, p), hv1, rfl⟩
  · intro a pa b pb ha hb
    have e1 := hnum (a, pa) ha
    have e2 := hnum (b, pb) hb
    simp only at e1 e2
    constructor
    · rintro rfl; omega
    · intro e
      have : (firstSeen (vertexSeq (grpOldOf pm).mesh part g)).indexOf a =
          (firstSeen (vertexSeq (grpOldOf pm).mesh part g)).indexOf b := by omega
      exact (List.indexOf_inj ((mem_firstSeen _ _).mpr (hmemK ha))
        ((mem_firstSeen _ _).mpr (hmemK hb))).mp this
  · intro a pa b pb ha hb
    have e1 := hnum (a, pa) ha
    have e2 := hnum (b, pb) hb
    simp only at e1 e2
    rw [← indexOf_firstSeen _ a b (hmemK ha) (hmemK hb)]
    omega

theorem wfVerts_mesh2 : WfVerts (grpOldOf pm2).mesh := by
  intro t h1 h2 i
  have ht : t = 1 ∨ t = 2 := by
    have : t ≤ 2 := h2
    omega
  rcases ht with rfl | rfl <;> fin_cases i <;> decide

set_option maxRecDepth 100000 in
/-- Witness of C9: the two glued tetrahedra, split into two sub-groups. -/
theorem C9_vertex_numbering_witness :
    (PMMG_splitGrps env2 pm2 1).logInstalled = true ∧ WfVerts (grpOldOf pm2).mesh ∧
    ∀ (g : Nat) grp log, (PMMG_splitGrps env2 pm2 1).parmesh.listgrp[g]? = some grp →
      (PMMG_splitGrps env2 pm2 1).logGrp[g]? = some log →
      log.logPt.map Prod.fst = firstSeen (vertexSeq (grpOldOf pm2).mesh [0, 1] g) ∧
      log.logPt.map Prod.snd = List.range' 1 grp.mesh.np ∧
      grp.mesh.np = (vertexSeq (grpOldOf pm2).mesh [0, 1] g).toFinset.card ∧
      (∀ v, v ∈ vertexSeq (grpOldOf pm2).mesh [0, 1] g ↔ ∃ p, (v, p) ∈ log.logPt) ∧
      (∀ p, (1 ≤ p ∧ p ≤ grp.mesh.np) ↔ ∃ v, (v, p) ∈ log.logPt) ∧
      (∀ a pa b pb, (a, pa) ∈ log.logPt → (b, pb) ∈ log.logPt → (a = b ↔ pa = pb)) ∧
      (∀ a pa b pb, (a, pa) ∈ log.logPt → (b, pb) ∈ log.logPt →
        (pa < pb ↔ (vertexSeq (grpOldOf pm2).mesh [0, 1] g).indexOf a <
          (vertexSeq (grpOldOf pm2).mesh [0, 1] g).indexOf b)) :=
  ⟨by decide, wfVerts_mesh2,
    C9_vertex_numbering env2 pm2 1 [0, 1] (by decide) rfl wfVerts_mesh2⟩

theorem howManyGroups_bounds (nelem t : Int) (hn : 0 ≤ nelem) (ht : 1 ≤ t) :
    1 ≤ PMMG_howManyGroups nelem t ∧ nelem ≤ PMMG_howManyGroups nelem t * t ∧
    (∀ k : Int, 1 ≤ k → nelem ≤ k * t → PMMG_howManyGroups nelem t ≤ k) := by
  have htpos : 0 < t := by omega
  have hdiv : Int.tdiv nelem t = nelem / t := Int.tdiv_eq_ediv hn (by omega)
  have h1 : nelem / t * t ≤ nelem := Int.ediv_mul_le nelem (by omega)
  have h2 : nelem < (nelem / t + 1) * t := Int.lt_ediv_add_one_mul_self nelem htpos
  have h0 : 0 ≤ nelem / t := Int.ediv_nonneg hn (by omega)
  unfold PMMG_howManyGroups
  simp only [hdiv]
  split_ifs with ha hb
  · refine ⟨le_refl _, ?_, fun k hk _ => hk⟩
    rw [ha] at h2; omega
  · refine ⟨by omega, by omega, fun k hk hkt => ?_⟩
    by_contra hlt
    have : k ≤ nelem / t := by omega
    have : k * t ≤ nelem / t * t := Int.mul_le_mul_of_nonneg_right this (by omega)
    omega
  · refine ⟨by omega, by omega, fun k hk hkt => ?_⟩
    by_contra hlt
    have : k + 1 ≤ nelem / t := by omega
    have : (k + 1) * t ≤ nelem / t * t := Int.mul_le_mul_of_nonneg_right this (by omega)
    nlinarith

/-- C10: for `nelem ≥ 0` and a target size `t ≥ 1`, `PMMG_howManyGroups nelem t`
is `max 1 ⌈nelem / t⌉`; it is at least 1, it is the least `k ≥ 1` with
`k * t ≥ nelem`, and it is 1 exactly when `t ≥ nelem`. -/
theorem C10_howManyGroups (nelem t : Int) (hn : 0 ≤ nelem) (ht : 1 ≤ t) :
    PMMG_howManyGroups nelem t = max 1 ⌈(nelem : ℚ) / (t : ℚ)⌉ ∧
    1 ≤ PMMG_howManyGroups nelem t ∧
    nelem ≤ PMMG_howManyGroups nelem t * t ∧
    (∀ k : Int, 1 ≤ k → nelem ≤ k * t → PMMG_howManyGroups nelem t ≤ k) ∧
    (PMMG_howManyGroups nelem t = 1 ↔ nelem ≤ t) := by
  obtain ⟨b1, b2, b3⟩ := howManyGroups_bounds nelem t hn ht
  have htq : (0 : ℚ) < (t : ℚ) := by exact_mod_cast (by omega : (0 : Int) < t)
  have hceil : ∀ k : Int, ⌈(nelem : ℚ) / (t : ℚ)⌉ ≤ k ↔ nelem ≤ k * t := by
    intro k
    rw [Int.ceil_le, div_le_iff₀ htq]
    exact_mod_cast Iff.rfl
  refine ⟨?_, b1, b2, b3, ?_⟩
  · apply le_antisymm
    · apply b3 _ (le_max_left _ _)
      exact (hceil _).mp (le_max_right _ _)
    · exact max_le b1 ((hceil _).mpr b2)
  · constructor
    · intro h
      rw [h] at b2
      omega
    · intro h
      have := b3 1 (le_refl _) (by omega)
      omega

/-- Witness of C10: 12 elements and target size 5 give 3 groups. -/
theorem C10_howManyGroups_witness :
    (0 : Int) ≤ 12 ∧ (1 : Int) ≤ 5 ∧ PMMG_howManyGroups 12 5 = 3 ∧
    (PMMG_howManyGroups 12 5 = max 1 ⌈((12 : Int) : ℚ) / ((5 : Int) : ℚ)⌉ ∧
    1 ≤ PMMG_howManyGroups 12 5 ∧
    12 ≤ PMMG_howManyGroups 12 5 * 5 ∧
    (∀ k : Int, 1 ≤ k → 12 ≤ k * 5 → PMMG_howManyGroups 12 5 ≤ k) ∧
    (PMMG_howManyGroups 12 5 = 1 ↔ (12 : Int) ≤ 5)) :=
  ⟨by decide, by decide, by decide, C10_howManyGroups 12 5 (by decide) (by decide)⟩

set_option maxRecDepth 100000 in
/-- C8 as stated fails: with the two glued tetrahedra assigned to two
sub-groups the run installs the sub-groups, and source vertex 2 is copied
into the vertex table of sub-group 0 and into that of sub-group 1, so it is
not true that every source vertex is copied into exactly one sub-group. -/
theorem C8_counterexample :
    (PMMG_splitGrps env2 pm2 1).logInstalled = true ∧
    ¬ (∀ v, 1 ≤ v → v ≤ (grpOldOf pm2).mesh.np →
      ∃! g : Nat, ∃ log : GrpLog, (PMMG_splitGrps env2 pm2 1).logGrp[g]? = some log ∧
        v ∈ log.logPt.map Prod.fst) := by
  refine ⟨by decide, fun h => ?_⟩
  obtain ⟨g, _, huniq⟩ := h 2 (by decide) (by decide)
  have h0 : (0 : Nat) = g :=
    huniq 0 ⟨⟨[(1, 1)], [(1, 1), (2, 2), (3, 3), (4, 4)]⟩, by decide, by decide⟩
  have h1 : (1 : Nat) = g :=
    huniq 1 ⟨⟨[(2, 1)], [(5, 1), (2, 2), (4, 3), (3, 4)]⟩, by decide, by decide⟩
  omega

/-- C8 amended: in a run that installs the sub-groups, a source vertex is
copied into the vertex table of sub-group `g` exactly once when an element
assigned to `g` references it, and not at all otherwise; a vertex shared by
elements of several sub-groups is therefore copied into each of them. -/
theorem C8_vertex_copies (env : Env) (pm : PMMG_ParMesh) (t : Int) (part : List Nat)
    (hs : (PMMG_splitGrps env pm t).logInstalled = true) (hp : env.partition = some part)
    (hwf : WfVerts (grpOldOf pm).mesh) :
    ∀ (g : Nat) grp log, (PMMG_splitGrps env pm t).parmesh.listgrp[g]? = some grp →
      (PMMG_splitGrps env pm t).logGrp[g]? = some log →
      ∀ v, (log.logPt.map Prod.fst).count v =
        if v ∈ vertexSeq (grpOldOf pm).mesh part g then 1 else 0 := by
  intro g grp log hg hl v
  obtain ⟨hk, -⟩ := splitGrps_pts hs hp hwf g grp log hg hl
  rw [hk]
  split_ifs with hv
  · exact List.count_eq_one_of_mem (nodup_firstSeen _) ((mem_firstSeen _ _).mpr hv)
  · exact List.count_eq_zero_of_not_mem (fun h => hv ((mem_firstSeen _ _).mp h))

set_option maxRecDepth 100000 in
/-- Witness of the amended C8 on the two glued tetrahedra. -/
theorem C8_vertex_copies_witness :
    (PMMG_splitGrps env2 pm2 1).logInstalled = true ∧ WfVerts (grpOldOf pm2).mesh ∧
    ∀ (g : Nat) grp log, (PMMG_splitGrps env2 pm2 1).parmesh.listgrp[g]? = some grp →
      (PMMG_splitGrps env2 pm2 1).logGrp[g]? = some log →
      ∀ v, (log.logPt.map Prod.fst).count v =
        if v ∈ vertexSeq (grpOldOf pm2).mesh [0, 1] g then 1 else 0 :=
  ⟨by decide, wfVerts_mesh2, C8_vertex_copies env2 pm2 1 [0, 1] (by decide) rfl wfVerts_mesh2⟩

theorem n2ifcAppend_ok {w w' : Work} {i1 : Nat} {i2 : Int}
    (h : w.n2ifcAppend i1 i2 = .ok w') :
    w'.grpCur.nitem_int_face_comm = w.grpCur.nitem_int_face_comm + 1 ∧
    w'.grpCur.node2int_face_comm_index1 =
      upd w.grpCur.node2int_face_comm_index1 w.grpCur.nitem_int_face_comm i1 ∧
    w'.grpCur.node2int_face_comm_index2 =
      upd w.grpCur.node2int_face_comm_index2 w.grpCur.nitem_int_face_comm i2 := by
  unfold Work.n2ifcAppend at h
  split at h
  · simp at h
  · rename_i r hr
    obtain ⟨a1, a2, a3, a4, a5, a6, a7, a8, a9⟩ := n2ifcAppend_some hr
    simp only [Except.ok.injEq] at h
    subst h
    exact ⟨a3, a4, a5⟩

theorem n2incAppend_ok {w w' : Work} {i1 : Nat} {i2 : Int}
    (h : w.n2incAppend i1 i2 = .ok w') :
    w'.grpCur.nitem_int_node_comm = w.grpCur.nitem_int_node_comm + 1 ∧
    w'.grpCur.node2int_node_comm_index1 =
      upd w.grpCur.node2int_node_comm_index1 w.grpCur.nitem_int_node_comm i1 ∧
    w'.grpCur.node2int_node_comm_index2 =
      upd w.grpCur.node2int_node_comm_index2 w.grpCur.nitem_int_node_comm i2 := by
  unfold Work.n2incAppend at h
  split at h
  · simp at h
  · rename_i r hr
    obtain ⟨a1, a2, a3, a4, a5, a6, a7, a8, a9⟩ := n2incAppend_some hr
    simp only [Except.ok.injEq] at h
    subst h
    exact ⟨a3, a4, a5⟩

theorem newFaceXt_adja {tet : Nat} {fac : Fin 4} {w w' : Work}
    (h : newFaceXt tet fac w = .ok w') :
    w'.grpCur.mesh.adja = upd w.grpCur.mesh.adja (adjaIdx w.tetPerGrp fac) 0 := by
  unfold newFaceXt at h
  simp only at h
  split_ifs at h with h1
  · rw [(xtetraAppend_frame h).ca rfl]; rfl
  · simp only [Except.ok.injEq] at h; subst h; rfl

/-- What the branch of a new interface face does to the adjacency table and to
the face communicator. -/
theorem newFace_ok {tet : Nat} {fac : Fin 4} {w w' : Work} (h : newFace tet fac w = .ok w') :
    w'.grpCur.mesh.adja = upd w.grpCur.mesh.adja (adjaIdx w.tetPerGrp fac) 0 ∧
    w'.grpCur.nitem_int_face_comm = w.grpCur.nitem_int_face_comm + 1 ∧
    w'.grpCur.node2int_face_comm_index1 =
      upd w.grpCur.node2int_face_comm_index1 w.grpCur.nitem_int_face_comm
        (4 * (tet - 1) + fac.val) ∧
    w'.grpCur.node2int_face_comm_index2 =
      upd w.grpCur.node2int_face_comm_index2 w.grpCur.nitem_int_face_comm
        (w.grpCur.nitem_int_face_comm : Int) := by
  unfold newFace at h
  simp only [andThen_ok_iff] at h
  obtain ⟨w2, h2, w4, h4, h5⟩ := h
  have a2 := newFaceXt_adja h2
  have f2 := (newFaceXt_frame h2).sf rfl
  have f3 := (newFaceTag_frame fac w2).sf rfl
  have c3 := (newFaceTag_frame fac w2).ca rfl
  obtain ⟨n1, n2, n3⟩ := n2ifcAppend_ok h4
  have c4 := (n2ifcAppend_frame h4).ca rfl
  have f5 := forEach_frame _ _ _ (fun a u u' hu => tagFaceItem_frame hu) h5
  have hn : (newFaceTag fac w2).grpCur.nitem_int_face_comm = w.grpCur.nitem_int_face_comm :=
    f3.nitem.trans f2.nitem
  refine ⟨?_, ?_, ?_, ?_⟩
  · rw [f5.ca rfl, c4, c3, a2]
  · rw [(f5.sf rfl).nitem, n1, hn]
  · rw [(f5.sf rfl).idx1, n2, hn, f3.idx1, f2.idx1]
  · rw [(f5.sf rfl).idx2, n3, hn, f3.idx2, f2.idx2]

theorem linkAdja_adja (fac : Fin 4) (adjidx vindex : Nat) (w : Work) :
    (linkAdja fac adjidx vindex w).grpCur.mesh.adja =
      upd (upd w.grpCur.mesh.adja (adjaIdx w.tetPerGrp fac)
          (4 * (w.meshOld.tetra adjidx).flag + vindex))
        (4 * ((w.meshOld.tetra adjidx).flag - 1) + 1 + vindex)
        (4 * w.tetPerGrp + fac.val) := rfl

/-- The four ways one iteration of the loop over the faces can go, read off
the adjacency code found in the table of the mesh under construction. -/
theorem updateAdja_cases {c : Ctx} {tet : Nat} {fac : Fin 4} {w w' : Work}
    (h : updateAdja c tet fac w = .ok w') :
    (w.grpCur.mesh.adja (adjaIdx w.tetPerGrp fac) = 0 ∧ w' = w) ∨
    (w.grpCur.mesh.adja (adjaIdx w.tetPerGrp fac) ≠ 0 ∧
      c.partAt (w.grpCur.mesh.adja (adjaIdx w.tetPerGrp fac) / 4 - 1) ≠ c.grpId ∧
      newFace tet fac w = .ok w') ∨
    (w.grpCur.mesh.adja (adjaIdx w.tetPerGrp fac) ≠ 0 ∧
      c.partAt (w.grpCur.mesh.adja (adjaIdx w.tetPerGrp fac) / 4 - 1) = c.grpId ∧
      w.grpCur.mesh.adja (adjaIdx w.tetPerGrp fac) / 4 < tet ∧
      w' = linkAdja fac (w.grpCur.mesh.adja (adjaIdx w.tetPerGrp fac) / 4)
        (w.grpCur.mesh.adja (adjaIdx w.tetPerGrp fac) % 4) w) ∨
    (w.grpCur.mesh.adja (adjaIdx w.tetPerGrp fac) ≠ 0 ∧
      c.partAt (w.grpCur.mesh.adja (adjaIdx w.tetPerGrp fac) / 4 - 1) = c.grpId ∧
      ¬ w.grpCur.mesh.adja (adjaIdx w.tetPerGrp fac) / 4 < tet ∧ w' = w) := by
  unfold updateAdja at h
  simp only at h
  split_ifs at h with h1 h2 h3
  · simp only [Except.ok.injEq] at h; exact Or.inl ⟨h1, h.symm⟩
  · exact Or.inr (Or.inl ⟨h1, h2, h⟩)
  · simp only [Except.ok.injEq] at h
    exact Or.inr (Or.inr (Or.inl ⟨h1, not_not.mp h2, h3, h.symm⟩))
  · simp only [Except.ok.injEq] at h
    exact Or.inr (Or.inr (Or.inr ⟨h1, not_not.mp h2, h3, h.symm⟩))

theorem adjaIdx_inj {k k' : Nat} {f f' : Fin 4} (hk : 1 ≤ k) (hk' : 1 ≤ k')
    (h : adjaIdx k f = adjaIdx k' f') : k = k' ∧ f = f' := by
  unfold adjaIdx at h
  have h1 := f.isLt
  have h2 := f'.isLt
  refine ⟨by omega, Fin.ext (by omega)⟩

theorem map_range_upd {α : Type} (f : Nat → α) (n : Nat) (x : α) :
    (List.range (n + 1)).map (upd f n x) = (List.range n).map f ++ [x] := by
  rw [List.range_succ, List.map_append]
  congr 1
  · apply List.map_congr_left
    intro a ha
    rw [List.mem_range] at ha
    exact upd_ne _ _ (by omega)
  · simp

theorem FlagInv.of_sameTet {c : Ctx} {tet : Nat} {w w' : Work} (h : FlagInv c tet w)
    (hs : SameTet w w') : FlagInv c tet w' := by
  intro B h1 h2 h3
  rw [hs.flag, hs.cnt]
  exact h B h1 h2 h3

theorem updateAdja_FaceLoopInv {c : Ctx} {m0 : MMG5_Mesh} {tet : Nat} {keys0 : List Nat}
    {done : List (Fin 4)} {fac : Fin 4} {w w' : Work}
    (hI : FaceLoopInv c m0 tet keys0 done w) (hfac : fac ∉ done)
    (hflag : FlagInv c tet w) (hT : 1 ≤ w.tetPerGrp)
    (hvalid : ∀ f : Fin 4, m0.adja (adjaIdx tet f) ≠ 0 → 1 ≤ m0.adja (adjaIdx tet f) / 4)
    (h : updateAdja c tet fac w = .ok w') :
    FaceLoopInv c m0 tet keys0 (done ++ [fac]) w' := by
  have hcode := hI.pending fac hfac
  have hT' : w'.tetPerGrp = w.tetPerGrp := ((updateAdja_frame h).st rfl).cnt
  rcases updateAdja_cases h with ⟨h0, rfl⟩ | ⟨h0, hp, hn⟩ | ⟨h0, hp, hlt, rfl⟩ | ⟨h0, hp, hlt, rfl⟩
  · -- no neighbour
    refine ⟨fun f hf => hI.pending f (fun hd => hf (List.mem_append_left _ hd)), ?_, hI.slots⟩
    rw [hI.keys, List.filter_append]
    have : crossFace m0 c.part c.grpId tet fac = false := by
      simp [crossFace, ← hcode, h0]
    simp [List.filter_cons, this]
  · -- new interface face
    obtain ⟨a1, a2, a3, a4⟩ := newFace_ok hn
    have hx : crossFace m0 c.part c.grpId tet fac = true := by
      simp only [crossFace, ← hcode, decide_eq_true_eq]
      exact ⟨h0, hp⟩
    refine ⟨?_, ?_, ?_⟩
    · intro f hf
      have hne : f ≠ fac := fun e => hf (by simp [e])
      have hnd : f ∉ done := fun hd => hf (List.mem_append_left _ hd)
      rw [hT', a1, upd_ne]
      · exact hI.pending f hnd
      · intro e
        exact hne (adjaIdx_inj hT hT e).2
    · rw [a2, a3, map_range_upd, hI.keys, List.filter_append]
      simp [List.filter_cons, hx]
    · intro i hi
      rw [a2] at hi
      rw [a4, upd_apply]
      split_ifs with e
      · rw [e]
      · exact hI.slots i (by omega)
  · -- neighbour already copied: link both sides
    have hx : crossFace m0 c.part c.grpId tet fac = false := by
      simp only [crossFace, ← hcode, decide_eq_false_iff_not, not_and, not_not]
      intro _
      exact hp
    have hB1 : 1 ≤ w.grpCur.mesh.adja (adjaIdx w.tetPerGrp fac) / 4 := by
      rw [hcode]; exact hvalid fac (by rw [← hcode]; exact h0)
    obtain ⟨hf1, hf2⟩ := hflag _ hB1 hlt hp
    refine ⟨?_, ?_, hI.slots⟩
    · intro f hf
      have hne : f ≠ fac := fun e => hf (by simp [e])
      have hnd : f ∉ done := fun hd => hf (List.mem_append_left _ hd)
      rw [linkAdja_adja]
      have e1 : adjaIdx w.tetPerGrp f ≠ adjaIdx w.tetPerGrp fac := fun e =>
        hne (adjaIdx_inj hT hT e).2
      have e2 : adjaIdx w.tetPerGrp f ≠
          4 * ((w.meshOld.tetra (w.grpCur.mesh.adja (adjaIdx w.tetPerGrp fac) / 4)).flag - 1)
            + 1 + w.grpCur.mesh.adja (adjaIdx w.tetPerGrp fac) % 4 := by
        have h4 := Nat.mod_lt (w.grpCur.mesh.adja (adjaIdx w.tetPerGrp fac)) (by decide : 0 < 4)
        have := f.isLt
        generalize (w.meshOld.tetra (w.grpCur.mesh.adja (adjaIdx w.tetPerGrp fac) / 4)).flag
          = nb at hf1 hf2 ⊢
        generalize w.grpCur.mesh.adja (adjaIdx w.tetPerGrp fac) % 4 = vi at h4 ⊢
        unfold adjaIdx
        omega
      show upd _ _ _ (adjaIdx w.tetPerGrp f) = _
      rw [upd_ne _ _ e2, upd_ne _ _ e1]
      exact hI.pending f hnd
    · have : (linkAdja fac (w.grpCur.mesh.adja (adjaIdx w.tetPerGrp fac) / 4)
          (w.grpCur.mesh.adja (adjaIdx w.tetPerGrp fac) % 4) w).grpCur =
          { w.grpCur with mesh := (linkAdja fac (w.grpCur.mesh.adja (adjaIdx w.tetPerGrp fac) / 4)
          (w.grpCur.mesh.adja (adjaIdx w.tetPerGrp fac) % 4) w).grpCur.mesh } := rfl
      rw [this]
      simp only
      rw [hI.keys, List.filter_append]
      simp [List.filter_cons, hx]
  · -- neighbour not yet copied
    have hx : crossFace m0 c.part c.grpId tet fac = false := by
      simp only [crossFace, ← hcode, decide_eq_false_iff_not, not_and, not_not]
      intro _
      exact hp
    refine ⟨fun f hf => hI.pending f (fun hd => hf (List.mem_append_left _ hd)), ?_, hI.slots⟩
    rw [hI.keys, List.filter_append]
    simp [List.filter_cons, hx]

theorem range'_split {n a : Nat} {pre post : List Nat}
    (h : List.range' 1 n = pre ++ a :: post) :
    1 ≤ a ∧ a ≤ n ∧ a ∉ pre ∧ (∀ B, 1 ≤ B → B < a → B ∈ pre) ∧ (∀ B ∈ pre, 1 ≤ B ∧ B < a) := by
  have ha : a ∈ List.range' 1 n := by rw [h]; simp
  rw [List.mem_range'_1] at ha
  have hpw : (pre ++ a :: post).Pairwise (· < ·) := h ▸ List.pairwise_lt_range' 1 n
  rw [List.pairwise_append] at hpw
  obtain ⟨-, hpost, hcross⟩ := hpw
  rw [List.pairwise_cons] at hpost
  have hpre : ∀ B ∈ pre, 1 ≤ B ∧ B < a := by
    intro B hB
    have hBm : B ∈ List.range' 1 n := by rw [h]; exact List.mem_append_left _ hB
    rw [List.mem_range'_1] at hBm
    exact ⟨hBm.1, hcross B hB a (List.mem_cons_self _ _)⟩
  refine ⟨ha.1, by omega, ?_, ?_, hpre⟩
  · intro hmem
    exact absurd (hpre a hmem).2 (lt_irrefl _)
  · intro B h1 h2
    have hB : B ∈ List.range' 1 n := by rw [List.mem_range'_1]; omega
    rw [h, List.mem_append, List.mem_cons] at hB
    rcases hB with hB | rfl | hB
    · exact hB
    · exact absurd h2 (lt_irrefl _)
    · exact absurd (hpost.1 B hB) (by omega)

/-- Invariant rule for the loop over the source elements: the element
bookkeeping and the read-only part of the source mesh are available to the
step of the invariant `J`. -/
theorem tetLoop_inv {c : Ctx} {n : Nat} {w w' : Work} (J : List Nat → Work → Prop)
    (hstep : ∀ pre tet u u', tet ∉ pre → (∀ B, 1 ≤ B → B < tet → B ∈ pre) → 1 ≤ tet → tet ≤ n →
      TetInv c pre u → OldStatic w u → J pre u → tetStep c tet u = .ok u' → J (pre ++ [tet]) u')
    (h : forEach (tetStep c) (List.range' 1 n) w = .ok w')
    (h0 : w.logTet = []) (h1 : w.tetPerGrp = 0) (hJ : J [] w) :
    J (List.range' 1 n) w' ∧ TetInv c (List.range' 1 n) w' ∧ OldStatic w w' := by
  have key := forEach_prefix_inv (tetStep c)
    (fun pre u => J pre u ∧ TetInv c pre u ∧ OldStatic w u)
    (List.range' 1 n) ?_ w w' h
    ⟨hJ, ⟨by simp [h0], by simp [h0, h1], by simp [h0]⟩, OldStatic.os_refl w⟩
  · exact key
  · intro pre a u u' hsplit hI hu
    obtain ⟨post, hpost⟩ := hsplit
    obtain ⟨r1, r2, r3, r4, -⟩ := range'_split hpost
    exact ⟨hstep pre a u u' r3 r4 r1 r2 hI.2.1 hI.2.2 hI.1 hu, tetStep_TetInv r3 hI.2.1 hu,
      hI.2.2.os_trans ((tetStep_frame hu).os rfl)⟩

/-- After the copy of element `tet`, the local ids remembered for the elements
visited before lie below the counter. -/
theorem flagInv_after_copy {c : Ctx} {pre : List Nat} {tet : Nat} {u u1 : Work}
    (hpre : ∀ B, 1 ≤ B → B < tet → B ∈ pre) (hI : TetInv c pre u)
    (h1 : copyTetra tet (resetFlag tet u) = .ok u1) :
    FlagInv c tet u1 ∧ 1 ≤ u1.tetPerGrp := by
  obtain ⟨a1, a2, a3⟩ := copyTetra_tet h1
  have hc : (resetFlag tet u).tetPerGrp = u.tetPerGrp := rfl
  refine ⟨?_, by omega⟩
  intro B hB1 hB2 hB3
  have hmem : B ∈ u.logTet.map Prod.fst := by
    rw [hI.keys, List.mem_filter]
    exact ⟨hpre B hB1 hB2, by simpa using hB3⟩
  obtain ⟨p, hp, hp1⟩ := List.mem_map.mp hmem
  have hfl := hI.flag p hp
  have hval : p.2 ∈ u.logTet.map Prod.snd := List.mem_map_of_mem _ hp
  rw [hI.vals, List.mem_range'_1] at hval
  rw [a3, if_neg (by omega), a2]
  have : ((resetFlag tet u).meshOld.tetra B).flag = (u.meshOld.tetra B).flag := by
    simp only [resetFlag, upd_apply]
    rw [if_neg (by omega)]
  rw [this, ← hp1, hfl, hc]
  omega

theorem FaceInv.of_sameFace {keys : List Nat} {w w' : Work} (h : FaceInv keys w)
    (hs : SameFace w w') : FaceInv keys w' :=
  ⟨by rw [hs.nitem, hs.idx1]; exact h.keys, fun i hi => by
    rw [hs.idx2]; exact h.slots i (hs.nitem ▸ hi)⟩

theorem copyAdja_pending (tet : Nat) (w : Work) (hT : 1 ≤ w.tetPerGrp) (f : Fin 4) :
    (copyAdja tet w).grpCur.mesh.adja (adjaIdx (copyAdja tet w).tetPerGrp f) =
      w.meshOld.adja (adjaIdx tet f) := by
  have hf := f.isLt
  simp only [copyAdja, Work.setMeshCur, adjaIdx]
  rw [if_pos (by constructor <;> simp <;> omega)]
  congr 1
  simp

theorem faceLoop_FaceInv {c : Ctx} {m : MMG5_Mesh} {tet : Nat} {keys0 : List Nat}
    {w w' : Work} (hF : FaceInv keys0 w)
    (hpend : ∀ f, w.grpCur.mesh.adja (adjaIdx w.tetPerGrp f) = m.adja (adjaIdx tet f))
    (hflag : FlagInv c tet w) (hT : 1 ≤ w.tetPerGrp)
    (hvalid : ∀ f : Fin 4, m.adja (adjaIdx tet f) ≠ 0 → 1 ≤ m.adja (adjaIdx tet f) / 4)
    (h : forEach (updateAdja c tet) [0, 1, 2, 3] w = .ok w') :
    FaceInv (keys0 ++ faceKeysOf m c.part c.grpId tet) w' := by
  have key := forEach_prefix_inv (updateAdja c tet)
    (fun done u => FaceLoopInv c m tet keys0 done u ∧ SameTet w u)
    [0, 1, 2, 3] ?_ w w' h ⟨⟨fun f _ => hpend f, by simpa using hF.keys, hF.slots⟩,
      SameTet.st_refl w⟩
  · exact ⟨key.1.keys, key.1.slots⟩
  · intro done a u u' hsplit hI hu
    obtain ⟨post, hpost⟩ := hsplit
    have hnd : (done ++ a :: post).Nodup := by rw [← hpost]; decide
    have ha : a ∉ done := fun hmem =>
      (List.nodup_append.mp hnd).2.2 hmem (List.mem_cons_self _ _)
    exact ⟨updateAdja_FaceLoopInv hI.1 ha (hflag.of_sameTet hI.2) (by rw [hI.2.cnt]; exact hT)
      hvalid hu, hI.2.st_trans ((updateAdja_frame hu).st rfl)⟩

theorem tetStep_FaceInv {c : Ctx} {m : MMG5_Mesh} {pre : List Nat} {tet : Nat}
    {keys0 : List Nat} {u u' : Work} (hF : FaceInv keys0 u)
    (hpre : ∀ B, 1 ≤ B → B < tet → B ∈ pre) (hI : TetInv c pre u)
    (hadja : u.meshOld.adja = m.adja)
    (hvalid : ∀ f : Fin 4, m.adja (adjaIdx tet f) ≠ 0 → 1 ≤ m.adja (adjaIdx tet f) / 4)
    (h : tetStep c tet u = .ok u') :
    FaceInv (keys0 ++ if c.partAt (tet - 1) = c.grpId then faceKeysOf m c.part c.grpId tet
      else []) u' := by
  rcases tetStep_ok h with ⟨hne, rfl⟩ | ⟨heq, w1, w2, w3, h1, h2, h3, h4⟩
  · rw [if_neg (fun e => hne e.symm), List.append_nil]
    exact hF.of_sameFace ((resetFlag_frame tet u).sf rfl)
  · rw [if_pos heq.symm]
    obtain ⟨hflag, hT⟩ := flagInv_after_copy hpre hI h1
    have f0 := resetFlag_frame tet u
    have f1 := copyTetra_frame h1
    have f2 := forEach_frame _ _ _ (fun a u u' hu => addPoint_frame hu) h2
    have f3 := copyAdja_frame tet w2
    have st2 := (f2.st rfl).st_trans (f3.st rfl)
    have hF2 : FaceInv keys0 (copyAdja tet w2) :=
      hF.of_sameFace ((((f0.sf rfl).sf_trans (f1.sf rfl)).sf_trans (f2.sf rfl)).sf_trans
        (f3.sf rfl))
    have hT2 : 1 ≤ w2.tetPerGrp := by rw [(f2.st rfl).cnt]; exact hT
    have hold : w2.meshOld.adja = m.adja := by
      rw [(f2.os rfl).adja, (f1.os rfl).adja, (f0.os rfl).adja, hadja]
    have hF3 := faceLoop_FaceInv (m := m) hF2
      (fun f => by rw [copyAdja_pending tet w2 hT2 f, hold])
      (hflag.of_sameTet st2) (by rw [st2.cnt]; exact hT) hvalid h3
    exact hF3.of_sameFace
      ((forEach_frame _ _ _ (fun a u u' hu => mintFace_frame hu) h4).sf rfl)

theorem faceKeysOf_mem {m : MMG5_Mesh} {part : List Nat} {g t x : Nat}
    (h : x ∈ faceKeysOf m part g t) : 4 * (t - 1) ≤ x ∧ x < 4 * (t - 1) + 4 := by
  unfold faceKeysOf at h
  obtain ⟨f, -, rfl⟩ := List.mem_map.mp h
  have := f.isLt
  omega

theorem faceKeysOf_sorted (m : MMG5_Mesh) (part : List Nat) (g t : Nat) :
    (faceKeysOf m part g t).Pairwise (· < ·) := by
  unfold faceKeysOf
  rw [List.pairwise_map]
  apply List.Pairwise.filter
  have : ([0, 1, 2, 3] : List (Fin 4)).Pairwise (· < ·) := by decide
  exact this.imp (fun {a b} hab => by
    have : a.val < b.val := hab
    omega)

/-- The codes of the interface faces of a sub-group are listed in strictly
increasing order. -/
theorem faceKeys_sorted (m : MMG5_Mesh) (part : List Nat) (g : Nat) :
    (faceKeys m part g).Pairwise (· < ·) := by
  unfold faceKeys tetsOf
  rw [List.pairwise_flatMap]
  refine ⟨fun t _ => faceKeysOf_sorted m part g t, ?_⟩
  have hlt : (List.range' 1 m.ne).Pairwise (· < ·) := List.pairwise_lt_range' 1 m.ne
  have hmem : ∀ t ∈ List.range' 1 m.ne, 1 ≤ t := fun t ht => (List.mem_range'_1.mp ht).1
  have hboth : (List.range' 1 m.ne).Pairwise (fun a b => 1 ≤ a ∧ a < b) := by
    rw [List.pairwise_iff_forall_sublist] at hlt ⊢
    intro a b hab
    exact ⟨hmem a (hab.subset (by simp)), hlt hab⟩
  refine (hboth.filter _).imp ?_
  intro a b hab x hx y hy
  have h1 := faceKeysOf_mem hx
  have h2 := faceKeysOf_mem hy
  omega

/-- The face communicator of one sub-group after its traversal. -/
theorem splitGrp_face {env : Env} {part : List Nat} {g : Nat} {met : MMG5_Sol} {count : Nat}
    {m0 : MMG5_Mesh} {w w' : Work} (hsrc : SrcOf m0 w) (hvalid : ValidAdja m0)
    (hfresh : w.grpCur.nitem_int_face_comm = 0)
    (h : splitGrp env ⟨part, g, met⟩ count w = .ok w') :
    FaceInv (faceKeys m0 part g) w' := by
  obtain ⟨w2, h1, rfl⟩ := splitGrp_ok h
  obtain ⟨s1, -, s3⟩ := passStart_frame count w
  have hsrc1 := hsrc.of_oldStatic s1
  have key := tetLoop_inv (c := ⟨part, g, met⟩) (n := w.meshOld.ne)
    (fun pre u => FaceInv
      ((pre.filter (fun t => decide (part.getD (t - 1) 0 = g))).flatMap (faceKeysOf m0 part g)) u)
    ?_ h1 rfl rfl ?_
  · have hF := key.1
    rw [hsrc.ne] at hF
    exact hF.of_sameFace ((passEnd_frame env ⟨part, g, met⟩ w2).sf rfl)
  · intro pre tet u u' hnew hpre ht1 ht2 hI hos hJ hu
    have := tetStep_FaceInv (m := m0) hJ hpre hI (by rw [hos.adja, hsrc1.adja])
      (fun f hf => (hvalid tet ht1 (by rw [← hsrc.ne]; exact ht2) f hf).1) hu
    rw [List.filter_append, List.flatMap_append, List.filter_cons, List.filter_nil]
    by_cases hg : part.getD (tet - 1) 0 = g
    · have e : (⟨part, g, met⟩ : Ctx).partAt (tet - 1) = g := hg
      rw [if_pos e] at this
      rw [if_pos (decide_eq_true hg), List.flatMap_cons, List.flatMap_nil, List.append_nil]
      exact this
    · have e : ¬ (⟨part, g, met⟩ : Ctx).partAt (tet - 1) = g := hg
      rw [if_neg e] at this
      rw [if_neg (by rw [decide_eq_true_eq]; exact hg), List.flatMap_nil]
      exact this
  · refine ⟨?_, ?_⟩
    · rw [s3, hfresh]; rfl
    · intro i hi
      rw [s3, hfresh] at hi
      omega

/-- The face communicator of every installed sub-group. -/
theorem splitGrps_face {env : Env} {pm : PMMG_ParMesh} {t : Int} {part : List Nat}
    (hs : (PMMG_splitGrps env pm t).logInstalled = true) (hp : env.partition = some part)
    (hvalid : ValidAdja (grpOldOf pm).mesh) :
    ∀ (g : Nat) grp, (PMMG_splitGrps env pm t).parmesh.listgrp[g]? = some grp →
      (List.range grp.nitem_int_face_comm).map grp.node2int_face_comm_index1 =
        faceKeys (grpOldOf pm).mesh part g ∧
      ∀ i, i < grp.nitem_int_face_comm → grp.node2int_face_comm_index2 i = (i : Int) := by
  obtain ⟨wf, -, -, -, h1, h2, h3⟩ := splitGrps_post hs hp
    (fun w => SrcOf (grpOldOf pm).mesh w)
    (fun g b _ =>
      (List.range b.1.nitem_int_face_comm).map b.1.node2int_face_comm_index1 =
        faceKeys (grpOldOf pm).mesh part g ∧
      ∀ i, i < b.1.nitem_int_face_comm → b.1.node2int_face_comm_index2 i = (i : Int))
    (fun grants => startWork_srcOf _ _ _ _ _)
    (fun grpId g w w1 hf hq hu => by
      have hF := splitGrp_face (hq.setGrp g) hvalid hf.nface hu
      exact ⟨splitGrp_srcOf (hq.setGrp g) hu, hF.keys, hF.slots⟩)
    (fun i b grpId g' w w1 _ hpost _ => hpost)
  intro g grp hg
  obtain ⟨log, hl⟩ : ∃ log, (PMMG_splitGrps env pm t).logGrp[g]? = some log := by
    have hlt : g < (PMMG_splitGrps env pm t).parmesh.listgrp.length :=
      (List.getElem?_eq_some_iff.mp hg).1
    exact ⟨_, List.getElem?_eq_getElem (by omega)⟩
  exact h3 g grp log hg hl

/-- C4: in a run that installs the sub-groups, on a source mesh whose non-zero
adjacency codes name elements, the first column of the face communicator of
sub-group `g` lists, in strictly increasing order and each once, the codes
`4*(t-1)+f` of exactly the faces `f` of the elements `t` assigned to `g`
whose adjacency code is non-zero and names an element of another sub-group;
the logical size of the table is the number of these faces. -/
theorem C4_face_comm_keys (env : Env) (pm : PMMG_ParMesh) (t : Int) (part : List Nat)
    (hs : (PMMG_splitGrps env pm t).logInstalled = true) (hp : env.partition = some part)
    (hvalid : ValidAdja (grpOldOf pm).mesh) :
    ∀ (g : Nat) grp, (PMMG_splitGrps env pm t).parmesh.listgrp[g]? = some grp →
      (List.range grp.nitem_int_face_comm).map grp.node2int_face_comm_index1 =
        faceKeys (grpOldOf pm).mesh part g ∧
      (faceKeys (grpOldOf pm).mesh part g).Pairwise (· < ·) ∧
      grp.nitem_int_face_comm = (faceKeys (grpOldOf pm).mesh part g).length := by
  intro g grp hg
  obtain ⟨hk, -⟩ := splitGrps_face hs hp hvalid g grp hg
  refine ⟨hk, faceKeys_sorted _ _ _, ?_⟩
  have := congrArg List.length hk
  rw [List.length_map, List.length_range] at this
  exact this

theorem validAdja_of_list {m : MMG5_Mesh}
    (h : ∀ t ∈ List.range' 1 m.ne, ∀ f ∈ ([0, 1, 2, 3] : List (Fin 4)),
      m.adja (adjaIdx t f) ≠ 0 →
        1 ≤ m.adja (adjaIdx t f) / 4 ∧ m.adja (adjaIdx t f) / 4 ≤ m.ne) : ValidAdja m := by
  intro t h1 h2 f hf
  refine h t (by rw [List.mem_range'_1]; omega) f ?_ hf
  fin_cases f <;> simp

theorem wfVerts_of_list {m : MMG5_Mesh}
    (h : ∀ t ∈ List.range' 1 m.ne, ∀ i ∈ ([0, 1, 2, 3] : List (Fin 4)),
      1 ≤ (m.tetra t).v i ∧ (m.tetra t).v i ≤ m.np) : WfVerts m := by
  intro t h1 h2 i
  refine h t (by rw [List.mem_range'_1]; omega) i ?_
  fin_cases i <;> simp

theorem validAdja_mesh12s : ValidAdja (grpOldOf pm12s).mesh :=
  validAdja_of_list (by decide)

set_option maxRecDepth 100000 in
/-- Witness of C4: twelve elements in three sub-groups, the only common face
being the one between the fifth element (sub-group 0) and the sixth
(sub-group 1): one entry in the table of sub-group 0, one in that of
sub-group 1, none in that of sub-group 2. -/
theorem C4_face_comm_keys_witness :
    (PMMG_splitGrps env12 pm12s 5).logInstalled = true ∧ ValidAdja (grpOldOf pm12s).mesh ∧
    (PMMG_splitGrps env12 pm12s 5).parmesh.listgrp.map (fun grp => grp.nitem_int_face_comm)
      = [1, 1, 0] ∧
    (PMMG_splitGrps env12 pm12s 5).parmesh.listgrp.map
      (fun grp => grp.node2int_face_comm_index1 0) = [16, 20, 0] ∧
    ∀ (g : Nat) grp, (PMMG_splitGrps env12 pm12s 5).parmesh.listgrp[g]? = some grp →
      (List.range grp.nitem_int_face_comm).map grp.node2int_face_comm_index1 =
        faceKeys (grpOldOf pm12s).mesh part12 g ∧
      (faceKeys (grpOldOf pm12s).mesh part12 g).Pairwise (· < ·) ∧
      grp.nitem_int_face_comm = (faceKeys (grpOldOf pm12s).mesh part12 g).length :=
  ⟨by decide, validAdja_mesh12s, by decide, by decide,
    C4_face_comm_keys env12 pm12s 5 part12 (by decide) rfl validAdja_mesh12s⟩

set_option maxRecDepth 100000 in
/-- C5 as stated fails: in the chain of three tetrahedra with the middle one
in sub-group 1, face 0 of element 1 (sub-group 0) and face 1 of element 2
(sub-group 1) are the same face; its entry is the first one of sub-group 0
(code 0, slot 0) and the second one of sub-group 1 (code 5, slot 1): the two
sides carry different slots. -/
theorem C5_counterexample :
    (PMMG_splitGrps env3 pm3 2).logInstalled = true ∧
    mesh3.adja (adjaIdx 1 0) = 4 * 2 + 1 ∧ mesh3.adja (adjaIdx 2 1) = 4 * 1 + 0 ∧
    (PMMG_splitGrps env3 pm3 2).parmesh.listgrp.length = 2 ∧
    0 < ((PMMG_splitGrps env3 pm3 2).parmesh.listgrp.getD 0 {}).nitem_int_face_comm ∧
    ((PMMG_splitGrps env3 pm3 2).parmesh.listgrp.getD 0 {}).node2int_face_comm_index1 0
      = 4 * (1 - 1) + 0 ∧
    1 < ((PMMG_splitGrps env3 pm3 2).parmesh.listgrp.getD 1 {}).nitem_int_face_comm ∧
    ((PMMG_splitGrps env3 pm3 2).parmesh.listgrp.getD 1 {}).node2int_face_comm_index1 1
      = 4 * (2 - 1) + 1 ∧
    ((PMMG_splitGrps env3 pm3 2).parmesh.listgrp.getD 0 {}).node2int_face_comm_index2 0 ≠
      ((PMMG_splitGrps env3 pm3 2).parmesh.listgrp.getD 1 {}).node2int_face_comm_index2 1 := by
  decide

/-- C5 amended: in a run that installs the sub-groups, every entry of the face
communicator of a sub-group carries as slot its own position in that table
(entry number `i` has slot `i`); the two entries made for one shared face, one
in each sub-group, carry the same slot only when they stand at the same
position of their tables. -/
theorem C5_face_slot_is_position (env : Env) (pm : PMMG_ParMesh) (t : Int) (part : List Nat)
    (hs : (PMMG_splitGrps env pm t).logInstalled = true) (hp : env.partition = some part)
    (hvalid : ValidAdja (grpOldOf pm).mesh) :
    ∀ (g : Nat) grp, (PMMG_splitGrps env pm t).parmesh.listgrp[g]? = some grp →
      ∀ i, i < grp.nitem_int_face_comm → grp.node2int_face_comm_index2 i = (i : Int) :=
  fun g grp hg => (splitGrps_face hs hp hvalid g grp hg).2

theorem validAdja_mesh3 : ValidAdja (grpOldOf pm3).mesh :=
  validAdja_of_list (by decide)

set_option maxRecDepth 100000 in
/-- Witness of the amended C5 on the chain of three tetrahedra. -/
theorem C5_face_slot_is_position_witness :
    (PMMG_splitGrps env3 pm3 2).logInstalled = true ∧ ValidAdja (grpOldOf pm3).mesh ∧
    ∀ (g : Nat) grp, (PMMG_splitGrps env3 pm3 2).parmesh.listgrp[g]? = some grp →
      ∀ i, i < grp.nitem_int_face_comm → grp.node2int_face_comm_index2 i = (i : Int) :=
  ⟨by decide, validAdja_mesh3,
    C5_face_slot_is_position env3 pm3 2 [0, 1, 0] (by decide) rfl validAdja_mesh3⟩

theorem splitGrpsOn_one {env : Env} {pm : PMMG_ParMesh} {grpOld : PMMG_Grp} {t : Int}
    (h : PMMG_howManyGroups grpOld.mesh.ne t = 1) :
    splitGrpsOn env pm grpOld t = { ret := .PMMG_SUCCESS, parmesh := pm } := by
  simp only [splitGrpsOn, h, if_true]

theorem splitGrpsOn_nomem {env : Env} {pm : PMMG_ParMesh} {grpOld : PMMG_Grp} {t : Int}
    (h1 : PMMG_howManyGroups grpOld.mesh.ne t ≠ 1)
    (h2 : pm.memCur + 2 * grpOld.mesh.memCur > pm.memGloMax) :
    splitGrpsOn env pm grpOld t = { ret := .PMMG_FAILURE, parmesh := pm } := by
  simp only [splitGrpsOn, h1, h2, if_true, if_false]

theorem splitGrpsOn_nopart {env : Env} {pm : PMMG_ParMesh} {grpOld : PMMG_Grp} {t : Int}
    (h1 : PMMG_howManyGroups grpOld.mesh.ne t ≠ 1)
    (h2 : ¬ pm.memCur + 2 * grpOld.mesh.memCur > pm.memGloMax)
    (hp : env.partition = none) :
    splitGrpsOn env pm grpOld t =
      { ret := .PMMG_FAILURE, parmesh := { pm with grants := pm.grants - 1 } } := by
  by_cases h3 : pm.grants = 0
  · simp only [splitGrpsOn, h1, h2, h3, if_true, if_false]
    obtain ⟨a1, a2, a3, a4, a5, a6, a7⟩ := pm
    simp only at h3
    subst h3
    rfl
  · simp only [splitGrpsOn, h1, h2, h3, hp, if_true, if_false]

theorem splitGrpsOn_ceiling (env : Env) (pm : PMMG_ParMesh) (grpOld : PMMG_Grp) (t : Int)
    (M : Nat) (h2 : ¬ pm.memCur + 2 * grpOld.mesh.memCur > pm.memGloMax)
    (h2' : ¬ pm.memCur + 2 * grpOld.mesh.memCur > M) :
    splitGrpsOn env { pm with memGloMax := M } grpOld t =
      { splitGrpsOn env pm grpOld t with
        parmesh := { (splitGrpsOn env pm grpOld t).parmesh with memGloMax := M } } := by
  have h2'' : ¬ ({ pm with memGloMax := M } : PMMG_ParMesh).memCur + 2 * grpOld.mesh.memCur >
      ({ pm with memGloMax := M } : PMMG_ParMesh).memGloMax := h2'
  by_cases h1 : PMMG_howManyGroups grpOld.mesh.ne t = 1
  · simp only [splitGrpsOn, h1, if_true]
  by_cases h3 : pm.grants = 0
  · simp only [splitGrpsOn, h1, h2, h2'', h3, if_true, if_false]
  cases hp : env.partition with
  | none => simp only [splitGrpsOn, h1, h2, h2'', h3, hp, if_true, if_false]
  | some part =>
    by_cases h4 : pm.grants - 1 = 0
    · simp only [splitGrpsOn, h1, h2, h2'', h3, hp, h4, if_true, if_false]
    by_cases h5 : pm.grants - 1 - 1 = 0
    · simp only [splitGrpsOn, h1, h2, h2'', h3, hp, h4, h5, if_true, if_false]
    cases hg : newGrps env grpOld
        ((List.range (PMMG_howManyGroups grpOld.mesh.ne t).toNat).map
          (countPerGrp part grpOld.mesh.ne)) 0 (pm.grants - 1 - 1 - 1) with
    | error r =>
      simp only [splitGrpsOn, h1, h2, h2'', h3, hp, h4, h5, hg, if_true, if_false]
    | ok res =>
      obtain ⟨grps, grants⟩ := res
      have hsw : ∀ cnt k, startWork { pm with memGloMax := M } grpOld cnt k grants =
          startWork pm grpOld cnt k grants := fun _ _ => rfl
      cases hl : splitLoop env part grpOld.met (countPerGrp part grpOld.mesh.ne) grps 0
          (startWork pm grpOld (countPerGrp part grpOld.mesh.ne)
            (PMMG_howManyGroups grpOld.mesh.ne t).toNat grants) with
      | error e =>
        simp only [splitGrpsOn, h1, h2, h2'', h3, hp, h4, h5, hg, hsw, hl, if_true, if_false]
      | ok res2 =>
        obtain ⟨built, w⟩ := res2
        by_cases h6 : env.checkIntCommFails = true
        · simp only [splitGrpsOn, h1, h2, h2'', h3, hp, h4, h5, hg, hsw, hl, h6, if_true,
            if_false]
        · simp only [splitGrpsOn, h1, h2, h2'', h3, hp, h4, h5, hg, hsw, hl, h6,
            Bool.false_eq_true, if_true, if_false]

/-- C11: when `PMMG_howManyGroups` gives one group, `PMMG_splitGrps` returns
`PMMG_SUCCESS`, the parmesh (group list with the source mesh and its scratch
fields, the communicators, group count, slot counter, allocation budget) is
exactly the one passed in, nothing is installed, and the outcome is the same
whatever the external collaborators would answer: none of them is called. -/
theorem C11_single_group_noop (env : Env) (pm : PMMG_ParMesh) (t : Int)
    (h : PMMG_howManyGroups (grpOldOf pm).mesh.ne t = 1) :
    (PMMG_splitGrps env pm t).ret = .PMMG_SUCCESS ∧
    (PMMG_splitGrps env pm t).parmesh = pm ∧
    (PMMG_splitGrps env pm t).logInstalled = false ∧
    ∀ env1 : Env, PMMG_splitGrps env1 pm t = PMMG_splitGrps env pm t := by
  have e : ∀ env1 : Env, PMMG_splitGrps env1 pm t = { ret := .PMMG_SUCCESS, parmesh := pm } :=
    fun env1 => splitGrpsOn_one h
  refine ⟨by rw [e], by rw [e], by rw [e], fun env3 => by rw [e, e]⟩

/-- Witness of C11: two elements and a target size of two elements. -/
theorem C11_single_group_noop_witness :
    PMMG_howManyGroups (grpOldOf pm2).mesh.ne 2 = 1 ∧
    (PMMG_splitGrps env2 pm2 2).ret = .PMMG_SUCCESS ∧
    (PMMG_splitGrps env2 pm2 2).parmesh = pm2 ∧
    (PMMG_splitGrps env2 pm2 2).logInstalled = false ∧
    ∀ env1 : Env, PMMG_splitGrps env1 pm2 2 = PMMG_splitGrps env2 pm2 2 :=
  ⟨by decide, C11_single_group_noop env2 pm2 2 (by decide)⟩

/-- C15: with more than one group required, when
`memCur + 2 * meshOld->memCur > memGloMax` the call returns `PMMG_FAILURE`
with the parmesh exactly as passed in (no allocation request was charged)
and whatever the external collaborators would answer; when the inequality
does not hold, the run is the same for every ceiling that passes the check,
so the check decides nothing else. -/
theorem C15_memory_check (env : Env) (pm : PMMG_ParMesh) (t : Int)
    (hk : 1 < PMMG_howManyGroups (grpOldOf pm).mesh.ne t) :
    (pm.memCur + 2 * (grpOldOf pm).mesh.memCur > pm.memGloMax →
      (PMMG_splitGrps env pm t).ret = .PMMG_FAILURE ∧
      (PMMG_splitGrps env pm t).parmesh = pm ∧
      (PMMG_splitGrps env pm t).logInstalled = false ∧
      ∀ env1 : Env, PMMG_splitGrps env1 pm t = PMMG_splitGrps env pm t) ∧
    (¬ pm.memCur + 2 * (grpOldOf pm).mesh.memCur > pm.memGloMax →
      ∀ M : Nat, ¬ pm.memCur + 2 * (grpOldOf pm).mesh.memCur > M →
        PMMG_splitGrps env { pm with memGloMax := M } t =
          { PMMG_splitGrps env pm t with
            parmesh := { (PMMG_splitGrps env pm t).parmesh with memGloMax := M } }) := by
  have hk1 : PMMG_howManyGroups (grpOldOf pm).mesh.ne t ≠ 1 := by omega
  constructor
  · intro hm
    have e : ∀ env1 : Env, PMMG_splitGrps env1 pm t = { ret := .PMMG_FAILURE, parmesh := pm } :=
      fun env1 => splitGrpsOn_nomem hk1 hm
    exact ⟨by rw [e], by rw [e], by rw [e], fun env3 => by rw [e, e]⟩
  · intro hm M hM
    exact splitGrpsOn_ceiling env pm (grpOldOf pm) t M hm hM

/-- Witness of C15: the two glued tetrahedra, one element per group, under a
ceiling of 0 with one unit of memory in use. -/
theorem C15_memory_check_witness :
    1 < PMMG_howManyGroups (grpOldOf pm2tight).mesh.ne 1 ∧
    pm2tight.memCur + 2 * (grpOldOf pm2tight).mesh.memCur > pm2tight.memGloMax ∧
    (PMMG_splitGrps env2 pm2tight 1).ret = .PMMG_FAILURE ∧
    (PMMG_splitGrps env2 pm2tight 1).parmesh = pm2tight ∧
    (PMMG_splitGrps env2 pm2tight 1).logInstalled = false ∧
    ∀ env1 : Env, PMMG_splitGrps env1 pm2tight 1 = PMMG_splitGrps env2 pm2tight 1 :=
  ⟨by decide, by decide, (C15_memory_check env2 pm2tight 1 (by decide)).1 (by decide)⟩

/-- C16: with more than one group required and the memory check passed, when
the partitioner fails the call returns `PMMG_FAILURE`, nothing is installed,
and the parmesh is the one passed in (group list with the source mesh and
its scratch fields, group count, slot counter) except that the allocation
budget has been charged the single request of the partition array: no
sub-group list and no sub-mesh has been requested. -/
theorem C16_partition_failure (env : Env) (pm : PMMG_ParMesh) (t : Int)
    (hk : 1 < PMMG_howManyGroups (grpOldOf pm).mesh.ne t)
    (hm : ¬ pm.memCur + 2 * (grpOldOf pm).mesh.memCur > pm.memGloMax)
    (hp : env.partition = none) :
    (PMMG_splitGrps env pm t).ret = .PMMG_FAILURE ∧
    (PMMG_splitGrps env pm t).logInstalled = false ∧
    (PMMG_splitGrps env pm t).parmesh = { pm with grants := pm.grants - 1 } ∧
    (PMMG_splitGrps env pm t).parmesh.listgrp = pm.listgrp ∧
    (PMMG_splitGrps env pm t).parmesh.ngrp = pm.ngrp ∧
    (PMMG_splitGrps env pm t).parmesh.int_node_comm_nitem = pm.int_node_comm_nitem := by
  have hk1 : PMMG_howManyGroups (grpOldOf pm).mesh.ne t ≠ 1 := by omega
  have e : PMMG_splitGrps env pm t =
      { ret := .PMMG_FAILURE, parmesh := { pm with grants := pm.grants - 1 } } :=
    splitGrpsOn_nopart hk1 hm hp
  refine ⟨by rw [e], by rw [e], by rw [e], by rw [e], by rw [e], by rw [e]⟩

/-- Witness of C16: the two glued tetrahedra, the partitioner failing. -/
theorem C16_partition_failure_witness :
    1 < PMMG_howManyGroups (grpOldOf pm2).mesh.ne 1 ∧
    ¬ pm2.memCur + 2 * (grpOldOf pm2).mesh.memCur > pm2.memGloMax ∧
    envNoPart.partition = none ∧
    (PMMG_splitGrps envNoPart pm2 1).ret = .PMMG_FAILURE ∧
    (PMMG_splitGrps envNoPart pm2 1).logInstalled = false ∧
    (PMMG_splitGrps envNoPart pm2 1).parmesh = { pm2 with grants := pm2.grants - 1 } ∧
    (PMMG_splitGrps envNoPart pm2 1).parmesh.listgrp = pm2.listgrp ∧
    (PMMG_splitGrps envNoPart pm2 1).parmesh.ngrp = pm2.ngrp ∧
    (PMMG_splitGrps envNoPart pm2 1).parmesh.int_node_comm_nitem = pm2.int_node_comm_nitem :=
  ⟨by decide, by decide, rfl, C16_partition_failure envNoPart pm2 1 (by decide) (by decide) rfl⟩

set_option maxRecDepth 100000 in
/-- C12 fails on the code: with `MMG3D_Set_meshSize` failing for the last
sub-group of the two glued tetrahedra (two groups required), the run jumps to
`fail_sgrp` while the return value still is `PMMG_SUCCESS`.  Both sub-groups
have a mesh at that point, the loop at `fail_sgrp` runs to its end (it
releases the tables of the mesh of sub-group 0), and the call returns
`PMMG_SUCCESS` although nothing is installed and the parmesh still has its
one group.  When the same call fails for the first sub-group, the loop reads
the null mesh of the second one and the call does not return. -/
theorem C12_setMeshSize_failure_returns_success :
    PMMG_howManyGroups (grpOldOf pm2).mesh.ne 1 = 2 ∧
    envNoSizeLast.extOk 0 ExtCall.Set_meshSize = true ∧
    envNoSizeLast.extOk 1 ExtCall.Set_meshSize = false ∧
    failSgrp 2 1 [allocGrp, { mesh := true }] =
      some [{ mesh := true, node2int_node_comm_index1 := true,
              node2int_node_comm_index2 := true, node2int_face_comm_index1 := true,
              node2int_face_comm_index2 := true },
        { mesh := true }] ∧
    (PMMG_splitGrps envNoSizeLast pm2 1).nullDeref = false ∧
    (PMMG_splitGrps envNoSizeLast pm2 1).ret = .PMMG_SUCCESS ∧
    (PMMG_splitGrps envNoSizeLast pm2 1).logInstalled = false ∧
    (PMMG_splitGrps envNoSizeLast pm2 1).parmesh.ngrp = 1 ∧
    (PMMG_splitGrps envNoSizeLast pm2 1).parmesh.listgrp.length = 1 ∧
    envNoSize.extOk 0 ExtCall.Set_meshSize = false ∧
    failSgrp 2 0 [{ mesh := true }, {}] = none ∧
    (PMMG_splitGrps envNoSize pm2 1).nullDeref = true := by
  decide

set_option maxRecDepth 100000 in
/-- C19 fails on the code: on the two glued tetrahedra split in two (empty
source node communicator, counter 0 before the call) the run installs the
sub-groups and leaves the counter at 3, and the three entries of the node
communicator of each sub-group carry the slots 1, 2, 3: the slot 3 is not
below the counter. -/
theorem C19_minted_slot_reaches_counter :
    (grpOldOf pm2).nitem_int_node_comm = 0 ∧ pm2.int_node_comm_nitem = 0 ∧
    (PMMG_splitGrps env2 pm2 1).logInstalled = true ∧
    (PMMG_splitGrps env2 pm2 1).parmesh.int_node_comm_nitem = 3 ∧
    (PMMG_splitGrps env2 pm2 1).parmesh.listgrp.map
      (fun grp => (grp.nitem_int_node_comm,
        (List.range grp.nitem_int_node_comm).map grp.node2int_node_comm_index2)) =
      [(3, [1, 2, 3]), (3, [1, 3, 2])] := by
  decide

/-- C20 fails on the code: from capacity 0 the doubling leaves the capacity
at 0, and each appender still reports success: the communicator appenders
write at index 0 of a table of capacity 0 (new size 1), and the boundary
appenders write record 1 while `xtmax` (`xpmax`) still is 0. -/
theorem C20_no_progress_from_zero :
    (PMMG_n2incAppend 2 {} 0 7 9).map
        (fun r => (r.2.1.nitem_int_node_comm, r.2.2, r.2.1.node2int_node_comm_index1 0)) =
      some (1, 0, 7) ∧
    (PMMG_n2ifcAppend 2 {} 0 7 9).map
        (fun r => (r.2.1.nitem_int_face_comm, r.2.2, r.2.1.node2int_face_comm_index1 0)) =
      some (1, 0, 7) ∧
    (PMMG_xtetraAppend { grants := 1 } mesh2 1).map (fun m => (m.xt, m.xtmax)) = some (1, 0) ∧
    (PMMG_xpointAppend { grants := 1 } mesh2 1 0).map (fun m => (m.xp, m.xpmax)) =
      some (1, 0) := by
  decide

theorem ScratchOnly.so_refl (m : MMG5_Mesh) : ScratchOnly m m :=
  ⟨rfl, fun _ => rfl, fun _ => rfl⟩

theorem ScratchOnly.so_trans {a b c : MMG5_Mesh} (h1 : ScratchOnly a b) (h2 : ScratchOnly b c) :
    ScratchOnly a c := by
  obtain ⟨p1, q1, r1⟩ := h1
  obtain ⟨p2, q2, r2⟩ := h2
  refine ⟨?_, fun v => ?_, fun t => ?_⟩
  · rw [← p1, ← p2]
  · have e1 := q1 v
    have e2 := q2 v
    rw [← e1, ← e2]
  · have e1 := r1 t
    have e2 := r2 t
    rw [← e1, ← e2]

theorem Grow.gr_refl (w : Work) : Grow w w :=
  ⟨.so_refl _, [], by simp, by simp⟩

theorem Grow.gr_trans {a b c : Work} (h1 : Grow a b) (h2 : Grow b c) : Grow a c := by
  obtain ⟨s1, l1, e1, n1⟩ := h1
  obtain ⟨s2, l2, e2, n2⟩ := h2
  refine ⟨s1.so_trans s2, l1 ++ l2, ?_, ?_⟩
  · rw [e2, e1, List.append_assoc]
  · rw [n2, n1, List.length_append, Nat.add_assoc]

/-- A step that leaves the source mesh, the mint log and the slot counter
alone. -/
theorem Grow.of_same {w w' : Work} (h1 : w'.meshOld = w.meshOld) (h2 : w'.logMint = w.logMint)
    (h3 : w'.int_node_comm_nitem = w.int_node_comm_nitem) : Grow w w' :=
  ⟨h1 ▸ .so_refl _, [], by simp [h2], by simp [h3]⟩

/-- A step that changes scratch fields of the source mesh only and leaves the
mint log and the slot counter alone. -/
theorem Grow.of_scratch {w w' : Work} (h1 : ScratchOnly w.meshOld w'.meshOld)
    (h2 : w'.logMint = w.logMint) (h3 : w'.int_node_comm_nitem = w.int_node_comm_nitem) :
    Grow w w' :=
  ⟨h1, [], by simp [h2], by simp [h3]⟩

theorem reached_andThen (R : Work → Work → Prop) (htrans : ∀ {a b c}, R a b → R b c → R a c)
    {w : Work} {x : Except Work Work} {f : Work → Except Work Work}
    (h1 : R w (reached x)) (h2 : ∀ w1, x = .ok w1 → R w1 (reached (f w1))) :
    R w (reached (andThen x f)) := by
  cases x with
  | error e => exact h1
  | ok w1 => exact htrans h1 (h2 w1 rfl)

theorem reached_forEach {α : Type} (R : Work → Work → Prop) (hrefl : ∀ a, R a a)
    (htrans : ∀ {a b c}, R a b → R b c → R a c) (f : α → Work → Except Work Work)
    (hstep : ∀ a w, R w (reached (f a w))) :
    ∀ (l : List α) (w : Work), R w (reached (forEach f l w)) := by
  intro l
  induction l with
  | nil => intro w; exact hrefl w
  | cons a l ih =>
    intro w
    show R w (reached (andThen (f a w) (forEach f l)))
    exact reached_andThen R htrans (hstep a w) (fun w1 _ => ih w1)

theorem n2incAppend_grow (w : Work) (i1 : Nat) (i2 : Int) :
    Grow w (reached (w.n2incAppend i1 i2)) := by
  unfold Work.n2incAppend
  split
  · exact Grow.gr_refl w
  · exact Grow.of_same rfl rfl rfl

theorem n2ifcAppend_grow (w : Work) (i1 : Nat) (i2 : Int) :
    Grow w (reached (w.n2ifcAppend i1 i2)) := by
  unfold Work.n2ifcAppend
  split
  · exact Grow.gr_refl w
  · exact Grow.of_same rfl rfl rfl

theorem xtetraAppend_grow (w : Work) (tet : Nat) : Grow w (reached (w.xtetraAppend tet)) := by
  unfold Work.xtetraAppend
  split
  · exact Grow.gr_refl w
  · exact Grow.of_same rfl rfl rfl

theorem xpointAppend_grow (w : Work) (tet : Nat) (poi : Fin 4) :
    Grow w (reached (w.xpointAppend tet poi)) := by
  unfold Work.xpointAppend
  split
  · exact Grow.gr_refl w
  · exact Grow.of_same rfl rfl rfl

theorem copyTetraRec_grow (tet : Nat) (w : Work) : Grow w (copyTetraRec tet w) := by
  refine Grow.of_scratch ⟨rfl, fun _ => rfl, fun t => ?_⟩ rfl rfl
  simp only [copyTetraRec, Work.setTetraCur, Work.setMeshCur, upd_apply]
  split_ifs with ht
  · subst ht; rfl
  · rfl

theorem resetFlag_grow (tet : Nat) (w : Work) : Grow w (resetFlag tet w) := by
  refine Grow.of_scratch ⟨rfl, fun _ => rfl, fun t => ?_⟩ rfl rfl
  simp only [resetFlag, upd_apply]
  split_ifs with ht
  · subst ht; rfl
  · rfl

theorem addPointRec_grow (c : Ctx) (tet : Nat) (poi : Fin 4) (w : Work) :
    Grow w (addPointRec c tet poi w) := by
  refine Grow.of_scratch ⟨?_, fun v => ?_, fun _ => ?_⟩ ?_ ?_
  · simp only [addPointRec, Work.setTetraCur, Work.setMeshCur]; split_ifs <;> rfl
  · simp only [addPointRec, Work.setTetraCur, Work.setMeshCur, upd_apply]
    split_ifs <;> first | rfl | (subst_vars; rfl)
  · simp only [addPointRec, Work.setTetraCur, Work.setMeshCur]; split_ifs <;> rfl
  · simp only [addPointRec, Work.setTetraCur, Work.setMeshCur]; split_ifs <;> rfl
  · simp only [addPointRec, Work.setTetraCur, Work.setMeshCur]; split_ifs <;> rfl

theorem mintRec_grow (tet : Nat) (fac : Fin 4) (poi : Fin 3) (slot : Int) (w : Work) :
    Grow w (mintRec tet fac poi slot w) := by
  refine ⟨⟨rfl, fun v => ?_, fun _ => rfl⟩,
    [((w.meshOld.tetra tet).v (MMG5_idir fac poi), slot)], rfl, rfl⟩
  simp only [mintRec, Work.setMeshCur, upd_apply]
  split_ifs with hv
  · subst hv; rfl
  · rfl

theorem passStart_grow (count : Nat) (w : Work) : Grow w (passStart count w) := by
  refine Grow.of_scratch ⟨rfl, fun v => ?_, fun _ => rfl⟩ rfl rfl
  simp only [passStart]
  split_ifs <;> rfl

theorem copyTetra_grow (tet : Nat) (w : Work) : Grow w (reached (copyTetra tet w)) := by
  unfold copyTetra
  simp only
  split_ifs
  · exact (copyTetraRec_grow tet w).gr_trans (xtetraAppend_grow _ tet)
  · exact copyTetraRec_grow tet w

theorem addPointComm_grow (w : Work) : Grow w (reached (addPointComm w)) := by
  unfold addPointComm
  split_ifs
  · exact n2incAppend_grow _ _ _
  · exact Grow.gr_refl w

theorem addPointXp_grow (tet : Nat) (poi : Fin 4) (w : Work) :
    Grow w (reached (addPointXp tet poi w)) := by
  unfold addPointXp
  split_ifs
  · exact xpointAppend_grow _ _ _
  · exact Grow.gr_refl w

theorem addPoint_grow (c : Ctx) (tet : Nat) (poi : Fin 4) (w : Work) :
    Grow w (reached (addPoint c tet poi w)) := by
  unfold addPoint
  simp only
  split_ifs
  · exact reached_andThen Grow Grow.gr_trans
      ((addPointRec_grow c tet poi w).gr_trans (addPointComm_grow _))
      (fun w1 _ => addPointXp_grow tet poi w1)
  · exact Grow.of_same rfl rfl rfl

theorem tagFaceItem_grow (fac : Fin 4) (j : Fin 3) (w : Work) :
    Grow w (reached (tagFaceItem fac j w)) :=
  Grow.of_same rfl rfl rfl

theorem newFaceXt_grow (tet : Nat) (fac : Fin 4) (w : Work) :
    Grow w (reached (newFaceXt tet fac w)) := by
  unfold newFaceXt
  simp only
  split_ifs
  · have h1 : Grow w (w.setMeshCur { w.grpCur.mesh with
        adja := upd w.grpCur.mesh.adja (adjaIdx w.tetPerGrp fac) 0 }) :=
      Grow.of_same rfl rfl rfl
    exact h1.gr_trans (xtetraAppend_grow _ tet)
  · exact Grow.of_same rfl rfl rfl

theorem newFace_grow (tet : Nat) (fac : Fin 4) (w : Work) :
    Grow w (reached (newFace tet fac w)) := by
  unfold newFace
  refine reached_andThen Grow Grow.gr_trans (newFaceXt_grow tet fac w) (fun w2 _ => ?_)
  simp only
  refine reached_andThen Grow Grow.gr_trans ?_ (fun w3 _ => ?_)
  · exact (Grow.of_same rfl rfl rfl : Grow w2 (newFaceTag fac w2)).gr_trans
      (n2ifcAppend_grow _ _ _)
  · exact reached_forEach Grow Grow.gr_refl Grow.gr_trans _
      (fun j u => tagFaceItem_grow fac j u) _ _

theorem updateAdja_grow (c : Ctx) (tet : Nat) (fac : Fin 4) (w : Work) :
    Grow w (reached (updateAdja c tet fac w)) := by
  unfold updateAdja
  simp only
  split_ifs
  · exact Grow.gr_refl w
  · exact newFace_grow tet fac w
  · exact Grow.of_same rfl rfl rfl
  · exact Grow.gr_refl w

theorem mintPoint_grow (tet : Nat) (fac : Fin 4) (poi : Fin 3) (w : Work) :
    Grow w (reached (mintPoint tet fac poi w)) := by
  unfold mintPoint
  simp only
  split_ifs
  · exact reached_andThen Grow Grow.gr_trans (n2incAppend_grow _ _ _)
      (fun w1 _ => mintRec_grow tet fac poi _ w1)
  · exact Grow.gr_refl w

theorem mintFace_grow (c : Ctx) (tet : Nat) (fac : Fin 4) (w : Work) :
    Grow w (reached (mintFace c tet fac w)) := by
  unfold mintFace
  simp only
  split_ifs
  · exact reached_forEach Grow Grow.gr_refl Grow.gr_trans _
      (fun j u => mintPoint_grow tet fac j u) _ _
  · exact Grow.gr_refl w

theorem tetStep_grow (c : Ctx) (tet : Nat) (w : Work) :
    Grow w (reached (tetStep c tet w)) := by
  unfold tetStep
  simp only
  split_ifs
  · exact resetFlag_grow tet w
  · refine reached_andThen Grow Grow.gr_trans
      ((resetFlag_grow tet w).gr_trans (copyTetra_grow tet _)) (fun w1 _ => ?_)
    refine reached_andThen Grow Grow.gr_trans
      (reached_forEach Grow Grow.gr_refl Grow.gr_trans _
        (fun j u => addPoint_grow c tet j u) _ _) (fun w2 _ => ?_)
    refine reached_andThen Grow Grow.gr_trans ?_ (fun w3 _ =>
      reached_forEach Grow Grow.gr_refl Grow.gr_trans _
        (fun j u => mintFace_grow c tet j u) _ _)
    exact (Grow.of_same rfl rfl rfl : Grow w2 (copyAdja tet w2)).gr_trans
      (reached_forEach Grow Grow.gr_refl Grow.gr_trans _
        (fun j u => updateAdja_grow c tet j u) _ _)

theorem splitGrp_grow (env : Env) (c : Ctx) (count : Nat) (w : Work) :
    Grow w (reached (splitGrp env c count w)) := by
  unfold splitGrp
  refine reached_andThen Grow Grow.gr_trans
    ((passStart_grow count w).gr_trans
      (reached_forEach Grow Grow.gr_refl Grow.gr_trans _ (fun t u => tetStep_grow c t u) _ _))
    (fun w2 _ => ?_)
  split_ifs
  · exact Grow.gr_refl w2
  · exact Grow.of_same rfl rfl rfl

theorem splitLoop_grow (env : Env) (part : List Nat) (metOld : MMG5_Sol) (cnt : Nat → Nat) :
    ∀ (grps : List PMMG_Grp) (grpId : Nat) (w : Work),
      Grow w (reachedLoop (splitLoop env part metOld cnt grps grpId w)) := by
  intro grps
  induction grps with
  | nil => intro grpId w; exact Grow.gr_refl w
  | cons g rest ih =>
    intro grpId w
    have h1 := splitGrp_grow env ⟨part, grpId, metOld⟩ (cnt grpId) { w with grpCur := g }
    have h0 : Grow w { w with grpCur := g } := Grow.of_same rfl rfl rfl
    unfold splitLoop
    cases hs : splitGrp env ⟨part, grpId, metOld⟩ (cnt grpId) { w with grpCur := g } with
    | error e =>
      rw [hs] at h1
      exact h0.gr_trans h1
    | ok w1 =>
      rw [hs] at h1
      have h2 := ih (grpId + 1) w1
      simp only
      cases hl : splitLoop env part metOld cnt rest (grpId + 1) w1 with
      | error e =>
        rw [hl] at h2
        exact (h0.gr_trans h1).gr_trans h2
      | ok r =>
        rw [hl] at h2
        exact (h0.gr_trans h1).gr_trans h2

theorem initTmp_scratch (grpOld : PMMG_Grp) : ScratchOnly grpOld.mesh (initTmp grpOld) := by
  unfold initTmp
  simp only
  generalize hm1 : ({ grpOld.mesh with
    point := fun poi =>
      if 1 ≤ poi ∧ poi < grpOld.mesh.np + 1 then { grpOld.mesh.point poi with tmp := -1 }
      else grpOld.mesh.point poi } : MMG5_Mesh) = m1
  have h1 : ScratchOnly grpOld.mesh m1 := by
    subst hm1
    refine ⟨rfl, fun v => ?_, fun _ => rfl⟩
    simp only
    split_ifs <;> rfl
  clear hm1
  generalize List.range grpOld.nitem_int_node_comm = l
  induction l generalizing m1 with
  | nil => exact h1
  | cons a l ih =>
    rw [List.foldl_cons]
    apply ih
    refine h1.so_trans ⟨rfl, fun v => ?_, fun _ => rfl⟩
    simp only [upd_apply]
    split_ifs with hv
    · subst hv; rfl
    · rfl

/-- What a run that does not install the new groups leaves behind: either
the group list and the slot counter are untouched, or the list holds the
source group with a mesh that differs in scratch fields only and the counter
has advanced by the number of minted slots. -/
theorem splitGrpsOn_notInstalled {env : Env} {pm : PMMG_ParMesh} {grpOld : PMMG_Grp} {t : Int}
    (h : (splitGrpsOn env pm grpOld t).logInstalled = false) :
    (splitGrpsOn env pm grpOld t).parmesh.ngrp = pm.ngrp ∧
    (splitGrpsOn env pm grpOld t).parmesh.int_node_comm_nitem =
      pm.int_node_comm_nitem + (splitGrpsOn env pm grpOld t).logMint.length ∧
    ((splitGrpsOn env pm grpOld t).parmesh.listgrp = pm.listgrp ∨
      ∃ m, ScratchOnly grpOld.mesh m ∧
        (splitGrpsOn env pm grpOld t).parmesh.listgrp =
          { grpOld with mesh := m } :: pm.listgrp.tail) := by
  by_cases h1 : PMMG_howManyGroups grpOld.mesh.ne t = 1
  · simp only [splitGrpsOn, h1, if_true]; simp
  by_cases h2 : pm.memCur + 2 * grpOld.mesh.memCur > pm.memGloMax
  · simp only [splitGrpsOn, h1, h2, if_true, if_false]; simp
  by_cases h3 : pm.grants = 0
  · simp only [splitGrpsOn, h1, h2, h3, if_true, if_false]; simp
  cases hp : env.partition with
  | none => simp only [splitGrpsOn, h1, h2, h3, hp, if_true, if_false]; simp
  | some part =>
    by_cases h4 : pm.grants - 1 = 0
    · simp only [splitGrpsOn, h1, h2, h3, hp, h4, if_true, if_false]; simp
    by_cases h5 : pm.grants - 1 - 1 = 0
    · simp only [splitGrpsOn, h1, h2, h3, hp, h4, h5, if_true, if_false]; simp
    cases hg : newGrps env grpOld
        ((List.range (PMMG_howManyGroups grpOld.mesh.ne t).toNat).map
          (countPerGrp part grpOld.mesh.ne)) 0 (pm.grants - 1 - 1 - 1) with
    | error r =>
      simp only [splitGrpsOn, h1, h2, h3, hp, h4, h5, hg, if_true, if_false]; simp
    | ok res =>
      obtain ⟨grps, grants⟩ := res
      have hgrow := splitLoop_grow env part grpOld.met (countPerGrp part grpOld.mesh.ne) grps 0
        (startWork pm grpOld (countPerGrp part grpOld.mesh.ne)
          (PMMG_howManyGroups grpOld.mesh.ne t).toNat grants)
      have hfin : ∀ w : Work, Grow (startWork pm grpOld (countPerGrp part grpOld.mesh.ne)
          (PMMG_howManyGroups grpOld.mesh.ne t).toNat grants) w →
          w.int_node_comm_nitem = pm.int_node_comm_nitem + w.logMint.length ∧
          ScratchOnly grpOld.mesh w.meshOld := by
        intro w hw
        obtain ⟨hs, l, e1, e2⟩ := hw
        refine ⟨?_, (initTmp_scratch grpOld).so_trans hs⟩
        rw [e2, e1]
        simp [startWork]
      cases hl : splitLoop env part grpOld.met (countPerGrp part grpOld.mesh.ne) grps 0
          (startWork pm grpOld (countPerGrp part grpOld.mesh.ne)
            (PMMG_howManyGroups grpOld.mesh.ne t).toNat grants) with
      | error e =>
        rw [hl] at hgrow
        obtain ⟨q1, q2⟩ := hfin e hgrow
        simp only [splitGrpsOn, h1, h2, h3, hp, h4, h5, hg, hl, if_true, if_false]
        exact ⟨trivial, q1, Or.inr ⟨e.meshOld, q2, rfl⟩⟩
      | ok res2 =>
        obtain ⟨built, w⟩ := res2
        rw [hl] at hgrow
        obtain ⟨q1, q2⟩ := hfin w hgrow
        by_cases h6 : env.checkIntCommFails = true
        · simp only [splitGrpsOn, h1, h2, h3, hp, h4, h5, hg, hl, h6, if_true, if_false]
          exact ⟨trivial, q1, Or.inr ⟨w.meshOld, q2, rfl⟩⟩
        · simp only [splitGrpsOn, h1, h2, h3, hp, h4, h5, hg, hl, h6, Bool.false_eq_true,
            if_true, if_false] at h
          simp at h

theorem splitGrps_notInstalled {env : Env} {pm : PMMG_ParMesh} {t : Int}
    (hne : pm.listgrp ≠ []) (h : (PMMG_splitGrps env pm t).logInstalled = false) :
    (PMMG_splitGrps env pm t).parmesh.ngrp = pm.ngrp ∧
    (PMMG_splitGrps env pm t).parmesh.int_node_comm_nitem =
      pm.int_node_comm_nitem + (PMMG_splitGrps env pm t).logMint.length ∧
    ∃ m, ScratchOnly (grpOldOf pm).mesh m ∧
      (PMMG_splitGrps env pm t).parmesh.listgrp =
        { grpOldOf pm with mesh := m } :: pm.listgrp.tail := by
  obtain ⟨a1, a2, a3⟩ := splitGrpsOn_notInstalled h
  refine ⟨a1, a2, ?_⟩
  rcases a3 with a3 | a3
  · refine ⟨(grpOldOf pm).mesh, .so_refl _, ?_⟩
    rw [show (PMMG_splitGrps env pm t).parmesh.listgrp = pm.listgrp from a3]
    unfold grpOldOf
    cases hl : pm.listgrp with
    | nil => exact absurd hl hne
    | cons g tl => rfl
  · exact a3

/-- A run that returns `PMMG_FAILURE` has not installed the new groups. -/
theorem failure_notInstalled {env : Env} {pm : PMMG_ParMesh} {t : Int}
    (h : (PMMG_splitGrps env pm t).ret = .PMMG_FAILURE) :
    (PMMG_splitGrps env pm t).logInstalled = false := by
  cases hi : (PMMG_splitGrps env pm t).logInstalled with
  | false => rfl
  | true =>
    obtain ⟨_, _, _, _, _, _, _, _, e4, _⟩ := splitGrps_installed hi
    rw [h] at e4
    exact absurd e4 (by decide)

/-- C13: a run that does not install the new groups (whatever the point at
which it stopped) leaves the group count as it was and the group list
holding the source group followed by what followed it: the source group
keeps its field, its communicators and its mesh, the latter up to the
scratch fields `point[].tmp`, `point[].flag`, `tetra[].flag`.  The source
group is replaced (freed) only in a run that installs the new list. -/
theorem C13_source_group_kept (env : Env) (pm : PMMG_ParMesh) (t : Int)
    (hne : pm.listgrp ≠ []) (h : (PMMG_splitGrps env pm t).logInstalled = false) :
    (PMMG_splitGrps env pm t).parmesh.ngrp = pm.ngrp ∧
    ∃ m, ScratchOnly (grpOldOf pm).mesh m ∧
      (PMMG_splitGrps env pm t).parmesh.listgrp =
        { grpOldOf pm with mesh := m } :: pm.listgrp.tail := by
  obtain ⟨a1, -, a3⟩ := splitGrps_notInstalled hne h
  exact ⟨a1, a3⟩

set_option maxRecDepth 100000 in
/-- Witness of C13: the run on the two glued tetrahedra that fails in the
traversal of the first sub-group. -/
theorem C13_source_group_kept_witness :
    pm2short.listgrp ≠ [] ∧ (PMMG_splitGrps env2 pm2short 1).logInstalled = false ∧
    (PMMG_splitGrps env2 pm2short 1).parmesh.ngrp = pm2short.ngrp ∧
    ∃ m, ScratchOnly (grpOldOf pm2short).mesh m ∧
      (PMMG_splitGrps env2 pm2short 1).parmesh.listgrp =
        { grpOldOf pm2short with mesh := m } :: pm2short.listgrp.tail :=
  ⟨List.cons_ne_nil _ _, by decide,
    C13_source_group_kept env2 pm2short 1 (List.cons_ne_nil _ _) (by decide)⟩

set_option maxRecDepth 100000 in
/-- C14 as stated fails: on the two glued tetrahedra with an allocation
budget of 15 requests the run returns `PMMG_FAILURE` (the growth of the node
communicator fails for the second vertex of the interface face) after one
slot has been minted, and the global slot counter, 0 before the call, is 1
after it. -/
theorem C14_counterexample :
    (PMMG_splitGrps env2 pm2short 1).ret = .PMMG_FAILURE ∧
    pm2short.int_node_comm_nitem = 0 ∧
    (PMMG_splitGrps env2 pm2short 1).logMint = [(2, 1)] ∧
    (PMMG_splitGrps env2 pm2short 1).parmesh.int_node_comm_nitem = 1 ∧
    (PMMG_splitGrps env2 pm2short 1).parmesh.int_node_comm_nitem ≠
      pm2short.int_node_comm_nitem := by
  decide

/-- C14 amended: a run that returns `PMMG_FAILURE` has installed nothing; the
group count is as before, the list still holds the source group, whose mesh
differs from the one before the call in scratch fields only, and the global
slot counter is not rolled back: it is its value before the call plus the
number of slots minted before the failure. -/
theorem C14_failure_state (env : Env) (pm : PMMG_ParMesh) (t : Int)
    (hne : pm.listgrp ≠ []) (h : (PMMG_splitGrps env pm t).ret = .PMMG_FAILURE) :
    (PMMG_splitGrps env pm t).logInstalled = false ∧
    (PMMG_splitGrps env pm t).parmesh.ngrp = pm.ngrp ∧
    (∃ m, ScratchOnly (grpOldOf pm).mesh m ∧
      (PMMG_splitGrps env pm t).parmesh.listgrp =
        { grpOldOf pm with mesh := m } :: pm.listgrp.tail) ∧
    (PMMG_splitGrps env pm t).parmesh.int_node_comm_nitem =
      pm.int_node_comm_nitem + (PMMG_splitGrps env pm t).logMint.length ∧
    pm.int_node_comm_nitem ≤ (PMMG_splitGrps env pm t).parmesh.int_node_comm_nitem := by
  have hi := failure_notInstalled h
  obtain ⟨a1, a2, a3⟩ := splitGrps_notInstalled hne hi
  exact ⟨hi, a1, a3, a2, by omega⟩

set_option maxRecDepth 100000 in
/-- Witness of the amended C14 on the same run. -/
theorem C14_failure_state_witness :
    pm2short.listgrp ≠ [] ∧ (PMMG_splitGrps env2 pm2short 1).ret = .PMMG_FAILURE ∧
    (PMMG_splitGrps env2 pm2short 1).logInstalled = false ∧
    (PMMG_splitGrps env2 pm2short 1).parmesh.ngrp = pm2short.ngrp ∧
    (∃ m, ScratchOnly (grpOldOf pm2short).mesh m ∧
      (PMMG_splitGrps env2 pm2short 1).parmesh.listgrp =
        { grpOldOf pm2short with mesh := m } :: pm2short.listgrp.tail) ∧
    (PMMG_splitGrps env2 pm2short 1).parmesh.int_node_comm_nitem =
      pm2short.int_node_comm_nitem + (PMMG_splitGrps env2 pm2short 1).logMint.length ∧
    pm2short.int_node_comm_nitem ≤
      (PMMG_splitGrps env2 pm2short 1).parmesh.int_node_comm_nitem :=
  ⟨List.cons_ne_nil _ _, by decide,
    C14_failure_state env2 pm2short 1 (List.cons_ne_nil _ _) (by decide)⟩

theorem MintInv.of_sameSlot {t0 : Nat → Int} {w w' : Work} (h : MintInv t0 w)
    (hs : SameSlot w w') : MintInv t0 w' := by
  refine ⟨fun v hv => ?_, fun v hv => ?_, fun q hq => ?_, ?_⟩
  · rw [hs.tmp]; exact h.stable v hv
  · rw [hs.tmp, hs.log] at *; exact h.covered v hv
  · rw [hs.tmp]; rw [hs.log] at hq; exact h.minted q hq
  · rw [hs.log]; exact h.nodup

theorem Sync.sy_frame {w w' : Work} (h : Sync w) (hp : SamePt w w') (hs : SameSlot w w')
    (ht : ∀ i, (w'.grpCur.mesh.point i).tmp = (w.grpCur.mesh.point i).tmp) : Sync w' := by
  intro q hq
  rw [hp.log] at hq
  rw [ht, hs.tmp]
  exact h q hq

theorem NodeInv.nd_frame {w w' : Work} (h : NodeInv w) (hn : SameNode w w')
    (hp : w'.poiPerGrp = w.poiPerGrp)
    (ht : ∀ i, (w'.grpCur.mesh.point i).tmp = (w.grpCur.mesh.point i).tmp) : NodeInv w' := by
  refine ⟨fun i hi => ?_, fun i j hi hj hij => ?_, fun p h1 h2 h3 => ?_⟩
  · rw [hn.nitem] at hi
    rw [hn.idx1, hn.idx2, hp, ht]
    exact h.entry i hi
  · rw [hn.nitem] at hi hj
    rw [hn.idx1] at hij
    exact h.inj i j hi hj hij
  · rw [hp] at h2
    rw [ht] at h3
    rw [hn.nitem, hn.idx1]
    exact h.full p h1 h2 h3

/-- The slots after one iteration of the loop over the four vertices. -/
theorem addPoint_slots {c : Ctx} {tet : Nat} {poi : Fin 4} {np : Nat} {seen : List Nat}
    {w w' : Work} (hI : PtInv np seen w) (hS : Sync w) (hN : NodeInv w)
    (h : addPoint c tet poi w = .ok w') : Sync w' ∧ NodeInv w' := by
  have hss := (addPoint_frame h).ss rfl
  obtain ⟨-, hcase⟩ := addPoint_ok h
  rcases hcase with ⟨-, hsp, hsn, hcp⟩ | ⟨-, hlog, hcnt, -, hk, htmp, -, hnode⟩
  · exact ⟨hS.sy_frame hsp hss (fun i => by rw [hcp]), hN.nd_frame hsn hsp.cnt
      (fun i => by rw [hcp])⟩
  · have hold : ∀ p, p ≤ w.poiPerGrp →
        (w'.grpCur.mesh.point p).tmp = (w.grpCur.mesh.point p).tmp := by
      intro p hp
      rw [hk p (by omega)]
    constructor
    · intro q hq
      rw [hlog, List.mem_append, List.mem_singleton] at hq
      rw [hss.tmp]
      rcases hq with hq | rfl
      · rw [hold q.2 (hI.snd_pos hq).2]
        exact hS q hq
      · exact htmp
    · rcases hnode with ⟨ht, hsn⟩ | ⟨ht, hn1, hn2, hn3⟩
      · refine ⟨fun i hi => ?_, fun i j hi hj hij => ?_, fun p h1 h2 h3 => ?_⟩
        · rw [hsn.nitem] at hi
          obtain ⟨e1, e2, e3, e4⟩ := hN.entry i hi
          rw [hsn.idx1, hsn.idx2, hcnt, hold _ e2]
          exact ⟨e1, by omega, e3, e4⟩
        · rw [hsn.nitem] at hi hj
          rw [hsn.idx1] at hij
          exact hN.inj i j hi hj hij
        · rw [hcnt] at h2
          rw [hsn.nitem, hsn.idx1]
          by_cases hp : p = w.poiPerGrp + 1
          · subst hp
            rw [htmp] at h3
            exact absurd ht h3
          · rw [hold p (by omega)] at h3
            exact hN.full p h1 (by omega) h3
      · refine ⟨fun i hi => ?_, fun i j hi hj hij => ?_, fun p h1 h2 h3 => ?_⟩
        · rw [hn1] at hi
          rw [hn2, hn3, hcnt]
          by_cases hiN : i = w.grpCur.nitem_int_node_comm
          · subst hiN
            rw [upd_same, upd_same]
            exact ⟨by omega, le_refl _, htmp, ht⟩
          · rw [upd_ne _ _ hiN, upd_ne _ _ hiN]
            obtain ⟨e1, e2, e3, e4⟩ := hN.entry i (by omega)
            rw [hold _ e2]
            exact ⟨e1, by omega, e3, e4⟩
        · rw [hn1] at hi hj
          rw [hn2] at hij
          by_cases hiN : i = w.grpCur.nitem_int_node_comm
          · by_cases hjN : j = w.grpCur.nitem_int_node_comm
            · rw [hiN, hjN]
            · rw [hiN, upd_same, upd_ne _ _ hjN] at hij
              have := (hN.entry j (by omega)).2.1
              omega
          · by_cases hjN : j = w.grpCur.nitem_int_node_comm
            · rw [hjN, upd_same, upd_ne _ _ hiN] at hij
              have := (hN.entry i (by omega)).2.1
              omega
            · rw [upd_ne _ _ hiN, upd_ne _ _ hjN] at hij
              exact hN.inj i j (by omega) (by omega) hij
        · rw [hcnt] at h2
          rw [hn1, hn2]
          by_cases hp : p = w.poiPerGrp + 1
          · exact ⟨w.grpCur.nitem_int_node_comm, by omega, by rw [upd_same, hp]⟩
          · rw [hold p (by omega)] at h3
            obtain ⟨i, hi, hi2⟩ := hN.full p h1 (by omega) h3
            exact ⟨i, by omega, by rw [upd_ne _ _ (by omega)]; exact hi2⟩

theorem PtInv.fst_inj {np : Nat} {seen : List Nat} {w : Work} (hI : PtInv np seen w)
    {q q' : Nat × Nat} (hq : q ∈ w.logPt) (hq' : q' ∈ w.logPt) (h : q.1 = q'.1) : q = q' := by
  have hnd : (w.logPt.map Prod.fst).Nodup := by rw [hI.keys]; exact nodup_firstSeen _
  exact List.inj_on_of_nodup_map hnd hq hq' h

theorem PtInv.snd_inj {np : Nat} {seen : List Nat} {w : Work} (hI : PtInv np seen w)
    {q q' : Nat × Nat} (hq : q ∈ w.logPt) (hq' : q' ∈ w.logPt) (h : q.2 = q'.2) : q = q' := by
  have hnd : (w.logPt.map Prod.snd).Nodup := by rw [hI.vals]; exact List.nodup_range' _ _
  exact List.inj_on_of_nodup_map hnd hq hq' h

theorem addPoint_tv {c : Ctx} {tet : Nat} {poi : Fin 4} {np : Nat} {seen : List Nat}
    {w w' : Work} (hI : PtInv np seen w)
    (hwf : 1 ≤ (w.meshOld.tetra tet).v poi ∧ (w.meshOld.tetra tet).v poi ≤ np)
    (h : addPoint c tet poi w = .ok w') :
    ((w.meshOld.tetra tet).v poi, w'.tetraCur.v poi) ∈ w'.logPt ∧
    (∀ j, j ≠ poi → w'.tetraCur.v j = w.tetraCur.v j) ∧
    (∀ q ∈ w.logPt, q ∈ w'.logPt) := by
  have hst := (addPoint_frame h).st rfl
  obtain ⟨htet, hcase⟩ := addPoint_ok h
  have hcur : w'.tetraCur = { w.tetraCur with v := upd w.tetraCur.v poi (addPointId tet poi w) } := by
    show w'.grpCur.mesh.tetra w'.tetPerGrp = _
    rw [htet, hst.cnt, upd_same]
  rw [hcur]
  refine ⟨?_, fun j hj => upd_ne _ _ hj, ?_⟩
  · simp only [upd_same]
    unfold addPointId
    rcases hcase with ⟨hf, hsp, -, -⟩ | ⟨hf, hlog, -⟩
    · rw [if_neg hf, hsp.log]
      have hmem : (w.meshOld.tetra tet).v poi ∈ w.logPt.map Prod.fst := by
        by_contra hne
        exact hf (hI.zero _ hwf.1 hwf.2 hne)
      obtain ⟨q, hq, hq1⟩ := List.mem_map.mp hmem
      have := hI.flag q hq
      rw [hq1] at this
      rw [this, ← hq1]
      exact hq
    · rw [if_pos hf, hlog]
      simp
  · intro q hq
    rcases hcase with ⟨-, hsp, -, -⟩ | ⟨-, hlog, -⟩
    · rw [hsp.log]; exact hq
    · rw [hlog]; exact List.mem_append_left _ hq

/-- After the loop over the four vertices, every vertex reference of the copy
is the id under which the source vertex was copied. -/
theorem addPointLoop_tv {c : Ctx} {tet : Nat} {np : Nat} {seen : List Nat}
    {w w' : Work} (hI : PtInv np seen w)
    (hwf : ∀ i, 1 ≤ (w.meshOld.tetra tet).v i ∧ (w.meshOld.tetra tet).v i ≤ np)
    (h : forEach (addPoint c tet) [0, 1, 2, 3] w = .ok w') :
    ∀ j, ((w.meshOld.tetra tet).v j, w'.tetraCur.v j) ∈ w'.logPt := by
  simp only [forEach_cons_ok, forEach_nil, Except.ok.injEq] at h
  obtain ⟨w1, h1, w2, h2, w3, h3, w4, h4, rfl⟩ := h
  have s1 := (addPoint_frame h1).os rfl
  have s2 := s1.os_trans ((addPoint_frame h2).os rfl)
  have s3 := s2.os_trans ((addPoint_frame h3).os rfl)
  have i1 := addPoint_PtInv hI (hwf 0) h1
  have i2 := addPoint_PtInv i1 (by rw [s1.tv]; exact hwf 1) h2
  have i3 := addPoint_PtInv i2 (by rw [s2.tv]; exact hwf 2) h3
  obtain ⟨a1, b1, c1⟩ := addPoint_tv hI (hwf 0) h1
  obtain ⟨a2, b2, c2⟩ := addPoint_tv i1 (by rw [s1.tv]; exact hwf 1) h2
  obtain ⟨a3, b3, c3⟩ := addPoint_tv i2 (by rw [s2.tv]; exact hwf 2) h3
  obtain ⟨a4, b4, c4⟩ := addPoint_tv i3 (by rw [s3.tv]; exact hwf 3) h4
  rw [s1.tv] at a2
  rw [s2.tv] at a3
  rw [s3.tv] at a4
  intro j
  fin_cases j
  · have e : w4.tetraCur.v 0 = w1.tetraCur.v 0 := by
      rw [b4 0 (by decide), b3 0 (by decide), b2 0 (by decide)]
    show ((w.meshOld.tetra tet).v 0, w4.tetraCur.v 0) ∈ w4.logPt
    rw [e]
    exact c4 _ (c3 _ (c2 _ a1))
  · have e : w4.tetraCur.v 1 = w2.tetraCur.v 1 := by
      rw [b4 1 (by decide), b3 1 (by decide)]
    show ((w.meshOld.tetra tet).v 1, w4.tetraCur.v 1) ∈ w4.logPt
    rw [e]
    exact c4 _ (c3 _ a2)
  · have e : w4.tetraCur.v 2 = w3.tetraCur.v 2 := by
      rw [b4 2 (by decide)]
    show ((w.meshOld.tetra tet).v 2, w4.tetraCur.v 2) ∈ w4.logPt
    rw [e]
    exact c4 _ a3
  · exact a4

/-- What `mintPoint` does when it succeeds. -/
theorem mintPoint_ok {tet : Nat} {fac : Fin 4} {poi : Fin 3} {w w' : Work}
    (h : mintPoint tet fac poi w = .ok w') :
    ((w.grpCur.mesh.point (w.tetraCur.v (MMG5_idir fac poi))).tmp ≠ -1 ∧ w' = w) ∨
    ((w.grpCur.mesh.point (w.tetraCur.v (MMG5_idir fac poi))).tmp = -1 ∧
      w'.grpCur.nitem_int_node_comm = w.grpCur.nitem_int_node_comm + 1 ∧
      w'.grpCur.node2int_node_comm_index1 =
        upd w.grpCur.node2int_node_comm_index1 w.grpCur.nitem_int_node_comm
          (w.tetraCur.v (MMG5_idir fac poi)) ∧
      w'.grpCur.node2int_node_comm_index2 =
        upd w.grpCur.node2int_node_comm_index2 w.grpCur.nitem_int_node_comm
          ((w.int_node_comm_nitem : Int) + 1) ∧
      (∀ v, (w'.meshOld.point v).tmp =
        if v = (w.meshOld.tetra tet).v (MMG5_idir fac poi) then (w.int_node_comm_nitem : Int) + 1
        else (w.meshOld.point v).tmp) ∧
      (∀ p, (w'.grpCur.mesh.point p).tmp =
        if p = w.tetraCur.v (MMG5_idir fac poi) then (w.int_node_comm_nitem : Int) + 1
        else (w.grpCur.mesh.point p).tmp) ∧
      w'.logMint = w.logMint ++
        [((w.meshOld.tetra tet).v (MMG5_idir fac poi), (w.int_node_comm_nitem : Int) + 1)] ∧
      w'.int_node_comm_nitem = w.int_node_comm_nitem + 1) := by
  unfold mintPoint at h
  simp only at h
  split_ifs at h with h1
  · right
    rw [andThen_ok_iff] at h
    obtain ⟨w1, h2, h3⟩ := h
    simp only [Except.ok.injEq] at h3
    subst h3
    obtain ⟨n1, n2, n3⟩ := n2incAppend_ok h2
    have f := n2incAppend_frame h2
    have fos := f.os rfl
    have fss := f.ss rfl
    have fcp := f.cp rfl
    have fct := f.ct rfl
    have fst := (f.st rfl).cnt
    have hcur : w1.tetraCur = w.tetraCur := by
      show w1.grpCur.mesh.tetra w1.tetPerGrp = w.grpCur.mesh.tetra w.tetPerGrp
      rw [fct, fst]
    refine ⟨h1, ?_, ?_, ?_, ?_, ?_, ?_, ?_⟩
    · exact n1
    · exact n2
    · exact n3
    · intro v
      simp only [mintRec, Work.setMeshCur, upd_apply, fos.tv]
      split_ifs with hv
      · rfl
      · exact fss.tmp v
    · intro p
      simp only [mintRec, Work.setMeshCur, upd_apply, hcur, fcp]
      split_ifs with hp
      · rfl
      · rfl
    · simp only [mintRec, Work.setMeshCur, fos.tv, fss.log]
    · simp only [mintRec, Work.setMeshCur, fss.cnt]
  · left
    simp only [Except.ok.injEq] at h
    exact ⟨h1, h.symm⟩

theorem mintPoint_pack {tet : Nat} {fac : Fin 4} {poi : Fin 3} {np : Nat} {seen : List Nat}
    {t0 : Nat → Int} {w w' : Work} (hP : SlotPack np seen t0 tet w)
    (h : mintPoint tet fac poi w = .ok w') : SlotPack np seen t0 tet w' := by
  obtain ⟨hI, hS, hM, hN, hTV⟩ := hP
  have f := mintPoint_frame h
  have f2 := mintPoint_frame2 h
  have hsp := f.sp rfl
  have hI' : PtInv np seen w' := hI.of_samePt hsp
  have hTV' : ∀ j : Fin 4, ((w'.meshOld.tetra tet).v j, w'.tetraCur.v j) ∈ w'.logPt := by
    intro j
    have e : w'.tetraCur.v = w.tetraCur.v := by
      show (w'.grpCur.mesh.tetra w'.tetPerGrp).v = (w.grpCur.mesh.tetra w.tetPerGrp).v
      rw [f2.tv rfl, (f.st rfl).cnt]
    rw [(f.os rfl).tv, e, hsp.log]
    exact hTV j
  rcases mintPoint_ok h with ⟨-, rfl⟩ | ⟨hc, n1, n2, n3, hold, hcur, hlog, -⟩
  · exact ⟨hI, hS, hM, hN, hTV⟩
  · have hpair := hTV (MMG5_idir fac poi)
    generalize hsrc : (w.meshOld.tetra tet).v (MMG5_idir fac poi) = src at *
    generalize hip : w.tetraCur.v (MMG5_idir fac poi) = ip at *
    generalize hslot : (w.int_node_comm_nitem : Int) + 1 = slot at *
    have hslot1 : slot ≠ -1 := by omega
    have hsrcTmp : (w.meshOld.point src).tmp = -1 := by
      rw [← hS _ hpair]; exact hc
    have hrange := hI.snd_pos hpair
    refine ⟨hI', ?_, ?_, ?_, hTV'⟩
    · -- sync
      intro q hq
      rw [hsp.log] at hq
      rw [hcur, hold]
      by_cases hq2 : q.2 = ip
      · have := hI.snd_inj hq hpair hq2
        subst this
        simp
      · have hq1 : q.1 ≠ src := fun e => hq2 (by
          have := hI.fst_inj hq hpair e
          rw [this])
        rw [if_neg hq2, if_neg hq1]
        exact hS q hq
    · -- mint
      have hnot : ∀ q ∈ w.logMint, q.1 ≠ src := by
        intro q hq e
        obtain ⟨-, e2, e3⟩ := hM.minted q hq
        rw [e, hsrcTmp] at e2
        exact e3 e2.symm
      have ht0 : t0 src = -1 := by
        by_contra hne
        have := hM.stable src hne
        rw [hsrcTmp] at this
        exact hne this.symm
      refine ⟨fun v hv => ?_, fun v hv => ?_, fun q hq => ?_, ?_⟩
      · rw [hold]
        have : v ≠ src := fun e => hv (e ▸ ht0)
        rw [if_neg this]
        exact hM.stable v hv
      · rw [hold] at hv ⊢
        rw [hlog]
        by_cases hvs : v = src
        · rw [if_pos hvs, hvs]
          right
          simp
        · rw [if_neg hvs] at hv ⊢
          rcases hM.covered v hv with e | e
          · exact Or.inl e
          · exact Or.inr (List.mem_append_left _ e)
      · rw [hlog, List.mem_append, List.mem_singleton] at hq
        rw [hold]
        rcases hq with hq | rfl
        · rw [if_neg (hnot q hq)]
          exact hM.minted q hq
        · exact ⟨ht0, by simp, hslot1⟩
      · rw [hlog, List.map_append, List.nodup_append]
        refine ⟨hM.nodup, by simp, ?_⟩
        intro a ha hb
        simp only [List.map_cons, List.map_nil, List.mem_singleton] at hb
        obtain ⟨q, hq, rfl⟩ := List.mem_map.mp ha
        exact hnot q hq hb
    · -- node
      have hne1 : ∀ i, i < w.grpCur.nitem_int_node_comm →
          w.grpCur.node2int_node_comm_index1 i ≠ ip := by
        intro i hi e
        obtain ⟨-, -, e3, e4⟩ := hN.entry i hi
        rw [e, hc] at e3
        exact e4 e3.symm
      refine ⟨fun i hi => ?_, fun i j hi hj hij => ?_, fun p h1 h2 h3 => ?_⟩
      · rw [n1] at hi
        rw [n2, n3, hsp.cnt]
        by_cases hiN : i = w.grpCur.nitem_int_node_comm
        · subst hiN
          rw [upd_same, upd_same, hcur, if_pos rfl]
          exact ⟨hrange.1, hrange.2, rfl, hslot1⟩
        · rw [upd_ne _ _ hiN, upd_ne _ _ hiN, hcur, if_neg (hne1 i (by omega))]
          exact hN.entry i (by omega)
      · rw [n1] at hi hj
        rw [n2] at hij
        by_cases hiN : i = w.grpCur.nitem_int_node_comm
        · by_cases hjN : j = w.grpCur.nitem_int_node_comm
          · rw [hiN, hjN]
          · rw [hiN, upd_same, upd_ne _ _ hjN] at hij
            exact absurd hij.symm (hne1 j (by omega))
        · by_cases hjN : j = w.grpCur.nitem_int_node_comm
          · rw [hjN, upd_same, upd_ne _ _ hiN] at hij
            exact absurd hij (hne1 i (by omega))
          · rw [upd_ne _ _ hiN, upd_ne _ _ hjN] at hij
            exact hN.inj i j (by omega) (by omega) hij
      · rw [hsp.cnt] at h2
        rw [n1, n2]
        by_cases hp : p = ip
        · exact ⟨w.grpCur.nitem_int_node_comm, by omega, by rw [upd_same, hp]⟩
        · rw [hcur, if_neg hp] at h3
          obtain ⟨i, hi, hi2⟩ := hN.full p h1 h2 h3
          exact ⟨i, by omega, by rw [upd_ne _ _ (by omega)]; exact hi2⟩

theorem mintFace_pack {c : Ctx} {tet : Nat} {fac : Fin 4} {np : Nat} {seen : List Nat}
    {t0 : Nat → Int} {w w' : Work} (hP : SlotPack np seen t0 tet w)
    (h : mintFace c tet fac w = .ok w') : SlotPack np seen t0 tet w' := by
  unfold mintFace at h
  simp only at h
  split_ifs at h with h1
  · exact forEach_inv _ (SlotPack np seen t0 tet) _
      (fun a u u' _ hu hf => mintPoint_pack hu hf) w w' h hP
  · simp only [Except.ok.injEq] at h; subst h; exact hP

theorem PassInv.ps_frame {np : Nat} {t0 : Nat → Int} {seen : List Nat} {w w' : Work}
    (h : PassInv np t0 seen w) (hsp : SamePt w w') (hss : SameSlot w w') (hsn : SameNode w w')
    (htmp : ∀ i, (w'.grpCur.mesh.point i).tmp = (w.grpCur.mesh.point i).tmp) :
    PassInv np t0 seen w' :=
  ⟨h.pt.of_samePt hsp, h.sync.sy_frame hsp hss htmp, h.mint.of_sameSlot hss,
    h.node.nd_frame hsn hsp.cnt htmp⟩

theorem addPoint_passInv {c : Ctx} {tet : Nat} {poi : Fin 4} {np : Nat} {t0 : Nat → Int}
    {seen : List Nat} {w w' : Work} (hP : PassInv np t0 seen w)
    (hwf : 1 ≤ (w.meshOld.tetra tet).v poi ∧ (w.meshOld.tetra tet).v poi ≤ np)
    (h : addPoint c tet poi w = .ok w') :
    PassInv np t0 (seen ++ [(w.meshOld.tetra tet).v poi]) w' := by
  obtain ⟨s, n⟩ := addPoint_slots hP.pt hP.sync hP.node h
  exact ⟨addPoint_PtInv hP.pt hwf h, s, hP.mint.of_sameSlot ((addPoint_frame h).ss rfl), n⟩

theorem addPointLoop_passInv {c : Ctx} {tet : Nat} {np : Nat} {t0 : Nat → Int}
    {seen : List Nat} {w w' : Work} (hP : PassInv np t0 seen w)
    (hwf : ∀ i, 1 ≤ (w.meshOld.tetra tet).v i ∧ (w.meshOld.tetra tet).v i ≤ np)
    (h : forEach (addPoint c tet) [0, 1, 2, 3] w = .ok w') :
    PassInv np t0 (seen ++ vertsOf w.meshOld tet) w' := by
  have hpt := addPointLoop_PtInv hP.pt hwf h
  simp only [forEach_cons_ok, forEach_nil, Except.ok.injEq] at h
  obtain ⟨w1, h1, w2, h2, w3, h3, w4, h4, rfl⟩ := h
  have s1 := (addPoint_frame h1).os rfl
  have s2 := s1.os_trans ((addPoint_frame h2).os rfl)
  have s3 := s2.os_trans ((addPoint_frame h3).os rfl)
  have i1 := addPoint_passInv hP (hwf 0) h1
  have i2 := addPoint_passInv i1 (by rw [s1.tv]; exact hwf 1) h2
  have i3 := addPoint_passInv i2 (by rw [s2.tv]; exact hwf 2) h3
  have i4 := addPoint_passInv i3 (by rw [s3.tv]; exact hwf 3) h4
  exact ⟨hpt, i4.sync, i4.mint, i4.node⟩

theorem tetStep_passInv {c : Ctx} {tet : Nat} {np : Nat} {t0 : Nat → Int} {seen : List Nat}
    {w w' : Work} (hP : PassInv np t0 seen w)
    (hwf : ∀ i, 1 ≤ (w.meshOld.tetra tet).v i ∧ (w.meshOld.tetra tet).v i ≤ np)
    (h : tetStep c tet w = .ok w') :
    PassInv np t0 (seen ++ if c.partAt (tet - 1) = c.grpId then vertsOf w.meshOld tet else [])
      w' := by
  have hpt := tetStep_PtInv hP.pt hwf h
  rcases tetStep_ok h with ⟨hne, rfl⟩ | ⟨heq, w1, w2, w3, h1, h2, h3, h4⟩
  · have f0 := resetFlag_frame tet w
    have i0 := hP.ps_frame (f0.sp rfl) (f0.ss rfl) (f0.sn rfl) (fun i => by rw [f0.cp rfl])
    exact ⟨hpt, i0.sync, i0.mint, i0.node⟩
  · have f0 := resetFlag_frame tet w
    have f1 := copyTetra_frame h1
    have s01 := (f0.os rfl).os_trans (f1.os rfl)
    have i0 := hP.ps_frame (f0.sp rfl) (f0.ss rfl) (f0.sn rfl) (fun i => by rw [f0.cp rfl])
    have i1 := i0.ps_frame (f1.sp rfl) (f1.ss rfl) (f1.sn rfl) (fun i => by rw [f1.cp rfl])
    have hwf1 : ∀ i, 1 ≤ (w1.meshOld.tetra tet).v i ∧ (w1.meshOld.tetra tet).v i ≤ np :=
      fun i => by rw [s01.tv]; exact hwf i
    have i2 := addPointLoop_passInv i1 hwf1 h2
    have tv2 := addPointLoop_tv i1.pt hwf1 h2
    have s12 := (forEach_frame _ _ _ (fun a u u' hu => addPoint_frame hu) h2).os rfl
    -- the adjacency loop
    have fa := copyAdja_frame tet w2
    have fu := forEach_frame _ _ _ (fun a u u' hu => updateAdja_frame hu) h3
    have fu2 := forEach_frame2 _ _ _ (fun a u u' hu => updateAdja_frame2 hu) h3
    have ia := i2.ps_frame (fa.sp rfl) (fa.ss rfl) (fa.sn rfl) (fun i => by rw [fa.cp rfl])
    have i3 := ia.ps_frame (fu.sp rfl) (fu.ss rfl) (fu.sn rfl) (fu2.ptmp rfl)
    have tv3 : ∀ j : Fin 4, ((w3.meshOld.tetra tet).v j, w3.tetraCur.v j) ∈ w3.logPt := by
      intro j
      have e : w3.tetraCur.v = w2.tetraCur.v := by
        show (w3.grpCur.mesh.tetra w3.tetPerGrp).v = (w2.grpCur.mesh.tetra w2.tetPerGrp).v
        rw [fu2.tv rfl, (fu.st rfl).cnt]
        show ((copyAdja tet w2).grpCur.mesh.tetra (copyAdja tet w2).tetPerGrp).v = _
        rw [fa.ct rfl, (fa.st rfl).cnt]
      rw [(fu.os rfl).tv, (fa.os rfl).tv, s12.tv, e, (fu.sp rfl).log, (fa.sp rfl).log]
      exact tv2 j
    have hpack : SlotPack np _ t0 tet w3 := ⟨i3.pt, i3.sync, i3.mint, i3.node, tv3⟩
    have hfin := forEach_inv _ (SlotPack np _ t0 tet) _
      (fun a u u' _ hu hf => mintFace_pack hu hf) w3 w' h4 hpack
    exact ⟨hpt, hfin.sync, hfin.mint, hfin.node⟩

theorem tetLoop_passInv {c : Ctx} {n : Nat} {t0 : Nat → Int} {w w' : Work}
    (hwf : ∀ t, 1 ≤ t → t ≤ n → ∀ i, 1 ≤ (w.meshOld.tetra t).v i ∧
      (w.meshOld.tetra t).v i ≤ w.meshOld.np)
    (h : forEach (tetStep c) (List.range' 1 n) w = .ok w')
    (h0 : PassInv w.meshOld.np t0 [] w) :
    PassInv w.meshOld.np t0 (seqOf c w.meshOld (List.range' 1 n)) w' := by
  have key := forEach_prefix_inv (tetStep c)
    (fun pre u => PassInv w.meshOld.np t0 (seqOf c w.meshOld pre) u ∧ OldStatic w u)
    (List.range' 1 n) ?_ w w' h ⟨h0, OldStatic.os_refl w⟩
  · exact key.1
  · intro pre a u u' hsplit hI hu
    obtain ⟨post, hpost⟩ := hsplit
    have ha : a ∈ List.range' 1 n := by rw [hpost]; simp
    rw [List.mem_range'_1] at ha
    have hs := hI.2.os_trans ((tetStep_frame hu).os rfl)
    refine ⟨?_, hs⟩
    rw [seqOf_concat]
    have := tetStep_passInv hI.1 (fun i => by rw [hI.2.tv]; exact hwf a ha.1 (by omega) i) hu
    have e : vertsOf u.meshOld a = vertsOf w.meshOld a := by simp only [vertsOf, hI.2.tv]
    rw [e] at this
    exact this

theorem NodePost.mono {t0 : Nat → Int} {grp : PMMG_Grp} {log : GrpLog}
    {mint mint' : List (Nat × Int)} (h : NodePost t0 grp log mint)
    (hsub : ∀ q ∈ mint, q ∈ mint') : NodePost t0 grp log mint' := by
  refine ⟨fun i hi => ?_, h.inj, h.full⟩
  obtain ⟨v, e1, e2, e3⟩ := h.entry i hi
  exact ⟨v, e1, e2, e3.imp id (hsub _)⟩

theorem MintInv.mi_setGrp {t0 : Nat → Int} {w : Work} (h : MintInv t0 w) (g : PMMG_Grp) :
    MintInv t0 { w with grpCur := g } :=
  ⟨h.stable, h.covered, h.minted, h.nodup⟩

theorem splitGrp_slots {env : Env} {part : List Nat} {g : Nat} {met : MMG5_Sol} {count : Nat}
    {m0 : MMG5_Mesh} {t0 : Nat → Int} {w w' : Work} (hsrc : SrcOf m0 w) (hwf : WfVerts m0)
    (hM : MintInv t0 w) (hfresh : w.grpCur.nitem_int_node_comm = 0)
    (h : splitGrp env ⟨part, g, met⟩ count w = .ok w') :
    MintInv t0 w' ∧ NodePost t0 w'.grpCur ⟨w'.logTet, w'.logPt⟩ w'.logMint := by
  obtain ⟨w2, h1, rfl⟩ := splitGrp_ok h
  obtain ⟨s1, s2, s3⟩ := passStart_frame count w
  have hsrc1 := hsrc.of_oldStatic s1
  have hpt0 := passStart_PtInv count w
  rw [← s1.np] at hpt0
  have h0 : PassInv (passStart count w).meshOld.np t0 [] (passStart count w) := by
    refine ⟨hpt0, fun q hq => by simp [passStart] at hq, hM.of_sameSlot s2, ?_⟩
    refine ⟨fun i hi => ?_, fun i j hi _ _ => ?_, fun p h1 h2 _ => ?_⟩
    · rw [s3, hfresh] at hi; omega
    · rw [s3, hfresh] at hi; omega
    · have : (passStart count w).poiPerGrp = 0 := rfl
      omega
  have hI := tetLoop_passInv (c := ⟨part, g, met⟩) (n := w.meshOld.ne) (fun t ht1 ht2 i => by
    rw [hsrc1.tv, hsrc1.np]
    exact hwf t ht1 (by rw [← hsrc.ne]; exact ht2) i) h1 h0
  have f := passEnd_frame env ⟨part, g, met⟩ w2
  have fsp := f.sp rfl
  have fss := f.ss rfl
  have fsn := f.sn rfl
  refine ⟨hI.mint.of_sameSlot fss, ?_, ?_, ?_⟩
  · intro i hi
    rw [fsn.nitem] at hi
    obtain ⟨e1, e2, e3, e4⟩ := hI.node.entry i hi
    have hmem : w2.grpCur.node2int_node_comm_index1 i ∈ w2.logPt.map Prod.snd := by
      rw [hI.pt.vals, List.mem_range'_1]; omega
    obtain ⟨q, hq, hq2⟩ := List.mem_map.mp hmem
    have hs := hI.sync q hq
    rw [hq2, e3] at hs
    have hne : (w2.meshOld.point q.1).tmp ≠ -1 := by rw [← hs]; exact e4
    refine ⟨q.1, ?_, ?_, ?_⟩
    · show (q.1, (passEnd env ⟨part, g, met⟩ w2).grpCur.node2int_node_comm_index1 i) ∈
        (passEnd env ⟨part, g, met⟩ w2).logPt
      rw [fsn.idx1, fsp.log, ← hq2]
      exact hq
    · rw [fsn.idx2]; exact e4
    · rw [fsn.idx2, fss.log, hs]
      exact hI.mint.covered q.1 hne
  · intro i j hi hj hij
    rw [fsn.nitem] at hi hj
    rw [fsn.idx1] at hij
    exact hI.node.inj i j hi hj hij
  · intro q hq ht
    have hq' : q ∈ w2.logPt := by
      have : q ∈ (passEnd env ⟨part, g, met⟩ w2).logPt := hq
      rw [fsp.log] at this
      exact this
    have hst := hI.mint.stable q.1 ht
    have hs := hI.sync q hq'
    have hr := hI.pt.snd_pos hq'
    obtain ⟨i, hi, hi2⟩ := hI.node.full q.2 hr.1 hr.2 (by rw [hs, hst]; exact ht)
    exact ⟨i, by rw [fsn.nitem]; exact hi, by rw [fsn.idx1]; exact hi2⟩

theorem splitGrp_ok_grow {env : Env} {c : Ctx} {count : Nat} {w w' : Work}
    (h : splitGrp env c count w = .ok w') : Grow w w' := by
  have := splitGrp_grow env c count w
  rw [h] at this
  exact this

/-- The slots and the node communicators after a run that installs the
sub-groups. -/
theorem splitGrps_slots {env : Env} {pm : PMMG_ParMesh} {t : Int} {part : List Nat}
    (hs : (PMMG_splitGrps env pm t).logInstalled = true) (hp : env.partition = some part)
    (hwf : WfVerts (grpOldOf pm).mesh) :
    (∀ q ∈ (PMMG_splitGrps env pm t).logMint, slot0 (grpOldOf pm) q.1 = -1 ∧ q.2 ≠ -1) ∧
    ((PMMG_splitGrps env pm t).logMint.map Prod.fst).Nodup ∧
    (PMMG_splitGrps env pm t).parmesh.int_node_comm_nitem =
      pm.int_node_comm_nitem + (PMMG_splitGrps env pm t).logMint.length ∧
    ∀ (g : Nat) grp log, (PMMG_splitGrps env pm t).parmesh.listgrp[g]? = some grp →
      (PMMG_splitGrps env pm t).logGrp[g]? = some log →
      NodePost (slot0 (grpOldOf pm)) grp log (PMMG_splitGrps env pm t).logMint := by
  obtain ⟨wf, hQ, e1, e2, -, -, h3⟩ := splitGrps_post hs hp
    (fun w => SrcOf (grpOldOf pm).mesh w ∧ MintInv (slot0 (grpOldOf pm)) w ∧
      w.int_node_comm_nitem = pm.int_node_comm_nitem + w.logMint.length)
    (fun _ b w => NodePost (slot0 (grpOldOf pm)) b.1 b.2 w.logMint)
    (fun grants => ⟨startWork_srcOf _ _ _ _ _,
      ⟨fun v _ => rfl, fun v _ => Or.inl rfl, fun q hq => by simp [startWork] at hq,
        by simp [startWork]⟩, by simp [startWork]⟩)
    (fun grpId g w w1 hf hq hu => by
      obtain ⟨a1, a2⟩ := splitGrp_slots (hq.1.setGrp g) hwf (hq.2.1.mi_setGrp g) hf.nnode hu
      obtain ⟨-, l, b1, b2⟩ := splitGrp_ok_grow hu
      refine ⟨⟨splitGrp_srcOf (hq.1.setGrp g) hu, a1, ?_⟩, a2⟩
      rw [b2, b1, List.length_append]
      have := hq.2.2
      simp only at this ⊢
      omega)
    (fun i b grpId g' w w1 _ hpost hu => by
      obtain ⟨-, l, b1, -⟩ := splitGrp_ok_grow hu
      refine hpost.mono (fun q hq => ?_)
      rw [b1]
      exact List.mem_append_left _ hq)
  obtain ⟨-, hM, hcnt⟩ := hQ
  refine ⟨fun q hq => ?_, ?_, ?_, fun g grp log hg hl => ?_⟩
  · rw [e1] at hq
    obtain ⟨a, -, c⟩ := hM.minted q hq
    exact ⟨a, c⟩
  · rw [e1]; exact hM.nodup
  · rw [e2, e1]; exact hcnt
  · rw [e1]; exact h3 g grp log hg hl

theorem wfVerts_mesh3 : WfVerts (grpOldOf pm3).mesh := wfVerts_of_list (by decide)

theorem wfVerts_pm2c : WfVerts (grpOldOf pm2c).mesh := wfVerts_of_list (by decide)

theorem logPt_snd_inj {log : GrpLog} {n : Nat} (hv : log.logPt.map Prod.snd = List.range' 1 n)
    {q q' : Nat × Nat} (hq : q ∈ log.logPt) (hq' : q' ∈ log.logPt) (h : q.2 = q'.2) : q = q' := by
  have hnd : (log.logPt.map Prod.snd).Nodup := by rw [hv]; exact List.nodup_range' _ _
  exact List.inj_on_of_nodup_map hnd hq hq' h

/-- C18: in a run that installs the sub-groups, on a source mesh whose vertex
references lie in `1..np` and whose non-zero adjacency codes name elements,
the first column of the node communicator of every sub-group lists no local
vertex id twice, and the first column of its face communicator lists no face
code twice. -/
theorem C18_no_duplicate_index (env : Env) (pm : PMMG_ParMesh) (t : Int) (part : List Nat)
    (hs : (PMMG_splitGrps env pm t).logInstalled = true) (hp : env.partition = some part)
    (hwf : WfVerts (grpOldOf pm).mesh) (hvalid : ValidAdja (grpOldOf pm).mesh) :
    ∀ (g : Nat) grp, (PMMG_splitGrps env pm t).parmesh.listgrp[g]? = some grp →
      ((List.range grp.nitem_int_node_comm).map grp.node2int_node_comm_index1).Nodup ∧
      ((List.range grp.nitem_int_face_comm).map grp.node2int_face_comm_index1).Nodup := by
  intro g grp hg
  obtain ⟨log, hl⟩ : ∃ log, (PMMG_splitGrps env pm t).logGrp[g]? = some log := by
    obtain ⟨_, _, _, _, _, _, _, _, _, e5, _, _, e8, _⟩ := splitGrps_installed hs
    have hlt : g < (PMMG_splitGrps env pm t).parmesh.listgrp.length :=
      (List.getElem?_eq_some_iff.mp hg).1
    rw [e5, List.length_map] at hlt
    exact ⟨_, List.getElem?_eq_getElem (by rw [e8, List.length_map]; exact hlt)⟩
  obtain ⟨-, -, -, hN⟩ := splitGrps_slots hs hp hwf
  have hn := (hN g grp log hg hl).inj
  constructor
  · refine List.Nodup.map_on ?_ (List.nodup_range _)
    intro i hi j hj hij
    exact hn i j (List.mem_range.mp hi) (List.mem_range.mp hj) hij
  · rw [(splitGrps_face hs hp hvalid g grp hg).1]
    exact (faceKeys_sorted _ _ _).imp (fun h => Nat.ne_of_lt h)

set_option maxRecDepth 100000 in
/-- Witness of C18: the chain of three tetrahedra, the middle one in a
sub-group of its own. -/
theorem C18_no_duplicate_index_witness :
    (PMMG_splitGrps env3 pm3 2).logInstalled = true ∧ WfVerts (grpOldOf pm3).mesh ∧
    ValidAdja (grpOldOf pm3).mesh ∧
    ∀ (g : Nat) grp, (PMMG_splitGrps env3 pm3 2).parmesh.listgrp[g]? = some grp →
      ((List.range grp.nitem_int_node_comm).map grp.node2int_node_comm_index1).Nodup ∧
      ((List.range grp.nitem_int_face_comm).map grp.node2int_face_comm_index1).Nodup :=
  ⟨by decide, wfVerts_mesh3, validAdja_mesh3,
    C18_no_duplicate_index env3 pm3 2 [0, 1, 0] (by decide) rfl wfVerts_mesh3 validAdja_mesh3⟩

theorem initTmp_fold (idx1 : Nat → Nat) (idx2 : Nat → Int) (v : Nat) (s : Int) (l : List Nat)
    (hl : ∀ k ∈ l, idx1 k = v → idx2 k = s) (m : MMG5_Mesh)
    (h : (m.point v).tmp = s ∨ ∃ k ∈ l, idx1 k = v) :
    ((List.foldl (fun (mm : MMG5_Mesh) i =>
        { mm with point := upd mm.point (idx1 i) { mm.point (idx1 i) with tmp := idx2 i } })
      m l).point v).tmp = s := by
  induction l generalizing m with
  | nil =>
    rcases h with h | ⟨k, hk, -⟩
    · exact h
    · simp at hk
  | cons a l ih =>
    rw [List.foldl_cons]
    apply ih (fun k hk => hl k (List.mem_cons_of_mem _ hk))
    by_cases ha : idx1 a = v
    · left
      simp only [upd_apply, ha, if_true]
      exact hl a (List.mem_cons_self _ _) ha
    · rcases h with h | ⟨k, hk, hkv⟩
      · left
        simp only [upd_apply]
        rw [if_neg (fun e => ha e.symm)]
        exact h
      · right
        rcases List.mem_cons.mp hk with rfl | hk'
        · exact absurd hkv ha
        · exact ⟨k, hk', hkv⟩

/-- A vertex listed once in the node communicator of the source group starts
with the slot of its entry. -/
theorem slot0_listed {grpOld : PMMG_Grp} {k : Nat} (hk : k < grpOld.nitem_int_node_comm)
    (honce : ∀ j, j < grpOld.nitem_int_node_comm →
      grpOld.node2int_node_comm_index1 j = grpOld.node2int_node_comm_index1 k → j = k) :
    slot0 grpOld (grpOld.node2int_node_comm_index1 k) = grpOld.node2int_node_comm_index2 k := by
  unfold slot0 initTmp
  simp only
  apply initTmp_fold
  · intro j hj hjv
    rw [honce j (List.mem_range.mp hj) hjv]
  · exact Or.inr ⟨k, List.mem_range.mpr hk, rfl⟩

/-- C6: in a run that installs the sub-groups, on a source mesh whose vertex
references lie in `1..np`: no source vertex has a slot minted twice; no slot
is minted for a vertex that held a slot from the node communicator of the
source group; and two entries of node communicators, of the same sub-group
or of two sub-groups, that stand for the same source vertex carry the same
slot. -/
theorem C6_slot_minted_once (env : Env) (pm : PMMG_ParMesh) (t : Int) (part : List Nat)
    (hs : (PMMG_splitGrps env pm t).logInstalled = true) (hp : env.partition = some part)
    (hwf : WfVerts (grpOldOf pm).mesh) :
    ((PMMG_splitGrps env pm t).logMint.map Prod.fst).Nodup ∧
    (∀ q ∈ (PMMG_splitGrps env pm t).logMint, slot0 (grpOldOf pm) q.1 = -1) ∧
    ∀ (g1 g2 : Nat) grp1 grp2 log1 log2 (i j v : Nat),
      (PMMG_splitGrps env pm t).parmesh.listgrp[g1]? = some grp1 →
      (PMMG_splitGrps env pm t).logGrp[g1]? = some log1 →
      (PMMG_splitGrps env pm t).parmesh.listgrp[g2]? = some grp2 →
      (PMMG_splitGrps env pm t).logGrp[g2]? = some log2 →
      i < grp1.nitem_int_node_comm → j < grp2.nitem_int_node_comm →
      (v, grp1.node2int_node_comm_index1 i) ∈ log1.logPt →
      (v, grp2.node2int_node_comm_index1 j) ∈ log2.logPt →
      grp1.node2int_node_comm_index2 i = grp2.node2int_node_comm_index2 j := by
  obtain ⟨hmint, hnd, -, hN⟩ := splitGrps_slots hs hp hwf
  refine ⟨hnd, fun q hq => (hmint q hq).1, ?_⟩
  intro g1 g2 grp1 grp2 log1 log2 i j v hg1 hl1 hg2 hl2 hi hj hv1 hv2
  obtain ⟨v1, a1, a2, a3⟩ := (hN g1 grp1 log1 hg1 hl1).entry i hi
  obtain ⟨v2, b1, b2, b3⟩ := (hN g2 grp2 log2 hg2 hl2).entry j hj
  have e1 : v1 = v := by
    have := logPt_snd_inj (splitGrps_pts hs hp hwf g1 grp1 log1 hg1 hl1).2 a1 hv1 rfl
    exact congrArg Prod.fst this
  have e2 : v2 = v := by
    have := logPt_snd_inj (splitGrps_pts hs hp hwf g2 grp2 log2 hg2 hl2).2 b1 hv2 rfl
    exact congrArg Prod.fst this
  subst e1
  subst e2
  rcases a3 with a3 | a3 <;> rcases b3 with b3 | b3
  · rw [← a3, ← b3]
  · have := (hmint _ b3).1
    simp only at this
    rw [a3] at this
    exact absurd this a2
  · have := (hmint _ a3).1
    simp only at this
    rw [b3] at this
    exact absurd this b2
  · have := List.inj_on_of_nodup_map hnd a3 b3 rfl
    exact congrArg Prod.snd this

set_option maxRecDepth 100000 in
/-- Witness of C6: the chain of three tetrahedra, the middle one in a
sub-group of its own. -/
theorem C6_slot_minted_once_witness :
    (PMMG_splitGrps env3 pm3 2).logInstalled = true ∧ WfVerts (grpOldOf pm3).mesh ∧
    ((PMMG_splitGrps env3 pm3 2).logMint.map Prod.fst).Nodup ∧
    (∀ q ∈ (PMMG_splitGrps env3 pm3 2).logMint, slot0 (grpOldOf pm3) q.1 = -1) ∧
    ∀ (g1 g2 : Nat) grp1 grp2 log1 log2 (i j v : Nat),
      (PMMG_splitGrps env3 pm3 2).parmesh.listgrp[g1]? = some grp1 →
      (PMMG_splitGrps env3 pm3 2).logGrp[g1]? = some log1 →
      (PMMG_splitGrps env3 pm3 2).parmesh.listgrp[g2]? = some grp2 →
      (PMMG_splitGrps env3 pm3 2).logGrp[g2]? = some log2 →
      i < grp1.nitem_int_node_comm → j < grp2.nitem_int_node_comm →
      (v, grp1.node2int_node_comm_index1 i) ∈ log1.logPt →
      (v, grp2.node2int_node_comm_index1 j) ∈ log2.logPt →
      grp1.node2int_node_comm_index2 i = grp2.node2int_node_comm_index2 j :=
  ⟨by decide, wfVerts_mesh3, C6_slot_minted_once env3 pm3 2 [0, 1, 0] (by decide) rfl wfVerts_mesh3⟩

/-- What `copyTetra` does to the element table and to the boundary-element
table of the mesh under construction. -/
theorem copyTetra_xt {tet : Nat} {w w' : Work} (h : copyTetra tet w = .ok w') :
    (∀ k, k ≠ w.tetPerGrp + 1 → w'.grpCur.mesh.tetra k = w.grpCur.mesh.tetra k) ∧
    (((w.meshOld.tetra tet).xt = 0 ∧ SameXt w w' ∧
        (w'.grpCur.mesh.tetra (w.tetPerGrp + 1)).xt = 0) ∨
     ((w.meshOld.tetra tet).xt ≠ 0 ∧ w'.grpCur.mesh.xt = w.grpCur.mesh.xt + 1 ∧
        w'.grpCur.mesh.xtetra = upd w.grpCur.mesh.xtetra (w.grpCur.mesh.xt + 1)
          (w.meshOld.xtetra (w.meshOld.tetra tet).xt) ∧
        (w'.grpCur.mesh.tetra (w.tetPerGrp + 1)).xt = w.grpCur.mesh.xt + 1)) := by
  have hrec : (copyTetraRec tet w).tetraCur.xt = (w.meshOld.tetra tet).xt := by
    simp [copyTetraRec, Work.tetraCur, Work.setTetraCur, Work.setMeshCur, upd_same]
  unfold copyTetra at h
  simp only at h
  split_ifs at h with h1
  · rw [hrec] at h1
    unfold Work.xtetraAppend at h
    split at h
    · simp at h
    · rename_i m hm
      obtain ⟨e1, e2, e3, e4, -⟩ := xtetraAppend_some hm
      simp only [Except.ok.injEq] at h
      subst h
      refine ⟨fun k hk => ?_, Or.inr ⟨h1, ?_, ?_, ?_⟩⟩
      · simp [Work.setTetraCur, Work.setMeshCur, e4, copyTetraRec, upd_apply, hk]
      · simp [Work.setTetraCur, Work.setMeshCur, e1, copyTetraRec]
      · simp [Work.setTetraCur, Work.setMeshCur, e2, copyTetraRec, upd_apply]
      · simp [Work.setTetraCur, Work.setMeshCur, e1, copyTetraRec, upd_apply]
  · rw [hrec] at h1
    simp only [Except.ok.injEq] at h
    subst h
    refine ⟨fun k hk => ?_, Or.inl ⟨not_not.mp h1, ⟨rfl, rfl⟩, ?_⟩⟩
    · simp [Work.setTetraCur, Work.setMeshCur, copyTetraRec, upd_apply, hk]
    · simp [Work.setTetraCur, Work.setMeshCur, copyTetraRec, upd_apply]
      exact not_not.mp h1

/-- What one iteration of the loop over the four vertices leaves alone in
the element table. -/
theorem addPoint_txt {c : Ctx} {tet : Nat} {poi : Fin 4} {w w' : Work}
    (h : addPoint c tet poi w = .ok w') :
    ∀ k, (w'.grpCur.mesh.tetra k).xt = (w.grpCur.mesh.tetra k).xt := by
  obtain ⟨htet, -⟩ := addPoint_ok h
  intro k
  rw [htet, upd_apply]
  split_ifs with hk
  · subst hk; rfl
  · rfl

/-- An iteration of the loop over the faces that meets no neighbour of
another sub-group only writes adjacency codes. -/
theorem updateAdja_quiet {c : Ctx} {tet : Nat} {fac : Fin 4} {w w' : Work}
    (hq : w.grpCur.mesh.adja (adjaIdx w.tetPerGrp fac) ≠ 0 →
      c.partAt (w.grpCur.mesh.adja (adjaIdx w.tetPerGrp fac) / 4 - 1) = c.grpId)
    (h : updateAdja c tet fac w = .ok w') :
    SameXt w w' ∧ SameFace w w' ∧ w'.grpCur.mesh.tetra = w.grpCur.mesh.tetra ∧
    w'.grpCur.mesh.point = w.grpCur.mesh.point := by
  rcases updateAdja_cases h with ⟨-, rfl⟩ | ⟨h0, hp, -⟩ | ⟨-, -, -, rfl⟩ | ⟨-, -, -, rfl⟩
  · exact ⟨.sx_refl _, .sf_refl _, rfl, rfl⟩
  · exact absurd (hq h0) hp
  · have f := linkAdja_frame fac (w.grpCur.mesh.adja (adjaIdx w.tetPerGrp fac) / 4)
      (w.grpCur.mesh.adja (adjaIdx w.tetPerGrp fac) % 4) w
    exact ⟨f.sx rfl, f.sf rfl, f.ct rfl, f.cp rfl⟩
  · exact ⟨.sx_refl _, .sf_refl _, rfl, rfl⟩

/-- An iteration of the second loop over the faces that meets no neighbour of
another sub-group does nothing. -/
theorem mintFace_quiet {c : Ctx} {tet : Nat} {fac : Fin 4} {w w' : Work}
    (hq : w.meshOld.adja (adjaIdx tet fac) / 4 ≠ 0 →
      c.grpId = c.partAt (w.meshOld.adja (adjaIdx tet fac) / 4 - 1))
    (h : mintFace c tet fac w = .ok w') : w' = w := by
  unfold mintFace at h
  simp only at h
  split_ifs at h with h1
  · exact absurd (hq h1.1) h1.2
  · simp only [Except.ok.injEq] at h; exact h.symm

theorem XtCopy.xc_frame {w w' : Work} (h : XtCopy w) (hlog : w'.logTet = w.logTet)
    (hos : OldStatic w w') (hsx : SameXt w w')
    (htxt : ∀ k, (w'.grpCur.mesh.tetra k).xt = (w.grpCur.mesh.tetra k).xt) : XtCopy w' := by
  refine ⟨fun q hq => ?_, fun k h1 h2 => ?_, ?_⟩
  · rw [hlog] at hq
    rw [hos.txt, htxt, hsx.xt, hsx.xtetra, hos.xtetra]
    exact h.bound q hq
  · rw [hsx.xt] at h2
    obtain ⟨q, hq, e⟩ := h.onto k h1 h2
    exact ⟨q, by rw [hlog]; exact hq, by rw [htxt]; exact e⟩
  · rw [hsx.xt, hlog, h.count]
    congr 1
    apply List.filter_congr
    intro q _
    rw [hos.txt]

theorem copyTetra_xtCopy {tet : Nat} {w w' : Work} (hX : XtCopy w)
    (hvals : w.logTet.map Prod.snd = List.range' 1 w.tetPerGrp)
    (h : copyTetra tet w = .ok w') : XtCopy w' := by
  obtain ⟨hlog, -, -⟩ := copyTetra_tet h
  have hos := (copyTetra_frame h).os rfl
  obtain ⟨htet, hcase⟩ := copyTetra_xt h
  have hle : ∀ q ∈ w.logTet, q.2 ≠ w.tetPerGrp + 1 := by
    intro q hq
    have : q.2 ∈ w.logTet.map Prod.snd := List.mem_map_of_mem _ hq
    rw [hvals, List.mem_range'_1] at this
    omega
  have hcnt : (w'.logTet.filter (fun q => decide ((w'.meshOld.tetra q.1).xt ≠ 0))).length =
      (w.logTet.filter (fun q => decide ((w.meshOld.tetra q.1).xt ≠ 0))).length +
        if (w.meshOld.tetra tet).xt ≠ 0 then 1 else 0 := by
    have e : (fun q : Nat × Nat => decide ((w'.meshOld.tetra q.1).xt ≠ 0)) =
        (fun q : Nat × Nat => decide ((w.meshOld.tetra q.1).xt ≠ 0)) := by
      funext q; rw [hos.txt]
    rw [e, hlog, List.filter_append, List.length_append]
    congr 1
    by_cases hx : (w.meshOld.tetra tet).xt ≠ 0
    · simp [List.filter_cons, hx]
    · simp [List.filter_cons, hx]
  rcases hcase with ⟨hx, hsx, hnew⟩ | ⟨hx, hxt, hxtet, hnew⟩
  · refine ⟨fun q hq => ?_, fun k h1 h2 => ?_, ?_⟩
    · rw [hlog, List.mem_append, List.mem_singleton] at hq
      rw [hos.txt, hos.xtetra, hsx.xt, hsx.xtetra]
      rcases hq with hq | rfl
      · rw [htet _ (hle q hq)]
        exact hX.bound q hq
      · exact ⟨fun _ => hnew, fun hne => absurd hx hne⟩
    · rw [hsx.xt] at h2
      obtain ⟨q, hq, e⟩ := hX.onto k h1 h2
      exact ⟨q, by rw [hlog]; exact List.mem_append_left _ hq, by
        rw [htet _ (hle q hq)]; exact e⟩
    · rw [hcnt, hsx.xt, hX.count, if_neg (not_not.mpr hx), Nat.add_zero]
  · refine ⟨fun q hq => ?_, fun k h1 h2 => ?_, ?_⟩
    · rw [hlog, List.mem_append, List.mem_singleton] at hq
      rw [hos.txt, hos.xtetra, hxt, hxtet]
      rcases hq with hq | rfl
      · rw [htet _ (hle q hq)]
        obtain ⟨b1, b2⟩ := hX.bound q hq
        refine ⟨b1, fun hne => ?_⟩
        obtain ⟨c1, c2, c3⟩ := b2 hne
        exact ⟨c1, by omega, by rw [upd_ne _ _ (by omega)]; exact c3⟩
      · refine ⟨fun h0 => absurd h0 hx, fun _ => ?_⟩
        simp only
        rw [hnew, upd_same]
        exact ⟨by omega, le_refl _, rfl⟩
    · rw [hxt] at h2
      by_cases hk : k = w.grpCur.mesh.xt + 1
      · refine ⟨(tet, w.tetPerGrp + 1), by rw [hlog]; simp, ?_⟩
        rw [hk]; exact hnew
      · obtain ⟨q, hq, e⟩ := hX.onto k h1 (by omega)
        exact ⟨q, by rw [hlog]; exact List.mem_append_left _ hq, by
          rw [htet _ (hle q hq)]; exact e⟩
    · rw [hcnt, hxt, hX.count, if_pos hx]

theorem Quiet.qt_refl (w : Work) : Quiet w w := ⟨.sf_refl _, .ss_refl _⟩

theorem Quiet.qt_trans {a b c : Work} (h1 : Quiet a b) (h2 : Quiet b c) : Quiet a c :=
  ⟨h1.sf.sf_trans h2.sf, h1.ss.ss_trans h2.ss⟩

theorem addPointLoop_txt {c : Ctx} {tet : Nat} {w w' : Work}
    (h : forEach (addPoint c tet) [0, 1, 2, 3] w = .ok w') :
    ∀ k, (w'.grpCur.mesh.tetra k).xt = (w.grpCur.mesh.tetra k).xt :=
  forEach_rel (addPoint c tet)
    (fun u u' => ∀ k, (u'.grpCur.mesh.tetra k).xt = (u.grpCur.mesh.tetra k).xt)
    (fun _ _ => rfl) (fun _ _ _ h1 h2 k => (h2 k).trans (h1 k)) _
    (fun _ _ _ _ hf => addPoint_txt hf) w w' h

/-- The loop over the faces of an element none of whose neighbours lies in
another sub-group. -/
theorem faceLoop_quiet {c : Ctx} {m : MMG5_Mesh} {tet : Nat} {w w' : Work}
    (hno : ∀ f : Fin 4, m.adja (adjaIdx tet f) ≠ 0 →
      c.partAt (m.adja (adjaIdx tet f) / 4 - 1) = c.grpId)
    (hface : w.grpCur.nitem_int_face_comm = 0)
    (hpend : ∀ f, w.grpCur.mesh.adja (adjaIdx w.tetPerGrp f) = m.adja (adjaIdx tet f))
    (hflag : FlagInv c tet w) (hT : 1 ≤ w.tetPerGrp)
    (hvalid : ∀ f : Fin 4, m.adja (adjaIdx tet f) ≠ 0 → 1 ≤ m.adja (adjaIdx tet f) / 4)
    (h : forEach (updateAdja c tet) [0, 1, 2, 3] w = .ok w') :
    SameXt w w' ∧ SameFace w w' ∧ w'.grpCur.mesh.tetra = w.grpCur.mesh.tetra := by
  have key := forEach_prefix_inv (updateAdja c tet)
    (fun done u => FaceLoopInv c m tet [] done u ∧ SameTet w u ∧
      (SameXt w u ∧ SameFace w u ∧ u.grpCur.mesh.tetra = w.grpCur.mesh.tetra))
    [0, 1, 2, 3] ?_ w w' h
    ⟨⟨fun f _ => hpend f, by simp [hface], fun i hi => by omega⟩, SameTet.st_refl w,
      .sx_refl _, .sf_refl _, rfl⟩
  · exact key.2.2
  · intro done a u u' hsplit hI hu
    obtain ⟨post, hpost⟩ := hsplit
    have hnd : (done ++ a :: post).Nodup := by rw [← hpost]; decide
    have ha : a ∉ done := fun hmem =>
      (List.nodup_append.mp hnd).2.2 hmem (List.mem_cons_self _ _)
    have hcode := hI.1.pending a ha
    obtain ⟨q1, q2, q3, -⟩ := updateAdja_quiet (by rw [hcode]; exact hno a) hu
    exact ⟨updateAdja_FaceLoopInv hI.1 ha (hflag.of_sameTet hI.2.1)
        (by rw [hI.2.1.cnt]; exact hT) hvalid hu,
      hI.2.1.st_trans ((updateAdja_frame hu).st rfl),
      hI.2.2.1.sx_trans q1, hI.2.2.2.1.sf_trans q2, q3.trans hI.2.2.2.2⟩

theorem mintLoop_quiet {c : Ctx} {tet : Nat} {w w' : Work}
    (hno : ∀ f : Fin 4, w.meshOld.adja (adjaIdx tet f) / 4 ≠ 0 →
      c.grpId = c.partAt (w.meshOld.adja (adjaIdx tet f) / 4 - 1))
    (h : forEach (mintFace c tet) [0, 1, 2, 3] w = .ok w') : w' = w :=
  forEach_inv (mintFace c tet) (fun u => u = w) _
    (fun a u u' _ hu hf => by
      subst hu
      exact mintFace_quiet (hno a) hf) w w' h rfl

/-- The traversal of one source element when none of the neighbours of the
element lies in another sub-group. -/
theorem tetStep_quiet {c : Ctx} {m : MMG5_Mesh} {pre : List Nat} {tet : Nat} {u u' : Work}
    (hX : XtCopy u) (hface : u.grpCur.nitem_int_face_comm = 0)
    (hpre : ∀ B, 1 ≤ B → B < tet → B ∈ pre) (hI : TetInv c pre u)
    (hadja : u.meshOld.adja = m.adja)
    (hno : c.grpId = c.partAt (tet - 1) → ∀ f : Fin 4, m.adja (adjaIdx tet f) ≠ 0 →
      c.partAt (m.adja (adjaIdx tet f) / 4 - 1) = c.grpId)
    (hvalid : ∀ f : Fin 4, m.adja (adjaIdx tet f) ≠ 0 → 1 ≤ m.adja (adjaIdx tet f) / 4)
    (h : tetStep c tet u = .ok u') : XtCopy u' ∧ Quiet u u' := by
  rcases tetStep_ok h with ⟨hne, rfl⟩ | ⟨heq, w1, w2, w3, h1, h2, h3, h4⟩
  · have f0 := resetFlag_frame tet u
    exact ⟨hX.xc_frame rfl (f0.os rfl) (f0.sx rfl) (fun k => by rw [f0.ct rfl]),
      f0.sf rfl, f0.ss rfl⟩
  · obtain ⟨hflag, hT⟩ := flagInv_after_copy hpre hI h1
    have f0 := resetFlag_frame tet u
    have f1 := copyTetra_frame h1
    have f2 := forEach_frame _ _ _ (fun a u u' hu => addPoint_frame hu) h2
    have f3 := copyAdja_frame tet w2
    have st2 := (f2.st rfl).st_trans (f3.st rfl)
    -- the copy of the element
    have x0 : XtCopy (resetFlag tet u) :=
      hX.xc_frame rfl (f0.os rfl) (f0.sx rfl) (fun k => by rw [f0.ct rfl])
    have x1 : XtCopy w1 := copyTetra_xtCopy x0 hI.vals h1
    -- the vertices
    have x2 : XtCopy w2 :=
      x1.xc_frame (f2.st rfl).log (f2.os rfl) (f2.sx rfl) (addPointLoop_txt h2)
    have x2a : XtCopy (copyAdja tet w2) :=
      x2.xc_frame (f3.st rfl).log (f3.os rfl) (f3.sx rfl) (fun k => by rw [f3.ct rfl])
    -- the faces
    have hface2 : (copyAdja tet w2).grpCur.nitem_int_face_comm = 0 := by
      rw [(f3.sf rfl).nitem, (f2.sf rfl).nitem, (f1.sf rfl).nitem, (f0.sf rfl).nitem]
      exact hface
    have hT2 : 1 ≤ w2.tetPerGrp := by rw [(f2.st rfl).cnt]; exact hT
    have hold : w2.meshOld.adja = m.adja := by
      rw [(f2.os rfl).adja, (f1.os rfl).adja, (f0.os rfl).adja, hadja]
    obtain ⟨q1, q2, q3⟩ := faceLoop_quiet (hno heq) hface2
      (fun f => by rw [copyAdja_pending tet w2 hT2 f, hold])
      (hflag.of_sameTet st2) (by rw [st2.cnt]; exact hT) hvalid h3
    have fu := forEach_frame _ _ _ (fun a u u' hu => updateAdja_frame hu) h3
    have x3 : XtCopy w3 :=
      x2a.xc_frame (fu.st rfl).log (fu.os rfl) q1 (fun k => by rw [q3])
    -- no slot is minted
    have hold3 : w3.meshOld.adja = m.adja := by
      rw [(fu.os rfl).adja, (f3.os rfl).adja, hold]
    have hfin : u' = w3 := mintLoop_quiet (fun f hf => by
      rw [hold3] at hf ⊢
      have hne : m.adja (adjaIdx tet f) ≠ 0 := by
        intro e
        rw [e] at hf
        exact hf rfl
      exact (hno heq f hne).symm) h4
    subst hfin
    refine ⟨x3, ?_, ?_⟩
    · exact ((((f0.sf rfl).sf_trans (f1.sf rfl)).sf_trans (f2.sf rfl)).sf_trans
        (f3.sf rfl)).sf_trans q2
    · exact ((((f0.ss rfl).ss_trans (f1.ss rfl)).ss_trans (f2.ss rfl)).ss_trans
        (f3.ss rfl)).ss_trans (fu.ss rfl)

theorem settagEdge_ori (env : Env) (tet : Nat) (m : MMG5_Mesh) (ie : Fin 6) (k : Nat) :
    ((settagEdge env tet m ie).xtetra k).ori = (m.xtetra k).ori := by
  unfold settagEdge
  simp only
  split_ifs <;> rfl

theorem foldl_ori {α : Type} (f : MMG5_Mesh → α → MMG5_Mesh)
    (hf : ∀ m a k, ((f m a).xtetra k).ori = (m.xtetra k).ori) (l : List α) (m : MMG5_Mesh)
    (k : Nat) : ((List.foldl f m l).xtetra k).ori = (m.xtetra k).ori := by
  induction l generalizing m with
  | nil => rfl
  | cons a l ih => exact (ih (f m a)).trans (hf m a k)

theorem settagTetra_ori (env : Env) (m : MMG5_Mesh) (tet : Nat) (k : Nat) :
    ((settagTetra env m tet).xtetra k).ori = (m.xtetra k).ori := by
  unfold settagTetra
  split_ifs <;> first
    | rfl
    | exact foldl_ori _ (settagEdge_ori env tet) _ _ _

theorem passEnd_ori (env : Env) (c : Ctx) (w : Work) (k : Nat) :
    ((passEnd env c w).grpCur.mesh.xtetra k).ori = (w.grpCur.mesh.xtetra k).ori := by
  unfold passEnd
  exact foldl_ori _ (settagTetra_ori env) _ _ _

/-- The pass has nothing to report for an element whose boundary record
carries `MG_PARBDY` on no edge. -/
theorem settagTetra_noop (env : Env) (m : MMG5_Mesh) (tet : Nat)
    (h : (m.tetra tet).xt ≠ 0 → ∀ e, (m.xtetra (m.tetra tet).xt).tag e &&& MG_PARBDY = 0) :
    settagTetra env m tet = m := by
  by_cases hx : (m.tetra tet).xt = 0
  · simp [settagTetra, hx]
  · have he : ∀ e, settagEdge env tet m e = m := by
      intro e
      unfold settagEdge
      simp only
      rw [if_pos (h hx e)]
    simp [settagTetra, hx, List.foldl, he]

theorem settagLoop_noop (env : Env) (m : MMG5_Mesh) (l : List Nat)
    (h : ∀ tet ∈ l, (m.tetra tet).xt ≠ 0 →
      ∀ e, (m.xtetra (m.tetra tet).xt).tag e &&& MG_PARBDY = 0) :
    List.foldl (settagTetra env) m l = m := by
  induction l with
  | nil => rfl
  | cons a l ih =>
    rw [List.foldl_cons, settagTetra_noop env m a (h a (List.mem_cons_self _ _))]
    exact ih (fun tet ht => h tet (List.mem_cons_of_mem _ ht))

theorem passEnd_noop (env : Env) (c : Ctx) (w : Work)
    (h : ∀ tet, 1 ≤ tet → tet ≤ w.grpCur.mesh.ne → (w.grpCur.mesh.tetra tet).xt ≠ 0 →
      ∀ e, (w.grpCur.mesh.xtetra (w.grpCur.mesh.tetra tet).xt).tag e &&& MG_PARBDY = 0) :
    (passEnd env c w).grpCur.mesh.xtetra = w.grpCur.mesh.xtetra := by
  unfold passEnd
  simp only
  rw [settagLoop_noop]
  · rfl
  · intro tet ht
    rw [List.mem_range'_1] at ht
    exact h tet ht.1 (by
      have : (chainFree w).ne = w.grpCur.mesh.ne := rfl
      omega)

theorem splitGrp_quiet {env : Env} {part : List Nat} {g : Nat} {met : MMG5_Sol} {count : Nat}
    {m0 : MMG5_Mesh} {w w' : Work} (hsrc : SrcOf m0 w) (hvalid : ValidAdja m0)
    (hno : NoCross m0 part) (hface : w.grpCur.nitem_int_face_comm = 0)
    (hxt : w.grpCur.mesh.xt = 0)
    (h : splitGrp env ⟨part, g, met⟩ count w = .ok w') :
    SameSlot w w' ∧ w'.grpCur.nitem_int_face_comm = 0 ∧
    XtPost m0 w'.grpCur.mesh w'.logTet := by
  obtain ⟨w2, h1, rfl⟩ := splitGrp_ok h
  obtain ⟨s1, s2, s3⟩ := passStart_frame count w
  have hsrc1 := hsrc.of_oldStatic s1
  have key := tetLoop_inv (c := ⟨part, g, met⟩) (n := w.meshOld.ne)
    (fun _ u => XtCopy u ∧ u.grpCur.nitem_int_face_comm = 0 ∧ SameSlot (passStart count w) u)
    ?_ h1 rfl rfl ?_
  · obtain ⟨⟨hX, hF, hS⟩, hT, hos⟩ := key
    have hsrc2 := hsrc1.of_oldStatic hos
    have f := passEnd_frame env ⟨part, g, met⟩ w2
    have hm := passEnd_mesh env ⟨part, g, met⟩ w2
    have hlog : (passEnd env ⟨part, g, met⟩ w2).logTet = w2.logTet := (f.st rfl).log
    have htet : (passEnd env ⟨part, g, met⟩ w2).grpCur.mesh.tetra = w2.grpCur.mesh.tetra :=
      f.ct rfl
    have hxt2 : (passEnd env ⟨part, g, met⟩ w2).grpCur.mesh.xt = w2.grpCur.mesh.xt := hm.xt
    refine ⟨s2.ss_trans (hS.ss_trans (f.ss rfl)), by rw [(f.sf rfl).nitem]; exact hF, ?_, ?_,
      ?_, ?_⟩
    · rw [hxt2, hlog, hX.count]
      congr 1
      apply List.filter_congr
      intro q _
      rw [hsrc2.txt]
    · intro q hq
      rw [hlog] at hq
      obtain ⟨b1, b2⟩ := hX.bound q hq
      rw [hsrc2.txt] at b1 b2
      rw [htet, hxt2]
      refine ⟨b1, fun hne => ?_⟩
      obtain ⟨c1, c2, c3⟩ := b2 hne
      refine ⟨c1, c2, ?_⟩
      rw [hsrc2.xtetra] at c3
      rw [← c3]
      exact ⟨hm.ref _, hm.ftag _, passEnd_ori _ _ _ _, fun e bits hb => hm.tag _ e bits hb⟩
    · intro k hk1 hk2
      rw [hxt2] at hk2
      obtain ⟨q, hq, e⟩ := hX.onto k hk1 hk2
      refine ⟨q, by rw [hlog]; exact hq, by rw [htet]; exact e, ?_⟩
      intro h0
      have := (hX.bound q hq).1 (by rw [hsrc2.txt]; exact h0)
      omega
    · intro hne hnp q hq hx
      rw [hlog] at hq hne
      have hne2 : w2.grpCur.mesh.ne = w2.logTet.length := by
        rw [← hne]; exact (hm.ne).symm
      rw [htet, passEnd_noop]
      · have := ((hX.bound q hq).2 (by rw [hsrc2.txt]; exact hx)).2.2
        rw [this, hsrc2.xtetra, hsrc2.txt]
      · intro tet ht1 ht2 hxt
        have hlen : w2.logTet.length = w2.tetPerGrp := by
          have := congrArg List.length hT.vals
          rw [List.length_map, List.length_range'] at this
          exact this
        have hmem : tet ∈ w2.logTet.map Prod.snd := by
          rw [hT.vals, List.mem_range'_1]; omega
        obtain ⟨p, hp, hp2⟩ := List.mem_map.mp hmem
        obtain ⟨b1, b2⟩ := hX.bound p hp
        have hpx : (w2.meshOld.tetra p.1).xt ≠ 0 := by
          intro h0
          have := b1 h0
          rw [hp2] at this
          exact hxt this
        obtain ⟨-, -, c3⟩ := b2 hpx
        rw [hp2] at c3
        rw [c3, hsrc2.xtetra, hsrc2.txt]
        have hk : p.1 ∈ w2.logTet.map Prod.fst := List.mem_map_of_mem _ hp
        rw [hT.keys, List.mem_filter, List.mem_range'_1] at hk
        rw [hsrc2.txt] at hpx
        exact hnp p.1 hk.1.1 (by rw [← hsrc.ne]; omega) hpx
  · intro pre tet u u' hnew hpre ht1 ht2 hI hos hJ hu
    obtain ⟨hX, hF, hS⟩ := hJ
    have hadja : u.meshOld.adja = m0.adja := by rw [hos.adja, hsrc1.adja]
    have hle : tet ≤ m0.ne := by rw [← hsrc.ne]; exact ht2
    obtain ⟨x, q⟩ := tetStep_quiet (m := m0) hX hF hpre hI hadja
      (fun heq f hf => by
        have := hno tet ht1 hle f hf
        show part.getD _ 0 = g
        rw [this]
        exact heq.symm)
      (fun f hf => (hvalid tet ht1 hle f hf).1) hu
    exact ⟨x, by rw [q.sf.nitem]; exact hF, hS.ss_trans q.ss⟩
  · refine ⟨⟨fun q hq => by simp [passStart] at hq, fun k hk1 hk2 => ?_, ?_⟩, ?_,
      SameSlot.ss_refl _⟩
    · rw [s3, hxt] at hk2; omega
    · rw [s3, hxt]; rfl
    · rw [s3]; exact hface

theorem noCross_of_list {m : MMG5_Mesh} {part : List Nat}
    (h : ∀ t ∈ List.range' 1 m.ne, ∀ f ∈ ([0, 1, 2, 3] : List (Fin 4)),
      m.adja (adjaIdx t f) ≠ 0 →
        part.getD (m.adja (adjaIdx t f) / 4 - 1) 0 = part.getD (t - 1) 0) : NoCross m part := by
  intro t h1 h2 f hf
  refine h t (by rw [List.mem_range'_1]; omega) f ?_ hf
  fin_cases f <;> simp

theorem noCross_mesh3x : NoCross (grpOldOf pm3x).mesh [0, 0, 1] := noCross_of_list (by decide)

theorem validAdja_mesh3x : ValidAdja (grpOldOf pm3x).mesh := validAdja_of_list (by decide)

/-- The element log and the declared element count of every installed
sub-group. -/
theorem splitGrps_counts {env : Env} {pm : PMMG_ParMesh} {t : Int} {part : List Nat}
    (hs : (PMMG_splitGrps env pm t).logInstalled = true) (hp : env.partition = some part)
    (hlen : part.length = (grpOldOf pm).mesh.ne) :
    ∀ (g : Nat) grp log, (PMMG_splitGrps env pm t).parmesh.listgrp[g]? = some grp →
      (PMMG_splitGrps env pm t).logGrp[g]? = some log →
      log.logTet.length = part.count g ∧ grp.mesh.ne = part.count g := by
  obtain ⟨wf, -, -, -, -, -, h3⟩ := splitGrps_post hs hp
    (fun w => w.meshOld.ne = (grpOldOf pm).mesh.ne)
    (fun g b _ => b.2.logTet.length = part.count g ∧ b.1.mesh.ne = part.count g)
    (fun grants => startWork_ne _ _ _ _ _)
    (fun grpId g w w1 hf hq hu => by
      obtain ⟨fo, fs⟩ := splitGrp_frame hu
      have hI := splitGrp_tets hu
      refine ⟨fo.ne.trans hq, ?_, ?_⟩
      · have := congrArg List.length hI.keys
        rw [List.length_map] at this
        simp only at this ⊢
        rw [this, hq, ← hlen]
        have e := filter_range'_shift (fun t => decide (part.getD t 0 = grpId)) part.length
        simp only [Ctx.partAt]
        rw [e, List.length_map, filter_range_getD_count]
      · simp only
        rw [fs.ne]
        simp only
        rw [hf.ne, countPerGrp_eq, ← hlen, filter_range_getD_count])
    (fun i b grpId g' w w1 _ hpost _ => hpost)
  exact h3

/-- The sub-groups of a run that installs them when no face is cut. -/
theorem splitGrps_quiet {env : Env} {pm : PMMG_ParMesh} {t : Int} {part : List Nat}
    (hs : (PMMG_splitGrps env pm t).logInstalled = true) (hp : env.partition = some part)
    (hvalid : ValidAdja (grpOldOf pm).mesh) (hno : NoCross (grpOldOf pm).mesh part) :
    (PMMG_splitGrps env pm t).logMint = [] ∧
    (PMMG_splitGrps env pm t).parmesh.int_node_comm_nitem = pm.int_node_comm_nitem ∧
    ∀ (g : Nat) grp log, (PMMG_splitGrps env pm t).parmesh.listgrp[g]? = some grp →
      (PMMG_splitGrps env pm t).logGrp[g]? = some log →
      grp.nitem_int_face_comm = 0 ∧ XtPost (grpOldOf pm).mesh grp.mesh log.logTet := by
  obtain ⟨wf, hQ, e1, e2, -, -, h3⟩ := splitGrps_post hs hp
    (fun w => SrcOf (grpOldOf pm).mesh w ∧ w.logMint = [] ∧
      w.int_node_comm_nitem = pm.int_node_comm_nitem)
    (fun _ b _ => b.1.nitem_int_face_comm = 0 ∧ XtPost (grpOldOf pm).mesh b.1.mesh b.2.logTet)
    (fun grants => ⟨startWork_srcOf _ _ _ _ _, rfl, rfl⟩)
    (fun grpId g w w1 hf hq hu => by
      obtain ⟨a1, a2, a3⟩ := splitGrp_quiet (hq.1.setGrp g) hvalid hno hf.nface hf.xt hu
      exact ⟨⟨splitGrp_srcOf (hq.1.setGrp g) hu, a1.log.trans hq.2.1, a1.cnt.trans hq.2.2⟩,
        a2, a3⟩)
    (fun i b grpId g' w w1 _ hpost _ => hpost)
  exact ⟨e1.trans hQ.2.1, e2.trans hQ.2.2, h3⟩

set_option maxRecDepth 100000 in
/-- C17 as stated fails: in `mesh3x` split as `[0, 0, 1]` no element has a
neighbour in another sub-group and the run installs the sub-groups, the
source elements 1 and 2 being copied as elements 1 and 2 of sub-mesh 0; the
source record of element 2 has no tag on edge 4, but after the pass that
reports the parallel edge tags (lines 560-574) the record bound to its copy
carries the interface tags on that edge: it is not an unmodified copy. -/
theorem C17_counterexample :
    (PMMG_splitGrps env3x pm3x 2).logInstalled = true ∧
    NoCross (grpOldOf pm3x).mesh [0, 0, 1] ∧
    (PMMG_splitGrps env3x pm3x 2).logGrp.map (fun l => l.logTet) =
      [[(1, 1), (2, 2)], [(3, 1)]] ∧
    (mesh3x.tetra 2).xt = 2 ∧ (mesh3x.xtetra 2).tag 4 = 0 ∧
    (PMMG_splitGrps env3x pm3x 2).parmesh.listgrp.map
      (fun grp => ((grp.mesh.tetra 2).xt, (grp.mesh.xtetra 2).tag 4)) =
      [(2, parbdyMask), (0, 0)] :=
  ⟨by decide, noCross_mesh3x, by decide, by decide, by decide, by decide⟩

/-- C17 amended: in a run that installs the sub-groups, on a source mesh
whose non-zero adjacency codes name elements and link elements with the same
assignment only (the assignment array having the length of the element
table): no slot is minted and the global slot counter is unchanged; the face
communicator of every sub-group is empty; every sub-mesh has as many
boundary records as copied elements that had one, the copy of an element
without a record has none, every record is bound to the copy of an element
that had one, and the record of a copy is the source record up to the edge
tags and edge references written by the pass that reports the parallel edge
tags: face references, face tags and orientation are those of the source
record and the edge tags contain the source edge tags.  When no source record
carries `MG_PARBDY` on an edge, the records are unmodified copies. -/
theorem C17_no_interface_created (env : Env) (pm : PMMG_ParMesh) (t : Int) (part : List Nat)
    (hs : (PMMG_splitGrps env pm t).logInstalled = true) (hp : env.partition = some part)
    (hlen : part.length = (grpOldOf pm).mesh.ne)
    (hvalid : ValidAdja (grpOldOf pm).mesh) (hno : NoCross (grpOldOf pm).mesh part) :
    (PMMG_splitGrps env pm t).parmesh.int_node_comm_nitem = pm.int_node_comm_nitem ∧
    (PMMG_splitGrps env pm t).logMint = [] ∧
    ∀ (g : Nat) grp log, (PMMG_splitGrps env pm t).parmesh.listgrp[g]? = some grp →
      (PMMG_splitGrps env pm t).logGrp[g]? = some log →
      grp.nitem_int_face_comm = 0 ∧
      grp.mesh.xt =
        (log.logTet.filter (fun q => decide (((grpOldOf pm).mesh.tetra q.1).xt ≠ 0))).length ∧
      (∀ q ∈ log.logTet,
        (((grpOldOf pm).mesh.tetra q.1).xt = 0 → (grp.mesh.tetra q.2).xt = 0) ∧
        (((grpOldOf pm).mesh.tetra q.1).xt ≠ 0 →
          1 ≤ (grp.mesh.tetra q.2).xt ∧ (grp.mesh.tetra q.2).xt ≤ grp.mesh.xt ∧
          XtRel ((grpOldOf pm).mesh.xtetra ((grpOldOf pm).mesh.tetra q.1).xt)
            (grp.mesh.xtetra (grp.mesh.tetra q.2).xt))) ∧
      (∀ k, 1 ≤ k → k ≤ grp.mesh.xt →
        ∃ q ∈ log.logTet, (grp.mesh.tetra q.2).xt = k ∧
          ((grpOldOf pm).mesh.tetra q.1).xt ≠ 0) ∧
      (NoParbdy (grpOldOf pm).mesh → ∀ q ∈ log.logTet,
        ((grpOldOf pm).mesh.tetra q.1).xt ≠ 0 →
        grp.mesh.xtetra (grp.mesh.tetra q.2).xt =
          (grpOldOf pm).mesh.xtetra ((grpOldOf pm).mesh.tetra q.1).xt) := by
  obtain ⟨a1, a2, a3⟩ := splitGrps_quiet hs hp hvalid hno
  refine ⟨a2, a1, fun g grp log hg hl => ?_⟩
  obtain ⟨b1, b2⟩ := a3 g grp log hg hl
  obtain ⟨c1, c2⟩ := splitGrps_counts hs hp hlen g grp log hg hl
  exact ⟨b1, b2.count, b2.bound, b2.onto, b2.exact (c2.trans c1.symm)⟩

set_option maxRecDepth 100000 in
/-- Witness of the amended C17 on `mesh3x` split as `[0, 0, 1]`. -/
theorem C17_no_interface_created_witness :
    (PMMG_splitGrps env3x pm3x 2).logInstalled = true ∧
    ([0, 0, 1] : List Nat).length = (grpOldOf pm3x).mesh.ne ∧
    ValidAdja (grpOldOf pm3x).mesh ∧ NoCross (grpOldOf pm3x).mesh [0, 0, 1] ∧
    (PMMG_splitGrps env3x pm3x 2).parmesh.int_node_comm_nitem = pm3x.int_node_comm_nitem ∧
    (PMMG_splitGrps env3x pm3x 2).logMint = [] ∧
    ∀ (g : Nat) grp log, (PMMG_splitGrps env3x pm3x 2).parmesh.listgrp[g]? = some grp →
      (PMMG_splitGrps env3x pm3x 2).logGrp[g]? = some log →
      grp.nitem_int_face_comm = 0 ∧
      grp.mesh.xt =
        (log.logTet.filter (fun q => decide (((grpOldOf pm3x).mesh.tetra q.1).xt ≠ 0))).length ∧
      (∀ q ∈ log.logTet,
        (((grpOldOf pm3x).mesh.tetra q.1).xt = 0 → (grp.mesh.tetra q.2).xt = 0) ∧
        (((grpOldOf pm3x).mesh.tetra q.1).xt ≠ 0 →
          1 ≤ (grp.mesh.tetra q.2).xt ∧ (grp.mesh.tetra q.2).xt ≤ grp.mesh.xt ∧
          XtRel ((grpOldOf pm3x).mesh.xtetra ((grpOldOf pm3x).mesh.tetra q.1).xt)
            (grp.mesh.xtetra (grp.mesh.tetra q.2).xt))) ∧
      (∀ k, 1 ≤ k → k ≤ grp.mesh.xt →
        ∃ q ∈ log.logTet, (grp.mesh.tetra q.2).xt = k ∧
          ((grpOldOf pm3x).mesh.tetra q.1).xt ≠ 0) ∧
      (NoParbdy (grpOldOf pm3x).mesh → ∀ q ∈ log.logTet,
        ((grpOldOf pm3x).mesh.tetra q.1).xt ≠ 0 →
        grp.mesh.xtetra (grp.mesh.tetra q.2).xt =
          (grpOldOf pm3x).mesh.xtetra ((grpOldOf pm3x).mesh.tetra q.1).xt) :=
  ⟨by decide, by decide, validAdja_mesh3x, noCross_mesh3x,
    C17_no_interface_created env3x pm3x 2 [0, 0, 1] (by decide) rfl (by decide)
      validAdja_mesh3x noCross_mesh3x⟩

theorem HasMask.or_left {x : Nat} (h : HasMask x) (y : Nat) : HasMask (x ||| y) :=
  and_or_of_and h

theorem hasMask_or (x : Nat) : HasMask (x ||| parbdyMask) := or_and_self x parbdyMask

theorem TagMono.tm_refl (lim : Nat) (w : Work) : TagMono lim w w :=
  ⟨le_refl _, le_refl _, fun _ _ _ h => h, fun _ _ _ h => h, fun _ _ h => h,
    fun _ _ _ => ⟨rfl, fun _ => rfl⟩⟩

theorem TagMono.tm_trans {lim : Nat} {a b c : Work} (h1 : TagMono lim a b)
    (h2 : TagMono lim b c) : TagMono lim a c := by
  refine ⟨h1.xt.trans h2.xt, h1.poi.trans h2.poi, fun k hk f hf => ?_, fun k hk e he => ?_,
    fun p hp ht => ?_, fun k hk1 hk2 => ?_⟩
  · exact h2.ftag k (hk.trans h1.xt) f (h1.ftag k hk f hf)
  · exact h2.tag k (hk.trans h1.xt) e (h1.tag k hk e he)
  · exact h2.ptag p (hp.trans h1.poi) (h1.ptag p hp ht)
  · obtain ⟨a1, a2⟩ := h1.tet k hk1 hk2
    obtain ⟨b1, b2⟩ := h2.tet k hk1 hk2
    refine ⟨b1.trans a1, fun hne => ?_⟩
    have e1 := a2 hne
    rw [b2 (by rw [e1]; exact hne), e1]

theorem TagMono.tm_weaken {lim lim' : Nat} {a b : Work} (h : TagMono lim a b)
    (hl : lim' ≤ lim) : TagMono lim' a b :=
  ⟨h.xt, h.poi, h.ftag, h.tag, h.ptag, fun k hk1 hk2 => h.tet k hk1 (hk2.trans hl)⟩

/-- A step that leaves the boundary-element table, the element table and the
vertex tags of the mesh under construction alone. -/
theorem TagMono.of_frames {lim : Nat} {w w' : Work} (hsx : SameXt w w')
    (htet : w'.grpCur.mesh.tetra = w.grpCur.mesh.tetra)
    (hpt : ∀ i, (w'.grpCur.mesh.point i).tag = (w.grpCur.mesh.point i).tag)
    (hpoi : w.poiPerGrp ≤ w'.poiPerGrp) : TagMono lim w w' :=
  ⟨by rw [hsx.xt], hpoi, fun k _ f hf => by rw [hsx.xtetra]; exact hf,
    fun k _ e he => by rw [hsx.xtetra]; exact he, fun p _ ht => by rw [hpt]; exact ht,
    fun k _ _ => by rw [htet]; exact ⟨rfl, fun _ => rfl⟩⟩

/-- What the call of `PMMG_xtetraAppend` on the element under construction
does to the mesh under construction. -/
theorem xtetraAppend_eff {w w' : Work} {tet : Nat} (h : w.xtetraAppend tet = .ok w') :
    w'.grpCur.mesh.xt = w.grpCur.mesh.xt + 1 ∧
    w'.grpCur.mesh.xtetra = upd w.grpCur.mesh.xtetra (w.grpCur.mesh.xt + 1)
      (w.meshOld.xtetra (w.meshOld.tetra tet).xt) ∧
    w'.grpCur.mesh.tetra = upd w.grpCur.mesh.tetra w.tetPerGrp
      { w.tetraCur with xt := w.grpCur.mesh.xt + 1 } ∧
    w'.grpCur.mesh.point = w.grpCur.mesh.point := by
  unfold Work.xtetraAppend at h
  split at h
  · simp at h
  · rename_i m hm
    obtain ⟨e1, e2, e3, e4, -⟩ := xtetraAppend_some hm
    simp only [Except.ok.injEq] at h
    subst h
    refine ⟨?_, ?_, ?_, ?_⟩
    · simp [Work.setTetraCur, Work.setMeshCur, e1]
    · simp [Work.setTetraCur, Work.setMeshCur, e2]
    · simp [Work.setTetraCur, Work.setMeshCur, Work.tetraCur, e1, e4]
    · simp [Work.setTetraCur, Work.setMeshCur, e3]

theorem xtetraAppend_mono {w w' : Work} {tet : Nat} (h : w.xtetraAppend tet = .ok w')
    (h0 : w.tetraCur.xt = 0) : TagMono w.tetPerGrp w w' := by
  obtain ⟨e1, e2, e3, e4⟩ := xtetraAppend_eff h
  have hcnt := ((xtetraAppend_frame h).sp rfl).cnt
  refine ⟨by omega, by omega, fun k hk f hf => ?_, fun k hk e he => ?_, fun p _ ht => ?_,
    fun k hk1 hk2 => ?_⟩
  · rw [e2, upd_ne _ _ (by omega)]; exact hf
  · rw [e2, upd_ne _ _ (by omega)]; exact he
  · rw [e4]; exact ht
  · rw [e3, upd_apply]
    split_ifs with hk
    · subst hk
      exact ⟨rfl, fun hne => absurd h0 hne⟩
    · exact ⟨rfl, fun _ => rfl⟩

theorem copyTetra_mono {tet : Nat} {w w' : Work} (h : copyTetra tet w = .ok w') :
    TagMono w.tetPerGrp w w' := by
  obtain ⟨htet, hcase⟩ := copyTetra_xt h
  have f := copyTetra_frame h
  have hcnt := (f.sp rfl).cnt
  have hcp := f.cp rfl
  have htk : ∀ k, 1 ≤ k → k ≤ w.tetPerGrp →
      (w'.grpCur.mesh.tetra k).v = (w.grpCur.mesh.tetra k).v ∧
      ((w.grpCur.mesh.tetra k).xt ≠ 0 →
        (w'.grpCur.mesh.tetra k).xt = (w.grpCur.mesh.tetra k).xt) := by
    intro k _ hk2
    rw [htet k (by omega)]
    exact ⟨rfl, fun _ => rfl⟩
  rcases hcase with ⟨-, hsx, -⟩ | ⟨-, hxt, hxtet, -⟩
  · exact ⟨by rw [hsx.xt], by omega, fun k _ f hf => by rw [hsx.xtetra]; exact hf,
      fun k _ e he => by rw [hsx.xtetra]; exact he, fun p _ ht => by rw [hcp]; exact ht, htk⟩
  · exact ⟨by omega, by omega,
      fun k hk f hf => by rw [hxtet, upd_ne _ _ (by omega)]; exact hf,
      fun k hk e he => by rw [hxtet, upd_ne _ _ (by omega)]; exact he,
      fun p _ ht => by rw [hcp]; exact ht, htk⟩

theorem addPoint_mono {c : Ctx} {tet : Nat} {poi : Fin 4} {w w' : Work}
    (h : addPoint c tet poi w = .ok w') : TagMono (w.tetPerGrp - 1) w w' := by
  have f := addPoint_frame h
  have hsx := f.sx rfl
  obtain ⟨htet, hcase⟩ := addPoint_ok h
  have htk : ∀ k, 1 ≤ k → k ≤ w.tetPerGrp - 1 →
      (w'.grpCur.mesh.tetra k).v = (w.grpCur.mesh.tetra k).v ∧
      ((w.grpCur.mesh.tetra k).xt ≠ 0 →
        (w'.grpCur.mesh.tetra k).xt = (w.grpCur.mesh.tetra k).xt) := by
    intro k hk1 hk2
    rw [htet, upd_ne _ _ (by omega)]
    exact ⟨rfl, fun _ => rfl⟩
  refine ⟨by rw [hsx.xt], ?_, fun k _ f hf => by rw [hsx.xtetra]; exact hf,
    fun k _ e he => by rw [hsx.xtetra]; exact he, ?_, htk⟩
  · rcases hcase with ⟨-, hsp, -, -⟩ | ⟨-, -, hcnt, -⟩
    · rw [hsp.cnt]
    · omega
  · intro p hp ht
    rcases hcase with ⟨-, -, -, hcp⟩ | ⟨-, -, -, -, hk, -⟩
    · rw [hcp]; exact ht
    · rw [hk p (by omega)]; exact ht

theorem TaggedIn.tg_mono {lim : Nat} {w w' : Work} {k : Nat} {fac : Fin 4}
    (h : TaggedIn w k fac) (hm : TagMono lim w w') (hk1 : 1 ≤ k) (hk : k ≤ lim) :
    TaggedIn w' k fac := by
  obtain ⟨⟨a1, a2, a3, a4⟩, b, c⟩ := h
  obtain ⟨e1, e2⟩ := hm.tet k hk1 hk
  have e3 := e2 a1
  refine ⟨⟨by rw [e3]; exact a1, ?_, fun j => ?_, fun j => ?_⟩, by rw [e3]; exact b.trans hm.xt,
    fun j => by rw [e1]; exact (c j).trans hm.poi⟩
  · rw [e3]; exact hm.ftag _ b _ a2
  · rw [e3]; exact hm.tag _ b _ (a3 j)
  · rw [e1]; exact hm.ptag _ (c j) (a4 j)

theorem newFaceXt_eff {tet : Nat} {fac : Fin 4} {w w' : Work}
    (h : newFaceXt tet fac w = .ok w') :
    TagMono w.tetPerGrp w w' ∧ w'.tetraCur.xt ≠ 0 ∧
    (w.tetraCur.xt ≤ w.grpCur.mesh.xt → w'.tetraCur.xt ≤ w'.grpCur.mesh.xt) ∧
    w'.tetraCur.v = w.tetraCur.v := by
  have hT : w'.tetPerGrp = w.tetPerGrp := ((newFaceXt_frame h).st rfl).cnt
  unfold newFaceXt at h
  simp only at h
  generalize hw1 : w.setMeshCur { w.grpCur.mesh with
    adja := upd w.grpCur.mesh.adja (adjaIdx w.tetPerGrp fac) 0 } = w1 at h
  have m1 : TagMono w.tetPerGrp w w1 := by
    subst hw1
    exact TagMono.of_frames ⟨rfl, rfl⟩ rfl (fun _ => rfl) (le_refl _)
  have t1 : w1.tetraCur = w.tetraCur := by subst hw1; rfl
  have x1 : w1.grpCur.mesh.xt = w.grpCur.mesh.xt := by subst hw1; rfl
  have c1 : w1.tetPerGrp = w.tetPerGrp := by subst hw1; rfl
  split_ifs at h with h1
  · have h1' : w1.tetraCur.xt = 0 := h1
    obtain ⟨e1, e2, e3, e4⟩ := xtetraAppend_eff h
    have m2 := xtetraAppend_mono h h1'
    rw [c1] at m2
    have hcur : w'.tetraCur = { w1.tetraCur with xt := w1.grpCur.mesh.xt + 1 } := by
      show w'.grpCur.mesh.tetra w'.tetPerGrp = _
      rw [e3, hT, ← c1, upd_same]
    refine ⟨m1.tm_trans m2, ?_, fun _ => ?_, ?_⟩
    · rw [hcur]; simp
    · rw [hcur, e1]
    · rw [hcur, ← t1]
  · simp only [Except.ok.injEq] at h
    subst h
    refine ⟨m1, ?_, fun hle => ?_, ?_⟩
    · exact h1
    · rw [t1, x1]; exact hle
    · rw [t1]

theorem newFaceTag_eff (fac : Fin 4) (w : Work) :
    (∀ lim, TagMono lim w (newFaceTag fac w)) ∧
    HasMask (((newFaceTag fac w).grpCur.mesh.xtetra w.tetraCur.xt).ftag fac) ∧
    (newFaceTag fac w).grpCur.mesh.tetra = w.grpCur.mesh.tetra ∧
    (newFaceTag fac w).grpCur.mesh.xt = w.grpCur.mesh.xt := by
  have hx : (newFaceTag fac w).grpCur.mesh.xtetra = upd w.grpCur.mesh.xtetra w.tetraCur.xt
      { w.grpCur.mesh.xtetra w.tetraCur.xt with
        ref := upd (w.grpCur.mesh.xtetra w.tetraCur.xt).ref fac 0
        ftag := upd (w.grpCur.mesh.xtetra w.tetraCur.xt).ftag fac
          ((w.grpCur.mesh.xtetra w.tetraCur.xt).ftag fac ||| parbdyMask) } := rfl
  refine ⟨fun lim => ⟨le_refl _, le_refl _, fun k _ f hf => ?_, fun k _ e he => ?_,
    fun p _ ht => ht, fun k _ _ => ⟨rfl, fun _ => rfl⟩⟩, ?_, rfl, rfl⟩
  · rw [hx, upd_apply]
    split_ifs with hk
    · subst hk
      simp only [upd_apply]
      split_ifs with hf2
      · subst hf2; exact hf.or_left _
      · exact hf
    · exact hf
  · rw [hx, upd_apply]
    split_ifs with hk
    · subst hk; exact he
    · exact he
  · rw [hx, upd_same]
    simp only [upd_same]
    exact hasMask_or _

theorem tagFaceItem_eff {fac : Fin 4} {j : Fin 3} {w w' : Work}
    (h : tagFaceItem fac j w = .ok w') :
    (∀ lim, TagMono lim w w') ∧
    HasMask ((w'.grpCur.mesh.xtetra w.tetraCur.xt).tag (MMG5_iarf fac j)) ∧
    HasMask (w'.grpCur.mesh.point (w.tetraCur.v (MMG5_idir fac j))).tag ∧
    (∀ k, (w'.grpCur.mesh.xtetra k).ftag = (w.grpCur.mesh.xtetra k).ftag) ∧
    w'.grpCur.mesh.tetra = w.grpCur.mesh.tetra ∧
    w'.grpCur.mesh.xt = w.grpCur.mesh.xt ∧ w'.poiPerGrp = w.poiPerGrp := by
  unfold tagFaceItem at h
  simp only [Except.ok.injEq] at h
  subst h
  refine ⟨fun lim => ⟨le_refl _, le_refl _, fun k _ f hf => ?_, fun k _ e he => ?_,
    fun p _ ht => ?_, fun k _ _ => ⟨rfl, fun _ => rfl⟩⟩, ?_, ?_, fun k => ?_, rfl, rfl, rfl⟩
  · simp only [Work.setMeshCur, upd_apply]
    split_ifs with hk
    · subst hk; exact hf
    · exact hf
  · simp only [Work.setMeshCur, upd_apply]
    by_cases hk : k = w.tetraCur.xt
    · subst hk
      by_cases he2 : e = MMG5_iarf fac j
      · subst he2
        simp only [if_true, upd_same]
        exact he.or_left _
      · simp only [if_true, upd_apply, if_neg he2]
        exact he
    · simp only [if_neg hk]
      exact he
  · simp only [Work.setMeshCur, upd_apply]
    split_ifs with hp
    · subst hp; exact ht.or_left _
    · exact ht
  · simp only [Work.setMeshCur, upd_same]
    exact hasMask_or _
  · simp only [Work.setMeshCur, upd_same]
    exact hasMask_or _
  · simp only [Work.setMeshCur, upd_apply]
    split_ifs with hk
    · subst hk; rfl
    · rfl

theorem TagStep.ts_trans {a b c : Work} (h1 : TagStep a b) (h2 : TagStep b c) : TagStep a c :=
  ⟨h2.cnt.trans h1.cnt, h2.poi.trans h1.poi, h2.tetra.trans h1.tetra, h2.xt.trans h1.xt,
    fun lim => (h1.mono lim).tm_trans (h2.mono lim)⟩

theorem TagStep.ts_cur {u u' : Work} (h : TagStep u u') : u'.tetraCur = u.tetraCur := by
  show u'.grpCur.mesh.tetra u'.tetPerGrp = u.grpCur.mesh.tetra u.tetPerGrp
  rw [h.tetra, h.cnt]

theorem newFaceTag_step (fac : Fin 4) (w : Work) : TagStep w (newFaceTag fac w) :=
  ⟨rfl, rfl, rfl, rfl, (newFaceTag_eff fac w).1⟩

theorem n2ifcAppend_step {w w' : Work} {i1 : Nat} {i2 : Int}
    (h : w.n2ifcAppend i1 i2 = .ok w') : TagStep w w' := by
  have f := n2ifcAppend_frame h
  have f2 := n2ifcAppend_frame2 h
  exact ⟨(f.st rfl).cnt, (f.sp rfl).cnt, f.ct rfl, (f.sx rfl).xt,
    fun lim => TagMono.of_frames (f.sx rfl) (f.ct rfl) (f2.ptag rfl) (le_of_eq (f.sp rfl).cnt.symm)⟩

theorem tagFaceItem_step {fac : Fin 4} {j : Fin 3} {w w' : Work}
    (h : tagFaceItem fac j w = .ok w') : TagStep w w' := by
  obtain ⟨a1, -, -, -, a5, a6, a7⟩ := tagFaceItem_eff h
  exact ⟨((tagFaceItem_frame h).st rfl).cnt, a7, a5, a6, a1⟩

/-- The branch of a new interface face leaves the face tagged. -/
theorem newFace_tagged {tet : Nat} {fac : Fin 4} {w w' : Work} (hc : CurIn w)
    (h : newFace tet fac w = .ok w') :
    TagMono w.tetPerGrp w w' ∧ TaggedIn w' w.tetPerGrp fac ∧ CurIn w' := by
  unfold newFace at h
  simp only [andThen_ok_iff, forEach_cons_ok, forEach_nil, Except.ok.injEq] at h
  obtain ⟨w2, h2, w4, h4, w5, h5, w6, h6, w7, h7, rfl⟩ := h
  obtain ⟨m2, x2, b2, v2⟩ := newFaceXt_eff h2
  have hb2 := b2 hc.xt_le
  have T2 : w2.tetPerGrp = w.tetPerGrp := ((newFaceXt_frame h2).st rfl).cnt
  have P2 : w2.poiPerGrp = w.poiPerGrp := ((newFaceXt_frame h2).sp rfl).cnt
  have s3 := newFaceTag_step fac w2
  have t3 := (newFaceTag_eff fac w2).2.1
  have s4 := n2ifcAppend_step h4
  have s5 := tagFaceItem_step h5
  have s6 := tagFaceItem_step h6
  have s7 := tagFaceItem_step h7
  obtain ⟨-, g5, p5, -⟩ := tagFaceItem_eff h5
  obtain ⟨-, g6, p6, -⟩ := tagFaceItem_eff h6
  obtain ⟨-, g7, p7, -⟩ := tagFaceItem_eff h7
  have s34 := s3.ts_trans s4
  have s35 := s34.ts_trans s5
  have s36 := s35.ts_trans s6
  have s37 := s36.ts_trans s7
  have c4 : w4.tetraCur = w2.tetraCur := s34.ts_cur
  have c5 : w5.tetraCur = w2.tetraCur := s35.ts_cur
  have c6 : w6.tetraCur = w2.tetraCur := s36.ts_cur
  have c7 : w7.tetraCur = w2.tetraCur := s37.ts_cur
  rw [c4] at g5 p5
  rw [c5] at g6 p6
  rw [c6] at g7 p7
  have hx3 : w2.tetraCur.xt ≤ (newFaceTag fac w2).grpCur.mesh.xt := by rw [s3.xt]; exact hb2
  have hx5 : w2.tetraCur.xt ≤ w5.grpCur.mesh.xt := by rw [s35.xt]; exact hb2
  have hx6 : w2.tetraCur.xt ≤ w6.grpCur.mesh.xt := by rw [s36.xt]; exact hb2
  have hv : ∀ i, w2.tetraCur.v i ≤ w.poiPerGrp := by rw [v2]; exact hc.v_le
  have hv5 : ∀ i, w2.tetraCur.v i ≤ w5.poiPerGrp := by
    intro i; rw [s35.poi, P2]; exact hv i
  have hv6 : ∀ i, w2.tetraCur.v i ≤ w6.poiPerGrp := by
    intro i; rw [s36.poi, P2]; exact hv i
  have hcur : w7.grpCur.mesh.tetra w.tetPerGrp = w2.tetraCur := by
    have := c7
    rw [← T2, ← s37.cnt]
    exact this
  refine ⟨m2.tm_trans (by rw [← T2]; exact s37.mono _), ⟨⟨?_, ?_, ?_, ?_⟩, ?_, ?_⟩, ?_, ?_⟩
  · rw [hcur]; exact x2
  · rw [hcur]
    exact (((s4.ts_trans s5).ts_trans s6).ts_trans s7).mono 0 |>.ftag _ hx3 _ t3
  · rw [hcur]
    intro j
    fin_cases j
    · exact ((s6.ts_trans s7).mono 0).tag _ hx5 _ g5
    · exact (s7.mono 0).tag _ hx6 _ g6
    · exact g7
  · rw [hcur]
    intro j
    fin_cases j
    · exact ((s6.ts_trans s7).mono 0).ptag _ (hv5 _) p5
    · exact (s7.mono 0).ptag _ (hv6 _) p6
    · exact p7
  · rw [hcur, s37.xt]; exact hb2
  · intro j
    rw [hcur, s37.poi, P2]; exact hv _
  · show (w7.grpCur.mesh.tetra w7.tetPerGrp).xt ≤ _
    rw [s37.cnt, T2, hcur, s37.xt]; exact hb2
  · intro i
    show (w7.grpCur.mesh.tetra w7.tetPerGrp).v i ≤ _
    rw [s37.cnt, T2, hcur, s37.poi, P2]; exact hv i

theorem CurIn.ci_same {w w' : Work} (h : CurIn w) (hst : SameTet w w') (hsp : SamePt w w')
    (hsx : SameXt w w') (hct : w'.grpCur.mesh.tetra = w.grpCur.mesh.tetra) : CurIn w' := by
  have e : w'.tetraCur = w.tetraCur := by
    show w'.grpCur.mesh.tetra w'.tetPerGrp = w.grpCur.mesh.tetra w.tetPerGrp
    rw [hct, hst.cnt]
  exact ⟨by rw [e, hsx.xt]; exact h.xt_le, fun i => by rw [e, hsp.cnt]; exact h.v_le i⟩

/-- The loop over the faces of the element under construction tags each of
its interface faces and keeps the tags set before. -/
theorem faceLoop_tagged {c : Ctx} {m : MMG5_Mesh} {tet : Nat} {keys0 : List Nat}
    {w w' : Work} (hF : FaceInv keys0 w)
    (hpend : ∀ f, w.grpCur.mesh.adja (adjaIdx w.tetPerGrp f) = m.adja (adjaIdx tet f))
    (hflag : FlagInv c tet w) (hT : 1 ≤ w.tetPerGrp)
    (hvalid : ∀ f : Fin 4, m.adja (adjaIdx tet f) ≠ 0 → 1 ≤ m.adja (adjaIdx tet f) / 4)
    (hc : CurIn w)
    (h : forEach (updateAdja c tet) [0, 1, 2, 3] w = .ok w') :
    TagMono w.tetPerGrp w w' ∧
    ∀ f, crossFace m c.part c.grpId tet f = true → TaggedIn w' w.tetPerGrp f := by
  have key := forEach_prefix_inv (updateAdja c tet)
    (fun done u => FaceLoopInv c m tet keys0 done u ∧ SameTet w u ∧ TagMono w.tetPerGrp w u ∧
      CurIn u ∧ ∀ f ∈ done, crossFace m c.part c.grpId tet f = true → TaggedIn u w.tetPerGrp f)
    [0, 1, 2, 3] ?_ w w' h ⟨⟨fun f _ => hpend f, by simpa using hF.keys, hF.slots⟩,
      SameTet.st_refl w, TagMono.tm_refl _ _, hc, fun f hf => absurd hf (List.not_mem_nil f)⟩
  · refine ⟨key.2.2.1, fun f hf => key.2.2.2.2 f ?_ hf⟩
    fin_cases f <;> simp
  · intro done a u u' hsplit hI hu
    obtain ⟨post, hpost⟩ := hsplit
    have hnd : (done ++ a :: post).Nodup := by rw [← hpost]; decide
    have ha : a ∉ done := fun hmem =>
      (List.nodup_append.mp hnd).2.2 hmem (List.mem_cons_self _ _)
    obtain ⟨i1, i2, i3, i4, i5⟩ := hI
    have hTu : u.tetPerGrp = w.tetPerGrp := i2.cnt
    have hL := updateAdja_FaceLoopInv i1 ha (hflag.of_sameTet i2) (by rw [hTu]; exact hT)
      hvalid hu
    have hst := i2.st_trans ((updateAdja_frame hu).st rfl)
    have hcode := i1.pending a ha
    refine ⟨hL, hst, ?_⟩
    rcases updateAdja_cases hu with ⟨h0, rfl⟩ | ⟨h0, hp, hn⟩ | ⟨h0, hp, hlt, rfl⟩ |
      ⟨h0, hp, hlt, rfl⟩
    · have hx : crossFace m c.part c.grpId tet a = false := by
        simp [crossFace, ← hcode, h0]
      refine ⟨i3, i4, fun f hf hcf => ?_⟩
      rcases List.mem_append.mp hf with hd | hd
      · exact i5 f hd hcf
      · simp only [List.mem_singleton] at hd
        subst hd
        rw [hx] at hcf
        exact absurd hcf (by decide)
    · obtain ⟨n1, n2, n3⟩ := newFace_tagged i4 hn
      rw [hTu] at n1 n2
      refine ⟨i3.tm_trans n1, n3, fun f hf hcf => ?_⟩
      rcases List.mem_append.mp hf with hd | hd
      · exact (i5 f hd hcf).tg_mono n1 hT (le_refl _)
      · simp only [List.mem_singleton] at hd
        subst hd
        exact n2
    · have hx : crossFace m c.part c.grpId tet a = false := by
        simp only [crossFace, ← hcode, decide_eq_false_iff_not, not_and, not_not]
        intro _
        exact hp
      have f := linkAdja_frame a (u.grpCur.mesh.adja (adjaIdx u.tetPerGrp a) / 4)
        (u.grpCur.mesh.adja (adjaIdx u.tetPerGrp a) % 4) u
      have hm : TagMono w.tetPerGrp u _ :=
        TagMono.of_frames (f.sx rfl) (f.ct rfl) (fun i => by rw [f.cp rfl])
          (le_of_eq (f.sp rfl).cnt.symm)
      refine ⟨i3.tm_trans hm, i4.ci_same (f.st rfl) (f.sp rfl) (f.sx rfl) (f.ct rfl),
        fun f hf hcf => ?_⟩
      rcases List.mem_append.mp hf with hd | hd
      · exact (i5 f hd hcf).tg_mono hm hT (le_refl _)
      · simp only [List.mem_singleton] at hd
        subst hd
        rw [hx] at hcf
        exact absurd hcf (by decide)
    · have hx : crossFace m c.part c.grpId tet a = false := by
        simp only [crossFace, ← hcode, decide_eq_false_iff_not, not_and, not_not]
        intro _
        exact hp
      refine ⟨i3, i4, fun f hf hcf => ?_⟩
      rcases List.mem_append.mp hf with hd | hd
      · exact i5 f hd hcf
      · simp only [List.mem_singleton] at hd
        subst hd
        rw [hx] at hcf
        exact absurd hcf (by decide)

theorem addPointLoop_mono {c : Ctx} {tet : Nat} {w w' : Work}
    (h : forEach (addPoint c tet) [0, 1, 2, 3] w = .ok w') :
    TagMono (w.tetPerGrp - 1) w w' := by
  have key := forEach_inv (addPoint c tet)
    (fun u => SameTet w u ∧ TagMono (w.tetPerGrp - 1) w u) [0, 1, 2, 3]
    ?_ w w' h ⟨SameTet.st_refl w, TagMono.tm_refl _ _⟩
  · exact key.2
  · intro a u u' _ hI hu
    refine ⟨hI.1.st_trans ((addPoint_frame hu).st rfl), hI.2.tm_trans ?_⟩
    have := addPoint_mono hu
    rw [hI.1.cnt] at this
    exact this

theorem mintLoop_mono {c : Ctx} {tet : Nat} (lim : Nat) {w w' : Work}
    (h : forEach (mintFace c tet) [0, 1, 2, 3] w = .ok w') : TagMono lim w w' := by
  have f := forEach_frame _ _ _ (fun a u u' hu => mintFace_frame hu) h
  have f2 := forEach_frame2 _ _ _ (fun a u u' hu => mintFace_frame2 hu) h
  exact TagMono.of_frames (f.sx rfl) (f.ct rfl) (f2.ptag rfl) (le_of_eq (f.sp rfl).cnt.symm)

/-- The body of the loop over the source elements keeps every interface face
of the elements copied before tagged and tags those of the element it
copies. -/
theorem tetStep_tagged {c : Ctx} {m0 : MMG5_Mesh} {pre : List Nat} {tet : Nat}
    {keys0 : List Nat} {np : Nat} {seen : List Nat} {u u' : Work}
    (hF : FaceInv keys0 u) (hP : PtInv np seen u)
    (hpre : ∀ B, 1 ≤ B → B < tet → B ∈ pre) (hI : TetInv c pre u)
    (hadja : u.meshOld.adja = m0.adja)
    (hvalid : ∀ f : Fin 4, m0.adja (adjaIdx tet f) ≠ 0 → 1 ≤ m0.adja (adjaIdx tet f) / 4)
    (hwf : ∀ i, 1 ≤ (u.meshOld.tetra tet).v i ∧ (u.meshOld.tetra tet).v i ≤ np)
    (hJ : AllTagged c m0 u) (h : tetStep c tet u = .ok u') : AllTagged c m0 u' := by
  have hq2 : ∀ q ∈ u.logTet, 1 ≤ q.2 ∧ q.2 ≤ u.tetPerGrp := by
    intro q hq
    have : q.2 ∈ u.logTet.map Prod.snd := List.mem_map_of_mem _ hq
    rw [hI.vals, List.mem_range'_1] at this
    omega
  have f0 := resetFlag_frame tet u
  have m00 : TagMono u.tetPerGrp u (resetFlag tet u) :=
    TagMono.of_frames (f0.sx rfl) (f0.ct rfl) (fun i => by rw [f0.cp rfl])
      (le_of_eq (f0.sp rfl).cnt.symm)
  rcases tetStep_ok h with ⟨hne, rfl⟩ | ⟨heq, w1, w2, w3, h1, h2, h3, h4⟩
  · intro q hq f hcf
    have hq' : q ∈ u.logTet := hq
    obtain ⟨b1, b2⟩ := hq2 q hq'
    exact (hJ q hq' f hcf).tg_mono m00 b1 b2
  · obtain ⟨hflag, hT⟩ := flagInv_after_copy hpre hI h1
    obtain ⟨a1, a2, -⟩ := copyTetra_tet h1
    have c0 : (resetFlag tet u).tetPerGrp = u.tetPerGrp := rfl
    have l0 : (resetFlag tet u).logTet = u.logTet := rfl
    rw [c0] at a2
    rw [c0, l0] at a1
    have f1 := copyTetra_frame h1
    have f2 := forEach_frame _ _ _ (fun a u u' hu => addPoint_frame hu) h2
    have f3 := copyAdja_frame tet w2
    have f4 := forEach_frame _ _ _ (fun a u u' hu => updateAdja_frame hu) h3
    have f5 := forEach_frame _ _ _ (fun a u u' hu => mintFace_frame hu) h4
    -- monotonicity of each phase
    have m01 : TagMono u.tetPerGrp (resetFlag tet u) w1 := copyTetra_mono h1
    have m12 : TagMono u.tetPerGrp w1 w2 := by
      have := addPointLoop_mono h2
      rw [a2] at this
      exact this
    have T2 : w2.tetPerGrp = u.tetPerGrp + 1 := by rw [(f2.st rfl).cnt, a2]
    have Ta : (copyAdja tet w2).tetPerGrp = u.tetPerGrp + 1 := by rw [(f3.st rfl).cnt, T2]
    have m2a : TagMono (u.tetPerGrp + 1) w2 (copyAdja tet w2) :=
      TagMono.of_frames (f3.sx rfl) (f3.ct rfl) (fun i => by rw [f3.cp rfl])
        (le_of_eq (f3.sp rfl).cnt.symm)
    -- the element under construction
    have s01 := (f0.os rfl).os_trans (f1.os rfl)
    have i1 : PtInv np seen w1 := hP.of_samePt ((f0.sp rfl).sp_trans (f1.sp rfl))
    have hwf1 : ∀ i, 1 ≤ (w1.meshOld.tetra tet).v i ∧ (w1.meshOld.tetra tet).v i ≤ np :=
      fun i => by rw [s01.tv]; exact hwf i
    have i2 := addPointLoop_PtInv i1 hwf1 h2
    have tv2 := addPointLoop_tv i1 hwf1 h2
    have hx1 : (w1.grpCur.mesh.tetra (u.tetPerGrp + 1)).xt ≤ w1.grpCur.mesh.xt := by
      obtain ⟨-, hcase⟩ := copyTetra_xt h1
      rw [c0] at hcase
      rcases hcase with ⟨-, -, e⟩ | ⟨-, e1, -, e2⟩
      · rw [e]; exact Nat.zero_le _
      · rw [e2, e1]
    have hca : CurIn (copyAdja tet w2) := by
      have e : (copyAdja tet w2).tetraCur = w2.tetraCur := by
        show (copyAdja tet w2).grpCur.mesh.tetra (copyAdja tet w2).tetPerGrp =
          w2.grpCur.mesh.tetra w2.tetPerGrp
        rw [f3.ct rfl, (f3.st rfl).cnt]
      refine ⟨?_, fun i => ?_⟩
      · rw [e, (f3.sx rfl).xt, (f2.sx rfl).xt]
        show (w2.grpCur.mesh.tetra w2.tetPerGrp).xt ≤ _
        rw [T2, addPointLoop_txt h2]
        exact hx1
      · rw [e, (f3.sp rfl).cnt]
        exact (i2.snd_pos (tv2 i)).2
    -- the loop over the faces
    have st2 := (f2.st rfl).st_trans (f3.st rfl)
    have hF2 : FaceInv keys0 (copyAdja tet w2) :=
      hF.of_sameFace ((((f0.sf rfl).sf_trans (f1.sf rfl)).sf_trans (f2.sf rfl)).sf_trans
        (f3.sf rfl))
    have hT2 : 1 ≤ w2.tetPerGrp := by rw [(f2.st rfl).cnt]; exact hT
    have hold : w2.meshOld.adja = m0.adja := by
      rw [(f2.os rfl).adja, (f1.os rfl).adja, (f0.os rfl).adja, hadja]
    obtain ⟨ma3, htag⟩ := faceLoop_tagged (m := m0) hF2
      (fun f => by rw [copyAdja_pending tet w2 hT2 f, hold])
      (hflag.of_sameTet st2) (by rw [st2.cnt]; exact hT) hvalid hca h3
    rw [Ta] at ma3 htag
    have m3e : TagMono (u.tetPerGrp + 1) w3 u' := mintLoop_mono _ h4
    have hle : u.tetPerGrp ≤ u.tetPerGrp + 1 := Nat.le_succ _
    have mall : TagMono u.tetPerGrp u u' :=
      (((m00.tm_trans m01).tm_trans m12).tm_trans
        ((m2a.tm_trans ma3).tm_weaken hle)).tm_trans (m3e.tm_weaken hle)
    have hlog : u'.logTet = u.logTet ++ [(tet, u.tetPerGrp + 1)] := by
      rw [(f5.st rfl).log, (f4.st rfl).log, (f3.st rfl).log, (f2.st rfl).log, a1]
    intro q hq f hcf
    rw [hlog] at hq
    rcases List.mem_append.mp hq with hq' | hq'
    · obtain ⟨b1, b2⟩ := hq2 q hq'
      exact (hJ q hq' f hcf).tg_mono mall b1 b2
    · simp only [List.mem_singleton] at hq'
      subst hq'
      exact (htag f hcf).tg_mono m3e (Nat.succ_le_succ (Nat.zero_le _)) (le_refl _)

/-- A tag that contains the mask contains each of its four bits. -/
theorem HasMask.hm_bits {x : Nat} (h : HasMask x) :
    x &&& MG_PARBDY = MG_PARBDY ∧ x &&& MG_BDY = MG_BDY ∧ x &&& MG_REQ = MG_REQ ∧
    x &&& MG_NOSURF = MG_NOSURF := by
  have key : ∀ b, parbdyMask &&& b = b → x &&& b = b := by
    intro b hb
    rw [← hb, ← Nat.land_assoc, h]
  exact ⟨key _ (by decide), key _ (by decide), key _ (by decide), key _ (by decide)⟩

/-- The end of the traversal of a sub-group keeps the tags set. -/
theorem passEnd_mono (env : Env) (c : Ctx) (lim : Nat) (w : Work) :
    TagMono lim w (passEnd env c w) := by
  have hm := passEnd_mesh env c w
  refine ⟨le_of_eq hm.xt.symm, le_refl _, fun k _ f hf => ?_, fun k _ e he => ?_,
    fun p _ ht => ?_, fun k _ _ => ?_⟩
  · rw [hm.ftag]; exact hf
  · exact hm.tag k e parbdyMask he
  · rw [hm.point]
    simp only [chainFree]
    split_ifs
    · exact ht
    · exact ht
  · rw [hm.tetra]
    exact ⟨rfl, fun _ => rfl⟩

/-- After the traversal of sub-group `g`, every element assigned to `g` has a
copy and every interface face of a copy is tagged. -/
theorem splitGrp_tagged {env : Env} {part : List Nat} {g : Nat} {met : MMG5_Sol} {count : Nat}
    {m0 : MMG5_Mesh} {w w' : Work} (hsrc : SrcOf m0 w) (hvalid : ValidAdja m0)
    (hwf : WfVerts m0) (hfresh : w.grpCur.nitem_int_face_comm = 0)
    (h : splitGrp env ⟨part, g, met⟩ count w = .ok w') :
    (∀ A, 1 ≤ A → A ≤ m0.ne → part.getD (A - 1) 0 = g → ∃ k, (A, k) ∈ w'.logTet) ∧
    ∀ q ∈ w'.logTet, ∀ f, crossFace m0 part g q.1 f = true →
      FaceTagged w'.grpCur.mesh q.2 f := by
  obtain ⟨w2, h1, rfl⟩ := splitGrp_ok h
  obtain ⟨s1, -, s3⟩ := passStart_frame count w
  have hsrc1 := hsrc.of_oldStatic s1
  have h0 := passStart_PtInv count w
  rw [hsrc.np] at h0
  have key := tetLoop_inv (c := ⟨part, g, met⟩) (n := w.meshOld.ne)
    (fun _ u => (∃ keys, FaceInv keys u) ∧ (∃ seen, PtInv m0.np seen u) ∧
      AllTagged ⟨part, g, met⟩ m0 u)
    ?_ h1 rfl rfl ?_
  · obtain ⟨⟨-, -, hJ⟩, hI, -⟩ := key
    have hq2 : ∀ q ∈ w2.logTet, 1 ≤ q.2 ∧ q.2 ≤ w2.tetPerGrp := by
      intro q hq
      have : q.2 ∈ w2.logTet.map Prod.snd := List.mem_map_of_mem _ hq
      rw [hI.vals, List.mem_range'_1] at this
      omega
    refine ⟨fun A hA1 hA2 hAg => ?_, fun q hq f hcf => ?_⟩
    · have hmem : A ∈ w2.logTet.map Prod.fst := by
        rw [hI.keys, List.mem_filter, List.mem_range'_1]
        refine ⟨⟨hA1, by rw [hsrc.ne]; omega⟩, ?_⟩
        have e : (⟨part, g, met⟩ : Ctx).partAt (A - 1) = g := hAg
        exact decide_eq_true e
      obtain ⟨p, hp, hp1⟩ := List.mem_map.mp hmem
      exact ⟨p.2, by rw [← hp1]; exact hp⟩
    · have hq' : q ∈ w2.logTet := hq
      obtain ⟨b1, b2⟩ := hq2 q hq'
      exact ((hJ q hq' f hcf).tg_mono (passEnd_mono env ⟨part, g, met⟩ w2.tetPerGrp w2)
        b1 b2).tagged
  · intro pre tet u u' hnew hpre ht1 ht2 hI hos hJ hu
    obtain ⟨⟨keys, hF⟩, ⟨seen, hP⟩, hT⟩ := hJ
    have hwf1 : ∀ i, 1 ≤ (u.meshOld.tetra tet).v i ∧ (u.meshOld.tetra tet).v i ≤ m0.np := by
      intro i
      rw [hos.tv, hsrc1.tv]
      exact hwf tet ht1 (by rw [← hsrc.ne]; exact ht2) i
    refine ⟨⟨_, tetStep_FaceInv (m := m0) hF hpre hI (by rw [hos.adja, hsrc1.adja])
        (fun f hf => (hvalid tet ht1 (by rw [← hsrc.ne]; exact ht2) f hf).1) hu⟩,
      ⟨_, tetStep_PtInv hP hwf1 hu⟩, ?_⟩
    exact tetStep_tagged hF hP hpre hI (by rw [hos.adja, hsrc1.adja])
      (fun f hf => (hvalid tet ht1 (by rw [← hsrc.ne]; exact ht2) f hf).1) hwf1 hT hu
  · refine ⟨⟨[], ?_, ?_⟩, ⟨[], h0⟩, ?_⟩
    · rw [s3, hfresh]; rfl
    · intro i hi
      rw [s3, hfresh] at hi
      omega
    · intro q hq
      exact absurd hq (List.not_mem_nil q)

/-- C3: in a run that installs the sub-groups, on a source mesh whose
non-zero adjacency codes name elements and whose vertex references lie in
`1 .. np`, every element `A` assigned to sub-group `g` has a copy in the mesh
of `g`, and for every copy `A'` of an element `A` and every face `f` of `A`
whose adjacency code is non-zero and names an element assigned to another
sub-group, the copy has a boundary record (`xt ≠ 0`) in which the tag of face
`f` and the tags of the three edges `_MMG5_iarf[f][0..2]` contain the mask
`MG_PARBDY + MG_BDY + MG_REQ + MG_NOSURF`, and the tags of the three
vertices `_MMG5_idir[f][0..2]` of the copy contain it as well.  Both sides of
a common face are covered, each in the sub-group of its element. -/
theorem C3_interface_faces_tagged (env : Env) (pm : PMMG_ParMesh) (t : Int) (part : List Nat)
    (hs : (PMMG_splitGrps env pm t).logInstalled = true) (hp : env.partition = some part)
    (hvalid : ValidAdja (grpOldOf pm).mesh) (hwf : WfVerts (grpOldOf pm).mesh) :
    ∀ (g : Nat) grp log, (PMMG_splitGrps env pm t).parmesh.listgrp[g]? = some grp →
      (PMMG_splitGrps env pm t).logGrp[g]? = some log →
      (∀ A, 1 ≤ A → A ≤ (grpOldOf pm).mesh.ne → part.getD (A - 1) 0 = g →
        ∃ k, (A, k) ∈ log.logTet) ∧
      ∀ q ∈ log.logTet, ∀ f, crossFace (grpOldOf pm).mesh part g q.1 f = true →
        (grp.mesh.tetra q.2).xt ≠ 0 ∧
        HasMask ((grp.mesh.xtetra (grp.mesh.tetra q.2).xt).ftag f) ∧
        (∀ j : Fin 3,
          HasMask ((grp.mesh.xtetra (grp.mesh.tetra q.2).xt).tag (MMG5_iarf f j))) ∧
        ∀ j : Fin 3, HasMask (grp.mesh.point ((grp.mesh.tetra q.2).v (MMG5_idir f j))).tag := by
  obtain ⟨wf, -, -, -, h1, h2, h3⟩ := splitGrps_post hs hp
    (fun w => SrcOf (grpOldOf pm).mesh w)
    (fun g b _ =>
      (∀ A, 1 ≤ A → A ≤ (grpOldOf pm).mesh.ne → part.getD (A - 1) 0 = g →
        ∃ k, (A, k) ∈ b.2.logTet) ∧
      ∀ q ∈ b.2.logTet, ∀ f, crossFace (grpOldOf pm).mesh part g q.1 f = true →
        FaceTagged b.1.mesh q.2 f)
    (fun grants => startWork_srcOf _ _ _ _ _)
    (fun grpId g w w1 hf hq hu =>
      ⟨splitGrp_srcOf (hq.setGrp g) hu, splitGrp_tagged (hq.setGrp g) hvalid hwf hf.nface hu⟩)
    (fun i b grpId g' w w1 _ hpost _ => hpost)
  intro g grp log hg hl
  obtain ⟨a1, a2⟩ := h3 g grp log hg hl
  refine ⟨a1, fun q hq f hcf => ?_⟩
  obtain ⟨b1, b2, b3, b4⟩ := a2 q hq f hcf
  exact ⟨b1, b2, b3, b4⟩

set_option maxRecDepth 100000 in
/-- Witness of C3: the chain of three tetrahedra, the middle one in a
sub-group of its own; sub-group 0 gets two boundary records, one for each of
its two elements, sub-group 1 one record for its element, which has two
interface faces. -/
theorem C3_interface_faces_tagged_witness :
    (PMMG_splitGrps env3 pm3 2).logInstalled = true ∧ ValidAdja (grpOldOf pm3).mesh ∧
    WfVerts (grpOldOf pm3).mesh ∧
    (PMMG_splitGrps env3 pm3 2).parmesh.listgrp.map (fun grp => grp.mesh.xt) = [2, 1] ∧
    (PMMG_splitGrps env3 pm3 2).parmesh.listgrp.map
      (fun grp => (grp.mesh.xtetra 1).ftag 0) = [parbdyMask, parbdyMask] ∧
    ∀ (g : Nat) grp log, (PMMG_splitGrps env3 pm3 2).parmesh.listgrp[g]? = some grp →
      (PMMG_splitGrps env3 pm3 2).logGrp[g]? = some log →
      (∀ A, 1 ≤ A → A ≤ (grpOldOf pm3).mesh.ne → ([0, 1, 0] : List Nat).getD (A - 1) 0 = g →
        ∃ k, (A, k) ∈ log.logTet) ∧
      ∀ q ∈ log.logTet, ∀ f, crossFace (grpOldOf pm3).mesh [0, 1, 0] g q.1 f = true →
        (grp.mesh.tetra q.2).xt ≠ 0 ∧
        HasMask ((grp.mesh.xtetra (grp.mesh.tetra q.2).xt).ftag f) ∧
        (∀ j : Fin 3,
          HasMask ((grp.mesh.xtetra (grp.mesh.tetra q.2).xt).tag (MMG5_iarf f j))) ∧
        ∀ j : Fin 3, HasMask (grp.mesh.point ((grp.mesh.tetra q.2).v (MMG5_idir f j))).tag :=
  ⟨by decide, validAdja_mesh3, wfVerts_mesh3, by decide, by decide,
    C3_interface_faces_tagged env3 pm3 2 [0, 1, 0] (by decide) rfl validAdja_mesh3
      wfVerts_mesh3⟩

/-- The state of a code is kept by a step that leaves the code alone, keeps
the local id of the element and of its neighbour, and handles no new face
that matters to it. -/
theorem AdjOk.ao_keep {c : Ctx} {m0 : MMG5_Mesh} {Done Done' : Nat → Fin 4 → Prop}
    {u u' : Work} {A : Nat} {fa : Fin 4} (h : AdjOk c m0 Done u A fa)
    (hfA : (u'.meshOld.tetra A).flag = (u.meshOld.tetra A).flag)
    (hfB : m0.adja (adjaIdx A fa) ≠ 0 →
      Done (m0.adja (adjaIdx A fa) / 4) (nbFace (m0.adja (adjaIdx A fa))) →
      (u'.meshOld.tetra (m0.adja (adjaIdx A fa) / 4)).flag =
        (u.meshOld.tetra (m0.adja (adjaIdx A fa) / 4)).flag)
    (hentry : u'.grpCur.mesh.adja (adjaIdx (u.meshOld.tetra A).flag fa) =
      u.grpCur.mesh.adja (adjaIdx (u.meshOld.tetra A).flag fa))
    (hdone : m0.adja (adjaIdx A fa) ≠ 0 →
      c.partAt (m0.adja (adjaIdx A fa) / 4 - 1) = c.grpId →
      (Done' (m0.adja (adjaIdx A fa) / 4) (nbFace (m0.adja (adjaIdx A fa))) ↔
        Done (m0.adja (adjaIdx A fa) / 4) (nbFace (m0.adja (adjaIdx A fa))))) :
    AdjOk c m0 Done' u' A fa := by
  refine ⟨fun hz => ?_, fun h1 h2 hd => ?_, fun h1 h2 hd => ?_⟩
  · rw [hfA, hentry]; exact h.zero hz
  · have hd' := (hdone h1 h2).mp hd
    rw [hfA, hentry, hfB h1 hd']
    exact h.link h1 h2 hd'
  · rw [hfA, hentry]
    exact h.stale h1 h2 (fun hd' => hd ((hdone h1 h2).mpr hd'))

theorem doneAt_snoc {tet : Nat} {done : List (Fin 4)} {fac : Fin 4} {X : Nat} {f : Fin 4} :
    DoneAt tet (done ++ [fac]) X f ↔ DoneAt tet done X f ∨ (X = tet ∧ f = fac) := by
  unfold DoneAt
  simp only [List.mem_append, List.mem_singleton]
  tauto

theorem code_div_mod (A : Nat) (fa : Fin 4) :
    (4 * A + fa.val) / 4 = A ∧ nbFace (4 * A + fa.val) = fa := by
  have := fa.isLt
  refine ⟨by omega, Fin.ext ?_⟩
  show (4 * A + fa.val) % 4 = fa.val
  omega

/-- One iteration of the loop over the faces of the element under
construction keeps the state of the codes handled before and brings the code
of the face it handles, and the code of the face of the neighbour it links,
into their state. -/
theorem updateAdja_adj {c : Ctx} {m0 : MMG5_Mesh} {tet : Nat} {keys0 : List Nat}
    {done : List (Fin 4)} {fac : Fin 4} {u u' : Work}
    (hL : FaceLoopInv c m0 tet keys0 done u) (hfac : fac ∉ done)
    (hflag : FlagInv c tet u) (hT : 1 ≤ u.tetPerGrp)
    (hflagT : (u.meshOld.tetra tet).flag = u.tetPerGrp)
    (hinj : ∀ A B, 1 ≤ A → A < tet → 1 ≤ B → B < tet → c.partAt (A - 1) = c.grpId →
      c.partAt (B - 1) = c.grpId → (u.meshOld.tetra A).flag = (u.meshOld.tetra B).flag → A = B)
    (ht1 : 1 ≤ tet) (ht2 : tet ≤ m0.ne) (hg : c.partAt (tet - 1) = c.grpId)
    (hvalid : ValidAdja m0) (hsym : SymAdja m0)
    (hI : ∀ A fa, DoneAt tet done A fa → c.partAt (A - 1) = c.grpId →
      AdjOk c m0 (DoneAt tet done) u A fa)
    (h : updateAdja c tet fac u = .ok u') :
    ∀ A fa, DoneAt tet (done ++ [fac]) A fa → c.partAt (A - 1) = c.grpId →
      AdjOk c m0 (DoneAt tet (done ++ [fac])) u' A fa := by
  have hcode := hL.pending fac hfac
  have hfl : ∀ t, (u'.meshOld.tetra t).flag = (u.meshOld.tetra t).flag :=
    ((updateAdja_frame h).st rfl).flag
  -- bounds of a handled element of the sub-group
  have hA : ∀ A fa, DoneAt tet done A fa → c.partAt (A - 1) = c.grpId →
      1 ≤ A ∧ A ≤ m0.ne ∧ 1 ≤ (u.meshOld.tetra A).flag ∧
      (u.meshOld.tetra A).flag ≤ u.tetPerGrp := by
    intro A fa hd hAg
    rcases hd with ⟨d1, d2⟩ | ⟨rfl, -⟩
    · obtain ⟨e1, e2⟩ := hflag A d1 d2 hAg
      exact ⟨d1, by omega, e1, by omega⟩
    · exact ⟨ht1, ht2, by rw [hflagT]; exact hT, by rw [hflagT]⟩
  -- the position of a code handled before is not the position of the code of `fac`
  have hpos : ∀ A fa, DoneAt tet done A fa → c.partAt (A - 1) = c.grpId →
      adjaIdx (u.meshOld.tetra A).flag fa ≠ adjaIdx u.tetPerGrp fac := by
    intro A fa hd hAg e
    obtain ⟨-, -, e1, -⟩ := hA A fa hd hAg
    obtain ⟨e2, e3⟩ := adjaIdx_inj e1 hT e
    rcases hd with ⟨d1, d2⟩ | ⟨rfl, d⟩
    · have := (hflag A d1 d2 hAg).2
      omega
    · exact hfac (e3 ▸ d)
  -- a face whose neighbour is face `fac` of `tet` is the neighbour of that face
  have hback : ∀ A fa, 1 ≤ A → A ≤ m0.ne → m0.adja (adjaIdx A fa) ≠ 0 →
      m0.adja (adjaIdx A fa) / 4 = tet → nbFace (m0.adja (adjaIdx A fa)) = fac →
      m0.adja (adjaIdx tet fac) = 4 * A + fa.val := by
    intro A fa a1 a2 a3 a4 a5
    have := (hsym A a1 a2 fa a3).2
    rw [a4, a5] at this
    exact this
  -- a code handled before, left alone by the step
  have hold : ∀ A fa, DoneAt tet done A fa → c.partAt (A - 1) = c.grpId →
      u'.grpCur.mesh.adja (adjaIdx (u.meshOld.tetra A).flag fa) =
        u.grpCur.mesh.adja (adjaIdx (u.meshOld.tetra A).flag fa) →
      ¬ (m0.adja (adjaIdx A fa) ≠ 0 ∧ m0.adja (adjaIdx A fa) / 4 = tet ∧
        nbFace (m0.adja (adjaIdx A fa)) = fac) →
      AdjOk c m0 (DoneAt tet (done ++ [fac])) u' A fa := by
    intro A fa hd hAg hentry hnot
    refine (hI A fa hd hAg).ao_keep (hfl A) (fun _ _ => hfl _) hentry (fun h1 _ => ?_)
    rw [doneAt_snoc]
    constructor
    · rintro (hd' | ⟨e1, e2⟩)
      · exact hd'
      · exact absurd ⟨h1, e1, e2⟩ hnot
    · exact Or.inl
  intro A fa hd hAg
  rw [doneAt_snoc] at hd
  rcases updateAdja_cases h with ⟨h0, rfl⟩ | ⟨h0, hp, hn⟩ | ⟨h0, hp, hlt, rfl⟩ |
    ⟨h0, hp, hlt, rfl⟩
  · -- no neighbour
    rw [hcode] at h0
    rcases hd with hd | ⟨rfl, rfl⟩
    · refine hold A fa hd hAg rfl ?_
      rintro ⟨n1, n2, n3⟩
      obtain ⟨a1, a2, -⟩ := hA A fa hd hAg
      have := hback A fa a1 a2 n1 n2 n3
      omega
    · refine ⟨fun _ => by rw [hflagT, hcode, h0], fun h1 => absurd h0 h1,
        fun h1 => absurd h0 h1⟩
  · -- neighbour in another sub-group
    rw [hcode] at h0 hp
    obtain ⟨a1, -⟩ := newFace_ok hn
    rcases hd with hd | ⟨rfl, rfl⟩
    · refine hold A fa hd hAg (by rw [a1, upd_ne _ _ (hpos A fa hd hAg)]) ?_
      rintro ⟨n1, n2, n3⟩
      obtain ⟨b1, b2, -⟩ := hA A fa hd hAg
      have e := hback A fa b1 b2 n1 n2 n3
      rw [e, (code_div_mod A fa).1] at hp
      exact hp hAg
    · refine ⟨fun _ => by rw [hfl, hflagT, a1, upd_same], fun _ h2 => absurd h2 hp,
        fun _ h2 => absurd h2 hp⟩
  · -- neighbour already copied
    rw [hcode] at h0 hp hlt
    obtain ⟨s1, s2⟩ := hsym tet ht1 ht2 fac h0
    obtain ⟨v1, v2⟩ := hvalid tet ht1 ht2 fac h0
    obtain ⟨g1, g2⟩ := hflag _ v1 hlt hp
    have hidx : 4 * ((u.meshOld.tetra (m0.adja (adjaIdx tet fac) / 4)).flag - 1) + 1 +
        m0.adja (adjaIdx tet fac) % 4 =
        adjaIdx (u.meshOld.tetra (m0.adja (adjaIdx tet fac) / 4)).flag
          (nbFace (m0.adja (adjaIdx tet fac))) := rfl
    have hadj : (linkAdja fac (u.grpCur.mesh.adja (adjaIdx u.tetPerGrp fac) / 4)
        (u.grpCur.mesh.adja (adjaIdx u.tetPerGrp fac) % 4) u).grpCur.mesh.adja =
        upd (upd u.grpCur.mesh.adja (adjaIdx u.tetPerGrp fac)
            (4 * (u.meshOld.tetra (m0.adja (adjaIdx tet fac) / 4)).flag +
              m0.adja (adjaIdx tet fac) % 4))
          (adjaIdx (u.meshOld.tetra (m0.adja (adjaIdx tet fac) / 4)).flag
            (nbFace (m0.adja (adjaIdx tet fac))))
          (4 * u.tetPerGrp + fac.val) := by
      rw [linkAdja_adja, hcode, hidx]
    have hne : adjaIdx u.tetPerGrp fac ≠
        adjaIdx (u.meshOld.tetra (m0.adja (adjaIdx tet fac) / 4)).flag
          (nbFace (m0.adja (adjaIdx tet fac))) := by
      intro e
      have := (adjaIdx_inj hT g1 e).1
      omega
    rcases hd with hd | ⟨rfl, rfl⟩
    · by_cases hAB : A = m0.adja (adjaIdx tet fac) / 4 ∧ fa = nbFace (m0.adja (adjaIdx tet fac))
      · -- the face of the neighbour
        obtain ⟨rfl, rfl⟩ := hAB
        have hent : (linkAdja fac (u.grpCur.mesh.adja (adjaIdx u.tetPerGrp fac) / 4)
            (u.grpCur.mesh.adja (adjaIdx u.tetPerGrp fac) % 4) u).grpCur.mesh.adja
            (adjaIdx (u.meshOld.tetra (m0.adja (adjaIdx tet fac) / 4)).flag
              (nbFace (m0.adja (adjaIdx tet fac)))) = 4 * u.tetPerGrp + fac.val := by
          rw [hadj, upd_same]
        have hdm := code_div_mod tet fac
        have hmod : (4 * tet + fac.val) % 4 = fac.val := by
          have := fac.isLt
          omega
        refine ⟨fun hz => ?_, fun _ _ _ => ?_, fun _ _ hnd => ?_⟩
        · rw [s2, hdm.1] at hz
          rcases hz with hz | hz
          · omega
          · exact absurd hg hz
        · rw [hfl, hent, s2, hdm.1, hfl, hflagT, hmod]
        · rw [s2, hdm.1, hdm.2, doneAt_snoc] at hnd
          exact absurd (Or.inr ⟨rfl, rfl⟩) hnd
      · refine hold A fa hd hAg ?_ ?_
        · rw [hadj, upd_ne, upd_ne _ _ (hpos A fa hd hAg)]
          intro e
          obtain ⟨b1, b2, b3, b4⟩ := hA A fa hd hAg
          obtain ⟨e1, e2⟩ := adjaIdx_inj b3 g1 e
          apply hAB
          refine ⟨?_, e2⟩
          rcases hd with ⟨d1, d2⟩ | ⟨rfl, -⟩
          · exact hinj A _ d1 d2 v1 hlt hAg hp e1
          · rw [hflagT] at e1
            omega
        · rintro ⟨n1, n2, n3⟩
          obtain ⟨b1, b2, -⟩ := hA A fa hd hAg
          have e := hback A fa b1 b2 n1 n2 n3
          apply hAB
          rw [e]
          exact ⟨(code_div_mod A fa).1.symm, (code_div_mod A fa).2.symm⟩
    · refine ⟨fun hz => ?_, fun _ _ _ => ?_, fun _ _ hnd => ?_⟩
      · rcases hz with hz | hz
        · exact absurd hz h0
        · exact absurd hp hz
      · rw [hfl, hflagT, hadj, upd_ne _ _ hne, upd_same, hfl]
      · exact absurd (doneAt_snoc.mpr (Or.inl (Or.inl ⟨v1, hlt⟩))) hnd
  · -- neighbour not yet copied
    rw [hcode] at h0 hp hlt
    obtain ⟨s1, s2⟩ := hsym tet ht1 ht2 fac h0
    rcases hd with hd | ⟨rfl, rfl⟩
    · refine hold A fa hd hAg rfl ?_
      rintro ⟨n1, n2, n3⟩
      obtain ⟨b1, b2, -⟩ := hA A fa hd hAg
      have e := hback A fa b1 b2 n1 n2 n3
      rw [e, (code_div_mod A fa).1] at hlt s1
      rcases hd with ⟨d1, d2⟩ | ⟨rfl, -⟩
      · exact hlt d2
      · exact s1 rfl
    · refine ⟨fun hz => ?_, fun _ _ hdn => ?_, fun _ _ _ => by rw [hflagT, hcode]⟩
      · rcases hz with hz | hz
        · exact absurd hz h0
        · exact absurd hp hz
      · rw [doneAt_snoc] at hdn
        rcases hdn with (⟨d1, d2⟩ | ⟨d1, -⟩) | ⟨d1, -⟩
        · exact absurd d2 hlt
        · exact absurd d1 s1
        · exact absurd d1 s1

/-- The loop over the faces of the element under construction. -/
theorem faceLoop_adj {c : Ctx} {m0 : MMG5_Mesh} {tet : Nat} {keys0 : List Nat}
    {w w' : Work} (hF : FaceInv keys0 w)
    (hpend : ∀ f, w.grpCur.mesh.adja (adjaIdx w.tetPerGrp f) = m0.adja (adjaIdx tet f))
    (hflag : FlagInv c tet w) (hT : 1 ≤ w.tetPerGrp)
    (hflagT : (w.meshOld.tetra tet).flag = w.tetPerGrp)
    (hinj : ∀ A B, 1 ≤ A → A < tet → 1 ≤ B → B < tet → c.partAt (A - 1) = c.grpId →
      c.partAt (B - 1) = c.grpId → (w.meshOld.tetra A).flag = (w.meshOld.tetra B).flag → A = B)
    (ht1 : 1 ≤ tet) (ht2 : tet ≤ m0.ne) (hg : c.partAt (tet - 1) = c.grpId)
    (hvalid : ValidAdja m0) (hsym : SymAdja m0) (hI : AdjAll c m0 tet [] w)
    (h : forEach (updateAdja c tet) [0, 1, 2, 3] w = .ok w') :
    AdjAll c m0 tet [0, 1, 2, 3] w' := by
  have hv : ∀ f : Fin 4, m0.adja (adjaIdx tet f) ≠ 0 → 1 ≤ m0.adja (adjaIdx tet f) / 4 :=
    fun f hf => (hvalid tet ht1 ht2 f hf).1
  have key := forEach_prefix_inv (updateAdja c tet)
    (fun done u => FaceLoopInv c m0 tet keys0 done u ∧ SameTet w u ∧ AdjAll c m0 tet done u)
    [0, 1, 2, 3] ?_ w w' h ⟨⟨fun f _ => hpend f, by simpa using hF.keys, hF.slots⟩,
      SameTet.st_refl w, hI⟩
  · exact key.2.2
  · intro done a u u' hsplit hI hu
    obtain ⟨post, hpost⟩ := hsplit
    have hnd : (done ++ a :: post).Nodup := by rw [← hpost]; decide
    have ha : a ∉ done := fun hmem =>
      (List.nodup_append.mp hnd).2.2 hmem (List.mem_cons_self _ _)
    obtain ⟨i1, i2, i3⟩ := hI
    have hTu : 1 ≤ u.tetPerGrp := by rw [i2.cnt]; exact hT
    refine ⟨updateAdja_FaceLoopInv i1 ha (hflag.of_sameTet i2) hTu hv hu,
      i2.st_trans ((updateAdja_frame hu).st rfl), ?_⟩
    exact updateAdja_adj i1 ha (hflag.of_sameTet i2) hTu (by rw [i2.flag, i2.cnt]; exact hflagT)
      (fun A B a1 a2 b1 b2 ga gb e => hinj A B a1 a2 b1 b2 ga gb
        (by rw [i2.flag, i2.flag] at e; exact e))
      ht1 ht2 hg hvalid hsym i3 hu

theorem copyAdja_below (tet : Nat) (w : Work) {i : Nat} (hi : i < adjaIdx w.tetPerGrp 0) :
    (copyAdja tet w).grpCur.mesh.adja i = w.grpCur.mesh.adja i := by
  simp only [copyAdja, Work.setMeshCur]
  rw [if_neg]
  intro h
  omega

theorem doneAt_succ {tet : Nat} (ht : 1 ≤ tet) {X : Nat} {f : Fin 4} :
    DoneAt (tet + 1) [] X f ↔ DoneAt tet [0, 1, 2, 3] X f := by
  unfold DoneAt
  have hf : f ∈ ([0, 1, 2, 3] : List (Fin 4)) := by fin_cases f <;> simp
  constructor
  · rintro (⟨h1, h2⟩ | ⟨-, h⟩)
    · by_cases e : X = tet
      · exact Or.inr ⟨e, hf⟩
      · exact Or.inl ⟨h1, by omega⟩
    · exact absurd h (List.not_mem_nil f)
  · rintro (⟨h1, h2⟩ | ⟨h, -⟩)
    · exact Or.inl ⟨h1, by omega⟩
    · exact Or.inl ⟨by omega, by omega⟩

/-- The body of the loop over the source elements, for the rebuilt
adjacency. -/
theorem tetStep_adj {c : Ctx} {m0 : MMG5_Mesh} {pre : List Nat} {tet : Nat}
    {keys0 : List Nat} {u u' : Work} (hF : FaceInv keys0 u)
    (hpre : ∀ B, 1 ≤ B → B < tet → B ∈ pre) (hI : TetInv c pre u)
    (hadja : u.meshOld.adja = m0.adja) (ht1 : 1 ≤ tet) (ht2 : tet ≤ m0.ne)
    (hvalid : ValidAdja m0) (hsym : SymAdja m0) (hJ : AdjAll c m0 tet [] u)
    (h : tetStep c tet u = .ok u') : AdjAll c m0 (tet + 1) [] u' := by
  -- local ids of the elements handled before
  have hlog : ∀ A, 1 ≤ A → A < tet → c.partAt (A - 1) = c.grpId →
      (A, (u.meshOld.tetra A).flag) ∈ u.logTet := by
    intro A a1 a2 ag
    have hmem : A ∈ u.logTet.map Prod.fst := by
      rw [hI.keys, List.mem_filter]
      exact ⟨hpre A a1 a2, decide_eq_true ag⟩
    obtain ⟨p, hp, hp1⟩ := List.mem_map.mp hmem
    have := hI.flag p hp
    rw [hp1] at this
    rw [this, ← hp1]
    exact hp
  have hinj : ∀ A B, 1 ≤ A → A < tet → 1 ≤ B → B < tet → c.partAt (A - 1) = c.grpId →
      c.partAt (B - 1) = c.grpId → (u.meshOld.tetra A).flag = (u.meshOld.tetra B).flag →
      A = B := by
    intro A B a1 a2 b1 b2 ga gb e
    have hnd : (u.logTet.map Prod.snd).Nodup := by rw [hI.vals]; exact List.nodup_range' _ _
    have := List.inj_on_of_nodup_map hnd (hlog A a1 a2 ga) (hlog B b1 b2 gb) e
    exact congrArg Prod.fst this
  have hfb : ∀ A, 1 ≤ A → A < tet → c.partAt (A - 1) = c.grpId →
      1 ≤ (u.meshOld.tetra A).flag ∧ (u.meshOld.tetra A).flag ≤ u.tetPerGrp := by
    intro A a1 a2 ag
    have : (u.meshOld.tetra A).flag ∈ u.logTet.map Prod.snd :=
      List.mem_map_of_mem Prod.snd (hlog A a1 a2 ag)
    rw [hI.vals, List.mem_range'_1] at this
    omega
  have hr : ∀ t, t ≠ tet →
      ((resetFlag tet u).meshOld.tetra t).flag = (u.meshOld.tetra t).flag := by
    intro t ht
    simp only [resetFlag, upd_apply]
    rw [if_neg ht]
  rcases tetStep_ok h with ⟨hne, rfl⟩ | ⟨heq, w1, w2, w3, h1, h2, h3, h4⟩
  · -- the element belongs to another sub-group
    intro A fa hd hAg
    have hAt : A ≠ tet := fun e => hne (by rw [← e, hAg])
    have hd0 : DoneAt tet [] A fa := by
      rcases hd with ⟨d1, d2⟩ | ⟨-, d⟩
      · exact Or.inl ⟨d1, by omega⟩
      · exact absurd d (List.not_mem_nil fa)
    refine (hJ A fa hd0 hAg).ao_keep (hr A hAt) (fun _ hB => ?_) rfl
      (fun _ hBg => ?_)
    · rcases hB with ⟨-, d2⟩ | ⟨-, d⟩
      · exact hr _ (by omega)
      · exact absurd d (List.not_mem_nil _)
    · constructor
      · rintro (⟨d1, d2⟩ | ⟨-, d⟩)
        · refine Or.inl ⟨d1, ?_⟩
          have : m0.adja (adjaIdx A fa) / 4 ≠ tet := fun e => hne (by rw [← e, hBg])
          omega
        · exact absurd d (List.not_mem_nil _)
      · rintro (⟨d1, d2⟩ | ⟨-, d⟩)
        · exact Or.inl ⟨d1, by omega⟩
        · exact absurd d (List.not_mem_nil _)
  · -- the element is copied
    obtain ⟨hflag, hT⟩ := flagInv_after_copy hpre hI h1
    obtain ⟨-, a2, a3⟩ := copyTetra_tet h1
    have c0 : (resetFlag tet u).tetPerGrp = u.tetPerGrp := rfl
    rw [c0] at a2 a3
    have f0 := resetFlag_frame tet u
    have f1 := copyTetra_frame h1
    have f2 := forEach_frame _ _ _ (fun a u u' hu => addPoint_frame hu) h2
    have f3 := copyAdja_frame tet w2
    have f5 := forEach_frame _ _ _ (fun a u u' hu => mintFace_frame hu) h4
    have st2 := (f2.st rfl).st_trans (f3.st rfl)
    have hTa : (copyAdja tet w2).tetPerGrp = u.tetPerGrp + 1 := by rw [st2.cnt, a2]
    have hT2 : 1 ≤ w2.tetPerGrp := by rw [(f2.st rfl).cnt]; exact hT
    have T2 : w2.tetPerGrp = u.tetPerGrp + 1 := by rw [(f2.st rfl).cnt, a2]
    have hfa : ∀ t, ((copyAdja tet w2).meshOld.tetra t).flag =
        if t = tet then u.tetPerGrp + 1 else (u.meshOld.tetra t).flag := by
      intro t
      rw [st2.flag, a3]
      split_ifs with e
      · rfl
      · exact hr t e
    have hF2 : FaceInv keys0 (copyAdja tet w2) :=
      hF.of_sameFace ((((f0.sf rfl).sf_trans (f1.sf rfl)).sf_trans (f2.sf rfl)).sf_trans
        (f3.sf rfl))
    have hold : w2.meshOld.adja = m0.adja := by
      rw [(f2.os rfl).adja, (f1.os rfl).adja, (f0.os rfl).adja, hadja]
    -- the codes handled before are untouched up to the loop over the faces
    have hJa : AdjAll c m0 tet [] (copyAdja tet w2) := by
      intro A fa hd hAg
      have hAlt : 1 ≤ A ∧ A < tet := by
        rcases hd with d | ⟨-, d⟩
        · exact d
        · exact absurd d (List.not_mem_nil fa)
      obtain ⟨e1, e2⟩ := hfb A hAlt.1 hAlt.2 hAg
      refine (hJ A fa hd hAg).ao_keep ?_ (fun _ hB => ?_) ?_ (fun _ _ => Iff.rfl)
      · rw [hfa, if_neg (by omega)]
      · rcases hB with ⟨-, d2⟩ | ⟨-, d⟩
        · rw [hfa, if_neg (by omega)]
        · exact absurd d (List.not_mem_nil _)
      · rw [copyAdja_below, f2.ca rfl, f1.ca rfl, f0.ca rfl]
        have := fa.isLt
        rw [T2]
        unfold adjaIdx
        simp only [Fin.val_zero]
        omega
    have h3' : AdjAll c m0 tet [0, 1, 2, 3] w3 := faceLoop_adj hF2
      (fun f => by rw [copyAdja_pending tet w2 hT2 f, hold])
      (hflag.of_sameTet st2) (by rw [st2.cnt]; exact hT)
      (by rw [hfa, if_pos rfl, hTa])
      (fun A B x1 x2 y1 y2 ga gb e => hinj A B x1 x2 y1 y2 ga gb (by
        rw [hfa, hfa, if_neg (by omega), if_neg (by omega)] at e
        exact e))
      ht1 ht2 heq.symm hvalid hsym hJa h3
    intro A fa hd hAg
    have hd3 := (doneAt_succ ht1).mp hd
    exact (h3' A fa hd3 hAg).ao_keep ((f5.st rfl).flag A) (fun _ _ => (f5.st rfl).flag _)
      (by rw [f5.ca rfl]) (fun _ _ => doneAt_succ ht1)

/-- Invariant rule for the loop over the source elements, with the elements
visited before the current one known to be exactly those of smaller id. -/
theorem tetLoop_below {c : Ctx} {n : Nat} {w w' : Work} (J : List Nat → Work → Prop)
    (hstep : ∀ pre tet u u', (∀ B ∈ pre, 1 ≤ B ∧ B < tet) → (∀ B, 1 ≤ B → B < tet → B ∈ pre) →
      1 ≤ tet → tet ≤ n → TetInv c pre u → OldStatic w u → J pre u → tetStep c tet u = .ok u' →
      J (pre ++ [tet]) u')
    (h : forEach (tetStep c) (List.range' 1 n) w = .ok w')
    (h0 : w.logTet = []) (h1 : w.tetPerGrp = 0) (hJ : J [] w) :
    J (List.range' 1 n) w' ∧ TetInv c (List.range' 1 n) w' ∧ OldStatic w w' := by
  have key := forEach_prefix_inv (tetStep c)
    (fun pre u => J pre u ∧ TetInv c pre u ∧ OldStatic w u)
    (List.range' 1 n) ?_ w w' h
    ⟨hJ, ⟨by simp [h0], by simp [h0, h1], by simp [h0]⟩, OldStatic.os_refl w⟩
  · exact key
  · intro pre a u u' hsplit hI hu
    obtain ⟨post, hpost⟩ := hsplit
    obtain ⟨r1, r2, r3, r4, r5⟩ := range'_split hpost
    exact ⟨hstep pre a u u' r5 r4 r1 r2 hI.2.1 hI.2.2 hI.1 hu, tetStep_TetInv r3 hI.2.1 hu,
      hI.2.2.os_trans ((tetStep_frame hu).os rfl)⟩

/-- The rebuilt adjacency of one sub-group after its traversal. -/
theorem splitGrp_adj {env : Env} {part : List Nat} {g : Nat} {met : MMG5_Sol} {count : Nat}
    {m0 : MMG5_Mesh} {w w' : Work} (hsrc : SrcOf m0 w) (hvalid : ValidAdja m0)
    (hsym : SymAdja m0) (hfresh : w.grpCur.nitem_int_face_comm = 0)
    (h : splitGrp env ⟨part, g, met⟩ count w = .ok w') :
    (∀ A, 1 ≤ A → A ≤ m0.ne → part.getD (A - 1) 0 = g → ∃ k, (A, k) ∈ w'.logTet) ∧
    ∀ q ∈ w'.logTet, ∀ fa : Fin 4,
      (m0.adja (adjaIdx q.1 fa) = 0 ∨ part.getD (m0.adja (adjaIdx q.1 fa) / 4 - 1) 0 ≠ g →
        w'.grpCur.mesh.adja (adjaIdx q.2 fa) = 0) ∧
      (m0.adja (adjaIdx q.1 fa) ≠ 0 → part.getD (m0.adja (adjaIdx q.1 fa) / 4 - 1) 0 = g →
        ∃ k, (m0.adja (adjaIdx q.1 fa) / 4, k) ∈ w'.logTet ∧
          w'.grpCur.mesh.adja (adjaIdx q.2 fa) = 4 * k + m0.adja (adjaIdx q.1 fa) % 4 ∧
          w'.grpCur.mesh.adja (adjaIdx k (nbFace (m0.adja (adjaIdx q.1 fa)))) =
            4 * q.2 + fa.val) := by
  obtain ⟨w2, h1, rfl⟩ := splitGrp_ok h
  obtain ⟨s1, -, s3⟩ := passStart_frame count w
  have hsrc1 := hsrc.of_oldStatic s1
  have key := tetLoop_below (c := ⟨part, g, met⟩) (n := w.meshOld.ne)
    (fun pre u => (∃ keys, FaceInv keys u) ∧
      ∀ tet, (∀ B, 1 ≤ B → B < tet → B ∈ pre) → (∀ B ∈ pre, 1 ≤ B ∧ B < tet) →
        AdjAll ⟨part, g, met⟩ m0 tet [] u)
    ?_ h1 rfl rfl ?_
  · obtain ⟨⟨-, hJ⟩, hI, -⟩ := key
    have hne : w.meshOld.ne = m0.ne := hsrc.ne
    have hall : AdjAll ⟨part, g, met⟩ m0 (m0.ne + 1) [] w2 := by
      apply hJ
      · intro B b1 b2
        rw [List.mem_range'_1]; omega
      · intro B hB
        rw [List.mem_range'_1] at hB; omega
    have f := passEnd_frame env ⟨part, g, met⟩ w2
    have hadj : (passEnd env ⟨part, g, met⟩ w2).grpCur.mesh.adja = w2.grpCur.mesh.adja :=
      f.ca rfl
    have hlog : (passEnd env ⟨part, g, met⟩ w2).logTet = w2.logTet := rfl
    -- the elements of the log
    have hq : ∀ q ∈ w2.logTet, 1 ≤ q.1 ∧ q.1 ≤ m0.ne ∧ part.getD (q.1 - 1) 0 = g ∧
        (w2.meshOld.tetra q.1).flag = q.2 := by
      intro q hq
      have : q.1 ∈ w2.logTet.map Prod.fst := List.mem_map_of_mem _ hq
      rw [hI.keys, List.mem_filter, List.mem_range'_1] at this
      obtain ⟨⟨b1, b2⟩, b3⟩ := this
      have b4 : (⟨part, g, met⟩ : Ctx).partAt (q.1 - 1) = g := of_decide_eq_true b3
      exact ⟨b1, by omega, b4, hI.flag q hq⟩
    have hin : ∀ A, 1 ≤ A → A ≤ m0.ne → part.getD (A - 1) 0 = g →
        (A, (w2.meshOld.tetra A).flag) ∈ w2.logTet := by
      intro A a1 a2 ag
      have hmem : A ∈ w2.logTet.map Prod.fst := by
        rw [hI.keys, List.mem_filter, List.mem_range'_1]
        refine ⟨⟨a1, by omega⟩, ?_⟩
        have e : (⟨part, g, met⟩ : Ctx).partAt (A - 1) = g := ag
        exact decide_eq_true e
      obtain ⟨p, hp, hp1⟩ := List.mem_map.mp hmem
      have := hI.flag p hp
      rw [hp1] at this
      rw [this, ← hp1]
      exact hp
    refine ⟨fun A a1 a2 ag => ⟨_, hin A a1 a2 ag⟩, fun q hqm fa => ?_⟩
    rw [hlog] at hqm
    obtain ⟨q1, q2, q3, q4⟩ := hq q hqm
    have hok := hall q.1 fa (Or.inl ⟨q1, by omega⟩) q3
    rw [hadj, hlog]
    refine ⟨fun hz => ?_, fun hc hg => ?_⟩
    · rw [← q4]
      exact hok.zero hz
    · obtain ⟨v1, v2⟩ := hvalid q.1 q1 q2 fa hc
      obtain ⟨y1, y2⟩ := hsym q.1 q1 q2 fa hc
      have hB := hin _ v1 v2 hg
      refine ⟨_, hB, ?_, ?_⟩
      · rw [← q4]
        exact hok.link hc hg (Or.inl ⟨v1, by omega⟩)
      · have hokB := hall _ (nbFace (m0.adja (adjaIdx q.1 fa))) (Or.inl ⟨v1, by omega⟩) hg
        have hdm := code_div_mod q.1 fa
        have hmod : (4 * q.1 + fa.val) % 4 = fa.val := by
          have := fa.isLt
          omega
        have := hokB.link (by rw [y2]; omega) (by rw [y2, hdm.1]; exact q3)
          (by rw [y2, hdm.1]; exact Or.inl ⟨q1, by omega⟩)
        rw [y2, hdm.1, hmod, q4] at this
        exact this
  · intro pre tet u u' hpre2 hpre ht1 ht2 hI hos hJ hu
    obtain ⟨⟨keys, hF⟩, hA⟩ := hJ
    have hadja : u.meshOld.adja = m0.adja := by rw [hos.adja, hsrc1.adja]
    have ht2' : tet ≤ m0.ne := by rw [← hsrc.ne]; exact ht2
    refine ⟨⟨_, tetStep_FaceInv (m := m0) hF hpre hI hadja
        (fun f hf => (hvalid tet ht1 ht2' f hf).1) hu⟩, ?_⟩
    intro tet' p1 p2
    have e : tet' = tet + 1 := by
      have a1 := (p2 tet (by simp)).2
      by_contra hne
      have a2 : tet + 1 < tet' := by omega
      have := p1 (tet + 1) (by omega) a2
      rw [List.mem_append, List.mem_singleton] at this
      rcases this with hm | hm
      · have := (hpre2 _ hm).2
        omega
      · omega
    rw [e]
    exact tetStep_adj hF hpre hI hadja ht1 ht2' hvalid hsym (hA tet hpre hpre2) hu
  · refine ⟨⟨[], ?_, ?_⟩, ?_⟩
    · rw [s3, hfresh]; rfl
    · intro i hi
      rw [s3, hfresh] at hi
      omega
    · intro tet p1 p2 A fa hd
      rcases hd with ⟨d1, d2⟩ | ⟨-, d⟩
      · exact absurd (p1 A d1 d2) (List.not_mem_nil A)
      · exact absurd d (List.not_mem_nil fa)

/-- C2: in a run that installs the sub-groups, on a source mesh whose
adjacency is valid (every non-zero code names an element `1 .. ne`) and
symmetric (`adja[A][fa] = 4*B+fb` implies `B ≠ A` and `adja[B][fb] = 4*A+fa`),
every element `A` assigned to sub-group `g` has a local id `A'`, and for
every face `fa`: when the source code is `0` or names an element of another
sub-group, the rebuilt code of `(A', fa)` is `0`; otherwise, with the source
code `4*B+fb`, the element `B` has a local id `B'` in the same sub-mesh, the
rebuilt code of `(A', fa)` is `4*B'+fb` and the rebuilt code of `(B', fb)`
is `4*A'+fa`. -/
theorem C2_adjacency_rebuilt (env : Env) (pm : PMMG_ParMesh) (t : Int) (part : List Nat)
    (hs : (PMMG_splitGrps env pm t).logInstalled = true) (hp : env.partition = some part)
    (hvalid : ValidAdja (grpOldOf pm).mesh) (hsym : SymAdja (grpOldOf pm).mesh) :
    ∀ (g : Nat) grp log, (PMMG_splitGrps env pm t).parmesh.listgrp[g]? = some grp →
      (PMMG_splitGrps env pm t).logGrp[g]? = some log →
      (∀ A, 1 ≤ A → A ≤ (grpOldOf pm).mesh.ne → part.getD (A - 1) 0 = g →
        ∃ k, (A, k) ∈ log.logTet) ∧
      ∀ q ∈ log.logTet, ∀ fa : Fin 4,
        ((grpOldOf pm).mesh.adja (adjaIdx q.1 fa) = 0 ∨
            part.getD ((grpOldOf pm).mesh.adja (adjaIdx q.1 fa) / 4 - 1) 0 ≠ g →
          grp.mesh.adja (adjaIdx q.2 fa) = 0) ∧
        ((grpOldOf pm).mesh.adja (adjaIdx q.1 fa) ≠ 0 →
          part.getD ((grpOldOf pm).mesh.adja (adjaIdx q.1 fa) / 4 - 1) 0 = g →
          ∃ k, ((grpOldOf pm).mesh.adja (adjaIdx q.1 fa) / 4, k) ∈ log.logTet ∧
            grp.mesh.adja (adjaIdx q.2 fa) =
              4 * k + (grpOldOf pm).mesh.adja (adjaIdx q.1 fa) % 4 ∧
            grp.mesh.adja (adjaIdx k (nbFace ((grpOldOf pm).mesh.adja (adjaIdx q.1 fa)))) =
              4 * q.2 + fa.val) := by
  obtain ⟨wf, -, -, -, h1, h2, h3⟩ := splitGrps_post hs hp
    (fun w => SrcOf (grpOldOf pm).mesh w)
    (fun g b _ =>
      (∀ A, 1 ≤ A → A ≤ (grpOldOf pm).mesh.ne → part.getD (A - 1) 0 = g →
        ∃ k, (A, k) ∈ b.2.logTet) ∧
      ∀ q ∈ b.2.logTet, ∀ fa : Fin 4,
        ((grpOldOf pm).mesh.adja (adjaIdx q.1 fa) = 0 ∨
            part.getD ((grpOldOf pm).mesh.adja (adjaIdx q.1 fa) / 4 - 1) 0 ≠ g →
          b.1.mesh.adja (adjaIdx q.2 fa) = 0) ∧
        ((grpOldOf pm).mesh.adja (adjaIdx q.1 fa) ≠ 0 →
          part.getD ((grpOldOf pm).mesh.adja (adjaIdx q.1 fa) / 4 - 1) 0 = g →
          ∃ k, ((grpOldOf pm).mesh.adja (adjaIdx q.1 fa) / 4, k) ∈ b.2.logTet ∧
            b.1.mesh.adja (adjaIdx q.2 fa) =
              4 * k + (grpOldOf pm).mesh.adja (adjaIdx q.1 fa) % 4 ∧
            b.1.mesh.adja (adjaIdx k (nbFace ((grpOldOf pm).mesh.adja (adjaIdx q.1 fa)))) =
              4 * q.2 + fa.val))
    (fun grants => startWork_srcOf _ _ _ _ _)
    (fun grpId g w w1 hf hq hu =>
      ⟨splitGrp_srcOf (hq.setGrp g) hu, splitGrp_adj (hq.setGrp g) hvalid hsym hf.nface hu⟩)
    (fun i b grpId g' w w1 _ hpost _ => hpost)
  intro g grp log hg hl
  exact h3 g grp log hg hl

theorem symAdja_of_list {m : MMG5_Mesh}
    (h : ∀ A ∈ List.range' 1 m.ne, ∀ fa ∈ ([0, 1, 2, 3] : List (Fin 4)),
      m.adja (adjaIdx A fa) ≠ 0 →
        m.adja (adjaIdx A fa) / 4 ≠ A ∧
        m.adja (adjaIdx (m.adja (adjaIdx A fa) / 4) (nbFace (m.adja (adjaIdx A fa)))) =
          4 * A + fa.val) : SymAdja m := by
  intro A h1 h2 fa hf
  refine h A (by rw [List.mem_range'_1]; omega) fa ?_ hf
  fin_cases fa <;> simp

theorem symAdja_mesh3 : SymAdja (grpOldOf pm3).mesh := symAdja_of_list (by decide)

set_option maxRecDepth 100000 in
/-- Witness of C2: the chain of three tetrahedra, the first one in a
sub-group of its own.  Elements 2 and 3 get the local ids 1 and 2 in
sub-group 0; the face they share is rebuilt as `4*2+0` on the side of the
copy of element 2 and as `4*1+0` on the side of the copy of element 3, and
the face that element 2 shares with element 1 is rebuilt as `0`. -/
theorem C2_adjacency_rebuilt_witness :
    (PMMG_splitGrps env3s pm3 2).logInstalled = true ∧ ValidAdja (grpOldOf pm3).mesh ∧
    SymAdja (grpOldOf pm3).mesh ∧
    (PMMG_splitGrps env3s pm3 2).logGrp.map (fun l => l.logTet) = [[(2, 1), (3, 2)], [(1, 1)]] ∧
    (PMMG_splitGrps env3s pm3 2).parmesh.listgrp.map
      (fun grp => (List.range' 1 8).map grp.mesh.adja) =
        [[8, 0, 0, 0, 4, 0, 0, 0], [0, 0, 0, 0, 0, 0, 0, 0]] ∧
    ∀ (g : Nat) grp log, (PMMG_splitGrps env3s pm3 2).parmesh.listgrp[g]? = some grp →
      (PMMG_splitGrps env3s pm3 2).logGrp[g]? = some log →
      (∀ A, 1 ≤ A → A ≤ (grpOldOf pm3).mesh.ne → ([1, 0, 0] : List Nat).getD (A - 1) 0 = g →
        ∃ k, (A, k) ∈ log.logTet) ∧
      ∀ q ∈ log.logTet, ∀ fa : Fin 4,
        ((grpOldOf pm3).mesh.adja (adjaIdx q.1 fa) = 0 ∨
            ([1, 0, 0] : List Nat).getD ((grpOldOf pm3).mesh.adja (adjaIdx q.1 fa) / 4 - 1) 0
              ≠ g →
          grp.mesh.adja (adjaIdx q.2 fa) = 0) ∧
        ((grpOldOf pm3).mesh.adja (adjaIdx q.1 fa) ≠ 0 →
          ([1, 0, 0] : List Nat).getD ((grpOldOf pm3).mesh.adja (adjaIdx q.1 fa) / 4 - 1) 0
            = g →
          ∃ k, ((grpOldOf pm3).mesh.adja (adjaIdx q.1 fa) / 4, k) ∈ log.logTet ∧
            grp.mesh.adja (adjaIdx q.2 fa) =
              4 * k + (grpOldOf pm3).mesh.adja (adjaIdx q.1 fa) % 4 ∧
            grp.mesh.adja (adjaIdx k (nbFace ((grpOldOf pm3).mesh.adja (adjaIdx q.1 fa)))) =
              4 * q.2 + fa.val) :=
  ⟨by decide, validAdja_mesh3, symAdja_mesh3, by decide, by decide,
    C2_adjacency_rebuilt env3s pm3 2 [1, 0, 0] (by decide) rfl validAdja_mesh3 symAdja_mesh3⟩

theorem xtetraAppend_isSome (mTo mFrom : MMG5_Mesh) (loc : Nat) :
    (PMMG_xtetraAppend mTo mFrom loc).isSome = true ↔
      (mTo.xt + 1 < mTo.xtmax ∨ mTo.grants ≠ 0) := by
  unfold PMMG_xtetraAppend
  simp only [ge_iff_le]
  split_ifs with h1 h2
  · simp; omega
  · simp; omega
  · simp; omega

theorem xpointAppend_isSome (mTo mFrom : MMG5_Mesh) (tet : Nat) (poi : Fin 4) :
    (PMMG_xpointAppend mTo mFrom tet poi).isSome = true ↔
      (mTo.xp + 1 < mTo.xpmax + 1 ∨ mTo.grants ≠ 0) := by
  unfold PMMG_xpointAppend
  simp only [ge_iff_le]
  split_ifs with h1 h2
  · simp; omega
  · simp; omega
  · simp; omega

theorem work_xtetraAppend_old {w w' : Work} {tet : Nat} (h : w.xtetraAppend tet = .ok w') :
    w'.meshOld = w.meshOld := by
  unfold Work.xtetraAppend at h
  split at h
  · simp at h
  · simp only [Except.ok.injEq] at h
    subst h
    rfl

theorem work_xpointAppend_old {w w' : Work} {tet : Nat} {poi : Fin 4}
    (h : w.xpointAppend tet poi = .ok w') : w'.meshOld = w.meshOld := by
  unfold Work.xpointAppend at h
  split at h
  · simp at h
  · simp only [Except.ok.injEq] at h
    subst h
    rfl

/-- C21: a successful `PMMG_xtetraAppend(to, from, location)` leaves
`to->xt` increased by one, the new record `to->xtetra[xt+1]` equal to
`from->xtetra[from->tetra[location].xt]`, every other record of the
destination table and the other tables of the destination unchanged; the call
succeeds exactly when there is room or the growth is granted; and the call as
`PMMG_splitGrps` makes it leaves the source mesh unchanged.  Likewise
`PMMG_xpointAppend(to, from, tetrahedron, point)` with `to->xp`,
`to->xpoint[xp+1]` and the source record
`from->xpoint[from->point[from->tetra[tetrahedron].v[point]].xp]`. -/
theorem C21_record_appenders :
    (∀ (mTo mFrom : MMG5_Mesh) (loc : Nat) (m : MMG5_Mesh),
      PMMG_xtetraAppend mTo mFrom loc = some m →
        m.xt = mTo.xt + 1 ∧
        m.xtetra (mTo.xt + 1) = mFrom.xtetra (mFrom.tetra loc).xt ∧
        (∀ k, k ≠ mTo.xt + 1 → m.xtetra k = mTo.xtetra k) ∧
        m.point = mTo.point ∧ m.tetra = mTo.tetra ∧ m.adja = mTo.adja ∧
        m.xpoint = mTo.xpoint ∧ m.xp = mTo.xp) ∧
    (∀ (mTo mFrom : MMG5_Mesh) (loc : Nat),
      (PMMG_xtetraAppend mTo mFrom loc).isSome = true ↔
        (mTo.xt + 1 < mTo.xtmax ∨ mTo.grants ≠ 0)) ∧
    (∀ (w w' : Work) (tet : Nat), w.xtetraAppend tet = .ok w' → w'.meshOld = w.meshOld) ∧
    (∀ (mTo mFrom : MMG5_Mesh) (tet : Nat) (poi : Fin 4) (m : MMG5_Mesh),
      PMMG_xpointAppend mTo mFrom tet poi = some m →
        m.xp = mTo.xp + 1 ∧
        m.xpoint (mTo.xp + 1) = mFrom.xpoint (mFrom.point ((mFrom.tetra tet).v poi)).xp ∧
        (∀ k, k ≠ mTo.xp + 1 → m.xpoint k = mTo.xpoint k) ∧
        m.point = mTo.point ∧ m.tetra = mTo.tetra ∧ m.adja = mTo.adja ∧
        m.xtetra = mTo.xtetra ∧ m.xt = mTo.xt) ∧
    (∀ (mTo mFrom : MMG5_Mesh) (tet : Nat) (poi : Fin 4),
      (PMMG_xpointAppend mTo mFrom tet poi).isSome = true ↔
        (mTo.xp + 1 < mTo.xpmax + 1 ∨ mTo.grants ≠ 0)) ∧
    (∀ (w w' : Work) (tet : Nat) (poi : Fin 4), w.xpointAppend tet poi = .ok w' →
      w'.meshOld = w.meshOld) := by
  refine ⟨?_, xtetraAppend_isSome, fun w w' tet h => work_xtetraAppend_old h, ?_,
    xpointAppend_isSome, fun w w' tet poi h => work_xpointAppend_old h⟩
  · intro mTo mFrom loc m h
    obtain ⟨e1, e2, e3, e4, e5, e6, e7, -⟩ := xtetraAppend_some h
    refine ⟨e1, by rw [e2, upd_same], fun k hk => by rw [e2, upd_ne _ _ hk], e3, e4, e5, e6,
      e7⟩
  · intro mTo mFrom tet poi m h
    obtain ⟨e1, e2, e3, e4, e5, e6, e7, -⟩ := xpointAppend_some h
    refine ⟨e1, by rw [e2, upd_same], fun k hk => by rw [e2, upd_ne _ _ hk], e3, e4, e5, e6,
      e7⟩

/-- Witness of C21: appending to `meshDst` from `meshSrc`. -/
theorem C21_record_appenders_witness :
    (PMMG_xtetraAppend meshDst meshSrc 1).isSome = true ∧
    (PMMG_xpointAppend meshDst meshSrc 1 0).isSome = true ∧
    (∀ m, PMMG_xtetraAppend meshDst meshSrc 1 = some m →
      m.xt = 2 ∧ (m.xtetra 2).ori = 15 ∧ (m.xtetra 1).ori = 7) ∧
    (∀ m, PMMG_xpointAppend meshDst meshSrc 1 0 = some m →
      m.xp = 2 ∧ (m.xpoint 2).n1 = (1, 0, 0) ∧ (m.xpoint 1).n1 = (0, 0, 1)) :=
  ⟨by decide, by decide,
    fun m h => by
      obtain ⟨a1, a2, a3, -⟩ := C21_record_appenders.1 meshDst meshSrc 1 m h
      refine ⟨a1, ?_, ?_⟩
      · have e : meshDst.xt + 1 = 2 := rfl
        rw [e] at a2
        rw [a2]
        rfl
      · rw [a3 1 (by decide)]
        rfl,
    fun m h => by
      obtain ⟨a1, a2, a3, -⟩ := C21_record_appenders.2.2.2.1 meshDst meshSrc 1 0 m h
      refine ⟨a1, ?_, ?_⟩
      · have e : meshDst.xp + 1 = 2 := rfl
        rw [e] at a2
        rw [a2]
        rfl
      · rw [a3 1 (by decide)]
        rfl⟩

set_option maxRecDepth 100000 in
/-- C26 fails on the code: the twelve tetrahedra without a common vertex are
split in three sub-groups of 5, 5 and 2 elements; the requested number of
vertices is `count / 6 = 0` and the capacity `npmax` is 8.  The run installs
the sub-groups; the first two have copied 20 vertices each, at the local ids
`1 .. 20`, while `npmax` of the mesh and of the field still is 8: the vertex
table was not regrown and the ids `9 .. 20` were written beyond it. -/
theorem C26_vertex_table_not_regrown :
    (PMMG_splitGrps env12cap pm12 5).logInstalled = true ∧
    (PMMG_splitGrps env12cap pm12 5).parmesh.listgrp.map
      (fun g => (g.mesh.ne, g.mesh.npmax, g.mesh.np)) = [(5, 8, 20), (5, 8, 20), (2, 8, 8)] ∧
    (PMMG_splitGrps env12cap pm12 5).logGrp.map (fun l => l.logPt.map Prod.snd) =
      [List.range' 1 20, List.range' 1 20, List.range' 1 8] := by
  decide

set_option maxRecDepth 100000 in
/-- C27 fails on the code: twelve elements are split in a sub-group of 3 and
a sub-group of 9.  The face arrays of sub-group 0 are allocated with
`3 / 3 = 1` entry, but `n2ifc_max` holds `9 / 3 = 3`, the value left by the
set-up of the last sub-group, when sub-group 0 is traversed.  Sub-group 0 has
two interface faces; the second `PMMG_n2ifcAppend` sees `1 + 1 < 3`, does not
grow the arrays and writes at index 1 of arrays of length 1.  The run
installs the sub-groups. -/
theorem C27_face_capacity_of_last_group :
    PMMG_howManyGroups (pm12t.listgrp.headD {}).mesh.ne 6 = 2 ∧
    (startWork pm12t (pm12t.listgrp.headD {})
      (countPerGrp [0, 0, 0, 1, 1, 1, 1, 1, 1, 1, 1, 1] 12) 2 0).n2ifc_max = 3 ∧
    (newGrpRec env12t (pm12t.listgrp.headD {}) 3 0).face_alloc = 1 ∧
    (PMMG_splitGrps env12t pm12t 6).logInstalled = true ∧
    (PMMG_splitGrps env12t pm12t 6).parmesh.listgrp.map
      (fun g => (g.mesh.ne, g.face_alloc, g.nitem_int_face_comm,
        (List.range g.nitem_int_face_comm).map g.node2int_face_comm_index1)) =
      [(3, 1, 2, [0, 4]), (9, 3, 2, [12, 16])] := by
  decide

/-- C29 fails on the code.  On the two glued tetrahedra with a parmesh budget
of 15 requests the run fails after it has minted a slot, that is during the
traversal of sub-group 0, when both sub-groups are set up and `grpCur` is
sub-group 0.  The loop at `fail_sgrp` releases the communicator arrays
through `grpCur` at every iteration and the mesh tables through
`grpsNew[grpId].mesh`: the four communicator arrays of sub-group 1 stay
allocated.  When the failure occurs during the set-up of sub-group 0, the
mesh of sub-group 1 is still `NULL` and the loop dereferences it.  On this
path `PMMG_DEL_MEM` is called twice on `countPerGrp`. -/
theorem C29_cleanup_uses_current_group :
    (PMMG_splitGrps env2 pm2short 1).ret = .PMMG_FAILURE ∧
    (PMMG_splitGrps env2 pm2short 1).logMint = [(2, 1)] ∧
    failSgrp 2 0 [allocGrp, allocGrp] =
      some [{ mesh := true },
        { mesh := true, node2int_node_comm_index1 := true, node2int_node_comm_index2 := true,
          node2int_face_comm_index1 := true, node2int_face_comm_index2 := true }] ∧
    failSgrp 2 0 [{ mesh := true }, {}] = none ∧
    delCalls .fail_sgrp = (2, 1) := by
  decide

/-- C30 fails on the code: `strstr` finds the first occurrence of the
extension, not the final one.  For the name `run.mesh.d/cube.mesh`, whose
final extension is `.mesh`, rank 3 gives `run.3.mesh` instead of
`run.mesh.d/cube.3.mesh`: the name is cut at the first `.mesh`.  For a name
that contains the extension only at its end (`cube.mesh`, `cube.meshb`) or
not at all (`cube`) the index is inserted as described, and the result fits
in the allocated string. -/
theorem C30_rank_index_at_first_occurrence :
    PMMG_insert_rankIndex 3 "run.mesh.d/cube.mesh".toList ".mesh".toList ".meshb".toList =
      "run.3.mesh".toList ∧
    PMMG_insert_rankIndex 3 "cube.mesh".toList ".mesh".toList ".meshb".toList =
      "cube.3.mesh".toList ∧
    PMMG_insert_rankIndex 3 "cube.meshb".toList ".mesh".toList ".meshb".toList =
      "cube.3.meshb".toList ∧
    PMMG_insert_rankIndex 3 "cube".toList ".mesh".toList ".meshb".toList = "cube.3".toList ∧
    PMMG_count_digits 16 = 2 ∧
    (PMMG_insert_rankIndex 15 "cube.mesh".toList ".mesh".toList ".meshb".toList).length + 1 ≤
      endnameSize 16 "cube.mesh".toList := by
  decide

theorem nodeTable_append {g g' : PMMG_Grp} {i1 : Nat} {i2 : Int}
    (h1 : g'.nitem_int_node_comm = g.nitem_int_node_comm + 1)
    (h2 : g'.node2int_node_comm_index1 =
      upd g.node2int_node_comm_index1 g.nitem_int_node_comm i1)
    (h3 : g'.node2int_node_comm_index2 =
      upd g.node2int_node_comm_index2 g.nitem_int_node_comm i2) :
    nodeTable g' = nodeTable g ++ [(i1, i2)] := by
  unfold nodeTable
  rw [h1, h2, h3, List.range_succ, List.map_append]
  congr 1
  · apply List.map_congr_left
    intro a ha
    rw [List.mem_range] at ha
    rw [upd_ne _ _ (by omega), upd_ne _ _ (by omega)]
  · simp

theorem nodeTable_same {w w' : Work} (h : SameNode w w') :
    nodeTable w'.grpCur = nodeTable w.grpCur := by
  unfold nodeTable
  rw [h.nitem, h.idx1, h.idx2]

theorem forEach_calls {α : Type} (f : α → Work → Except Work Work)
    (calls : α → Work → List (Nat × Int))
    (hstep : ∀ a u u', f a u = .ok u' → nodeTable u'.grpCur = nodeTable u.grpCur ++ calls a u)
    (l : List α) (w w' : Work) (h : forEach f l w = .ok w') :
    nodeTable w'.grpCur = nodeTable w.grpCur ++ forEachCalls f calls l w := by
  induction l generalizing w with
  | nil =>
    simp at h
    subst h
    simp [forEachCalls]
  | cons a l ih =>
    rw [forEach_cons_ok] at h
    obtain ⟨w1, h1, h2⟩ := h
    rw [ih w1 h2, hstep a w w1 h1]
    simp only [forEachCalls, h1, List.append_assoc]

theorem addPoint_calls {c : Ctx} {tet : Nat} {poi : Fin 4} {w w' : Work}
    (h : addPoint c tet poi w = .ok w') :
    nodeTable w'.grpCur = nodeTable w.grpCur ++ addPointCalls c tet poi w := by
  obtain ⟨r1, -, -, r4, -⟩ := addPointRec_fields c tet poi w
  have hp : ((addPointRec c tet poi w).grpCur.mesh.point (addPointRec c tet poi w).poiPerGrp)
      = w.meshOld.point ((w.meshOld.tetra tet).v poi) := by
    rw [r4, r1, upd_same]
  obtain ⟨-, hcase⟩ := addPoint_ok h
  unfold addPointCalls
  simp only
  rw [hp, r1]
  rcases hcase with ⟨hf, -, hsn, -⟩ | ⟨hf, -, -, -, -, -, -, hc⟩
  · rw [if_neg hf, List.append_nil]
    exact nodeTable_same hsn
  · rw [if_pos hf]
    rcases hc with ⟨ht, hsn⟩ | ⟨ht, n1, n2, n3⟩
    · rw [if_neg (not_not.mpr ht), List.append_nil]
      exact nodeTable_same hsn
    · rw [if_pos ht]
      exact nodeTable_append n1 n2 n3

theorem mintPoint_calls {tet : Nat} {fac : Fin 4} {poi : Fin 3} {w w' : Work}
    (h : mintPoint tet fac poi w = .ok w') :
    nodeTable w'.grpCur = nodeTable w.grpCur ++ mintPointCalls tet fac poi w := by
  unfold mintPointCalls
  simp only
  rcases mintPoint_ok h with ⟨ht, rfl⟩ | ⟨ht, n1, n2, n3, -⟩
  · rw [if_neg ht, List.append_nil]
  · rw [if_pos ht]
    exact nodeTable_append n1 n2 n3

theorem mintFace_calls {c : Ctx} {tet : Nat} {fac : Fin 4} {w w' : Work}
    (h : mintFace c tet fac w = .ok w') :
    nodeTable w'.grpCur = nodeTable w.grpCur ++ mintFaceCalls c tet fac w := by
  unfold mintFace at h
  unfold mintFaceCalls
  simp only at h ⊢
  split_ifs at h ⊢ with h1
  · exact forEach_calls _ _ (fun a u u' hu => mintPoint_calls hu) _ _ _ h
  · simp only [Except.ok.injEq] at h
    subst h
    rw [List.append_nil]

theorem tetStep_calls {c : Ctx} {tet : Nat} {w w' : Work} (h : tetStep c tet w = .ok w') :
    nodeTable w'.grpCur = nodeTable w.grpCur ++ tetStepCalls c tet w := by
  unfold tetStepCalls
  simp only
  rcases tetStep_ok h with ⟨hne, rfl⟩ | ⟨heq, w1, w2, w3, h1, h2, h3, h4⟩
  · rw [if_pos hne, List.append_nil]
    exact nodeTable_same ((resetFlag_frame tet w).sn rfl)
  · rw [if_neg (not_not.mpr heq)]
    simp only [h1, h2, h3]
    have e0 := nodeTable_same ((resetFlag_frame tet w).sn rfl)
    have e1 := nodeTable_same ((copyTetra_frame h1).sn rfl)
    have e2 := forEach_calls _ _ (fun a u u' hu => @addPoint_calls c tet a u u' hu)
      _ _ _ h2
    have e3 := nodeTable_same ((copyAdja_frame tet w2).sn rfl)
    have e4 := nodeTable_same
      ((forEach_frame _ _ _ (fun a u u' hu => updateAdja_frame hu) h3).sn rfl)
    have e5 := forEach_calls _ _ (fun a u u' hu => @mintFace_calls c tet a u u' hu)
      _ _ _ h4
    rw [e5, e4, e3, e2, e1, e0, List.append_assoc]

/-- The traversal and trim of one sub-group: the node communicator is the
table it was at the start followed by the pairs passed to
`PMMG_n2incAppend`, and the arrays are trimmed to the logical size. -/
theorem splitGrp_calls {env : Env} {c : Ctx} {count : Nat} {w w' : Work}
    (h : splitGrp env c count w = .ok w') :
    nodeTable w'.grpCur = nodeTable w.grpCur ++ splitGrpCalls c count w ∧
    w'.grpCur.node_alloc = w'.grpCur.nitem_int_node_comm := by
  obtain ⟨w2, h1, rfl⟩ := splitGrp_ok h
  obtain ⟨-, -, s3⟩ := passStart_frame count w
  have e := forEach_calls _ _ (fun a u u' hu => tetStep_calls (c := c) hu) _ _ _ h1
  rw [s3] at e
  refine ⟨?_, rfl⟩
  rw [nodeTable_same ((passEnd_frame env c w2).sn rfl), e]
  rfl

theorem splitLoop_calls (env : Env) (part : List Nat) (metOld : MMG5_Sol) (cnt : Nat → Nat)
    (grps : List PMMG_Grp) (g0 : Nat) (w : Work) (built : List (PMMG_Grp × GrpLog)) (w' : Work)
    (hpre : ∀ g ∈ grps, g.nitem_int_node_comm = 0)
    (h : splitLoop env part metOld cnt grps g0 w = .ok (built, w')) :
    built.map (fun b => nodeTable b.1) = splitLoopCalls env part metOld cnt grps g0 w ∧
    ∀ b ∈ built, b.1.node_alloc = b.1.nitem_int_node_comm := by
  induction grps generalizing g0 w built with
  | nil =>
    simp only [splitLoop, Except.ok.injEq, Prod.mk.injEq] at h
    obtain ⟨rfl, rfl⟩ := h
    exact ⟨rfl, fun b hb => absurd hb (List.not_mem_nil b)⟩
  | cons g rest ih =>
    simp only [splitLoop] at h
    split at h
    · simp at h
    · rename_i w1 h1
      split at h
      · simp at h
      · rename_i gs w2 h2
        simp only [Except.ok.injEq, Prod.mk.injEq] at h
        obtain ⟨rfl, rfl⟩ := h
        obtain ⟨a1, a2⟩ := splitGrp_calls h1
        obtain ⟨b1, b2⟩ := ih (g0 + 1) w1 gs (fun x hx => hpre x (List.mem_cons_of_mem _ hx)) h2
        have hg : nodeTable g = [] := by
          unfold nodeTable
          rw [hpre g (List.mem_cons_self _ _)]
          rfl
        have hstart : nodeTable ({ w with grpCur := g } : Work).grpCur = [] := hg
        rw [hstart, List.nil_append] at a1
        refine ⟨?_, ?_⟩
        · simp only [List.map_cons, splitLoopCalls, h1]
          rw [a1, b1]
        · intro b hb
          rcases List.mem_cons.mp hb with rfl | hb
          · exact a2
          · exact b2 b hb

/-- C22: in a run that installs the sub-groups, the node-interface
communicator of every sub-group `g` is exactly the list of the pairs passed
to `PMMG_n2incAppend` while `g` was traversed, in call order (the pair of the
`i`-th call at position `i-1`); its logical size is the number of these calls
and, after the trim, the allocated length of the two index arrays is the
logical size. -/
theorem C22_node_comm_is_call_list (env : Env) (pm : PMMG_ParMesh) (t : Int)
    (hs : (PMMG_splitGrps env pm t).logInstalled = true) :
    (PMMG_splitGrps env pm t).parmesh.listgrp.map nodeTable = n2incCalls env pm t ∧
    ∀ (g : Nat) grp, (PMMG_splitGrps env pm t).parmesh.listgrp[g]? = some grp →
      ∃ calls, (n2incCalls env pm t)[g]? = some calls ∧
        (∀ i, i < calls.length →
          calls[i]? = some (grp.node2int_node_comm_index1 i, grp.node2int_node_comm_index2 i)) ∧
        grp.nitem_int_node_comm = calls.length ∧
        grp.node_alloc = grp.nitem_int_node_comm := by
  obtain ⟨part, grps, grants, built, w, e1, e2, e3, -, e5, -⟩ := splitGrps_installed hs
  obtain ⟨-, hfresh⟩ := newGrps_fresh e2
  have hpre : ∀ g ∈ grps, g.nitem_int_node_comm = 0 := by
    intro g hg
    obtain ⟨i, hi, rfl⟩ := List.getElem_of_mem hg
    have hlen := (newGrps_fresh e2).1
    have hi' : i < ((List.range (ngrpOf pm t)).map
        (countPerGrp part (grpOldOf pm).mesh.ne)).length := by rw [← hlen]; exact hi
    exact (hfresh i grps[i] _ (List.getElem?_eq_getElem hi') (List.getElem?_eq_getElem hi)).nnode
  obtain ⟨c1, c2⟩ := splitLoop_calls env part _ _ grps 0 _ built w hpre e3
  have hcalls : n2incCalls env pm t =
      splitLoopCalls env part (grpOldOf pm).met (countPerGrp part (grpOldOf pm).mesh.ne) grps 0
        (startWork pm (grpOldOf pm) (countPerGrp part (grpOldOf pm).mesh.ne) (ngrpOf pm t)
          grants) := by
    unfold n2incCalls
    simp only [e1]
    have e2' := e2
    unfold grpOldOf ngrpOf at e2'
    unfold grpOldOf at e2'
    simp only [e2']
    rfl
  have hmap : (PMMG_splitGrps env pm t).parmesh.listgrp.map nodeTable = n2incCalls env pm t := by
    rw [e5, hcalls, ← c1, List.map_map]
    rfl
  refine ⟨hmap, fun g grp hg => ?_⟩
  have hq : ((PMMG_splitGrps env pm t).parmesh.listgrp.map nodeTable)[g]? =
      some (nodeTable grp) := by
    rw [List.getElem?_map, hg]
    rfl
  rw [hmap] at hq
  refine ⟨nodeTable grp, hq, ?_, ?_, ?_⟩
  · intro i hi
    unfold nodeTable at hi ⊢
    rw [List.length_map, List.length_range] at hi
    rw [List.getElem?_map, List.getElem?_range hi]
    rfl
  · unfold nodeTable
    rw [List.length_map, List.length_range]
  · have hmem : grp ∈ (PMMG_splitGrps env pm t).parmesh.listgrp := List.getElem?_mem hg
    rw [e5] at hmem
    obtain ⟨b, hb, rfl⟩ := List.mem_map.mp hmem
    exact c2 b hb

set_option maxRecDepth 100000 in
/-- Witness of C22: the two glued tetrahedra split in two; sub-group 0 makes
three calls for the slots it mints on the common face, sub-group 1 three
calls for the same slots, which its vertices carry when they are copied. -/
theorem C22_node_comm_is_call_list_witness :
    (PMMG_splitGrps env2 pm2 1).logInstalled = true ∧
    n2incCalls env2 pm2 1 = [[(2, 1), (3, 2), (4, 3)], [(2, 1), (3, 3), (4, 2)]] ∧
    (PMMG_splitGrps env2 pm2 1).parmesh.listgrp.map nodeTable = n2incCalls env2 pm2 1 ∧
    ∀ (g : Nat) grp, (PMMG_splitGrps env2 pm2 1).parmesh.listgrp[g]? = some grp →
      ∃ calls, (n2incCalls env2 pm2 1)[g]? = some calls ∧
        (∀ i, i < calls.length →
          calls[i]? = some (grp.node2int_node_comm_index1 i, grp.node2int_node_comm_index2 i)) ∧
        grp.nitem_int_node_comm = calls.length ∧
        grp.node_alloc = grp.nitem_int_node_comm :=
  ⟨by decide, by decide, (C22_node_comm_is_call_list env2 pm2 1 (by decide)).1,
    (C22_node_comm_is_call_list env2 pm2 1 (by decide)).2⟩

theorem PtGeo.pg_refl (w : Work) : PtGeo w w := ⟨fun _ => rfl, fun _ => rfl⟩

theorem PtGeo.pg_trans {a b c : Work} (h1 : PtGeo a b) (h2 : PtGeo b c) : PtGeo a c :=
  ⟨fun k => (h2.c k).trans (h1.c k), fun k => (h2.ref k).trans (h1.ref k)⟩

theorem PtGeo.of_cp {w w' : Work} (h : w'.grpCur.mesh.point = w.grpCur.mesh.point) :
    PtGeo w w' := ⟨fun k => by rw [h], fun k => by rw [h]⟩

theorem tagFaceItem_geo {fac : Fin 4} {j : Fin 3} {w w' : Work}
    (h : tagFaceItem fac j w = .ok w') : PtGeo w w' := by
  unfold tagFaceItem at h
  simp only [Except.ok.injEq] at h
  subst h
  constructor <;> intro k <;> simp only [Work.setMeshCur, upd_apply] <;> split_ifs with hk <;>
    first | rfl | (subst hk; rfl)

theorem newFace_geo {tet : Nat} {fac : Fin 4} {w w' : Work} (h : newFace tet fac w = .ok w') :
    PtGeo w w' := by
  unfold newFace at h
  simp only [andThen_ok_iff] at h
  obtain ⟨w2, h2, w4, h4, h5⟩ := h
  have g2 := PtGeo.of_cp ((newFaceXt_frame h2).cp rfl)
  have g3 := PtGeo.of_cp ((newFaceTag_frame fac w2).cp rfl)
  have g4 := PtGeo.of_cp ((n2ifcAppend_frame h4).cp rfl)
  have g5 := forEach_rel (tagFaceItem fac) PtGeo PtGeo.pg_refl
    (fun _ _ _ a b => a.pg_trans b) _ (fun _ _ _ _ hf => tagFaceItem_geo hf) _ _ h5
  exact ((g2.pg_trans g3).pg_trans g4).pg_trans g5

theorem updateAdja_geo {c : Ctx} {tet : Nat} {fac : Fin 4} {w w' : Work}
    (h : updateAdja c tet fac w = .ok w') : PtGeo w w' := by
  rcases updateAdja_cases h with ⟨-, rfl⟩ | ⟨-, -, hn⟩ | ⟨-, -, -, rfl⟩ | ⟨-, -, -, rfl⟩
  · exact PtGeo.pg_refl _
  · exact newFace_geo hn
  · exact PtGeo.of_cp ((linkAdja_frame _ _ _ _).cp rfl)
  · exact PtGeo.pg_refl _

theorem mintRec_geo (tet : Nat) (fac : Fin 4) (poi : Fin 3) (slot : Int) (w : Work) :
    PtGeo w (mintRec tet fac poi slot w) := by
  constructor <;> intro k <;> simp only [mintRec, Work.setMeshCur, upd_apply] <;>
    split_ifs with hk <;> first | rfl | (subst hk; rfl)

theorem mintPoint_geo {tet : Nat} {fac : Fin 4} {poi : Fin 3} {w w' : Work}
    (h : mintPoint tet fac poi w = .ok w') : PtGeo w w' := by
  unfold mintPoint at h
  simp only at h
  split_ifs at h with h1
  · rw [andThen_ok_iff] at h
    obtain ⟨w1, h2, h3⟩ := h
    simp only [Except.ok.injEq] at h3
    subst h3
    exact (PtGeo.of_cp ((n2incAppend_frame h2).cp rfl)).pg_trans (mintRec_geo _ _ _ _ _)
  · simp only [Except.ok.injEq] at h
    subst h
    exact PtGeo.pg_refl _

theorem mintFace_geo {c : Ctx} {tet : Nat} {fac : Fin 4} {w w' : Work}
    (h : mintFace c tet fac w = .ok w') : PtGeo w w' := by
  unfold mintFace at h
  simp only at h
  split_ifs at h with h1
  · exact forEach_rel (mintPoint tet fac) PtGeo PtGeo.pg_refl
      (fun _ _ _ a b => a.pg_trans b) _ (fun _ _ _ _ hf => mintPoint_geo hf) _ _ h
  · simp only [Except.ok.injEq] at h
    subst h
    exact PtGeo.pg_refl _

theorem passEnd_geo (env : Env) (c : Ctx) (w : Work) : PtGeo w (passEnd env c w) := by
  have hm := passEnd_mesh env c w
  constructor <;> intro k <;> rw [hm.point] <;> simp only [chainFree] <;> split_ifs <;> rfl

/-- The vertex copied by the first-seen branch of `addPoint` has the
coordinates and the reference of the source vertex, and the other vertices
keep theirs. -/
theorem addPoint_geo {c : Ctx} {tet : Nat} {poi : Fin 4} {w w' : Work}
    (h : addPoint c tet poi w = .ok w') :
    ((w.meshOld.point ((w.meshOld.tetra tet).v poi)).flag ≠ 0 ∧ PtGeo w w') ∨
    ((w.meshOld.point ((w.meshOld.tetra tet).v poi)).flag = 0 ∧
      (w'.grpCur.mesh.point (w.poiPerGrp + 1)).c =
        (w.meshOld.point ((w.meshOld.tetra tet).v poi)).c ∧
      (w'.grpCur.mesh.point (w.poiPerGrp + 1)).ref =
        (w.meshOld.point ((w.meshOld.tetra tet).v poi)).ref) := by
  unfold addPoint at h
  simp only at h
  split_ifs at h with h1
  · right
    rw [andThen_ok_iff] at h
    obtain ⟨w1, h2, h3⟩ := h
    obtain ⟨r1, -, -, r4, -⟩ := addPointRec_fields c tet poi w
    have f2 := (addPointComm_frame h2).cp rfl
    have hP : w1.poiPerGrp = w.poiPerGrp + 1 := by
      rw [((addPointComm_frame h2).sp rfl).cnt, r1]
    have hpt : w1.grpCur.mesh.point (w.poiPerGrp + 1) =
        w.meshOld.point ((w.meshOld.tetra tet).v poi) := by
      rw [f2, r4, upd_same]
    have h3' : (w'.grpCur.mesh.point (w.poiPerGrp + 1)).c =
        (w1.grpCur.mesh.point (w.poiPerGrp + 1)).c ∧
        (w'.grpCur.mesh.point (w.poiPerGrp + 1)).ref =
        (w1.grpCur.mesh.point (w.poiPerGrp + 1)).ref := by
      unfold addPointXp at h3
      split_ifs at h3 with hx
      · unfold Work.xpointAppend at h3
        split at h3
        · simp at h3
        · rename_i m hm
          obtain ⟨e1, e2, e3, -⟩ := xpointAppend_some hm
          simp only [Except.ok.injEq] at h3
          subst h3
          simp only [Work.setMeshCur, e3, upd_apply]
          split_ifs with hq
          · rw [hP]; exact ⟨rfl, rfl⟩
          · exact ⟨rfl, rfl⟩
      · simp only [Except.ok.injEq] at h3
        subst h3
        exact ⟨rfl, rfl⟩
    rw [hpt] at h3'
    exact ⟨h1, h3'.1, h3'.2⟩
  · left
    simp only [Except.ok.injEq] at h
    subst h
    exact ⟨h1, PtGeo.of_cp rfl⟩

theorem GeoInv.of_geo {m0 : MMG5_Mesh} {w w' : Work} (h : GeoInv m0 w) (hg : PtGeo w w')
    (hlog : w'.logPt = w.logPt) : GeoInv m0 w' := by
  intro p hp
  rw [hlog] at hp
  rw [hg.c, hg.ref]
  exact h p hp

theorem VRefInv.vr_same {m0 : MMG5_Mesh} {w w' : Work} (h : VRefInv m0 w)
    (htv : ∀ k, (w'.grpCur.mesh.tetra k).v = (w.grpCur.mesh.tetra k).v)
    (hlt : w'.logTet = w.logTet) (hlp : w'.logPt = w.logPt) : VRefInv m0 w' := by
  intro q hq i
  rw [hlt] at hq
  rw [htv, hlp]
  exact h q hq i

/-- The loop over the four vertices of the element under construction. -/
theorem addPointLoop_copy {c : Ctx} {m0 : MMG5_Mesh} {tet : Nat} {np : Nat} {seen : List Nat}
    {w w' : Work} (hP : PtInv np seen w) (hsrc : SrcOf m0 w)
    (hwf : ∀ i, 1 ≤ (w.meshOld.tetra tet).v i ∧ (w.meshOld.tetra tet).v i ≤ np)
    (hG : GeoInv m0 w)
    (h : forEach (addPoint c tet) [0, 1, 2, 3] w = .ok w') :
    GeoInv m0 w' ∧ (∀ k, k ≠ w.tetPerGrp → w'.grpCur.mesh.tetra k = w.grpCur.mesh.tetra k) ∧
    (∀ p ∈ w.logPt, p ∈ w'.logPt) := by
  have key := forEach_inv (addPoint c tet)
    (fun x => GeoInv m0 x ∧ (∃ seen1, PtInv np seen1 x) ∧ OldStatic w x ∧ SameTet w x ∧
      (∀ k, k ≠ w.tetPerGrp → x.grpCur.mesh.tetra k = w.grpCur.mesh.tetra k) ∧
      (∀ p ∈ w.logPt, p ∈ x.logPt))
    [0, 1, 2, 3] ?_ w w' h
    ⟨hG, ⟨seen, hP⟩, OldStatic.os_refl w, SameTet.st_refl w, fun _ _ => rfl, fun _ hp => hp⟩
  · exact ⟨key.1, key.2.2.2.2.1, key.2.2.2.2.2⟩
  · intro a x x' _ hI hx
    obtain ⟨i1, ⟨seen1, i2⟩, i3, i4, i5, i6⟩ := hI
    have f := addPoint_frame hx
    have hwfx : 1 ≤ (x.meshOld.tetra tet).v a ∧ (x.meshOld.tetra tet).v a ≤ np := by
      rw [i3.tv]; exact hwf a
    have hsx : SrcOf m0 x := hsrc.of_oldStatic i3
    obtain ⟨htet, hcase⟩ := addPoint_ok hx
    refine ⟨?_, ⟨_, addPoint_PtInv i2 hwfx hx⟩, i3.os_trans (f.os rfl), i4.st_trans (f.st rfl),
      ?_, ?_⟩
    · rcases hcase with ⟨-, hsp, -, hcp⟩ | ⟨hf, hlog, hcnt, -, hk, -⟩
      · exact i1.of_geo (PtGeo.of_cp hcp) hsp.log
      · intro p hp
        rw [hlog] at hp
        rcases List.mem_append.mp hp with hp | hp
        · have hb := (i2.snd_pos hp).2
          rw [hk p.2 (by omega)]
          exact i1 p hp
        · simp only [List.mem_singleton] at hp
          subst hp
          rcases addPoint_geo hx with ⟨hf2, -⟩ | ⟨-, g1, g2⟩
          · exact absurd hf hf2
          · exact ⟨by rw [g1, hsx.pc], by rw [g2, hsx.pref]⟩
    · intro k hk
      rw [htet, upd_ne _ _ (by rw [i4.cnt]; exact hk)]
      exact i5 k hk
    · intro p hp
      have := i6 p hp
      rcases hcase with ⟨-, hsp, -, -⟩ | ⟨-, hlog, -⟩
      · rw [hsp.log]; exact this
      · rw [hlog]; exact List.mem_append_left _ this

/-- The body of the loop over the source elements keeps the copied vertices
and the vertex references of the copied elements as they are and sets those
of the element it copies. -/
theorem tetStep_copy {c : Ctx} {m0 : MMG5_Mesh} {pre : List Nat} {tet : Nat} {np : Nat}
    {seen : List Nat} {u u' : Work} (hP : PtInv np seen u) (hI : TetInv c pre u)
    (hsrc : SrcOf m0 u)
    (hwf : ∀ i, 1 ≤ (u.meshOld.tetra tet).v i ∧ (u.meshOld.tetra tet).v i ≤ np)
    (hG : GeoInv m0 u) (hV : VRefInv m0 u) (h : tetStep c tet u = .ok u') :
    GeoInv m0 u' ∧ VRefInv m0 u' := by
  have hq2 : ∀ q ∈ u.logTet, 1 ≤ q.2 ∧ q.2 ≤ u.tetPerGrp := by
    intro q hq
    have : q.2 ∈ u.logTet.map Prod.snd := List.mem_map_of_mem _ hq
    rw [hI.vals, List.mem_range'_1] at this
    omega
  have f0 := resetFlag_frame tet u
  rcases tetStep_ok h with ⟨hne, rfl⟩ | ⟨heq, w1, w2, w3, h1, h2, h3, h4⟩
  · exact ⟨hG.of_geo (PtGeo.of_cp (f0.cp rfl)) (f0.sp rfl).log,
      hV.vr_same (fun k => by rw [f0.ct rfl]) rfl (f0.sp rfl).log⟩
  · obtain ⟨a1, a2, -⟩ := copyTetra_tet h1
    have c0 : (resetFlag tet u).tetPerGrp = u.tetPerGrp := rfl
    have l0 : (resetFlag tet u).logTet = u.logTet := rfl
    rw [c0] at a2
    rw [c0, l0] at a1
    obtain ⟨hrow1, -⟩ := copyTetra_xt h1
    rw [c0] at hrow1
    have f1 := copyTetra_frame h1
    have f2 := forEach_frame _ _ _ (fun a u u' hu => addPoint_frame hu) h2
    have f3 := copyAdja_frame tet w2
    have f4 := forEach_frame _ _ _ (fun a u u' hu => updateAdja_frame hu) h3
    have f42 := forEach_frame2 _ _ _ (fun a u u' hu => updateAdja_frame2 hu) h3
    have f5 := forEach_frame _ _ _ (fun a u u' hu => mintFace_frame hu) h4
    have f52 := forEach_frame2 _ _ _ (fun a u u' hu => mintFace_frame2 hu) h4
    have s01 := (f0.os rfl).os_trans (f1.os rfl)
    have i1 : PtInv np seen w1 := hP.of_samePt ((f0.sp rfl).sp_trans (f1.sp rfl))
    have hsrc1 : SrcOf m0 w1 := hsrc.of_oldStatic s01
    have hwf1 : ∀ i, 1 ≤ (w1.meshOld.tetra tet).v i ∧ (w1.meshOld.tetra tet).v i ≤ np :=
      fun i => by rw [s01.tv]; exact hwf i
    have hG1 : GeoInv m0 w1 :=
      (hG.of_geo (PtGeo.of_cp (f0.cp rfl)) (f0.sp rfl).log).of_geo (PtGeo.of_cp (f1.cp rfl))
        (f1.sp rfl).log
    obtain ⟨hG2, hrow2, hsub2⟩ := addPointLoop_copy i1 hsrc1 hwf1 hG1 h2
    rw [a2] at hrow2
    have tv2 := addPointLoop_tv i1 hwf1 h2
    -- after the loop over the vertices
    have g3 : PtGeo w2 (copyAdja tet w2) := PtGeo.of_cp (f3.cp rfl)
    have g4 : PtGeo (copyAdja tet w2) w3 := forEach_rel (updateAdja c tet) PtGeo PtGeo.pg_refl
      (fun _ _ _ a b => a.pg_trans b) _ (fun _ _ _ _ hf => updateAdja_geo hf) _ _ h3
    have g5 : PtGeo w3 u' := forEach_rel (mintFace c tet) PtGeo PtGeo.pg_refl
      (fun _ _ _ a b => a.pg_trans b) _ (fun _ _ _ _ hf => mintFace_geo hf) _ _ h4
    have hlp : u'.logPt = w2.logPt := by
      rw [(f5.sp rfl).log, (f4.sp rfl).log, (f3.sp rfl).log]
    have hlt : u'.logTet = u.logTet ++ [(tet, u.tetPerGrp + 1)] := by
      rw [(f5.st rfl).log, (f4.st rfl).log, (f3.st rfl).log, (f2.st rfl).log, a1]
    have htv : ∀ k, (u'.grpCur.mesh.tetra k).v = (w2.grpCur.mesh.tetra k).v := by
      intro k
      rw [f52.tv rfl, f42.tv rfl, f3.ct rfl]
    have T2 : w2.tetPerGrp = u.tetPerGrp + 1 := by rw [(f2.st rfl).cnt, a2]
    refine ⟨(hG2.of_geo ((g3.pg_trans g4).pg_trans g5) hlp), ?_⟩
    intro q hq i
    rw [hlt] at hq
    rw [htv, hlp]
    rcases List.mem_append.mp hq with hq | hq
    · obtain ⟨b1, b2⟩ := hq2 q hq
      rw [hrow2 q.2 (by omega), hrow1 q.2 (by omega)]
      apply hsub2
      rw [(f1.sp rfl).log, (f0.sp rfl).log]
      have := hV q hq i
      rw [← f0.ct rfl] at this
      exact this
    · simp only [List.mem_singleton] at hq
      subst hq
      have := tv2 i
      rw [hsrc1.tv] at this
      have e : w2.tetraCur = w2.grpCur.mesh.tetra (u.tetPerGrp + 1) := by
        show w2.grpCur.mesh.tetra w2.tetPerGrp = _
        rw [T2]
      rw [e] at this
      exact this

/-- After the traversal of sub-group `g`: every element assigned to `g` has a
copy, the source vertices have one local id each, and the vertex references
of the copies are the local ids of the copies of the source vertices, which
have their coordinates and references. -/
theorem splitGrp_copy {env : Env} {part : List Nat} {g : Nat} {met : MMG5_Sol} {count : Nat}
    {m0 : MMG5_Mesh} {w w' : Work} (hsrc : SrcOf m0 w) (hwf : WfVerts m0)
    (h : splitGrp env ⟨part, g, met⟩ count w = .ok w') :
    (∀ A, 1 ≤ A → A ≤ m0.ne → part.getD (A - 1) 0 = g → ∃ k, (A, k) ∈ w'.logTet) ∧
    (∀ p ∈ w'.logPt, ∀ p1 ∈ w'.logPt, p.1 = p1.1 → p.2 = p1.2) ∧
    ∀ q ∈ w'.logTet, ∀ i : Fin 4,
      ((m0.tetra q.1).v i, (w'.grpCur.mesh.tetra q.2).v i) ∈ w'.logPt ∧
      (w'.grpCur.mesh.point ((w'.grpCur.mesh.tetra q.2).v i)).c =
        (m0.point ((m0.tetra q.1).v i)).c ∧
      (w'.grpCur.mesh.point ((w'.grpCur.mesh.tetra q.2).v i)).ref =
        (m0.point ((m0.tetra q.1).v i)).ref := by
  obtain ⟨hpts, -⟩ := splitGrp_pts hsrc hwf h
  obtain ⟨w2, h1, rfl⟩ := splitGrp_ok h
  obtain ⟨s1, -, s3⟩ := passStart_frame count w
  have hsrc1 := hsrc.of_oldStatic s1
  have h0 := passStart_PtInv count w
  rw [hsrc.np] at h0
  have key := tetLoop_inv (c := ⟨part, g, met⟩) (n := w.meshOld.ne)
    (fun _ u => (∃ seen, PtInv m0.np seen u) ∧ GeoInv m0 u ∧ VRefInv m0 u)
    ?_ h1 rfl rfl ?_
  · obtain ⟨⟨-, hG, hV⟩, hI, -⟩ := key
    have f := passEnd_frame env ⟨part, g, met⟩ w2
    have hG' : GeoInv m0 (passEnd env ⟨part, g, met⟩ w2) :=
      hG.of_geo (passEnd_geo env _ w2) (f.sp rfl).log
    have hV' : VRefInv m0 (passEnd env ⟨part, g, met⟩ w2) :=
      hV.vr_same (fun k => by rw [f.ct rfl]) (f.st rfl).log (f.sp rfl).log
    refine ⟨fun A hA1 hA2 hAg => ?_, fun p hp p1 hp1 e => ?_, fun q hq i => ?_⟩
    · have hmem : A ∈ w2.logTet.map Prod.fst := by
        rw [hI.keys, List.mem_filter, List.mem_range'_1]
        refine ⟨⟨hA1, by rw [hsrc.ne]; omega⟩, ?_⟩
        have e : (⟨part, g, met⟩ : Ctx).partAt (A - 1) = g := hAg
        exact decide_eq_true e
      obtain ⟨p, hp, hp1⟩ := List.mem_map.mp hmem
      exact ⟨p.2, by rw [← hp1]; exact hp⟩
    · have := hpts.fst_inj hp hp1 e
      rw [this]
    · have hm := hV' q hq i
      obtain ⟨g1, g2⟩ := hG' _ hm
      exact ⟨hm, g1, g2⟩
  · intro pre tet u u' hnew hpre ht1 ht2 hI hos hJ hu
    obtain ⟨⟨seen, hP⟩, hG, hV⟩ := hJ
    have hwf1 : ∀ i, 1 ≤ (u.meshOld.tetra tet).v i ∧ (u.meshOld.tetra tet).v i ≤ m0.np := by
      intro i
      rw [hos.tv, hsrc1.tv]
      exact hwf tet ht1 (by rw [← hsrc.ne]; exact ht2) i
    obtain ⟨r1, r2⟩ := tetStep_copy hP hI (hsrc1.of_oldStatic hos) hwf1 hG hV hu
    exact ⟨⟨_, tetStep_PtInv hP hwf1 hu⟩, r1, r2⟩
  · exact ⟨⟨[], h0⟩, fun p hp => absurd hp (List.not_mem_nil p),
      fun q hq => absurd hq (List.not_mem_nil q)⟩

/-- C23: in a run that installs the sub-groups, on a source mesh whose vertex
references lie in `1 .. np`, every element `t` assigned to sub-group `g` has a
local id `t'`; every source vertex copied in `g` has one local id; and for
every position `i`, the vertex reference at position `i` of the copy `t'` is
the local id under which the source vertex at position `i` of `t` was copied
in `g`, and that vertex of the sub-mesh has the coordinates and the reference
of the source vertex. -/
theorem C23_vertex_references (env : Env) (pm : PMMG_ParMesh) (t : Int) (part : List Nat)
    (hs : (PMMG_splitGrps env pm t).logInstalled = true) (hp : env.partition = some part)
    (hwf : WfVerts (grpOldOf pm).mesh) :
    ∀ (g : Nat) grp log, (PMMG_splitGrps env pm t).parmesh.listgrp[g]? = some grp →
      (PMMG_splitGrps env pm t).logGrp[g]? = some log →
      (∀ A, 1 ≤ A → A ≤ (grpOldOf pm).mesh.ne → part.getD (A - 1) 0 = g →
        ∃ k, (A, k) ∈ log.logTet) ∧
      (∀ p ∈ log.logPt, ∀ p1 ∈ log.logPt, p.1 = p1.1 → p.2 = p1.2) ∧
      ∀ q ∈ log.logTet, ∀ i : Fin 4,
        (((grpOldOf pm).mesh.tetra q.1).v i, (grp.mesh.tetra q.2).v i) ∈ log.logPt ∧
        (grp.mesh.point ((grp.mesh.tetra q.2).v i)).c =
          ((grpOldOf pm).mesh.point (((grpOldOf pm).mesh.tetra q.1).v i)).c ∧
        (grp.mesh.point ((grp.mesh.tetra q.2).v i)).ref =
          ((grpOldOf pm).mesh.point (((grpOldOf pm).mesh.tetra q.1).v i)).ref := by
  obtain ⟨wf, -, -, -, h1, h2, h3⟩ := splitGrps_post hs hp
    (fun w => SrcOf (grpOldOf pm).mesh w)
    (fun g b _ =>
      (∀ A, 1 ≤ A → A ≤ (grpOldOf pm).mesh.ne → part.getD (A - 1) 0 = g →
        ∃ k, (A, k) ∈ b.2.logTet) ∧
      (∀ p ∈ b.2.logPt, ∀ p1 ∈ b.2.logPt, p.1 = p1.1 → p.2 = p1.2) ∧
      ∀ q ∈ b.2.logTet, ∀ i : Fin 4,
        (((grpOldOf pm).mesh.tetra q.1).v i, (b.1.mesh.tetra q.2).v i) ∈ b.2.logPt ∧
        (b.1.mesh.point ((b.1.mesh.tetra q.2).v i)).c =
          ((grpOldOf pm).mesh.point (((grpOldOf pm).mesh.tetra q.1).v i)).c ∧
        (b.1.mesh.point ((b.1.mesh.tetra q.2).v i)).ref =
          ((grpOldOf pm).mesh.point (((grpOldOf pm).mesh.tetra q.1).v i)).ref)
    (fun grants => startWork_srcOf _ _ _ _ _)
    (fun grpId g w w1 hf hq hu =>
      ⟨splitGrp_srcOf (hq.setGrp g) hu, splitGrp_copy (hq.setGrp g) hwf hu⟩)
    (fun i b grpId g' w w1 _ hpost _ => hpost)
  intro g grp log hg hl
  exact h3 g grp log hg hl

theorem wfVerts_mesh3c : WfVerts (grpOldOf pm3c).mesh := wfVerts_of_list (by decide)

set_option maxRecDepth 100000 in
/-- Witness of C23: the chain of three tetrahedra, the middle one in a
sub-group of its own.  In sub-group 0 the source elements 1 and 3 become the
elements 1 and 2 with the vertex references `(1,2,3,4)` and `(5,6,3,4)`; the
source vertices 3 and 4, common to the two elements, have the ids 3 and 4 in
both. -/
theorem C23_vertex_references_witness :
    (PMMG_splitGrps env3 pm3c 2).logInstalled = true ∧ WfVerts (grpOldOf pm3c).mesh ∧
    (PMMG_splitGrps env3 pm3c 2).logGrp.map (fun l => (l.logTet, l.logPt)) =
      [([(1, 1), (3, 2)], [(1, 1), (2, 2), (3, 3), (4, 4), (6, 5), (5, 6)]),
       ([(2, 1)], [(2, 1), (5, 2), (4, 3), (3, 4)])] ∧
    (PMMG_splitGrps env3 pm3c 2).parmesh.listgrp.map
      (fun grp => (List.range' 1 grp.mesh.ne).map
        (fun k => (List.finRange 4).map (grp.mesh.tetra k).v)) =
      [[[1, 2, 3, 4], [5, 6, 3, 4]], [[1, 2, 3, 4]]] ∧
    (PMMG_splitGrps env3 pm3c 2).parmesh.listgrp.map
      (fun grp => (List.range' 1 grp.mesh.np).map
        (fun p => ((grp.mesh.point p).c.1, (grp.mesh.point p).ref))) =
      [[(1, 11), (2, 12), (3, 13), (4, 14), (6, 16), (5, 15)],
       [(2, 12), (5, 15), (4, 14), (3, 13)]] ∧
    ∀ (g : Nat) grp log, (PMMG_splitGrps env3 pm3c 2).parmesh.listgrp[g]? = some grp →
      (PMMG_splitGrps env3 pm3c 2).logGrp[g]? = some log →
      (∀ A, 1 ≤ A → A ≤ (grpOldOf pm3c).mesh.ne → ([0, 1, 0] : List Nat).getD (A - 1) 0 = g →
        ∃ k, (A, k) ∈ log.logTet) ∧
      (∀ p ∈ log.logPt, ∀ p1 ∈ log.logPt, p.1 = p1.1 → p.2 = p1.2) ∧
      ∀ q ∈ log.logTet, ∀ i : Fin 4,
        (((grpOldOf pm3c).mesh.tetra q.1).v i, (grp.mesh.tetra q.2).v i) ∈ log.logPt ∧
        (grp.mesh.point ((grp.mesh.tetra q.2).v i)).c =
          ((grpOldOf pm3c).mesh.point (((grpOldOf pm3c).mesh.tetra q.1).v i)).c ∧
        (grp.mesh.point ((grp.mesh.tetra q.2).v i)).ref =
          ((grpOldOf pm3c).mesh.point (((grpOldOf pm3c).mesh.tetra q.1).v i)).ref :=
  ⟨by decide, wfVerts_mesh3c, by decide, by decide, by decide,
    C23_vertex_references env3 pm3c 2 [0, 1, 0] (by decide) rfl wfVerts_mesh3c⟩

/-- The copies of every installed sub-group: every element assigned to it has
a copy, and the vertex references of the copies are the local ids of the
copies of the source vertices, which have their coordinates and
references. -/
theorem splitGrps_copy {env : Env} {pm : PMMG_ParMesh} {t : Int} {part : List Nat}
    (hs : (PMMG_splitGrps env pm t).logInstalled = true) (hp : env.partition = some part)
    (hwf : WfVerts (grpOldOf pm).mesh) :
    ∀ (g : Nat) grp log, (PMMG_splitGrps env pm t).parmesh.listgrp[g]? = some grp →
      (PMMG_splitGrps env pm t).logGrp[g]? = some log →
      (∀ A, 1 ≤ A → A ≤ (grpOldOf pm).mesh.ne → part.getD (A - 1) 0 = g →
        ∃ k, (A, k) ∈ log.logTet) ∧
      ∀ q ∈ log.logTet, ∀ i : Fin 4,
        (((grpOldOf pm).mesh.tetra q.1).v i, (grp.mesh.tetra q.2).v i) ∈ log.logPt ∧
        (grp.mesh.point ((grp.mesh.tetra q.2).v i)).c =
          ((grpOldOf pm).mesh.point (((grpOldOf pm).mesh.tetra q.1).v i)).c ∧
        (grp.mesh.point ((grp.mesh.tetra q.2).v i)).ref =
          ((grpOldOf pm).mesh.point (((grpOldOf pm).mesh.tetra q.1).v i)).ref := by
  obtain ⟨wf, -, -, -, h1, h2, h3⟩ := splitGrps_post hs hp
    (fun w => SrcOf (grpOldOf pm).mesh w)
    (fun g b _ =>
      (∀ A, 1 ≤ A → A ≤ (grpOldOf pm).mesh.ne → part.getD (A - 1) 0 = g →
        ∃ k, (A, k) ∈ b.2.logTet) ∧
      ∀ q ∈ b.2.logTet, ∀ i : Fin 4,
        (((grpOldOf pm).mesh.tetra q.1).v i, (b.1.mesh.tetra q.2).v i) ∈ b.2.logPt ∧
        (b.1.mesh.point ((b.1.mesh.tetra q.2).v i)).c =
          ((grpOldOf pm).mesh.point (((grpOldOf pm).mesh.tetra q.1).v i)).c ∧
        (b.1.mesh.point ((b.1.mesh.tetra q.2).v i)).ref =
          ((grpOldOf pm).mesh.point (((grpOldOf pm).mesh.tetra q.1).v i)).ref)
    (fun grants => startWork_srcOf _ _ _ _ _)
    (fun grpId g w w1 hf hq hu => by
      obtain ⟨a1, -, a3⟩ := splitGrp_copy (hq.setGrp g) hwf hu
      exact ⟨splitGrp_srcOf (hq.setGrp g) hu, a1, a3⟩)
    (fun i b grpId g1 w w1 _ hpost _ => hpost)
  intro g grp log hg hl
  exact h3 g grp log hg hl

/-- C7: in a run that installs the sub-groups, on a source mesh whose vertex
references lie in `1..np`, let the node communicator of the source group list
the vertex `v` once, at position `k`, with a slot `s` other than `-1`.  Then
every sub-group `g` that has an element `A` with `v` at a position `i` holds
a copy of `v`: the copy `A'` of `A` refers at position `i` to a vertex `p` of
the sub-mesh that has the coordinates and the reference of `v`, and the node
communicator of `g` has the entry `(p, s)`.  Every sub-group that holds a
copy of `v`, with local id `p`, has the entry `(p, s)` in its node
communicator and no other entry for `p`; no slot is minted for `v`, and the
global slot counter has advanced by the number of minted slots only. -/
theorem C7_preexisting_slot_reused (env : Env) (pm : PMMG_ParMesh) (t : Int) (part : List Nat)
    (hs : (PMMG_splitGrps env pm t).logInstalled = true) (hp : env.partition = some part)
    (hwf : WfVerts (grpOldOf pm).mesh) (v : Nat) (s : Int) (k : Nat)
    (hk : k < (grpOldOf pm).nitem_int_node_comm)
    (hv : (grpOldOf pm).node2int_node_comm_index1 k = v)
    (hsl : (grpOldOf pm).node2int_node_comm_index2 k = s) (hs1 : s ≠ -1)
    (honce : ∀ j, j < (grpOldOf pm).nitem_int_node_comm →
      (grpOldOf pm).node2int_node_comm_index1 j = v → j = k) :
    (∀ (g : Nat) grp log (A : Nat) (i : Fin 4),
      (PMMG_splitGrps env pm t).parmesh.listgrp[g]? = some grp →
      (PMMG_splitGrps env pm t).logGrp[g]? = some log →
      1 ≤ A → A ≤ (grpOldOf pm).mesh.ne → part.getD (A - 1) 0 = g →
      ((grpOldOf pm).mesh.tetra A).v i = v →
      ∃ A', (A, A') ∈ log.logTet ∧ (v, (grp.mesh.tetra A').v i) ∈ log.logPt ∧
        (grp.mesh.point ((grp.mesh.tetra A').v i)).c = ((grpOldOf pm).mesh.point v).c ∧
        (grp.mesh.point ((grp.mesh.tetra A').v i)).ref = ((grpOldOf pm).mesh.point v).ref ∧
        ∃ j, j < grp.nitem_int_node_comm ∧
          grp.node2int_node_comm_index1 j = (grp.mesh.tetra A').v i ∧
          grp.node2int_node_comm_index2 j = s) ∧
    (∀ (g : Nat) grp log (p : Nat), (PMMG_splitGrps env pm t).parmesh.listgrp[g]? = some grp →
      (PMMG_splitGrps env pm t).logGrp[g]? = some log → (v, p) ∈ log.logPt →
      ∃ i, i < grp.nitem_int_node_comm ∧ grp.node2int_node_comm_index1 i = p ∧
        grp.node2int_node_comm_index2 i = s ∧
        ∀ j, j < grp.nitem_int_node_comm → grp.node2int_node_comm_index1 j = p → j = i) ∧
    v ∉ (PMMG_splitGrps env pm t).logMint.map Prod.fst ∧
    (PMMG_splitGrps env pm t).parmesh.int_node_comm_nitem =
      pm.int_node_comm_nitem + (PMMG_splitGrps env pm t).logMint.length := by
  obtain ⟨hmint, hnd, hcnt, hN⟩ := splitGrps_slots hs hp hwf
  have h0 : slot0 (grpOldOf pm) v = s := by
    rw [← hv, ← hsl]
    exact slot0_listed hk (fun j hj hjv => honce j hj (hjv.trans hv))
  have hnot : ∀ s1 : Int, (v, s1) ∉ (PMMG_splitGrps env pm t).logMint := by
    intro s1 hmem
    have := (hmint _ hmem).1
    simp only at this
    rw [h0] at this
    exact hs1 this
  have hentry : ∀ (g : Nat) grp log (p : Nat),
      (PMMG_splitGrps env pm t).parmesh.listgrp[g]? = some grp →
      (PMMG_splitGrps env pm t).logGrp[g]? = some log → (v, p) ∈ log.logPt →
      ∃ i, i < grp.nitem_int_node_comm ∧ grp.node2int_node_comm_index1 i = p ∧
        grp.node2int_node_comm_index2 i = s ∧
        ∀ j, j < grp.nitem_int_node_comm → grp.node2int_node_comm_index1 j = p → j = i := by
    intro g grp log p hg hl hvp
    have hP := hN g grp log hg hl
    obtain ⟨i, hi, hi2⟩ := hP.full (v, p) hvp (by simp only; rw [h0]; exact hs1)
    simp only at hi2
    refine ⟨i, hi, hi2, ?_, fun j hj hj2 => hP.inj j i hj hi (hj2.trans hi2.symm)⟩
    obtain ⟨v1, a1, a2, a3⟩ := hP.entry i hi
    have e1 : v1 = v := by
      rw [hi2] at a1
      have := logPt_snd_inj (splitGrps_pts hs hp hwf g grp log hg hl).2 a1 hvp rfl
      exact congrArg Prod.fst this
    subst e1
    rcases a3 with a3 | a3
    · rw [← a3]; exact h0
    · exact absurd a3 (hnot _)
  refine ⟨?_, hentry, ?_, hcnt⟩
  · intro g grp log A i hg hl hA1 hA2 hAg hAv
    obtain ⟨c1, c2⟩ := splitGrps_copy hs hp hwf g grp log hg hl
    obtain ⟨A', hA'⟩ := c1 A hA1 hA2 hAg
    obtain ⟨d1, d2, d3⟩ := c2 (A, A') hA' i
    simp only at d1 d2 d3
    rw [hAv] at d1 d2 d3
    obtain ⟨j, hj, e1, e2, -⟩ := hentry g grp log _ hg hl d1
    exact ⟨A', hA', d1, d2, d3, j, hj, e1, e2⟩
  · intro hmem
    obtain ⟨q, hq, hq1⟩ := List.mem_map.mp hmem
    apply hnot q.2
    rw [← hq1]
    exact hq

set_option maxRecDepth 100000 in
/-- Witness of C7: the two glued tetrahedra, vertex 2 being listed with slot
0 in the node communicator of the source group, the slot counter being 1.
Both elements have the vertex 2 at position 1; each of the two sub-groups has
one element `(1, 2, 3, 4)`, holds the copy of the vertex 2 under the local id
2 and has the entry `(2, 0)` in its node communicator.  The slots 2 and 3 are
minted for the vertices 3 and 4 and the counter ends at 3. -/
theorem C7_preexisting_slot_reused_witness :
    (PMMG_splitGrps env2 pm2c 1).logInstalled = true ∧ WfVerts (grpOldOf pm2c).mesh ∧
    (0 < (grpOldOf pm2c).nitem_int_node_comm) ∧
    (PMMG_splitGrps env2 pm2c 1).logGrp.map (fun l => (l.logTet, l.logPt)) =
      [([(1, 1)], [(1, 1), (2, 2), (3, 3), (4, 4)]),
       ([(2, 1)], [(5, 1), (2, 2), (4, 3), (3, 4)])] ∧
    (PMMG_splitGrps env2 pm2c 1).parmesh.listgrp.map
      (fun grp => ((grp.mesh.tetra 1).v 1,
        (List.range grp.nitem_int_node_comm).map
          (fun i => (grp.node2int_node_comm_index1 i, grp.node2int_node_comm_index2 i)))) =
      [(2, [(2, 0), (3, 2), (4, 3)]), (2, [(2, 0), (3, 3), (4, 2)])] ∧
    (PMMG_splitGrps env2 pm2c 1).logMint = [(3, 2), (4, 3)] ∧
    ((∀ (g : Nat) grp log (A : Nat) (i : Fin 4),
      (PMMG_splitGrps env2 pm2c 1).parmesh.listgrp[g]? = some grp →
      (PMMG_splitGrps env2 pm2c 1).logGrp[g]? = some log →
      1 ≤ A → A ≤ (grpOldOf pm2c).mesh.ne → ([0, 1] : List Nat).getD (A - 1) 0 = g →
      ((grpOldOf pm2c).mesh.tetra A).v i = 2 →
      ∃ A', (A, A') ∈ log.logTet ∧ (2, (grp.mesh.tetra A').v i) ∈ log.logPt ∧
        (grp.mesh.point ((grp.mesh.tetra A').v i)).c = ((grpOldOf pm2c).mesh.point 2).c ∧
        (grp.mesh.point ((grp.mesh.tetra A').v i)).ref = ((grpOldOf pm2c).mesh.point 2).ref ∧
        ∃ j, j < grp.nitem_int_node_comm ∧
          grp.node2int_node_comm_index1 j = (grp.mesh.tetra A').v i ∧
          grp.node2int_node_comm_index2 j = 0) ∧
    (∀ (g : Nat) grp log (p : Nat), (PMMG_splitGrps env2 pm2c 1).parmesh.listgrp[g]? = some grp →
      (PMMG_splitGrps env2 pm2c 1).logGrp[g]? = some log → (2, p) ∈ log.logPt →
      ∃ i, i < grp.nitem_int_node_comm ∧ grp.node2int_node_comm_index1 i = p ∧
        grp.node2int_node_comm_index2 i = 0 ∧
        ∀ j, j < grp.nitem_int_node_comm → grp.node2int_node_comm_index1 j = p → j = i) ∧
    2 ∉ (PMMG_splitGrps env2 pm2c 1).logMint.map Prod.fst ∧
    (PMMG_splitGrps env2 pm2c 1).parmesh.int_node_comm_nitem =
      pm2c.int_node_comm_nitem + (PMMG_splitGrps env2 pm2c 1).logMint.length) :=
  ⟨by decide, wfVerts_pm2c, by decide, by decide, by decide, by decide,
    C7_preexisting_slot_reused env2 pm2c 1 [0, 1] (by decide) rfl wfVerts_pm2c 2 0 0
      (by decide) rfl rfl (by decide) (fun j hj _ => by
        have : j < 1 := hj
        omega)⟩

theorem MetSame.ms_refl (w : Work) : MetSame w w := rfl

theorem MetSame.ms_trans {a b c : Work} (h1 : MetSame a b) (h2 : MetSame b c) : MetSame a c :=
  Eq.trans h2 h1

theorem n2incAppend_met {w w' : Work} {i1 : Nat} {i2 : Int}
    (h : w.n2incAppend i1 i2 = .ok w') : MetSame w w' := by
  unfold Work.n2incAppend at h
  split at h
  · simp at h
  · rename_i r hr
    obtain ⟨-, a2, -⟩ := n2incAppend_some hr
    simp only [Except.ok.injEq] at h
    subst h
    exact a2

theorem n2ifcAppend_met {w w' : Work} {i1 : Nat} {i2 : Int}
    (h : w.n2ifcAppend i1 i2 = .ok w') : MetSame w w' := by
  unfold Work.n2ifcAppend at h
  split at h
  · simp at h
  · rename_i r hr
    obtain ⟨-, a2, -⟩ := n2ifcAppend_some hr
    simp only [Except.ok.injEq] at h
    subst h
    exact a2

theorem xtetraAppend_met {w w' : Work} {tet : Nat} (h : w.xtetraAppend tet = .ok w') :
    MetSame w w' := by
  unfold Work.xtetraAppend at h
  split at h
  · simp at h
  · simp only [Except.ok.injEq] at h
    subst h
    rfl

theorem xpointAppend_met {w w' : Work} {tet : Nat} {poi : Fin 4}
    (h : w.xpointAppend tet poi = .ok w') : MetSame w w' := by
  unfold Work.xpointAppend at h
  split at h
  · simp at h
  · simp only [Except.ok.injEq] at h
    subst h
    rfl

theorem copyTetra_met {tet : Nat} {w w' : Work} (h : copyTetra tet w = .ok w') :
    MetSame w w' := by
  unfold copyTetra at h
  simp only at h
  split_ifs at h
  · exact MetSame.ms_trans (b := copyTetraRec tet w) rfl (xtetraAppend_met h)
  · simp only [Except.ok.injEq] at h
    subst h
    rfl

theorem addPointComm_met {w w' : Work} (h : addPointComm w = .ok w') : MetSame w w' := by
  unfold addPointComm at h
  split_ifs at h
  · exact n2incAppend_met h
  · simp only [Except.ok.injEq] at h
    subst h
    rfl

theorem addPointXp_met {tet : Nat} {poi : Fin 4} {w w' : Work}
    (h : addPointXp tet poi w = .ok w') : MetSame w w' := by
  unfold addPointXp at h
  split_ifs at h
  · exact xpointAppend_met h
  · simp only [Except.ok.injEq] at h
    subst h
    rfl

theorem tagFaceItem_met {fac : Fin 4} {j : Fin 3} {w w' : Work}
    (h : tagFaceItem fac j w = .ok w') : MetSame w w' := by
  unfold tagFaceItem at h
  simp only [Except.ok.injEq] at h
  subst h
  rfl

theorem newFace_met {tet : Nat} {fac : Fin 4} {w w' : Work} (h : newFace tet fac w = .ok w') :
    MetSame w w' := by
  unfold newFace at h
  simp only [andThen_ok_iff] at h
  obtain ⟨w2, h2, w4, h4, h5⟩ := h
  have g2 : MetSame w w2 := by
    unfold newFaceXt at h2
    simp only at h2
    split_ifs at h2
    · exact MetSame.ms_trans (b := w.setMeshCur { w.grpCur.mesh with
        adja := upd w.grpCur.mesh.adja (adjaIdx w.tetPerGrp fac) 0 }) rfl (xtetraAppend_met h2)
    · simp only [Except.ok.injEq] at h2
      subst h2
      rfl
  have g3 : MetSame w2 (newFaceTag fac w2) := rfl
  have g4 := n2ifcAppend_met h4
  have g5 := forEach_rel (tagFaceItem fac) MetSame MetSame.ms_refl
    (fun _ _ _ a b => a.ms_trans b) _ (fun _ _ _ _ hf => tagFaceItem_met hf) _ _ h5
  exact ((g2.ms_trans g3).ms_trans g4).ms_trans g5

theorem updateAdja_met {c : Ctx} {tet : Nat} {fac : Fin 4} {w w' : Work}
    (h : updateAdja c tet fac w = .ok w') : MetSame w w' := by
  rcases updateAdja_cases h with ⟨-, rfl⟩ | ⟨-, -, hn⟩ | ⟨-, -, -, rfl⟩ | ⟨-, -, -, rfl⟩
  · rfl
  · exact newFace_met hn
  · rfl
  · rfl

theorem mintPoint_met {tet : Nat} {fac : Fin 4} {poi : Fin 3} {w w' : Work}
    (h : mintPoint tet fac poi w = .ok w') : MetSame w w' := by
  unfold mintPoint at h
  simp only at h
  split_ifs at h with h1
  · rw [andThen_ok_iff] at h
    obtain ⟨w1, h2, h3⟩ := h
    simp only [Except.ok.injEq] at h3
    subst h3
    exact MetSame.ms_trans (n2incAppend_met h2) rfl
  · simp only [Except.ok.injEq] at h
    subst h
    rfl

theorem mintFace_met {c : Ctx} {tet : Nat} {fac : Fin 4} {w w' : Work}
    (h : mintFace c tet fac w = .ok w') : MetSame w w' := by
  unfold mintFace at h
  simp only at h
  split_ifs at h with h1
  · exact forEach_rel (mintPoint tet fac) MetSame MetSame.ms_refl
      (fun _ _ _ a b => a.ms_trans b) _ (fun _ _ _ _ hf => mintPoint_met hf) _ _ h
  · simp only [Except.ok.injEq] at h
    subst h
    rfl

/-- What the first-seen branch of `addPoint` does to the field: the value of
the source vertex is copied at the new local id. -/
theorem addPoint_met {c : Ctx} {tet : Nat} {poi : Fin 4} {w w' : Work}
    (h : addPoint c tet poi w = .ok w') :
    w'.grpCur.met.size = w.grpCur.met.size ∧ w'.grpCur.met.hasM = w.grpCur.met.hasM ∧
    w'.grpCur.met.np = w.grpCur.met.np ∧ w'.grpCur.met.npi = w.grpCur.met.npi ∧
    (((w.meshOld.point ((w.meshOld.tetra tet).v poi)).flag ≠ 0 ∧ MetSame w w') ∨
     ((w.meshOld.point ((w.meshOld.tetra tet).v poi)).flag = 0 ∧
      w'.grpCur.met.m =
        if w.grpCur.met.hasM then
          copySol w.grpCur.met.m c.metOld.m w.grpCur.met.size (w.poiPerGrp + 1)
            ((w.meshOld.tetra tet).v poi)
        else w.grpCur.met.m)) := by
  unfold addPoint at h
  simp only at h
  split_ifs at h with h1
  · rw [andThen_ok_iff] at h
    obtain ⟨w1, h2, h3⟩ := h
    have e : w'.grpCur.met = (addPointRec c tet poi w).grpCur.met :=
      (addPointXp_met h3).trans (addPointComm_met h2)
    have hrec : (addPointRec c tet poi w).grpCur.met =
        if w.grpCur.met.hasM then
          { w.grpCur.met with
            m := copySol w.grpCur.met.m c.metOld.m w.grpCur.met.size (w.poiPerGrp + 1)
              ((w.meshOld.tetra tet).v poi) }
        else w.grpCur.met := by
      simp only [addPointRec, Work.setTetraCur, Work.setMeshCur]
      split_ifs <;> rfl
    rw [e, hrec]
    refine ⟨?_, ?_, ?_, ?_, Or.inr ⟨h1, ?_⟩⟩ <;> split_ifs <;> rfl
  · simp only [Except.ok.injEq] at h
    subst h
    exact ⟨rfl, rfl, rfl, rfl, Or.inl ⟨h1, rfl⟩⟩

theorem newGrp_rec {env : Env} {grpOld : PMMG_Grp} {count grpId grants : Nat}
    {g : PMMG_Grp} {grants1 : Nat}
    (h : newGrp env grpOld count grpId grants = .ok (g, grants1)) :
    g = newGrpRec env grpOld count grpId := by
  unfold newGrp at h
  split_ifs at h
  simp only [Except.ok.injEq, Prod.mk.injEq] at h
  exact h.1.symm

theorem newGrps_rec {env : Env} {grpOld : PMMG_Grp} {counts : List Nat} {grpId grants : Nat}
    {grps : List PMMG_Grp} {grants1 : Nat}
    (h : newGrps env grpOld counts grpId grants = .ok (grps, grants1)) :
    ∀ (i : Nat) g count, counts[i]? = some count → grps[i]? = some g →
      g = newGrpRec env grpOld count (grpId + i) := by
  induction counts generalizing grpId grants grps grants1 with
  | nil =>
    intro i g count hc
    simp at hc
  | cons count rest ih =>
    simp only [newGrps] at h
    split at h
    · simp at h
    · rename_i g1 gr1 h1
      split at h
      · simp at h
      · rename_i gs gr2 h2
        simp only [Except.ok.injEq, Prod.mk.injEq] at h
        obtain ⟨rfl, _⟩ := h
        intro i g cnt hc hg
        cases i with
        | zero =>
          simp only [List.getElem?_cons_zero, Option.some.injEq] at hc hg
          subst hc; subst hg
          exact newGrp_rec h1
        | succ j =>
          simp only [List.getElem?_cons_succ] at hc hg
          have := ih h2 j g cnt hc hg
          rw [this]
          congr 1
          omega

/-- From a run that installs the groups to the traversal of each group, the
group being known as the set-up leaves it. -/
theorem splitGrps_postRec {env : Env} {pm : PMMG_ParMesh} {t : Int} {part : List Nat}
    (hs : (PMMG_splitGrps env pm t).logInstalled = true) (hp : env.partition = some part)
    (Q : Work → Prop) (Post : Nat → PMMG_Grp × GrpLog → Work → Prop)
    (hQ0 : ∀ grants, Q (startWork pm (grpOldOf pm) (countPerGrp part (grpOldOf pm).mesh.ne)
      (ngrpOf pm t) grants))
    (hpass : ∀ grpId w w1, Q w →
      splitGrp env ⟨part, grpId, (grpOldOf pm).met⟩
        (countPerGrp part (grpOldOf pm).mesh.ne grpId)
        { w with grpCur := (newGrpRec env (grpOldOf pm)
          (countPerGrp part (grpOldOf pm).mesh.ne grpId) grpId) } = .ok w1 →
      Q w1 ∧ Post grpId (w1.grpCur, ⟨w1.logTet, w1.logPt⟩) w1)
    (hkeep : ∀ i b grpId g1 w w1, Q w → Post i b w →
      splitGrp env ⟨part, grpId, (grpOldOf pm).met⟩
        (countPerGrp part (grpOldOf pm).mesh.ne grpId) { w with grpCur := g1 } = .ok w1 →
      Post i b w1) :
    ∃ wf, Q wf ∧
      ∀ (g : Nat) grp log, (PMMG_splitGrps env pm t).parmesh.listgrp[g]? = some grp →
        (PMMG_splitGrps env pm t).logGrp[g]? = some log → Post g (grp, log) wf := by
  obtain ⟨part1, grps, grants, built, w, e1, e2, e3, e4, e5, e6, e7, e8, e9⟩ :=
    splitGrps_installed hs
  rw [hp] at e1
  simp only [Option.some.injEq] at e1
  subst e1
  have hrec := newGrps_rec e2
  obtain ⟨hlen, -⟩ := newGrps_fresh e2
  simp only [List.length_map, List.length_range] at hlen
  obtain ⟨hblen, hQf, hall⟩ := splitLoop_spec env part (grpOldOf pm).met
    (countPerGrp part (grpOldOf pm).mesh.ne) Q
    (fun grpId g => g = newGrpRec env (grpOldOf pm)
      (countPerGrp part (grpOldOf pm).mesh.ne grpId) grpId) Post
    (fun grpId g u u1 hf hq hu => by subst hf; exact hpass grpId u u1 hq hu)
    hkeep grps 0 _ built w
    (fun i g hg => by
      rw [Nat.zero_add]
      have hi : i < grps.length := (List.getElem?_eq_some_iff.mp hg).1
      have := hrec i g _ (by
        rw [List.getElem?_map, List.getElem?_range (by omega)]
        rfl) hg
      rw [Nat.zero_add] at this
      exact this)
    e3 (hQ0 grants)
  refine ⟨w, hQf, ?_⟩
  intro g grp log hg hl
  rw [e5, List.getElem?_map] at hg
  rw [e8, List.getElem?_map] at hl
  cases hb : built[g]? with
  | none => simp [hb] at hg
  | some b =>
    simp only [hb, Option.map_some', Option.some.injEq] at hg hl
    have := hall g b hb
    rw [Nat.zero_add] at this
    have hb1 : b = (grp, log) := by rw [← hg, ← hl]
    rw [← hb1]
    exact this

theorem FieldInv.fi_same {mo : Nat → Int} {w w' : Work} (h : FieldInv mo w)
    (hm : MetSame w w') (hl : w'.logPt = w.logPt) : FieldInv mo w' := by
  intro p hp k hk
  rw [hl] at hp
  have e : w'.grpCur.met = w.grpCur.met := hm
  rw [e] at hk ⊢
  exact h p hp k hk

theorem LogBound.lb_same {w w' : Work} (h : LogBound w) (hs : SamePt w w') : LogBound w' := by
  intro p hp
  rw [hs.log] at hp
  rw [hs.cnt]
  exact h p hp

theorem addPoint_field {c : Ctx} {tet : Nat} {poi : Fin 4} {w w' : Work}
    (hM : w.grpCur.met.hasM = true) (hF : FieldInv c.metOld.m w) (hB : LogBound w)
    (h : addPoint c tet poi w = .ok w') : FieldInv c.metOld.m w' ∧ LogBound w' := by
  obtain ⟨m1, -, -, -, mcase⟩ := addPoint_met h
  obtain ⟨-, hcase⟩ := addPoint_ok h
  rcases hcase with ⟨hf, hsp, -, -⟩ | ⟨hf, hlog, hcnt, -⟩
  · rcases mcase with ⟨-, hms⟩ | ⟨hf2, -⟩
    · exact ⟨hF.fi_same hms hsp.log, hB.lb_same hsp⟩
    · exact absurd hf2 hf
  · rcases mcase with ⟨hf2, -⟩ | ⟨-, hm⟩
    · exact absurd hf hf2
    · rw [if_pos hM] at hm
      refine ⟨?_, ?_⟩
      · intro p hp k hk
        rw [m1] at hk ⊢
        rw [hm]
        rw [hlog] at hp
        unfold copySol
        rcases List.mem_append.mp hp with hp | hp
        · have hb := hB p hp
          have h1 : (p.2 + 1) * w.grpCur.met.size ≤ (w.poiPerGrp + 1) * w.grpCur.met.size :=
            Nat.mul_le_mul_right _ (by omega)
          rw [Nat.add_mul, Nat.one_mul] at h1
          rw [if_neg (by omega)]
          exact hF p hp k hk
        · simp only [List.mem_singleton] at hp
          subst hp
          simp only
          rw [if_pos ⟨by omega, by omega⟩]
          congr 1
          omega
      · intro p hp
        rw [hlog] at hp
        rw [hcnt]
        rcases List.mem_append.mp hp with hp | hp
        · have := hB p hp
          omega
        · simp only [List.mem_singleton] at hp
          subst hp
          exact le_refl _

theorem tetStep_field {c : Ctx} {tet : Nat} {u u' : Work}
    (hM : u.grpCur.met.hasM = true) (hF : FieldInv c.metOld.m u) (hB : LogBound u)
    (h : tetStep c tet u = .ok u') :
    FieldInv c.metOld.m u' ∧ LogBound u' ∧ u'.grpCur.met.hasM = true ∧
    u'.grpCur.met.size = u.grpCur.met.size := by
  have f0 := resetFlag_frame tet u
  rcases tetStep_ok h with ⟨hne, rfl⟩ | ⟨heq, w1, w2, w3, h1, h2, h3, h4⟩
  · exact ⟨hF.fi_same rfl (f0.sp rfl).log, hB.lb_same (f0.sp rfl), hM, rfl⟩
  · have f1 := copyTetra_frame h1
    have m1 : MetSame u w1 := MetSame.ms_trans (b := resetFlag tet u) rfl (copyTetra_met h1)
    have e1 : w1.grpCur.met = u.grpCur.met := m1
    have hF1 := hF.fi_same m1 (((f0.sp rfl).sp_trans (f1.sp rfl)).log)
    have hB1 := hB.lb_same ((f0.sp rfl).sp_trans (f1.sp rfl))
    have key := forEach_inv (addPoint c tet)
      (fun x => FieldInv c.metOld.m x ∧ LogBound x ∧ x.grpCur.met.hasM = true ∧
        x.grpCur.met.size = u.grpCur.met.size)
      [0, 1, 2, 3] ?_ w1 w2 h2 ⟨hF1, hB1, by rw [e1]; exact hM, by rw [e1]⟩
    · obtain ⟨k1, k2, k3, k4⟩ := key
      have f3 := copyAdja_frame tet w2
      have f4 := forEach_frame _ _ _ (fun a u u' hu => updateAdja_frame hu) h3
      have f5 := forEach_frame _ _ _ (fun a u u' hu => mintFace_frame hu) h4
      have m4 : MetSame (copyAdja tet w2) w3 := forEach_rel (updateAdja c tet) MetSame
        MetSame.ms_refl (fun _ _ _ a b => a.ms_trans b) _ (fun _ _ _ _ hf => updateAdja_met hf)
        _ _ h3
      have m5 : MetSame w3 u' := forEach_rel (mintFace c tet) MetSame
        MetSame.ms_refl (fun _ _ _ a b => a.ms_trans b) _ (fun _ _ _ _ hf => mintFace_met hf)
        _ _ h4
      have mall : MetSame w2 u' := MetSame.ms_trans (b := copyAdja tet w2) rfl (m4.ms_trans m5)
      have sall : SamePt w2 u' := ((f3.sp rfl).sp_trans (f4.sp rfl)).sp_trans (f5.sp rfl)
      have e : u'.grpCur.met = w2.grpCur.met := mall
      exact ⟨k1.fi_same mall sall.log, k2.lb_same sall, by rw [e]; exact k3, by rw [e]; exact k4⟩
    · intro a x x' _ hI hx
      obtain ⟨i1, i2, i3, i4⟩ := hI
      obtain ⟨r1, r2⟩ := addPoint_field i3 i1 i2 hx
      obtain ⟨s1, s2, -⟩ := addPoint_met hx
      exact ⟨r1, r2, by rw [s2]; exact i3, by rw [s1]; exact i4⟩

/-- The field of one sub-group after its traversal. -/
theorem splitGrp_field {env : Env} {c : Ctx} {count : Nat} {w w' : Work}
    (hM : w.grpCur.met.hasM = true) (hO : c.metOld.hasM = true)
    (h : splitGrp env c count w = .ok w') :
    w'.grpCur.met.size = w.grpCur.met.size ∧ w'.grpCur.met.np = w'.grpCur.mesh.np ∧
    w'.grpCur.met.npi = w'.grpCur.mesh.np ∧
    ∀ p ∈ w'.logPt, ∀ k, k < w.grpCur.met.size →
      w'.grpCur.met.m (p.2 * w.grpCur.met.size + k) = c.metOld.m (p.1 * w.grpCur.met.size + k) := by
  obtain ⟨w2, h1, rfl⟩ := splitGrp_ok h
  obtain ⟨-, -, s3⟩ := passStart_frame count w
  have key := forEach_inv (tetStep c)
    (fun x => FieldInv c.metOld.m x ∧ LogBound x ∧ x.grpCur.met.hasM = true ∧
      x.grpCur.met.size = w.grpCur.met.size)
    _ ?_ _ w2 h1 ⟨fun p hp => absurd hp (List.not_mem_nil p),
      fun p hp => absurd hp (List.not_mem_nil p), by rw [s3]; exact hM, by rw [s3]⟩
  · obtain ⟨k1, -, -, k4⟩ := key
    have hnp : (passEnd env c w2).grpCur.mesh.np = w2.poiPerGrp :=
      (passEnd_mesh env c w2).np
    have hmet : (passEnd env c w2).grpCur.met =
        { w2.grpCur.met with np := w2.poiPerGrp, npi := w2.poiPerGrp } := by
      simp only [passEnd, hO, if_true]
    refine ⟨by rw [hmet]; exact k4, by rw [hmet, hnp], by rw [hmet, hnp], ?_⟩
    intro p hp k hk
    have := k1 p hp k (by rw [k4]; exact hk)
    rw [k4] at this
    rw [hmet]
    exact this
  · intro a x x' _ hI hx
    obtain ⟨i1, i2, i3, i4⟩ := hI
    obtain ⟨r1, r2, r3, r4⟩ := tetStep_field i3 i1 i2 hx
    exact ⟨r1, r2, r3, r4.trans i4⟩

theorem newGrpRec_met (env : Env) (grpOld : PMMG_Grp) (count grpId : Nat)
    (hM : grpOld.met.hasM = true) (hsz : grpOld.met.size = 1 ∨ grpOld.met.size = 6) :
    (newGrpRec env grpOld count grpId).met.hasM = true ∧
    (newGrpRec env grpOld count grpId).met.size = grpOld.met.size := by
  unfold newGrpRec
  simp only [hM, if_true]
  rcases hsz with h | h <;> simp [h]

/-- C24: in a run that installs the sub-groups, when the source group has a
field (`met->m != NULL`) of size 1 or 6, the field of every sub-group has the
same size, its vertex counts `np` and `npi` are the vertex count of the
sub-mesh, and for every source vertex `q` copied under the local id `p` the
`size` components of the field at `p` are those of the source field at
`q`. -/
theorem C24_field_copied (env : Env) (pm : PMMG_ParMesh) (t : Int) (part : List Nat)
    (hs : (PMMG_splitGrps env pm t).logInstalled = true) (hp : env.partition = some part)
    (hM : (grpOldOf pm).met.hasM = true)
    (hsz : (grpOldOf pm).met.size = 1 ∨ (grpOldOf pm).met.size = 6) :
    ∀ (g : Nat) grp log, (PMMG_splitGrps env pm t).parmesh.listgrp[g]? = some grp →
      (PMMG_splitGrps env pm t).logGrp[g]? = some log →
      grp.met.size = (grpOldOf pm).met.size ∧ grp.met.np = grp.mesh.np ∧
      grp.met.npi = grp.mesh.np ∧
      ∀ p ∈ log.logPt, ∀ k, k < (grpOldOf pm).met.size →
        grp.met.m (p.2 * (grpOldOf pm).met.size + k) =
          (grpOldOf pm).met.m (p.1 * (grpOldOf pm).met.size + k) := by
  obtain ⟨wf, -, h3⟩ := splitGrps_postRec hs hp (fun _ => True)
    (fun g b _ =>
      b.1.met.size = (grpOldOf pm).met.size ∧ b.1.met.np = b.1.mesh.np ∧
      b.1.met.npi = b.1.mesh.np ∧
      ∀ p ∈ b.2.logPt, ∀ k, k < (grpOldOf pm).met.size →
        b.1.met.m (p.2 * (grpOldOf pm).met.size + k) =
          (grpOldOf pm).met.m (p.1 * (grpOldOf pm).met.size + k))
    (fun _ => trivial)
    (fun grpId w w1 _ hu => by
      obtain ⟨n1, n2⟩ := newGrpRec_met env (grpOldOf pm)
        (countPerGrp part (grpOldOf pm).mesh.ne grpId) grpId hM hsz
      obtain ⟨a1, a2, a3, a4⟩ := splitGrp_field (c := ⟨part, grpId, (grpOldOf pm).met⟩) n1 hM hu
      refine ⟨trivial, a1.trans n2, a2, a3, ?_⟩
      intro p hp k hk
      have := a4 p hp k (by
        show k < (newGrpRec env (grpOldOf pm) _ grpId).met.size
        rw [n2]; exact hk)
      have e : ({ w with grpCur := (newGrpRec env (grpOldOf pm)
          (countPerGrp part (grpOldOf pm).mesh.ne grpId) grpId) } : Work).grpCur.met.size =
          (grpOldOf pm).met.size := n2
      rw [e] at this
      exact this)
    (fun i b grpId g1 w w1 _ hpost _ => hpost)
  intro g grp log hg hl
  exact h3 g grp log hg hl

set_option maxRecDepth 100000 in
/-- Witness of C24: the chain of three tetrahedra with a tensor field, the
middle element in a sub-group of its own.  In sub-group 1 the source
vertices 2, 5, 4, 3 get the ids 1, 2, 3, 4: the first component of the field
at these ids is `12, 30, 24, 18`, the first component at the source
vertices. -/
theorem C24_field_copied_witness :
    (PMMG_splitGrps env3 pm3m 2).logInstalled = true ∧
    (grpOldOf pm3m).met.hasM = true ∧ (grpOldOf pm3m).met.size = 6 ∧
    (PMMG_splitGrps env3 pm3m 2).logGrp.map (fun l => l.logPt) =
      [[(1, 1), (2, 2), (3, 3), (4, 4), (6, 5), (5, 6)], [(2, 1), (5, 2), (4, 3), (3, 4)]] ∧
    (PMMG_splitGrps env3 pm3m 2).parmesh.listgrp.map
      (fun grp => (grp.met.size, grp.met.np, grp.mesh.np,
        (List.range' 1 grp.mesh.np).map (fun p => grp.met.m (p * 6)))) =
      [(6, 6, 6, [6, 12, 18, 24, 36, 30]), (6, 4, 4, [12, 30, 24, 18])] ∧
    ∀ (g : Nat) grp log, (PMMG_splitGrps env3 pm3m 2).parmesh.listgrp[g]? = some grp →
      (PMMG_splitGrps env3 pm3m 2).logGrp[g]? = some log →
      grp.met.size = (grpOldOf pm3m).met.size ∧ grp.met.np = grp.mesh.np ∧
      grp.met.npi = grp.mesh.np ∧
      ∀ p ∈ log.logPt, ∀ k, k < (grpOldOf pm3m).met.size →
        grp.met.m (p.2 * (grpOldOf pm3m).met.size + k) =
          (grpOldOf pm3m).met.m (p.1 * (grpOldOf pm3m).met.size + k) :=
  ⟨by decide, rfl, rfl, by decide, by decide,
    C24_field_copied env3 pm3m 2 [0, 1, 0] (by decide) rfl rfl (Or.inr rfl)⟩

theorem XtBind.xb_same {w w' : Work} (h : XtBind w) (hT : w'.tetPerGrp = w.tetPerGrp)
    (hxt : w'.grpCur.mesh.xt = w.grpCur.mesh.xt)
    (htxt : ∀ k, (w'.grpCur.mesh.tetra k).xt = (w.grpCur.mesh.tetra k).xt) : XtBind w' := by
  refine ⟨fun k h1 h2 => ?_, fun x h1 h2 => ?_, fun k k1 a1 a2 b1 b2 hne e => ?_⟩
  · rw [htxt, hxt]; exact h.le k h1 (hT ▸ h2)
  · obtain ⟨k, c1, c2, c3⟩ := h.onto x h1 (hxt ▸ h2)
    exact ⟨k, c1, by rw [hT]; exact c2, by rw [htxt]; exact c3⟩
  · rw [htxt] at hne
    rw [htxt, htxt] at e
    exact h.inj k k1 a1 (hT ▸ a2) b1 (hT ▸ b2) hne e

/-- A record is appended and bound to the element `K`, which had none. -/
theorem XtBind.xb_bind {w w' : Work} (h : XtBind w) (K : Nat) (hK1 : 1 ≤ K)
    (hK2 : K ≤ w'.tetPerGrp) (hT : w.tetPerGrp ≤ w'.tetPerGrp)
    (hnew : ∀ k, w.tetPerGrp < k → k ≤ w'.tetPerGrp → k = K)
    (hxt : w'.grpCur.mesh.xt = w.grpCur.mesh.xt + 1)
    (hK : (w'.grpCur.mesh.tetra K).xt = w.grpCur.mesh.xt + 1)
    (hKold : K ≤ w.tetPerGrp → (w.grpCur.mesh.tetra K).xt = 0)
    (hrows : ∀ k, k ≠ K → (w'.grpCur.mesh.tetra k).xt = (w.grpCur.mesh.tetra k).xt) :
    XtBind w' := by
  have hold : ∀ k, 1 ≤ k → k ≤ w'.tetPerGrp → k ≠ K →
      k ≤ w.tetPerGrp ∧ (w'.grpCur.mesh.tetra k).xt ≤ w.grpCur.mesh.xt := by
    intro k h1 h2 hne
    have hk : k ≤ w.tetPerGrp := by
      by_contra hc
      exact hne (hnew k (by omega) h2)
    exact ⟨hk, by rw [hrows k hne]; exact h.le k h1 hk⟩
  refine ⟨fun k h1 h2 => ?_, fun x h1 h2 => ?_, fun k k1 a1 a2 b1 b2 hne e => ?_⟩
  · by_cases hk : k = K
    · subst hk; rw [hK, hxt]
    · have := (hold k h1 h2 hk).2
      omega
  · rw [hxt] at h2
    by_cases hx : x = w.grpCur.mesh.xt + 1
    · exact ⟨K, hK1, hK2, by rw [hK, hx]⟩
    · obtain ⟨k, c1, c2, c3⟩ := h.onto x h1 (by omega)
      have hkK : k ≠ K := by
        intro e
        subst e
        have := hKold c2
        omega
      exact ⟨k, c1, by omega, by rw [hrows k hkK]; exact c3⟩
  · by_cases hk : k = K
    · by_cases hk1 : k1 = K
      · rw [hk, hk1]
      · have := (hold k1 b1 b2 hk1).2
        rw [hk, hK] at e
        omega
    · by_cases hk1 : k1 = K
      · have := (hold k a1 a2 hk).2
        rw [hk1, hK] at e
        omega
      · obtain ⟨c1, -⟩ := hold k a1 a2 hk
        obtain ⟨c2, -⟩ := hold k1 b1 b2 hk1
        rw [hrows k hk] at hne e
        rw [hrows k1 hk1] at e
        exact h.inj k k1 a1 c1 b1 c2 hne e

theorem copyTetra_bind {tet : Nat} {w w' : Work} (h : XtBind w)
    (hc : copyTetra tet w = .ok w') : XtBind w' := by
  obtain ⟨hrow, hcase⟩ := copyTetra_xt hc
  obtain ⟨-, hT, -⟩ := copyTetra_tet hc
  rcases hcase with ⟨-, hsx, h0⟩ | ⟨-, hxt, -, hK⟩
  · -- no record: a new element without a record
    refine ⟨fun k h1 h2 => ?_, fun x h1 h2 => ?_, fun k k1 a1 a2 b1 b2 hne e => ?_⟩
    · by_cases hk : k = w.tetPerGrp + 1
      · rw [hk, h0]; exact Nat.zero_le _
      · rw [hrow k hk, hsx.xt]; exact h.le k h1 (by omega)
    · rw [hsx.xt] at h2
      obtain ⟨k, c1, c2, c3⟩ := h.onto x h1 h2
      exact ⟨k, c1, by omega, by rw [hrow k (by omega)]; exact c3⟩
    · have hk : k ≠ w.tetPerGrp + 1 := by
        intro e1
        rw [e1, h0] at hne
        exact hne rfl
      have hk1 : k1 ≠ w.tetPerGrp + 1 := by
        intro e1
        rw [e1, h0] at e
        exact hne e
      rw [hrow k hk] at hne e
      rw [hrow k1 hk1] at e
      exact h.inj k k1 a1 (by omega) b1 (by omega) hne e
  · exact h.xb_bind (w.tetPerGrp + 1) (by omega) (by omega) (by omega)
      (fun k h1 h2 => by omega) hxt hK (fun hle => by omega)
      (fun k hk => by rw [hrow k hk])

theorem newFaceXt_bind {tet : Nat} {fac : Fin 4} {w w' : Work} (h : XtBind w)
    (hT : 1 ≤ w.tetPerGrp) (hn : newFaceXt tet fac w = .ok w') : XtBind w' := by
  have hcnt : w'.tetPerGrp = w.tetPerGrp := ((newFaceXt_frame hn).st rfl).cnt
  unfold newFaceXt at hn
  simp only at hn
  split_ifs at hn with h1
  · obtain ⟨e1, -, e3, -⟩ := xtetraAppend_eff hn
    have e1' : w'.grpCur.mesh.xt = w.grpCur.mesh.xt + 1 := e1
    have e3' : w'.grpCur.mesh.tetra = upd w.grpCur.mesh.tetra w.tetPerGrp
        { w.tetraCur with xt := w.grpCur.mesh.xt + 1 } := e3
    have h1' : (w.grpCur.mesh.tetra w.tetPerGrp).xt = 0 := h1
    exact h.xb_bind w.tetPerGrp hT (by omega) (by omega) (fun k a b => by omega) e1'
      (by rw [e3', upd_same]) (fun _ => h1') (fun k hk => by rw [e3', upd_ne _ _ hk])
  · simp only [Except.ok.injEq] at hn
    subst hn
    exact h.xb_same rfl rfl (fun _ => rfl)

theorem newFace_bind {tet : Nat} {fac : Fin 4} {w w' : Work} (h : XtBind w)
    (hT : 1 ≤ w.tetPerGrp) (hn : newFace tet fac w = .ok w') : XtBind w' := by
  unfold newFace at hn
  simp only [andThen_ok_iff] at hn
  obtain ⟨w2, h2, w4, h4, h5⟩ := hn
  have b2 := newFaceXt_bind h hT h2
  have s3 := newFaceTag_step fac w2
  have s4 := n2ifcAppend_step h4
  have s5 : TagStep w4 w' := forEach_rel (tagFaceItem fac) TagStep
    (fun u => ⟨rfl, rfl, rfl, rfl, fun lim => TagMono.tm_refl lim u⟩)
    (fun _ _ _ a b => a.ts_trans b) _ (fun _ _ _ _ hf => tagFaceItem_step hf) _ _ h5
  have s := (s3.ts_trans s4).ts_trans s5
  exact b2.xb_same s.cnt s.xt (fun k => by rw [s.tetra])

theorem updateAdja_bind {c : Ctx} {tet : Nat} {fac : Fin 4} {w w' : Work} (h : XtBind w)
    (hT : 1 ≤ w.tetPerGrp) (hu : updateAdja c tet fac w = .ok w') : XtBind w' := by
  rcases updateAdja_cases hu with ⟨-, rfl⟩ | ⟨-, -, hn⟩ | ⟨-, -, -, rfl⟩ | ⟨-, -, -, rfl⟩
  · exact h
  · exact newFace_bind h hT hn
  · have f := linkAdja_frame fac (w.grpCur.mesh.adja (adjaIdx w.tetPerGrp fac) / 4)
      (w.grpCur.mesh.adja (adjaIdx w.tetPerGrp fac) % 4) w
    exact h.xb_same (f.st rfl).cnt (f.sx rfl).xt (fun k => by rw [f.ct rfl])
  · exact h

/-- The body of the loop over the source elements keeps the binding of the
boundary-element records. -/
theorem tetStep_bind {c : Ctx} {tet : Nat} {u u' : Work} (h : XtBind u)
    (hs : tetStep c tet u = .ok u') : XtBind u' := by
  have f0 := resetFlag_frame tet u
  have b0 : XtBind (resetFlag tet u) := h.xb_same rfl (f0.sx rfl).xt (fun k => by rw [f0.ct rfl])
  rcases tetStep_ok hs with ⟨hne, rfl⟩ | ⟨heq, w1, w2, w3, h1, h2, h3, h4⟩
  · exact b0
  · have b1 := copyTetra_bind b0 h1
    obtain ⟨-, a2, -⟩ := copyTetra_tet h1
    have f2 := forEach_frame _ _ _ (fun a u u' hu => addPoint_frame hu) h2
    have b2 : XtBind w2 := b1.xb_same (f2.st rfl).cnt (f2.sx rfl).xt
      (forEach_rel (addPoint c tet)
        (fun x x' => ∀ k, (x'.grpCur.mesh.tetra k).xt = (x.grpCur.mesh.tetra k).xt)
        (fun _ _ => rfl) (fun _ _ _ a b k => (b k).trans (a k)) _
        (fun _ _ _ _ hf => addPoint_txt hf) _ _ h2)
    have f3 := copyAdja_frame tet w2
    have b3 : XtBind (copyAdja tet w2) :=
      b2.xb_same (f3.st rfl).cnt (f3.sx rfl).xt (fun k => by rw [f3.ct rfl])
    have hT3 : 1 ≤ (copyAdja tet w2).tetPerGrp := by
      rw [(f3.st rfl).cnt, (f2.st rfl).cnt, a2]; omega
    have key := forEach_inv (updateAdja c tet)
      (fun x => XtBind x ∧ 1 ≤ x.tetPerGrp) [0, 1, 2, 3] ?_ _ w3 h3 ⟨b3, hT3⟩
    · have f5 := forEach_frame _ _ _ (fun a u u' hu => mintFace_frame hu) h4
      exact key.1.xb_same (f5.st rfl).cnt (f5.sx rfl).xt (fun k => by rw [f5.ct rfl])
    · intro a x x' _ hI hx
      exact ⟨updateAdja_bind hI.1 hI.2 hx, by
        rw [((updateAdja_frame hx).st rfl).cnt]; exact hI.2⟩

theorem passEnd_bind (env : Env) (c : Ctx) {w : Work} (h : XtBind w) :
    XtBind (passEnd env c w) := by
  have hm := passEnd_mesh env c w
  refine h.xb_same rfl ?_ (fun k => ?_)
  · rw [hm.xt]; rfl
  · rw [hm.tetra]; rfl

/-- The binding of the boundary-element records of one sub-group after its
traversal. -/
theorem splitGrp_bind {env : Env} {c : Ctx} {count : Nat} {w w' : Work}
    (hxt : w.grpCur.mesh.xt = 0) (h : splitGrp env c count w = .ok w') : XtBind w' := by
  obtain ⟨w2, h1, rfl⟩ := splitGrp_ok h
  obtain ⟨-, -, s3⟩ := passStart_frame count w
  have b0 : XtBind (passStart count w) := by
    refine ⟨fun k h1 h2 => ?_, fun x h1 h2 => ?_, fun k k1 a1 a2 b1 b2 hne e => ?_⟩
    · have : (passStart count w).tetPerGrp = 0 := rfl
      omega
    · rw [s3, hxt] at h2
      omega
    · have : (passStart count w).tetPerGrp = 0 := rfl
      omega
  exact passEnd_bind env c
    (forEach_inv (tetStep c) XtBind _ (fun a x x' _ hI hx => tetStep_bind hI hx) _ w2 h1 b0)

theorem PtXp.px_refl (w : Work) : PtXp w w := ⟨rfl, rfl, fun _ => rfl⟩

theorem PtXp.px_trans {a b c : Work} (h1 : PtXp a b) (h2 : PtXp b c) : PtXp a c :=
  ⟨h2.cnt.trans h1.cnt, h2.xp.trans h1.xp, fun k => (h2.pxp k).trans (h1.pxp k)⟩

theorem n2incAppend_pxp {w w' : Work} {i1 : Nat} {i2 : Int}
    (h : w.n2incAppend i1 i2 = .ok w') : PtXp w w' := by
  unfold Work.n2incAppend at h
  split at h
  · simp at h
  · rename_i r hr
    obtain ⟨a1, -⟩ := n2incAppend_some hr
    simp only [Except.ok.injEq] at h
    subst h
    exact ⟨rfl, by simp only [a1], fun k => by simp only [a1]⟩

theorem n2ifcAppend_pxp {w w' : Work} {i1 : Nat} {i2 : Int}
    (h : w.n2ifcAppend i1 i2 = .ok w') : PtXp w w' := by
  unfold Work.n2ifcAppend at h
  split at h
  · simp at h
  · rename_i r hr
    obtain ⟨a1, -⟩ := n2ifcAppend_some hr
    simp only [Except.ok.injEq] at h
    subst h
    exact ⟨rfl, by simp only [a1], fun k => by simp only [a1]⟩

theorem xtetraAppend_pxp {w w' : Work} {tet : Nat} (h : w.xtetraAppend tet = .ok w') :
    PtXp w w' := by
  unfold Work.xtetraAppend at h
  split at h
  · simp at h
  · rename_i m hm
    have hs := xtetraAppend_some hm
    simp only [Except.ok.injEq] at h
    subst h
    exact ⟨rfl, hs.2.2.2.2.2.2.1, fun k => by
      simp only [Work.setTetraCur, Work.setMeshCur, hs.2.2.1]⟩

theorem copyTetra_pxp {tet : Nat} {w w' : Work} (h : copyTetra tet w = .ok w') :
    PtXp w w' := by
  have h0 : PtXp w (copyTetraRec tet w) := ⟨rfl, rfl, fun _ => rfl⟩
  unfold copyTetra at h
  simp only at h
  split_ifs at h with h1
  · exact h0.px_trans (xtetraAppend_pxp h)
  · simp only [Except.ok.injEq] at h
    subst h
    exact h0

theorem tagFaceItem_pxp {fac : Fin 4} {j : Fin 3} {w w' : Work}
    (h : tagFaceItem fac j w = .ok w') : PtXp w w' := by
  unfold tagFaceItem at h
  simp only [Except.ok.injEq] at h
  subst h
  refine ⟨rfl, rfl, fun k => ?_⟩
  simp only [Work.setMeshCur, upd_apply]
  split_ifs with hk
  · subst hk; rfl
  · rfl

theorem newFace_pxp {tet : Nat} {fac : Fin 4} {w w' : Work} (h : newFace tet fac w = .ok w') :
    PtXp w w' := by
  unfold newFace at h
  simp only [andThen_ok_iff] at h
  obtain ⟨w2, h2, w4, h4, h5⟩ := h
  have g2 : PtXp w w2 := by
    unfold newFaceXt at h2
    simp only at h2
    split_ifs at h2 with h1
    · have g := xtetraAppend_pxp h2
      exact ⟨g.cnt, g.xp, g.pxp⟩
    · simp only [Except.ok.injEq] at h2
      subst h2
      exact ⟨rfl, rfl, fun _ => rfl⟩
  have g3 : PtXp w2 (newFaceTag fac w2) := ⟨rfl, rfl, fun _ => rfl⟩
  have g4 := n2ifcAppend_pxp h4
  have g5 := forEach_rel (tagFaceItem fac) PtXp PtXp.px_refl
    (fun _ _ _ a b => a.px_trans b) _ (fun _ _ _ _ hf => tagFaceItem_pxp hf) _ _ h5
  exact ((g2.px_trans g3).px_trans g4).px_trans g5

theorem updateAdja_pxp {c : Ctx} {tet : Nat} {fac : Fin 4} {w w' : Work}
    (h : updateAdja c tet fac w = .ok w') : PtXp w w' := by
  rcases updateAdja_cases h with ⟨-, rfl⟩ | ⟨-, -, hn⟩ | ⟨-, -, -, rfl⟩ | ⟨-, -, -, rfl⟩
  · exact PtXp.px_refl _
  · exact newFace_pxp hn
  · exact ⟨rfl, rfl, fun _ => rfl⟩
  · exact PtXp.px_refl _

theorem mintRec_pxp (tet : Nat) (fac : Fin 4) (poi : Fin 3) (slot : Int) (w : Work) :
    PtXp w (mintRec tet fac poi slot w) := by
  refine ⟨rfl, rfl, fun k => ?_⟩
  simp only [mintRec, Work.setMeshCur, upd_apply]
  split_ifs with hk
  · subst hk; rfl
  · rfl

theorem mintPoint_pxp {tet : Nat} {fac : Fin 4} {poi : Fin 3} {w w' : Work}
    (h : mintPoint tet fac poi w = .ok w') : PtXp w w' := by
  unfold mintPoint at h
  simp only at h
  split_ifs at h with h1
  · rw [andThen_ok_iff] at h
    obtain ⟨w1, h2, h3⟩ := h
    simp only [Except.ok.injEq] at h3
    subst h3
    exact (n2incAppend_pxp h2).px_trans (mintRec_pxp _ _ _ _ _)
  · simp only [Except.ok.injEq] at h
    subst h
    exact PtXp.px_refl _

theorem mintFace_pxp {c : Ctx} {tet : Nat} {fac : Fin 4} {w w' : Work}
    (h : mintFace c tet fac w = .ok w') : PtXp w w' := by
  unfold mintFace at h
  simp only at h
  split_ifs at h with h1
  · exact forEach_rel (mintPoint tet fac) PtXp PtXp.px_refl
      (fun _ _ _ a b => a.px_trans b) _ (fun _ _ _ _ hf => mintPoint_pxp hf) _ _ h
  · simp only [Except.ok.injEq] at h
    subst h
    exact PtXp.px_refl _

theorem passEnd_pxp (env : Env) (c : Ctx) (w : Work) : PtXp w (passEnd env c w) := by
  have hm := passEnd_mesh env c w
  refine ⟨((passEnd_frame env c w).sp rfl).cnt, ?_, fun k => ?_⟩
  · rw [hm.xp]; rfl
  · rw [hm.point]
    simp only [chainFree]
    split_ifs <;> rfl

theorem XpBind.pb_same {w w' : Work} (h : XpBind w) (s : PtXp w w') : XpBind w' := by
  refine ⟨fun k h1 h2 => ?_, fun x h1 h2 => ?_, fun k k1 a1 a2 b1 b2 hne e => ?_⟩
  · rw [s.pxp, s.xp]; exact h.le k h1 (s.cnt ▸ h2)
  · obtain ⟨k, c1, c2, c3⟩ := h.onto x h1 (s.xp ▸ h2)
    exact ⟨k, c1, by rw [s.cnt]; exact c2, by rw [s.pxp]; exact c3⟩
  · rw [s.pxp] at hne
    rw [s.pxp, s.pxp] at e
    exact h.inj k k1 a1 (s.cnt ▸ a2) b1 (s.cnt ▸ b2) hne e

/-- After one more vertex, which either has no record or the record appended
for it. -/
theorem XpBind.pb_grow {w w' : Work} (h : XpBind w) (hP : w'.poiPerGrp = w.poiPerGrp + 1)
    (hrows : ∀ k, k ≠ w.poiPerGrp + 1 →
      (w'.grpCur.mesh.point k).xp = (w.grpCur.mesh.point k).xp)
    (hcase : (w'.grpCur.mesh.xp = w.grpCur.mesh.xp ∧
        (w'.grpCur.mesh.point (w.poiPerGrp + 1)).xp = 0) ∨
      (w'.grpCur.mesh.xp = w.grpCur.mesh.xp + 1 ∧
        (w'.grpCur.mesh.point (w.poiPerGrp + 1)).xp = w.grpCur.mesh.xp + 1)) :
    XpBind w' := by
  have hold : ∀ k, 1 ≤ k → k ≤ w'.poiPerGrp → k ≠ w.poiPerGrp + 1 →
      k ≤ w.poiPerGrp ∧ (w'.grpCur.mesh.point k).xp ≤ w.grpCur.mesh.xp := by
    intro k h1 h2 hne
    have hk : k ≤ w.poiPerGrp := by omega
    exact ⟨hk, by rw [hrows k hne]; exact h.le k h1 hk⟩
  rcases hcase with ⟨hxp, h0⟩ | ⟨hxp, hK⟩
  · refine ⟨fun k h1 h2 => ?_, fun x h1 h2 => ?_, fun k k1 a1 a2 b1 b2 hne e => ?_⟩
    · by_cases hk : k = w.poiPerGrp + 1
      · rw [hk, h0]; exact Nat.zero_le _
      · rw [hxp]; exact (hold k h1 h2 hk).2
    · rw [hxp] at h2
      obtain ⟨k, c1, c2, c3⟩ := h.onto x h1 h2
      exact ⟨k, c1, by omega, by rw [hrows k (by omega)]; exact c3⟩
    · have hk : k ≠ w.poiPerGrp + 1 := by
        intro e1
        rw [e1, h0] at hne
        exact hne rfl
      have hk1 : k1 ≠ w.poiPerGrp + 1 := by
        intro e1
        rw [e1, h0] at e
        exact hne e
      rw [hrows k hk] at hne e
      rw [hrows k1 hk1] at e
      exact h.inj k k1 a1 (by omega) b1 (by omega) hne e
  · refine ⟨fun k h1 h2 => ?_, fun x h1 h2 => ?_, fun k k1 a1 a2 b1 b2 hne e => ?_⟩
    · by_cases hk : k = w.poiPerGrp + 1
      · rw [hk, hK, hxp]
      · have := (hold k h1 h2 hk).2
        omega
    · rw [hxp] at h2
      by_cases hx : x = w.grpCur.mesh.xp + 1
      · exact ⟨w.poiPerGrp + 1, by omega, by omega, by rw [hK, hx]⟩
      · obtain ⟨k, c1, c2, c3⟩ := h.onto x h1 (by omega)
        exact ⟨k, c1, by omega, by rw [hrows k (by omega)]; exact c3⟩
    · by_cases hk : k = w.poiPerGrp + 1
      · by_cases hk1 : k1 = w.poiPerGrp + 1
        · rw [hk, hk1]
        · have := (hold k1 b1 b2 hk1).2
          rw [hk, hK] at e
          omega
      · by_cases hk1 : k1 = w.poiPerGrp + 1
        · have := (hold k a1 a2 hk).2
          rw [hk1, hK] at e
          omega
        · obtain ⟨c1, -⟩ := hold k a1 a2 hk
          obtain ⟨c2, -⟩ := hold k1 b1 b2 hk1
          rw [hrows k hk] at hne e
          rw [hrows k1 hk1] at e
          exact h.inj k k1 a1 c1 b1 c2 hne e

theorem addPoint_bind {c : Ctx} {tet : Nat} {poi : Fin 4} {w w' : Work} (hb : XpBind w)
    (h : addPoint c tet poi w = .ok w') : XpBind w' := by
  unfold addPoint at h
  simp only at h
  split_ifs at h with h1
  · rw [andThen_ok_iff] at h
    obtain ⟨w1, h2, h3⟩ := h
    obtain ⟨r1, -, -, r4, -⟩ := addPointRec_fields c tet poi w
    have hxp0 : (addPointRec c tet poi w).grpCur.mesh.xp = w.grpCur.mesh.xp := by
      simp only [addPointRec, Work.setTetraCur, Work.setMeshCur]
      split_ifs <;> rfl
    have s2 : PtXp (addPointRec c tet poi w) w1 := by
      unfold addPointComm at h2
      split_ifs at h2 with hq
      · exact n2incAppend_pxp h2
      · simp only [Except.ok.injEq] at h2
        subst h2
        exact PtXp.px_refl _
    have hP : w1.poiPerGrp = w.poiPerGrp + 1 := by rw [s2.cnt, r1]
    have hxp1 : w1.grpCur.mesh.xp = w.grpCur.mesh.xp := by rw [s2.xp, hxp0]
    have hrow1 : ∀ k, k ≠ w.poiPerGrp + 1 →
        (w1.grpCur.mesh.point k).xp = (w.grpCur.mesh.point k).xp := by
      intro k hk
      rw [s2.pxp, r4, upd_ne _ _ hk]
    unfold addPointXp at h3
    split_ifs at h3 with hx
    · unfold Work.xpointAppend at h3
      split at h3
      · simp at h3
      · rename_i m hm
        obtain ⟨e1, e2, e3, -⟩ := xpointAppend_some hm
        simp only [Except.ok.injEq] at h3
        subst h3
        refine hb.pb_grow hP (fun k hk => ?_) (Or.inr ⟨?_, ?_⟩)
        · simp only [Work.setMeshCur, e3, upd_apply]
          split_ifs with hq
          · exact absurd (hq.trans hP) hk
          · exact hrow1 k hk
        · simp only [Work.setMeshCur]
          rw [e1, hxp1]
        · simp only [Work.setMeshCur, e3, upd_apply]
          split_ifs with hq
          · simp only [e1]; rw [hxp1]
          · exact absurd hP.symm hq
    · simp only [Except.ok.injEq] at h3
      subst h3
      refine hb.pb_grow hP hrow1 (Or.inl ⟨hxp1, ?_⟩)
      rw [hP] at hx
      exact not_not.mp hx
  · simp only [Except.ok.injEq] at h
    subst h
    exact hb.pb_same ⟨rfl, rfl, fun _ => rfl⟩

/-- The body of the loop over the source elements keeps the binding of the
boundary-vertex records. -/
theorem tetStep_pbind {c : Ctx} {tet : Nat} {u u' : Work} (h : XpBind u)
    (hs : tetStep c tet u = .ok u') : XpBind u' := by
  have b0 : XpBind (resetFlag tet u) := h.pb_same ⟨rfl, rfl, fun _ => rfl⟩
  rcases tetStep_ok hs with ⟨hne, rfl⟩ | ⟨heq, w1, w2, w3, h1, h2, h3, h4⟩
  · exact b0
  · have b1 := b0.pb_same (copyTetra_pxp h1)
    have b2 := forEach_inv (addPoint c tet) XpBind _
      (fun a x x' _ hI hx => addPoint_bind hI hx) _ w2 h2 b1
    have b3 : XpBind (copyAdja tet w2) := b2.pb_same ⟨rfl, rfl, fun _ => rfl⟩
    have s3 := forEach_rel (updateAdja c tet) PtXp PtXp.px_refl
      (fun _ _ _ a b => a.px_trans b) _ (fun _ _ _ _ hf => updateAdja_pxp hf) _ _ h3
    have s4 := forEach_rel (mintFace c tet) PtXp PtXp.px_refl
      (fun _ _ _ a b => a.px_trans b) _ (fun _ _ _ _ hf => mintFace_pxp hf) _ _ h4
    exact (b3.pb_same s3).pb_same s4

/-- The binding of the boundary-vertex records of one sub-group after its
traversal. -/
theorem splitGrp_pbind {env : Env} {c : Ctx} {count : Nat} {w w' : Work}
    (hxp : w.grpCur.mesh.xp = 0) (h : splitGrp env c count w = .ok w') : XpBind w' := by
  obtain ⟨w2, h1, rfl⟩ := splitGrp_ok h
  obtain ⟨-, -, s3⟩ := passStart_frame count w
  have b0 : XpBind (passStart count w) := by
    refine ⟨fun k h1 h2 => ?_, fun x h1 h2 => ?_, fun k k1 a1 a2 b1 b2 hne e => ?_⟩
    · have : (passStart count w).poiPerGrp = 0 := rfl
      omega
    · rw [s3, hxp] at h2
      omega
    · have : (passStart count w).poiPerGrp = 0 := rfl
      omega
  exact (forEach_inv (tetStep c) XpBind _ (fun a x x' _ hI hx => tetStep_pbind hI hx)
    _ w2 h1 b0).pb_same (passEnd_pxp env c w2)

/-- The counts and the bindings of the boundary records of one sub-group
after its traversal: the sub-mesh declares the elements and the vertices that
were copied. -/
theorem splitGrp_counts {env : Env} {part : List Nat} {grpId : Nat} {met : MMG5_Sol}
    {w w' : Work}
    (hne : w.grpCur.mesh.ne = countPerGrp part w.meshOld.ne grpId)
    (h : splitGrp env ⟨part, grpId, met⟩ (countPerGrp part w.meshOld.ne grpId) w = .ok w') :
    w'.grpCur.mesh.ne = w'.tetPerGrp ∧ w'.grpCur.mesh.np = w'.poiPerGrp := by
  obtain ⟨-, fs⟩ := splitGrp_frame h
  have hI := splitGrp_tets h
  constructor
  · rw [fs.ne, hne, countPerGrp_eq]
    have h1 := congrArg List.length hI.keys
    have h2 := congrArg List.length hI.vals
    rw [List.length_map] at h1 h2
    rw [List.length_range'] at h2
    have e := filter_range'_shift (fun t => decide (part.getD t 0 = grpId)) w.meshOld.ne
    simp only [Ctx.partAt] at h1
    rw [e, List.length_map] at h1
    omega
  · obtain ⟨w2, -, rfl⟩ := splitGrp_ok h
    rw [(passEnd_mesh env _ w2).np]
    exact ((passEnd_frame env _ w2).sp rfl).cnt.symm

/-- C25: in a run that installs the sub-groups, in every sub-mesh the `xt`
field of each element `1 .. ne` is at most `xt`, every boundary-element
record index in `1 .. xt` is the `xt` field of exactly one element, the `xp`
field of each vertex `1 .. np` is at most `xp`, and every boundary-vertex
record index in `1 .. xp` is the `xp` field of exactly one vertex. -/
theorem C25_boundary_records_bound (env : Env) (pm : PMMG_ParMesh) (t : Int) (part : List Nat)
    (hs : (PMMG_splitGrps env pm t).logInstalled = true) (hp : env.partition = some part) :
    ∀ (g : Nat) grp, (PMMG_splitGrps env pm t).parmesh.listgrp[g]? = some grp →
      (∀ k, 1 ≤ k → k ≤ grp.mesh.ne → (grp.mesh.tetra k).xt ≤ grp.mesh.xt) ∧
      (∀ x, 1 ≤ x → x ≤ grp.mesh.xt →
        ∃! k, (1 ≤ k ∧ k ≤ grp.mesh.ne) ∧ (grp.mesh.tetra k).xt = x) ∧
      (∀ p, 1 ≤ p → p ≤ grp.mesh.np → (grp.mesh.point p).xp ≤ grp.mesh.xp) ∧
      (∀ x, 1 ≤ x → x ≤ grp.mesh.xp →
        ∃! p, (1 ≤ p ∧ p ≤ grp.mesh.np) ∧ (grp.mesh.point p).xp = x) := by
  obtain ⟨wf, -, -, -, h1, h2, h3⟩ := splitGrps_post hs hp
    (fun w => w.meshOld.ne = (grpOldOf pm).mesh.ne)
    (fun g b _ =>
      (∀ k, 1 ≤ k → k ≤ b.1.mesh.ne → (b.1.mesh.tetra k).xt ≤ b.1.mesh.xt) ∧
      (∀ x, 1 ≤ x → x ≤ b.1.mesh.xt →
        ∃! k, (1 ≤ k ∧ k ≤ b.1.mesh.ne) ∧ (b.1.mesh.tetra k).xt = x) ∧
      (∀ p, 1 ≤ p → p ≤ b.1.mesh.np → (b.1.mesh.point p).xp ≤ b.1.mesh.xp) ∧
      (∀ x, 1 ≤ x → x ≤ b.1.mesh.xp →
        ∃! p, (1 ≤ p ∧ p ≤ b.1.mesh.np) ∧ (b.1.mesh.point p).xp = x))
    (fun grants => startWork_ne _ _ _ _ _)
    (fun grpId g w w1 hf hq hu => by
      obtain ⟨fo, -⟩ := splitGrp_frame hu
      have hq' : ({ w with grpCur := g } : Work).meshOld.ne = (grpOldOf pm).mesh.ne := hq
      rw [← hq'] at hu
      obtain ⟨c1, c2⟩ := splitGrp_counts (by rw [hq']; exact hf.ne) hu
      have bt := splitGrp_bind hf.xt hu
      have bp := splitGrp_pbind hf.xp hu
      refine ⟨fo.ne.trans hq, ?_, ?_, ?_, ?_⟩
      · intro k a1 a2
        exact bt.le k a1 (c1 ▸ a2)
      · intro x a1 a2
        obtain ⟨k, b1, b2, b3⟩ := bt.onto x a1 a2
        refine ⟨k, ⟨⟨b1, by simp only; omega⟩, b3⟩, ?_⟩
        rintro k1 ⟨⟨d1, d2⟩, d3⟩
        simp only at d2 d3
        exact (bt.inj k k1 b1 b2 d1 (by omega) (by omega) (b3.trans d3.symm)).symm
      · intro p a1 a2
        exact bp.le p a1 (c2 ▸ a2)
      · intro x a1 a2
        obtain ⟨k, b1, b2, b3⟩ := bp.onto x a1 a2
        refine ⟨k, ⟨⟨b1, by simp only; omega⟩, b3⟩, ?_⟩
        rintro k1 ⟨⟨d1, d2⟩, d3⟩
        simp only at d2 d3
        exact (bp.inj k k1 b1 b2 d1 (by omega) (by omega) (b3.trans d3.symm)).symm)
    (fun i b grpId g1 w w1 _ hpost _ => hpost)
  intro g grp hg
  have hi : g < (PMMG_splitGrps env pm t).logGrp.length := by
    rw [h2, ← h1]
    exact (List.getElem?_eq_some_iff.mp hg).1
  exact h3 g grp _ hg (List.getElem?_eq_getElem hi)

set_option maxRecDepth 100000 in
/-- Witness of C25: the chain of three tetrahedra with boundary records, the
middle one in a sub-group of its own.  Sub-group 0 has two elements with the
records 1 and 2 and six vertices of which the first and the fifth have the
records 1 and 2; sub-group 1 has one element with the record 1 and no
boundary-vertex record. -/
theorem C25_boundary_records_bound_witness :
    (PMMG_splitGrps env3 pm3b 2).logInstalled = true ∧
    (PMMG_splitGrps env3 pm3b 2).parmesh.listgrp.map
      (fun grp => (grp.mesh.xt, (List.range' 1 grp.mesh.ne).map (fun k => (grp.mesh.tetra k).xt),
        grp.mesh.xp, (List.range' 1 grp.mesh.np).map (fun p => (grp.mesh.point p).xp))) =
      [(2, [1, 2], 2, [1, 0, 0, 0, 2, 0]), (1, [1], 0, [0, 0, 0, 0])] ∧
    ∀ (g : Nat) grp, (PMMG_splitGrps env3 pm3b 2).parmesh.listgrp[g]? = some grp →
      (∀ k, 1 ≤ k → k ≤ grp.mesh.ne → (grp.mesh.tetra k).xt ≤ grp.mesh.xt) ∧
      (∀ x, 1 ≤ x → x ≤ grp.mesh.xt →
        ∃! k, (1 ≤ k ∧ k ≤ grp.mesh.ne) ∧ (grp.mesh.tetra k).xt = x) ∧
      (∀ p, 1 ≤ p → p ≤ grp.mesh.np → (grp.mesh.point p).xp ≤ grp.mesh.xp) ∧
      (∀ x, 1 ≤ x → x ≤ grp.mesh.xp →
        ∃! p, (1 ≤ p ∧ p ≤ grp.mesh.np) ∧ (grp.mesh.point p).xp = x) :=
  ⟨by decide, by decide, C25_boundary_records_bound env3 pm3b 2 [0, 1, 0] (by decide) rfl⟩

theorem Mid.md_same {c : Ctx} {m0 : MMG5_Mesh} {tet : Nat} {u w w' : Work}
    (h : Mid c m0 tet u w) (hcnt : w'.tetPerGrp = w.tetPerGrp)
    (hxt : w'.grpCur.mesh.xt = w.grpCur.mesh.xt)
    (htet : ∀ k, k ≠ w.tetPerGrp → w'.grpCur.mesh.tetra k = w.grpCur.mesh.tetra k)
    (hcur : w'.tetraCur.xt = w.tetraCur.xt)
    (hrec : ∀ x, (w'.grpCur.mesh.xtetra x).ftag = (w.grpCur.mesh.xtetra x).ftag ∧
      (w'.grpCur.mesh.xtetra x).ref = (w.grpCur.mesh.xtetra x).ref) :
    Mid c m0 tet u w' := by
  refine ⟨hcnt.trans h.cnt, by rw [hxt]; exact h.xt, fun k hk => ?_, fun x hx => ?_, fun hne => ?_⟩
  · rw [htet k (by rw [h.cnt]; omega)]
    exact h.old_tet k hk
  · rw [(hrec x).1, (hrec x).2]
    exact h.old_rec x hx
  · rw [hcur] at hne ⊢
    obtain ⟨a1, a2, a3⟩ := h.cur hne
    refine ⟨a1, a2, fun f hf => ?_⟩
    obtain ⟨b1, b2⟩ := a3 f hf
    exact ⟨by rw [(hrec _).1]; exact b1, by rw [(hrec _).2]; exact b2⟩

/-- A step that leaves the element table and the boundary-element table of
the mesh under construction alone. -/
theorem Mid.md_frame {c : Ctx} {m0 : MMG5_Mesh} {tet : Nat} {u w w' : Work}
    (h : Mid c m0 tet u w) (hst : SameTet w w') (hsx : SameXt w w')
    (hct : w'.grpCur.mesh.tetra = w.grpCur.mesh.tetra) : Mid c m0 tet u w' :=
  h.md_same hst.cnt hsx.xt (fun k _ => by rw [hct])
    (by show (w'.grpCur.mesh.tetra w'.tetPerGrp).xt = (w.grpCur.mesh.tetra w.tetPerGrp).xt
        rw [hct, hst.cnt])
    (fun x => by rw [hsx.xtetra]; exact ⟨rfl, rfl⟩)

/-- The record appended for an interface face of an element that had no
record. -/
theorem Mid.md_append {c : Ctx} {m0 : MMG5_Mesh} {tet : Nat} {fac : Fin 4} {u w w' : Work}
    (h : Mid c m0 tet u w) (happ : w.xtetraAppend tet = .ok w')
    (hx : w.meshOld.xtetra = m0.xtetra) (ht : (w.meshOld.tetra tet).xt = (m0.tetra tet).xt)
    (hcross : crossFace m0 c.part c.grpId tet fac = true) : Mid c m0 tet u w' := by
  obtain ⟨e1, e2, e3, -⟩ := xtetraAppend_eff happ
  have hcnt : w'.tetPerGrp = w.tetPerGrp := ((xtetraAppend_frame happ).st rfl).cnt
  have hxt := h.xt
  have hcur : w'.tetraCur.xt = w.grpCur.mesh.xt + 1 := by
    show (w'.grpCur.mesh.tetra w'.tetPerGrp).xt = _
    rw [e3, hcnt, upd_same]
  refine ⟨hcnt.trans h.cnt, by omega, fun k hk => ?_, fun x hx => ?_, fun _ => ?_⟩
  · rw [e3, upd_ne _ _ (by rw [h.cnt]; omega)]
    exact h.old_tet k hk
  · rw [e2, upd_ne _ _ (by omega)]
    exact h.old_rec x hx
  · rw [hcur]
    refine ⟨by omega, Or.inr ⟨fac, hcross⟩, fun f _ => ?_⟩
    rw [e2, upd_same, hx, ht]
    exact ⟨rfl, rfl⟩

/-- The reference and the tag written on an interface face. -/
theorem Mid.md_face {c : Ctx} {m0 : MMG5_Mesh} {tet : Nat} {fac : Fin 4} {u w : Work}
    (h : Mid c m0 tet u w) (hne : w.tetraCur.xt ≠ 0)
    (hcross : crossFace m0 c.part c.grpId tet fac = true) :
    Mid c m0 tet u (newFaceTag fac w) := by
  have hx : (newFaceTag fac w).grpCur.mesh.xtetra = upd w.grpCur.mesh.xtetra w.tetraCur.xt
      { w.grpCur.mesh.xtetra w.tetraCur.xt with
        ref := upd (w.grpCur.mesh.xtetra w.tetraCur.xt).ref fac 0
        ftag := upd (w.grpCur.mesh.xtetra w.tetraCur.xt).ftag fac
          ((w.grpCur.mesh.xtetra w.tetraCur.xt).ftag fac ||| parbdyMask) } := rfl
  obtain ⟨a1, a2, a3⟩ := h.cur hne
  refine ⟨h.cnt, h.xt, h.old_tet, fun x hxle => ?_, fun _ => ⟨a1, a2, fun f hf => ?_⟩⟩
  · rw [hx, upd_ne _ _ (by omega)]
    exact h.old_rec x hxle
  · have hfne : f ≠ fac := by
      intro e
      rw [e, hcross] at hf
      exact absurd hf (by decide)
    obtain ⟨b1, b2⟩ := a3 f hf
    have e : (newFaceTag fac w).tetraCur = w.tetraCur := rfl
    rw [e, hx, upd_same]
    exact ⟨by simp only [upd_ne _ _ hfne]; exact b1, by simp only [upd_ne _ _ hfne]; exact b2⟩

theorem tagFaceItem_face {fac : Fin 4} {j : Fin 3} {w w' : Work}
    (h : tagFaceItem fac j w = .ok w') :
    ∀ x, (w'.grpCur.mesh.xtetra x).ftag = (w.grpCur.mesh.xtetra x).ftag ∧
      (w'.grpCur.mesh.xtetra x).ref = (w.grpCur.mesh.xtetra x).ref := by
  unfold tagFaceItem at h
  simp only [Except.ok.injEq] at h
  subst h
  intro x
  simp only [Work.setMeshCur, upd_apply]
  split_ifs with hk
  · subst hk; exact ⟨rfl, rfl⟩
  · exact ⟨rfl, rfl⟩

theorem tagFaceItem_keep {c : Ctx} {m0 : MMG5_Mesh} {tet : Nat} {fac : Fin 4} {j : Fin 3}
    {u w w' : Work} (hM : Mid c m0 tet u w) (h : tagFaceItem fac j w = .ok w') :
    Mid c m0 tet u w' := by
  have s := tagFaceItem_step h
  exact hM.md_same s.cnt s.xt (fun k _ => by rw [s.tetra]) (by rw [s.ts_cur])
    (tagFaceItem_face h)

/-- The branch of a new interface face. -/
theorem newFace_keep {c : Ctx} {m0 : MMG5_Mesh} {tet : Nat} {fac : Fin 4} {u w w' : Work}
    (hM : Mid c m0 tet u w) (hx : w.meshOld.xtetra = m0.xtetra)
    (ht : (w.meshOld.tetra tet).xt = (m0.tetra tet).xt)
    (hcross : crossFace m0 c.part c.grpId tet fac = true)
    (h : newFace tet fac w = .ok w') : Mid c m0 tet u w' := by
  unfold newFace at h
  simp only [andThen_ok_iff] at h
  obtain ⟨w2, h2, w4, h4, h5⟩ := h
  obtain ⟨-, x2, -, -⟩ := newFaceXt_eff h2
  have M2 : Mid c m0 tet u w2 := by
    unfold newFaceXt at h2
    simp only at h2
    have M1 : Mid c m0 tet u (w.setMeshCur { w.grpCur.mesh with
        adja := upd w.grpCur.mesh.adja (adjaIdx w.tetPerGrp fac) 0 }) :=
      hM.md_same rfl rfl (fun _ _ => rfl) rfl (fun _ => ⟨rfl, rfl⟩)
    split_ifs at h2 with h1
    · exact M1.md_append h2 hx ht hcross
    · simp only [Except.ok.injEq] at h2
      subst h2
      exact M1
  have M3 := M2.md_face x2 hcross
  have f4 := n2ifcAppend_frame h4
  have M4 := M3.md_frame (f4.st rfl) (f4.sx rfl) (f4.ct rfl)
  exact forEach_inv (tagFaceItem fac) (Mid c m0 tet u) _
    (fun a x x' _ hI hf => tagFaceItem_keep hI hf) _ _ h5 M4

/-- The loop over the faces of the element under construction. -/
theorem faceLoop_keep {c : Ctx} {m : MMG5_Mesh} {tet : Nat} {keys0 : List Nat}
    {u w w' : Work} (hF : FaceInv keys0 w)
    (hpend : ∀ f, w.grpCur.mesh.adja (adjaIdx w.tetPerGrp f) = m.adja (adjaIdx tet f))
    (hflag : FlagInv c tet w) (hT : 1 ≤ w.tetPerGrp)
    (hvalid : ∀ f : Fin 4, m.adja (adjaIdx tet f) ≠ 0 → 1 ≤ m.adja (adjaIdx tet f) / 4)
    (hx : w.meshOld.xtetra = m.xtetra) (ht : (w.meshOld.tetra tet).xt = (m.tetra tet).xt)
    (hM : Mid c m tet u w)
    (h : forEach (updateAdja c tet) [0, 1, 2, 3] w = .ok w') : Mid c m tet u w' := by
  have key := forEach_prefix_inv (updateAdja c tet)
    (fun done x => FaceLoopInv c m tet keys0 done x ∧ SameTet w x ∧ OldStatic w x ∧
      Mid c m tet u x)
    [0, 1, 2, 3] ?_ w w' h ⟨⟨fun f _ => hpend f, by simpa using hF.keys, hF.slots⟩,
      SameTet.st_refl w, OldStatic.os_refl w, hM⟩
  · exact key.2.2.2
  · intro done a x x' hsplit hI hu
    obtain ⟨post, hpost⟩ := hsplit
    have hnd : (done ++ a :: post).Nodup := by rw [← hpost]; decide
    have ha : a ∉ done := fun hmem =>
      (List.nodup_append.mp hnd).2.2 hmem (List.mem_cons_self _ _)
    obtain ⟨i1, i2, i3, i4⟩ := hI
    have hL := updateAdja_FaceLoopInv i1 ha (hflag.of_sameTet i2) (by rw [i2.cnt]; exact hT)
      hvalid hu
    have fu := updateAdja_frame hu
    have hcode := i1.pending a ha
    refine ⟨hL, i2.st_trans (fu.st rfl), i3.os_trans (fu.os rfl), ?_⟩
    rcases updateAdja_cases hu with ⟨h0, rfl⟩ | ⟨h0, hp, hn⟩ | ⟨h0, hp, hlt, rfl⟩ |
      ⟨h0, hp, hlt, rfl⟩
    · exact i4
    · have hcross : crossFace m c.part c.grpId tet a = true := by
        rw [hcode] at h0 hp
        simp only [crossFace, decide_eq_true_eq]
        exact ⟨h0, hp⟩
      exact newFace_keep i4 (by rw [i3.xtetra, hx]) (by rw [i3.txt, ht]) hcross hn
    · have f := linkAdja_frame a (x.grpCur.mesh.adja (adjaIdx x.tetPerGrp a) / 4)
        (x.grpCur.mesh.adja (adjaIdx x.tetPerGrp a) % 4) x
      exact i4.md_frame (f.st rfl) (f.sx rfl) (f.ct rfl)
    · exact i4

/-- The state after the copy of the element `tet`. -/
theorem copyTetra_keep {c : Ctx} {m0 : MMG5_Mesh} {tet : Nat} {u w1 : Work}
    (hx : u.meshOld.xtetra = m0.xtetra) (ht : (u.meshOld.tetra tet).xt = (m0.tetra tet).xt)
    (h1 : copyTetra tet (resetFlag tet u) = .ok w1) : Mid c m0 tet u w1 := by
  obtain ⟨hrow, hcase⟩ := copyTetra_xt h1
  obtain ⟨-, hT, -⟩ := copyTetra_tet h1
  have f0 := (resetFlag_frame tet u).os rfl
  have c0 : (resetFlag tet u).tetPerGrp = u.tetPerGrp := rfl
  have g0 : (resetFlag tet u).grpCur = u.grpCur := rfl
  rw [c0] at hrow hcase hT
  rw [g0] at hrow hcase
  rw [f0.txt, f0.xtetra, hx, ht] at hcase
  have hcur : w1.tetraCur = w1.grpCur.mesh.tetra (u.tetPerGrp + 1) := by
    show w1.grpCur.mesh.tetra w1.tetPerGrp = _
    rw [hT]
  rcases hcase with ⟨-, hsx, h0⟩ | ⟨hne, hxt, hxtet, hK⟩
  · refine ⟨hT, le_of_eq hsx.xt.symm, fun k hk => hrow k (by omega),
      fun x _ => by rw [hsx.xtetra]; exact ⟨rfl, rfl⟩, fun hc => ?_⟩
    rw [hcur, h0] at hc
    exact absurd rfl hc
  · refine ⟨hT, by omega, fun k hk => hrow k (by omega),
      fun x hxle => by rw [hxtet, upd_ne _ _ (by omega)]; exact ⟨rfl, rfl⟩, fun _ => ?_⟩
    rw [hcur, hK]
    refine ⟨by omega, Or.inl hne, fun f _ => ?_⟩
    rw [hxtet, upd_same]
    exact ⟨rfl, rfl⟩

/-- The body of the loop over the source elements keeps, in every record of
a copy, the faces that are not interface faces. -/
theorem tetStep_keep {c : Ctx} {m0 : MMG5_Mesh} {pre : List Nat} {tet : Nat}
    {keys0 : List Nat} {u u' : Work}
    (hF : FaceInv keys0 u) (hpre : ∀ B, 1 ≤ B → B < tet → B ∈ pre) (hI : TetInv c pre u)
    (hsrc : SrcOf m0 u)
    (hvalid : ∀ f : Fin 4, m0.adja (adjaIdx tet f) ≠ 0 → 1 ≤ m0.adja (adjaIdx tet f) / 4)
    (hB : XtBind u) (hJ : FaceKeep c m0 u) (h : tetStep c tet u = .ok u') :
    FaceKeep c m0 u' := by
  have hq2 : ∀ q ∈ u.logTet, 1 ≤ q.2 ∧ q.2 ≤ u.tetPerGrp := by
    intro q hq
    have : q.2 ∈ u.logTet.map Prod.snd := List.mem_map_of_mem _ hq
    rw [hI.vals, List.mem_range'_1] at this
    omega
  rcases tetStep_ok h with ⟨hne, rfl⟩ | ⟨heq, w1, w2, w3, h1, h2, h3, h4⟩
  · exact hJ
  · obtain ⟨hflag, hT⟩ := flagInv_after_copy hpre hI h1
    obtain ⟨a1, a2, -⟩ := copyTetra_tet h1
    have c0 : (resetFlag tet u).tetPerGrp = u.tetPerGrp := rfl
    have l0 : (resetFlag tet u).logTet = u.logTet := rfl
    rw [c0] at a2
    rw [c0, l0] at a1
    have f0 := resetFlag_frame tet u
    have f1 := copyTetra_frame h1
    have f2 := forEach_frame _ _ _ (fun a u u' hu => addPoint_frame hu) h2
    have f3 := copyAdja_frame tet w2
    have f4 := forEach_frame _ _ _ (fun a u u' hu => updateAdja_frame hu) h3
    have f5 := forEach_frame _ _ _ (fun a u u' hu => mintFace_frame hu) h4
    have M1 : Mid c m0 tet u w1 := copyTetra_keep hsrc.xtetra (hsrc.txt tet) h1
    have M2 : Mid c m0 tet u w2 :=
      forEach_inv (addPoint c tet) (Mid c m0 tet u) _
        (fun a x x' _ hM hx => by
          have fx := addPoint_frame hx
          obtain ⟨htet, -⟩ := addPoint_ok hx
          refine hM.md_same (fx.st rfl).cnt (fx.sx rfl).xt
            (fun k hk => by rw [htet, upd_ne _ _ hk]) ?_
            (fun y => by rw [(fx.sx rfl).xtetra]; exact ⟨rfl, rfl⟩)
          show (x'.grpCur.mesh.tetra x'.tetPerGrp).xt = (x.grpCur.mesh.tetra x.tetPerGrp).xt
          rw [(fx.st rfl).cnt]
          exact addPoint_txt hx _) _ _ h2 M1
    have M3 : Mid c m0 tet u (copyAdja tet w2) := M2.md_frame (f3.st rfl) (f3.sx rfl) (f3.ct rfl)
    have st2 := (f2.st rfl).st_trans (f3.st rfl)
    have hF2 : FaceInv keys0 (copyAdja tet w2) :=
      hF.of_sameFace ((((f0.sf rfl).sf_trans (f1.sf rfl)).sf_trans (f2.sf rfl)).sf_trans
        (f3.sf rfl))
    have hT2 : 1 ≤ w2.tetPerGrp := by rw [(f2.st rfl).cnt]; exact hT
    have os3 := (((f0.os rfl).os_trans (f1.os rfl)).os_trans (f2.os rfl)).os_trans (f3.os rfl)
    have hold : w2.meshOld.adja = m0.adja := by
      rw [(f2.os rfl).adja, (f1.os rfl).adja, (f0.os rfl).adja, hsrc.adja]
    have M4 := faceLoop_keep (m := m0) hF2
      (fun f => by rw [copyAdja_pending tet w2 hT2 f, hold])
      (hflag.of_sameTet st2) (by rw [st2.cnt]; exact hT) hvalid
      (by rw [os3.xtetra, hsrc.xtetra]) (by rw [os3.txt, hsrc.txt]) M3 h3
    have M5 : Mid c m0 tet u u' := M4.md_frame (f5.st rfl) (f5.sx rfl) (f5.ct rfl)
    have hlog : u'.logTet = u.logTet ++ [(tet, u.tetPerGrp + 1)] := by
      rw [(f5.st rfl).log, (f4.st rfl).log, (f3.st rfl).log, (f2.st rfl).log, a1]
    intro q hq hne
    rw [hlog] at hq
    rcases List.mem_append.mp hq with hq' | hq'
    · obtain ⟨b1, b2⟩ := hq2 q hq'
      have e1 := M5.old_tet q.2 b2
      have hle := hB.le q.2 b1 b2
      rw [e1] at hne ⊢
      obtain ⟨d1, d2⟩ := hJ q hq' hne
      refine ⟨d1, fun f hf => ?_⟩
      obtain ⟨r1, r2⟩ := M5.old_rec _ hle
      obtain ⟨g1, g2⟩ := d2 f hf
      exact ⟨by rw [r1]; exact g1, by rw [r2]; exact g2⟩
    · simp only [List.mem_singleton] at hq'
      subst hq'
      have e : u'.grpCur.mesh.tetra (u.tetPerGrp + 1) = u'.tetraCur := by
        show _ = u'.grpCur.mesh.tetra u'.tetPerGrp
        rw [M5.cnt]
      simp only at hne ⊢
      rw [e] at hne ⊢
      obtain ⟨-, d1, d2⟩ := M5.cur hne
      exact ⟨d1, d2⟩

/-- After the traversal of sub-group `g`: the copies are copies of elements
assigned to `g`, and their records keep the faces that are not interface
faces. -/
theorem splitGrp_keep {env : Env} {part : List Nat} {g : Nat} {met : MMG5_Sol} {count : Nat}
    {m0 : MMG5_Mesh} {w w' : Work} (hsrc : SrcOf m0 w) (hvalid : ValidAdja m0)
    (hfresh : w.grpCur.nitem_int_face_comm = 0) (hxt : w.grpCur.mesh.xt = 0)
    (h : splitGrp env ⟨part, g, met⟩ count w = .ok w') :
    (∀ A, 1 ≤ A → A ≤ m0.ne → part.getD (A - 1) 0 = g → ∃ k, (A, k) ∈ w'.logTet) ∧
    (∀ q ∈ w'.logTet, 1 ≤ q.1 ∧ q.1 ≤ m0.ne) ∧ FaceKeep ⟨part, g, met⟩ m0 w' := by
  have hI' := splitGrp_tets h
  obtain ⟨w2, h1, rfl⟩ := splitGrp_ok h
  obtain ⟨s1, -, s3⟩ := passStart_frame count w
  have hsrc1 := hsrc.of_oldStatic s1
  have b0 : XtBind (passStart count w) := by
    refine ⟨fun k h1 h2 => ?_, fun x h1 h2 => ?_, fun k k1 a1 a2 b1 b2 hne e => ?_⟩
    · have : (passStart count w).tetPerGrp = 0 := rfl
      omega
    · rw [s3, hxt] at h2
      omega
    · have : (passStart count w).tetPerGrp = 0 := rfl
      omega
  have key := tetLoop_inv (c := ⟨part, g, met⟩) (n := w.meshOld.ne)
    (fun _ u => (∃ keys, FaceInv keys u) ∧ XtBind u ∧ FaceKeep ⟨part, g, met⟩ m0 u)
    ?_ h1 rfl rfl ?_
  · obtain ⟨⟨-, -, hJ⟩, -, -⟩ := key
    have hm := passEnd_mesh env ⟨part, g, met⟩ w2
    have et : (passEnd env ⟨part, g, met⟩ w2).grpCur.mesh.tetra = w2.grpCur.mesh.tetra := hm.tetra
    refine ⟨fun A hA1 hA2 hAg => ?_, fun q hq => ?_, fun q hq hne => ?_⟩
    · have hmem : A ∈ (passEnd env ⟨part, g, met⟩ w2).logTet.map Prod.fst := by
        rw [hI'.keys, List.mem_filter, List.mem_range'_1]
        refine ⟨⟨hA1, by rw [hsrc.ne]; omega⟩, ?_⟩
        have e : (⟨part, g, met⟩ : Ctx).partAt (A - 1) = g := hAg
        exact decide_eq_true e
      obtain ⟨p, hp, hp1⟩ := List.mem_map.mp hmem
      exact ⟨p.2, by rw [← hp1]; exact hp⟩
    · have : q.1 ∈ (passEnd env ⟨part, g, met⟩ w2).logTet.map Prod.fst :=
        List.mem_map_of_mem _ hq
      rw [hI'.keys, List.mem_filter, List.mem_range'_1, hsrc.ne] at this
      omega
    · have hq' : q ∈ w2.logTet := hq
      rw [et] at hne ⊢
      obtain ⟨d1, d2⟩ := hJ q hq' hne
      refine ⟨d1, fun f hf => ?_⟩
      obtain ⟨g1, g2⟩ := d2 f hf
      have e1 : ((passEnd env ⟨part, g, met⟩ w2).grpCur.mesh.xtetra
          (w2.grpCur.mesh.tetra q.2).xt).ftag =
          (w2.grpCur.mesh.xtetra (w2.grpCur.mesh.tetra q.2).xt).ftag := hm.ftag _
      have e2 : ((passEnd env ⟨part, g, met⟩ w2).grpCur.mesh.xtetra
          (w2.grpCur.mesh.tetra q.2).xt).ref =
          (w2.grpCur.mesh.xtetra (w2.grpCur.mesh.tetra q.2).xt).ref := hm.ref _
      exact ⟨by rw [e1]; exact g1, by rw [e2]; exact g2⟩
  · intro pre tet u u' hnew hpre ht1 ht2 hI hos hJ hu
    obtain ⟨⟨keys, hF⟩, hB, hK⟩ := hJ
    have hsrcu := hsrc1.of_oldStatic hos
    have hv : ∀ f : Fin 4, m0.adja (adjaIdx tet f) ≠ 0 → 1 ≤ m0.adja (adjaIdx tet f) / 4 :=
      fun f hf => (hvalid tet ht1 (by rw [← hsrc.ne]; exact ht2) f hf).1
    exact ⟨⟨_, tetStep_FaceInv (m := m0) hF hpre hI hsrcu.adja hv hu⟩, tetStep_bind hB hu,
      tetStep_keep hF hpre hI hsrcu hv hB hK hu⟩
  · refine ⟨⟨[], ?_, ?_⟩, b0, ?_⟩
    · rw [s3, hfresh]; rfl
    · intro i hi
      rw [s3, hfresh] at hi
      omega
    · intro q hq
      exact absurd hq (List.not_mem_nil q)

/-- The code of a face without neighbour is not a code of an interface
face. -/
theorem faceKeys_absent {m : MMG5_Mesh} {part : List Nat} {g t : Nat} {f : Fin 4}
    (ht : 1 ≤ t) (h0 : m.adja (adjaIdx t f) = 0) : 4 * (t - 1) + f.val ∉ faceKeys m part g := by
  intro hmem
  unfold faceKeys at hmem
  obtain ⟨t1, ht1, hk⟩ := List.mem_flatMap.mp hmem
  have ht1' : 1 ≤ t1 := by
    unfold tetsOf at ht1
    exact (List.mem_range'_1.mp (List.mem_filter.mp ht1).1).1
  unfold faceKeysOf at hk
  obtain ⟨f1, hf1, he⟩ := List.mem_map.mp hk
  have hc := (List.mem_filter.mp hf1).2
  have h1 := f1.isLt
  have h2 := f.isLt
  have et : t1 = t := by omega
  have ef : f1 = f := Fin.ext (by omega)
  subst et
  subst ef
  simp only [crossFace, decide_eq_true_eq] at hc
  exact hc.1 h0

/-- C28 (as the code has it): in a run that installs the sub-groups, on a
source mesh whose non-zero adjacency codes name elements, every element
assigned to sub-group `g` has a copy in `g`, and for every copy `q.2` of a
source element `q.1` and every face `f` of `q.1` whose adjacency code is 0 (no
neighbour), the face communicator of `g` has no entry `4*(q.1-1)+f`, and if
the copy has a boundary record (`xt ≠ 0`), then the source element had one or
one of its faces has its neighbour in another sub-group, and the record holds
for the face `f` the tag and the reference of the source record
`xtetra[tetra[q.1].xt]` it was copied from: the face is not made an interface
face. -/
theorem C28_absent_neighbour_skipped (env : Env) (pm : PMMG_ParMesh) (t : Int)
    (part : List Nat)
    (hs : (PMMG_splitGrps env pm t).logInstalled = true) (hp : env.partition = some part)
    (hvalid : ValidAdja (grpOldOf pm).mesh) :
    ∀ (g : Nat) grp log, (PMMG_splitGrps env pm t).parmesh.listgrp[g]? = some grp →
      (PMMG_splitGrps env pm t).logGrp[g]? = some log →
      (∀ A, 1 ≤ A → A ≤ (grpOldOf pm).mesh.ne → part.getD (A - 1) 0 = g →
        ∃ k, (A, k) ∈ log.logTet) ∧
      ∀ q ∈ log.logTet, ∀ f : Fin 4, (grpOldOf pm).mesh.adja (adjaIdx q.1 f) = 0 →
        (∀ i, i < grp.nitem_int_face_comm →
          grp.node2int_face_comm_index1 i ≠ 4 * (q.1 - 1) + f.val) ∧
        ((grp.mesh.tetra q.2).xt ≠ 0 →
          (((grpOldOf pm).mesh.tetra q.1).xt ≠ 0 ∨
            ∃ f1, crossFace (grpOldOf pm).mesh part g q.1 f1 = true) ∧
          (grp.mesh.xtetra (grp.mesh.tetra q.2).xt).ftag f =
            ((grpOldOf pm).mesh.xtetra ((grpOldOf pm).mesh.tetra q.1).xt).ftag f ∧
          (grp.mesh.xtetra (grp.mesh.tetra q.2).xt).ref f =
            ((grpOldOf pm).mesh.xtetra ((grpOldOf pm).mesh.tetra q.1).xt).ref f) := by
  obtain ⟨wf, -, -, -, h1, h2, h3⟩ := splitGrps_post hs hp
    (fun w => SrcOf (grpOldOf pm).mesh w)
    (fun g b _ =>
      (∀ A, 1 ≤ A → A ≤ (grpOldOf pm).mesh.ne → part.getD (A - 1) 0 = g →
        ∃ k, (A, k) ∈ b.2.logTet) ∧
      (∀ q ∈ b.2.logTet, 1 ≤ q.1 ∧ q.1 ≤ (grpOldOf pm).mesh.ne) ∧
      ∀ q ∈ b.2.logTet, (b.1.mesh.tetra q.2).xt ≠ 0 →
        (((grpOldOf pm).mesh.tetra q.1).xt ≠ 0 ∨
          ∃ f, crossFace (grpOldOf pm).mesh part g q.1 f = true) ∧
        ∀ f, crossFace (grpOldOf pm).mesh part g q.1 f = false →
          FaceSame ((grpOldOf pm).mesh.xtetra ((grpOldOf pm).mesh.tetra q.1).xt)
            (b.1.mesh.xtetra (b.1.mesh.tetra q.2).xt) f)
    (fun grants => startWork_srcOf _ _ _ _ _)
    (fun grpId g w w1 hf hq hu =>
      ⟨splitGrp_srcOf (hq.setGrp g) hu, splitGrp_keep (hq.setGrp g) hvalid hf.nface hf.xt hu⟩)
    (fun i b grpId g1 w w1 _ hpost _ => hpost)
  intro g grp log hg hl
  obtain ⟨a0, a1, a2⟩ := h3 g grp log hg hl
  refine ⟨a0, ?_⟩
  intro q hq f h0
  obtain ⟨hk, -⟩ := splitGrps_face hs hp hvalid g grp hg
  have hcf : crossFace (grpOldOf pm).mesh part g q.1 f = false := by
    simp [crossFace, h0]
  refine ⟨fun i hi he => ?_, fun hne => ?_⟩
  · have hmem : grp.node2int_face_comm_index1 i ∈
        (List.range grp.nitem_int_face_comm).map grp.node2int_face_comm_index1 :=
      List.mem_map_of_mem _ (List.mem_range.mpr hi)
    rw [hk, he] at hmem
    exact faceKeys_absent (a1 q hq).1 h0 hmem
  · obtain ⟨d1, d2⟩ := a2 q hq hne
    obtain ⟨e1, e2⟩ := d2 f hcf
    exact ⟨d1, e1, e2⟩

theorem validAdja_mesh3f : ValidAdja (grpOldOf pm3f).mesh := validAdja_mesh3

set_option maxRecDepth 100000 in
/-- Witness of C28 (as the code has it): the chain of three tetrahedra, the
middle one in a sub-group of its own.  The copy of the element 3 in
sub-group 0 is the element 2; its record 2 has the source tags and
references on the faces 1, 2, 3, which have no neighbour, and the mask and
the reference 0 on the face 0, the only interface face; the face
communicator of sub-group 0 holds the codes 0 and 8 of the two interface
faces only. -/
theorem C28_absent_neighbour_skipped_witness :
    (PMMG_splitGrps env3 pm3f 2).logInstalled = true ∧ ValidAdja (grpOldOf pm3f).mesh ∧
    (PMMG_splitGrps env3 pm3f 2).logGrp.map (fun l => l.logTet) = [[(1, 1), (3, 2)], [(2, 1)]] ∧
    (PMMG_splitGrps env3 pm3f 2).parmesh.listgrp.map
      (fun grp => ((grp.mesh.tetra 2).xt,
        ([0, 1, 2, 3] : List (Fin 4)).map (fun f => ((grp.mesh.xtetra 2).ftag f,
          (grp.mesh.xtetra 2).ref f)),
        (List.range grp.nitem_int_face_comm).map grp.node2int_face_comm_index1)) =
      [(2, [(16 ||| parbdyMask, 0), (17, 7), (18, 7), (19, 7)], [0, 8]),
       (0, [(0, 0), (0, 0), (0, 0), (0, 0)], [4, 5])] ∧
    ∀ (g : Nat) grp log, (PMMG_splitGrps env3 pm3f 2).parmesh.listgrp[g]? = some grp →
      (PMMG_splitGrps env3 pm3f 2).logGrp[g]? = some log →
      (∀ A, 1 ≤ A → A ≤ (grpOldOf pm3f).mesh.ne → ([0, 1, 0] : List Nat).getD (A - 1) 0 = g →
        ∃ k, (A, k) ∈ log.logTet) ∧
      ∀ q ∈ log.logTet, ∀ f : Fin 4, (grpOldOf pm3f).mesh.adja (adjaIdx q.1 f) = 0 →
        (∀ i, i < grp.nitem_int_face_comm →
          grp.node2int_face_comm_index1 i ≠ 4 * (q.1 - 1) + f.val) ∧
        ((grp.mesh.tetra q.2).xt ≠ 0 →
          (((grpOldOf pm3f).mesh.tetra q.1).xt ≠ 0 ∨
            ∃ f1, crossFace (grpOldOf pm3f).mesh [0, 1, 0] g q.1 f1 = true) ∧
          (grp.mesh.xtetra (grp.mesh.tetra q.2).xt).ftag f =
            ((grpOldOf pm3f).mesh.xtetra ((grpOldOf pm3f).mesh.tetra q.1).xt).ftag f ∧
          (grp.mesh.xtetra (grp.mesh.tetra q.2).xt).ref f =
            ((grpOldOf pm3f).mesh.xtetra ((grpOldOf pm3f).mesh.tetra q.1).xt).ref f) :=
  ⟨by decide, validAdja_mesh3f, by decide, by decide,
    C28_absent_neighbour_skipped env3 pm3f 2 [0, 1, 0] (by decide) rfl validAdja_mesh3f⟩

set_option maxRecDepth 100000 in
/-- Counterexample to C28 as stated: twelve tetrahedra without a common face,
every adjacency code is 0.  The run installs three sub-groups; the element 1
is assigned to sub-group 0 and copied as its element 1, its face 0 has no
neighbour, and yet in every sub-group the element 1 has no boundary record,
the mesh has no boundary record at all and the face communicator is
empty. -/
theorem C28_absent_neighbour_counterexample :
    (PMMG_splitGrps env12 pm12 5).logInstalled = true ∧
    part12.getD 0 0 = 0 ∧ (grpOldOf pm12).mesh.adja (adjaIdx 1 0) = 0 ∧
    (PMMG_splitGrps env12 pm12 5).logGrp.map (fun l => l.logTet.head?) =
      [some (1, 1), some (6, 1), some (11, 1)] ∧
    (PMMG_splitGrps env12 pm12 5).parmesh.listgrp.map
      (fun grp => ((grp.mesh.tetra 1).xt, grp.mesh.xt, grp.nitem_int_face_comm)) =
      [(0, 0, 0), (0, 0, 0), (0, 0, 0)] :=
  ⟨by decide, by decide, by decide, by decide, by decide⟩

end ParMmg
